import Mathlib

/-!
# Simple Sound System (sss.c, sss_mod.c): a shallow embedding

The engine of `sss.c` is a set of process-wide variables; here they are the
fields of one record `Engine`, and every C function becomes a function from
engine states to engine states.

Conventions of the embedding.

* `UINT` and `DWORD` are 32-bit unsigned, `int` and `long` are 32-bit signed
  (the Windows data model the code is written for).  Unsigned values are
  `Nat`, signed values are `Int`; every place where the C arithmetic can leave
  the range is reduced explicitly (`toUInt`, `toLong`, `toSChar`, `toUChar`).
  Signed overflow is taken to wrap (two's complement).
* C integer division truncates toward zero: `Int.tdiv` on signed operands,
  `/` on `Nat` for unsigned operands.
* Fixed-size arrays indexed by a loop counter or by a guarded index
  (`chan[]`, `samples[]`, the four arrays of a step, `song.pan_pos[]`) are
  total functions of the index.  Heap arrays and table look-ups whose index is
  computed from data are lists read with `[i]?`: a read outside the array is
  undefined behaviour in C and is the outcome `fault` here, as is a division
  by zero.
* The `while` loop of `music_poll` carries a fuel argument; running out of
  fuel is the outcome `timeout`.
-/

namespace SSS

/-! ## Machine integers -/

/-- Two to the power 32: the modulus of `UINT` and `DWORD`. -/
abbrev W32 : Nat := 4294967296

/-- Conversion of a signed value to `UINT` (or `DWORD`). -/
def toUInt (x : Int) : Nat := (x % 4294967296).toNat

/-- Conversion of an integer to `long` (or `int`): two's complement wrap. -/
def toLong (x : Int) : Int := (x + 2147483648) % 4294967296 - 2147483648

/-- Conversion of an integer to `signed char`. -/
def toSChar (x : Int) : Int := (x + 128) % 256 - 128

/-- Conversion of an integer to `unsigned char`. -/
def toUChar (x : Int) : Nat := (x % 256).toNat

/-- Update of one cell of a fixed-size array. -/
def upd {α : Type} (f : Nat → α) (i : Nat) (v : α) : Nat → α :=
  fun j => if j = i then v else f j

/-! ## Constants of sss.h and sss.c -/

abbrev SSS_MAX_VOLUME : Nat := 16
abbrev SSS_PAN_LEFT : Nat := 0
abbrev SSS_PAN_CENTER : Nat := SSS_MAX_VOLUME / 2
abbrev SSS_PAN_RIGHT : Nat := SSS_MAX_VOLUME - 1
abbrev SSS_MAX_CHANNELS : Nat := 12
abbrev SSS_MUSIC_CHANNELS : Nat := 8
abbrev SSS_MUSIC_FIRST : Nat := SSS_MAX_CHANNELS - SSS_MUSIC_CHANNELS
abbrev SSS_MAX_SAMPLES : Nat := 64

abbrev SSS_EFFECT_NONE : Nat := 0
abbrev SSS_EFFECT_PATTERN_BREAK : Nat := 1
abbrev SSS_EFFECT_JUMP : Nat := 2
abbrev SSS_EFFECT_SET_TEMPO : Nat := 3
abbrev SSS_EFFECT_SET_VOLUME : Nat := 4

abbrev SSS_CMD_MUSIC_PLAY : Nat := 1
abbrev SSS_CMD_MUSIC_STOP : Nat := 2
abbrev SSS_CMD_MUSIC_PAUSE : Nat := 3
abbrev SSS_CMD_MUSIC_REWIND : Nat := 4
abbrev SSS_CMD_MUSIC_FASTFORWARD : Nat := 5

abbrev BUFFERS_PER_SECOND : Nat := 2
abbrev IDLE : Nat := SSS_MAX_SAMPLES

abbrev PLAYMODE_STOPPED : Nat := 0
abbrev PLAYMODE_PLAYING : Nat := 1
abbrev PLAYMODE_PAUSED : Nat := 2
abbrev PLAYMODE_REWINDING : Nat := 3
abbrev PLAYMODE_FASTFORWARDING : Nat := 4

abbrev NUM_TRACKS : Nat := 4
abbrev MOD_RECORDED_RATE : Nat := 8000
abbrev PITCH_SCALE : Nat := 18

/-! ## Types -/

/-- One step of music (`SSS_STEP_DESC`): four arrays of `SSS_MUSIC_CHANNELS`
cells. -/
structure SSS_STEP_DESC where
  note_pitch : Nat → Nat
  note_sample : Nat → Nat
  note_effect : Nat → Nat
  note_eparam : Nat → Nat

/-- One audio channel (`CHANNEL_DESC`).  The field `volume` is the row of
`volume_tables` the C pointer `volume` points to. -/
structure CHANNEL_DESC where
  pan_pos : Nat
  isample : Nat
  vsize : Int
  voffset : Int
  volume : Nat

/-- One sample (`SAMPLE_DESC`).  `data` is `none` for the NULL pointer and
otherwise the bytes of the allocated payload, each read as a `char`. -/
structure SAMPLE_DESC where
  data : Option (List Int)
  size : Nat
  loop_start : Nat
  loop_size : Nat
  smprate : Nat

/-- One pattern of a song (`MUSICPATTERN_DESC`). -/
structure MUSICPATTERN_DESC where
  nsteps : Nat
  steps : List SSS_STEP_DESC

/-- The song (`MUSICSONG_DESC`).  `patterns` is `none` for the NULL pointer. -/
structure MUSICSONG_DESC where
  npatterns : Nat
  patterns : Option (List MUSICPATTERN_DESC)
  norder : Nat
  order : List Nat
  nsamples : Nat
  samples : List Nat
  pan_pos : Nat → Nat
  playmode : Nat
  iorder : Nat
  ipattern : Nat
  istep : Nat
  song_pos : Nat
  step_delay : Nat

/-- The process-wide variables of sss.c. -/
structure Engine where
  initialized : Bool
  mixrate : Nat
  is_stereo : Nat
  chan : Nat → CHANNEL_DESC
  samples : Nat → SAMPLE_DESC
  bfr_size : Nat
  buffers : Nat → List Nat
  whdr_done : Nat → Bool
  bfr_toggle : Nat
  song : MUSICSONG_DESC
  song_counter : Nat
  volume_tables : List (List Int)
  music_volume : Nat

/-- A note of a MOD pattern (`NOTE_DESC`): four bytes. -/
structure NOTE_DESC where
  b1 : Nat
  b2 : Nat
  b3 : Nat
  b4 : Nat

/-- How a run of C code ends: normally with a value, in undefined behaviour
(an access outside an array, a division by zero), or with the fuel of a loop
used up. -/
inductive Outcome (α : Type) where
  | done : α → Outcome α
  | fault : Outcome α
  | timeout : Outcome α

/-! ## Volume tables -/

/-- The value `build_volume_tables` stores in `volume_tables[volume][pos]`. -/
def volume_entry (volume pos : Nat) : Int :=
  toSChar (Int.tdiv (((pos : Int) - 127) * (volume : Int)) 15)

/-- The table `build_volume_tables` fills: `SSS_MAX_VOLUME` rows of 256
signed bytes. -/
def build_volume_tables : List (List Int) :=
  (List.range SSS_MAX_VOLUME).map fun volume =>
    (List.range 256).map fun pos => volume_entry volume pos

/-- Read of `tables[row][idx]`. -/
def lut (tables : List (List Int)) (row idx : Nat) : Option Int :=
  match tables[row]? with
  | none => none
  | some r => r[idx]?

/-! ## Channel operations -/

/-- The C function `sss_channel_stop`. -/
def sss_channel_stop (s : Engine) (channel : Nat) : Engine :=
  if !s.initialized then s
  else if channel ≥ SSS_MAX_CHANNELS then s
  else
    let c : CHANNEL_DESC := { (s.chan channel) with isample := IDLE, voffset := 0, vsize := 0 }
    { s with chan := upd s.chan channel c }

/-- The C function `sss_channel_pan_set`. -/
def sss_channel_pan_set (s : Engine) (channel pan : Nat) : Engine :=
  if !s.initialized then s
  else if channel ≥ SSS_MAX_CHANNELS then s
  else if pan < SSS_PAN_LEFT ∨ pan > SSS_PAN_RIGHT then s
  else { s with chan := upd s.chan channel { (s.chan channel) with pan_pos := pan } }

/-- The volume row `sss_channel_volume` selects for the argument `v`: the two
adjustments `if (v >= SSS_MAX_VOLUME) v = SSS_MAX_VOLUME - 1;` and
`if (v >= 0xFFFE) v = 0;` in this order. -/
def volume_row (v : Nat) : Nat :=
  let v1 := if v ≥ SSS_MAX_VOLUME then SSS_MAX_VOLUME - 1 else v
  if v1 ≥ 65534 then 0 else v1

/-- The C function `sss_channel_volume`. -/
def sss_channel_volume (s : Engine) (channel v : Nat) : Engine :=
  if !s.initialized then s
  else if channel ≥ SSS_MAX_CHANNELS then s
  else { s with chan := upd s.chan channel { (s.chan channel) with volume := volume_row v } }

/-- The virtual size `sss_sample_play` computes: the sample stretched to the
mixing rate in `long` arithmetic, stored in the `DWORD` `tmpsize`, then
stretched to the pitch in unsigned arithmetic, and stored in the `long`
`vsize`. -/
def play_vsize (smp : SAMPLE_DESC) (mixrate pitch : Nat) : Int :=
  let tmpsize1 : Nat :=
    toUInt (Int.tdiv (toLong (toLong smp.size * toLong mixrate)) (toLong smp.smprate))
  let tmpsize2 : Nat := (tmpsize1 * (pitch % W32)) % W32 / (smp.smprate % W32)
  toLong tmpsize2

/-- The channel descriptor `sss_sample_play` leaves for a valid sample. -/
def play_chan (c : CHANNEL_DESC) (hsmp : Nat) (vsize : Int) : CHANNEL_DESC :=
  if vsize < 1 then { c with vsize := vsize, isample := IDLE, voffset := 0 }
  else { c with vsize := vsize, isample := hsmp, voffset := 0 }

/-- The C function `sss_sample_play`. -/
def sss_sample_play (s : Engine) (channel hsmp pitch : Nat) : Engine :=
  if !s.initialized then s
  else if channel ≥ SSS_MAX_CHANNELS then s
  else if hsmp ≥ SSS_MAX_SAMPLES ∨ (s.samples hsmp).data = none ∨
      (s.samples hsmp).smprate = 0 then s
  else
    let c := play_chan (s.chan channel) hsmp (play_vsize (s.samples hsmp) s.mixrate pitch)
    { s with chan := upd s.chan channel c }

/-! ## Transport -/

/-- The loop of `music_stop`: stop the music channels `u`, `u+1`, .. -/
def music_stop_channels (s : Engine) : List Nat → Engine
  | [] => s
  | u :: us => music_stop_channels (sss_channel_stop s (SSS_MUSIC_FIRST + u)) us

/-- The C function `music_stop`. -/
def music_stop (s : Engine) : Engine :=
  let s1 := music_stop_channels s (List.range SSS_MUSIC_CHANNELS)
  { s1 with song := { s1.song with playmode := PLAYMODE_STOPPED, song_pos := 0 },
            song_counter := 0 }

/-- The pan loop of `music_play`. -/
def music_play_pans (s : Engine) : List Nat → Engine
  | [] => s
  | u :: us => music_play_pans (sss_channel_pan_set s (SSS_MUSIC_FIRST + u) (s.song.pan_pos u)) us

/-- The C function `music_play`. -/
def music_play (s : Engine) : Engine :=
  if s.song.npatterns = 0 then s
  else if s.song.playmode = PLAYMODE_PAUSED ∨ s.song.playmode = PLAYMODE_REWINDING ∨
      s.song.playmode = PLAYMODE_FASTFORWARDING then
    { s with song := { s.song with playmode := PLAYMODE_PLAYING } }
  else if s.song.playmode = PLAYMODE_PLAYING then s
  else
    let s1 := music_stop s
    let s2 := music_play_pans s1 (List.range SSS_MUSIC_CHANNELS)
    { s2 with
        song_counter := 0,
        song := { s2.song with
          song_pos := 0,
          step_delay := toUInt (Int.tdiv (toLong (toLong s2.mixrate * (1 + 7))) 67),
          iorder := 0, ipattern := 0, istep := 0,
          playmode := PLAYMODE_PLAYING } }

/-- The C function `sss_music_command`. -/
def sss_music_command (s : Engine) (cmd : Nat) : Engine :=
  if !s.initialized then s
  else if cmd = SSS_CMD_MUSIC_PLAY then
    if s.song.npatterns < 1 then s else music_play s
  else if cmd = SSS_CMD_MUSIC_STOP then
    if s.song.npatterns < 1 then s else music_stop s
  else if cmd = SSS_CMD_MUSIC_PAUSE then
    if s.song.npatterns < 1 then s
    else music_stop_channels
      { s with song := { s.song with playmode := PLAYMODE_PAUSED } }
      (List.range SSS_MUSIC_CHANNELS)
  else if cmd = SSS_CMD_MUSIC_REWIND then
    if s.song.npatterns < 1 then s
    else { s with song := { s.song with playmode := PLAYMODE_REWINDING } }
  else if cmd = SSS_CMD_MUSIC_FASTFORWARD then
    if s.song.npatterns < 1 then s
    else { s with song := { s.song with playmode := PLAYMODE_FASTFORWARDING } }
  else s

/-! ## The sequencer -/

/-- The step delay SET_TEMPO stores for the parameter `p`:
`((long)mixrate * (1 + (long)p)) / 65L`, stored in a `DWORD`. -/
def tempo_delay (mixrate p : Nat) : Nat :=
  toUInt (Int.tdiv (toLong (toLong mixrate * toLong (1 + toLong p))) 65)

/-- The note part of the body of the channel loop of `music_poll`, for music
channel `ichannel`.  The only array read that can leave its array is
`song.samples[note_sample]`. -/
def music_poll_note (step : SSS_STEP_DESC) (s : Engine) (ichannel : Nat) : Option Engine :=
  if step.note_pitch ichannel ≠ 0 then
    match s.song.samples[step.note_sample ichannel]? with
    | none => none
    | some hsmp =>
      some (sss_channel_volume
        (sss_sample_play s (SSS_MUSIC_FIRST + ichannel) hsmp (step.note_pitch ichannel))
        (SSS_MUSIC_FIRST + ichannel) s.music_volume)
  else some s

/-- The effect `switch` of the body of the channel loop of `music_poll`; the
Boolean of the result is `dobreak`. -/
def music_poll_effect (step : SSS_STEP_DESC) (s1 : Engine) (ichannel : Nat) : Engine × Bool :=
  if step.note_effect ichannel = SSS_EFFECT_PATTERN_BREAK then
    ({ s1 with song := { s1.song with istep := 999 } }, true)
  else if step.note_effect ichannel = SSS_EFFECT_JUMP then
    let p : Nat := step.note_eparam ichannel
    ({ s1 with song := { s1.song with istep := 0, iorder := p } }, true)
  else if step.note_effect ichannel = SSS_EFFECT_SET_TEMPO then
    if step.note_eparam ichannel ≠ 0 then
      let delay : Nat := tempo_delay s1.mixrate (step.note_eparam ichannel)
      ({ s1 with song := { s1.song with step_delay := delay } }, false)
    else (s1, false)
  else if step.note_effect ichannel = SSS_EFFECT_SET_VOLUME then
    (sss_channel_volume s1 (SSS_MUSIC_FIRST + ichannel)
      ((step.note_eparam ichannel * s1.music_volume) % W32 / 63), false)
  else (s1, false)

/-- Body of the channel loop of `music_poll` for music channel `ichannel`:
the note, then the effect. -/
def music_poll_channel (step : SSS_STEP_DESC) (s : Engine) (ichannel : Nat) :
    Option (Engine × Bool) :=
  match music_poll_note step s ichannel with
  | none => none
  | some s1 => some (music_poll_effect step s1 ichannel)

/-- The channel loop of `music_poll` over the channels still to do; it stops
as soon as `dobreak` is set. -/
def music_poll_channels (step : SSS_STEP_DESC) (s : Engine) : List Nat → Option Engine
  | [] => some s
  | ichannel :: rest =>
    match music_poll_channel step s ichannel with
    | none => none
    | some (s1, true) => some s1
    | some (s1, false) => music_poll_channels step s1 rest

/-- The position update that ends the body of the `while` loop of
`music_poll`: advance `song_pos`, step to the next step, to the next pattern
if ready, and stop at the end of the order list. -/
def music_poll_advance (s : Engine) : Option Engine :=
  let s1 : Engine := { s with song := { s.song with
    song_pos := (s.song.song_pos + s.song.step_delay) % W32,
    istep := (s.song.istep + 1) % W32 } }
  match s1.song.patterns with
  | none => none
  | some pats =>
    match pats[s1.song.ipattern]? with
    | none => none
    | some pat =>
      let s2 : Engine :=
        if s1.song.istep ≥ pat.nsteps then
          { s1 with song := { s1.song with iorder := (s1.song.iorder + 1) % W32, istep := 0 } }
        else s1
      if s2.song.iorder ≥ s2.song.norder then
        some { s2 with
          song := { s2.song with playmode := PLAYMODE_STOPPED, song_pos := 0, istep := 0,
                                 iorder := 0, ipattern := 0 },
          song_counter := 0 }
      else some s2

/-- Body of the `while` loop of `music_poll`: fire one step. -/
def music_poll_step (s : Engine) : Option Engine :=
  match s.song.order[s.song.iorder]? with
  | none => none
  | some ipat =>
    let s0 : Engine := { s with song := { s.song with ipattern := ipat } }
    match s0.song.patterns with
    | none => none
    | some pats =>
      match pats[s0.song.ipattern]? with
      | none => none
      | some pat =>
        match pat.steps[s0.song.istep]? with
        | none => none
        | some step =>
          match music_poll_channels step s0 (List.range SSS_MUSIC_CHANNELS) with
          | none => none
          | some s1 => music_poll_advance s1

/-- The `while` loop of `music_poll`, with `fuel` bounding the number of steps
fired. -/
def music_poll_loop : Nat → Nat → Engine → Outcome Engine
  | 0, songp, s =>
    if s.song.song_pos < songp ∧ s.song.playmode ≠ PLAYMODE_STOPPED then Outcome.timeout
    else Outcome.done s
  | fuel + 1, songp, s =>
    if s.song.song_pos < songp ∧ s.song.playmode ≠ PLAYMODE_STOPPED then
      match music_poll_step s with
      | none => Outcome.fault
      | some s1 => music_poll_loop fuel songp s1
    else Outcome.done s

/-- The C function `music_poll`. -/
def music_poll (fuel : Nat) (s : Engine) (songp : Nat) : Outcome Engine :=
  if s.song.patterns.isNone ∨ s.song.playmode = PLAYMODE_PAUSED ∨
      s.song.playmode = PLAYMODE_STOPPED then Outcome.done s
  else music_poll_loop fuel songp s

/-! ## The mixer -/

/-- Read of `tables[row][idx]` with a signed index. -/
def lutI (tables : List (List Int)) (row : Nat) (idx : Int) : Option Int :=
  if idx < 0 then none else lut tables row idx.toNat

/-- The offset into the sample data that `mix` computes for a channel:
`(UINT)((voffset * (long)size) / vsize)`. -/
def mix_offset (psample : SAMPLE_DESC) (c : CHANNEL_DESC) : Nat :=
  toUInt (Int.tdiv (toLong (c.voffset * toLong psample.size)) c.vsize)

/-- The end-of-sample test of `mix` at data offset `offset`. -/
def mix_at_end (psample : SAMPLE_DESC) (offset : Nat) : Prop :=
  offset ≥ psample.size ∨
    (offset ≥ (psample.loop_start + psample.loop_size) % W32 ∧ psample.loop_size > 0)

instance (psample : SAMPLE_DESC) (offset : Nat) : Decidable (mix_at_end psample offset) := by
  unfold mix_at_end; infer_instance

/-- Body of the channel loop of `mix` for a channel that is not idle, on the
channel descriptor `c` and the sample `psample` it plays; `acc` is
`(mixval_l, mixval_r)`.  The sums stay far inside the range of `int` (twelve
channels of signed bytes), so they are not reduced.  A zero `vsize` is a
division by zero. -/
def mix_voice (tables : List (List Int)) (is_stereo : Nat) (psample : SAMPLE_DESC)
    (c : CHANNEL_DESC) (acc : Int × Int) : Option (CHANNEL_DESC × Int × Int) :=
  if c.vsize = 0 then none
  else if mix_at_end psample (mix_offset psample c) then
    if psample.loop_size > 2 then
      some ({ c with voffset := toLong psample.loop_start }, acc)
    else
      some ({ c with isample := IDLE, voffset := 0, vsize := 0 }, acc)
  else
    match psample.data with
    | none => none
    | some d =>
      match d[mix_offset psample c]? with
      | none => none
      | some b =>
        match lutI tables c.volume (toSChar b + 128) with
        | none => none
        | some ival =>
          let c1 : CHANNEL_DESC := { c with voffset := toLong (c.voffset + 1) }
          if is_stereo ≠ 0 then
            match lutI tables (toUInt ((SSS_MAX_VOLUME : Int) - 1 - c.pan_pos)) (ival + 128) with
            | none => none
            | some l =>
              match lutI tables c.pan_pos (ival + 128) with
              | none => none
              | some r => some (c1, acc.1 + l, acc.2 + r)
          else some (c1, acc.1 + ival, acc.2)

/-- Body of the channel loop of `mix` for channel `ch`. -/
def mix_channel (s : Engine) (acc : Int × Int) (ch : Nat) : Option (Engine × Int × Int) :=
  if (s.chan ch).isample = IDLE then some (s, acc)
  else
    match mix_voice s.volume_tables s.is_stereo (s.samples (s.chan ch).isample) (s.chan ch) acc with
    | none => none
    | some (c1, acc1) => some ({ s with chan := upd s.chan ch c1 }, acc1)

/-- The channel loop of `mix`. -/
def mix_channels (s : Engine) (acc : Int × Int) : List Nat → Option (Engine × Int × Int)
  | [] => some (s, acc)
  | ch :: rest =>
    match mix_channel s acc ch with
    | none => none
    | some (s1, acc1) => mix_channels s1 acc1 rest

/-- Store of one byte into an output buffer; `none` outside the buffer. -/
def buffer_put (buf : List Nat) (i v : Nat) : Option (List Nat) :=
  if i < buf.length then some (buf.set i v) else none

/-- The byte of one frame for a sum: `(unsigned char)((mixval >> 2) + 127)`;
the shift of a negative `int` is arithmetic (it rounds down). -/
def mix_scale (mixval : Int) : Nat := toUChar ((mixval >>> (2 : Nat)) + 127)

/-- The bytes per frame of `mix`: `step`. -/
def mix_stride (s : Engine) : Nat := if s.is_stereo ≠ 0 then 2 else 1

/-- The music poll that opens the body of the frame loop of `mix` at buffer
offset `u`. -/
def mix_poll (fuel : Nat) (s : Engine) (u : Nat) : Outcome Engine :=
  if u = 0 then music_poll fuel s ((s.song_counter + u / mix_stride s) % W32)
  else if (s.mixrate / 64) >>> s.is_stereo = 0 then Outcome.fault
  else if (u >>> 1) % ((s.mixrate / 64) >>> s.is_stereo) = 0 then
    music_poll fuel s ((s.song_counter + u / mix_stride s) % W32)
  else Outcome.done s

/-- The mixing and the buffer stores of the body of the frame loop of `mix`
at buffer offset `u`. -/
def mix_output (s : Engine) (u : Nat) : Option Engine :=
  match mix_channels s (0, 0) (List.range SSS_MAX_CHANNELS) with
  | none => none
  | some (s1, mixval_l, mixval_r) =>
    match buffer_put (s1.buffers s1.bfr_toggle) u (mix_scale mixval_l) with
    | none => none
    | some buf1 =>
      if s1.is_stereo ≠ 0 then
        match buffer_put buf1 (u + 1) (mix_scale mixval_r) with
        | none => none
        | some buf2 => some { s1 with buffers := upd s1.buffers s1.bfr_toggle buf2 }
      else some { s1 with buffers := upd s1.buffers s1.bfr_toggle buf1 }

/-- Body of the frame loop of `mix` at buffer offset `u`. -/
def mix_frame (fuel : Nat) (s : Engine) (u : Nat) : Outcome Engine :=
  match mix_poll fuel s u with
  | Outcome.done s1 =>
    (match mix_output s1 u with
     | none => Outcome.fault
     | some s2 => Outcome.done s2)
  | Outcome.fault => Outcome.fault
  | Outcome.timeout => Outcome.timeout

/-- The frame loop of `mix`: `n` more frames, the next at buffer offset `u`. -/
def mix_frames (fuel : Nat) : Nat → Nat → Engine → Outcome Engine
  | 0, _, s => Outcome.done s
  | n + 1, u, s =>
    match mix_frame fuel s u with
    | Outcome.done s1 => mix_frames fuel n (u + mix_stride s1) s1
    | Outcome.fault => Outcome.fault
    | Outcome.timeout => Outcome.timeout

/-- The number of frames of one buffer: how often the loop
`for (u = 0; u < bfr_size; u += step)` runs. -/
def mix_frame_count (s : Engine) : Nat := (s.bfr_size + mix_stride s - 1) / mix_stride s

/-- The update of the song time counter that ends `mix`. -/
def mix_advance (s : Engine) : Engine :=
  if s.song.playmode = PLAYMODE_PLAYING then
    { s with song_counter := (s.song_counter + s.bfr_size / mix_stride s) % W32 }
  else if s.song.playmode = PLAYMODE_FASTFORWARDING then
    { s with song_counter := (s.song_counter + (s.bfr_size * 4) % W32 / mix_stride s) % W32 }
  else if s.song.playmode = PLAYMODE_REWINDING then
    if s.song_counter > (s.bfr_size * 4) % W32 / mix_stride s then
      let counter := s.song_counter - (s.bfr_size * 4) % W32 / mix_stride s
      { s with song_counter := counter,
               song := { s.song with
                 song_pos := if counter > s.bfr_size then counter - s.bfr_size else 0 } }
    else music_stop s
  else s

/-- The C function `mix`; `fuel` bounds the steps fired by each music poll. -/
def mix (fuel : Nat) (s : Engine) : Outcome Engine :=
  match mix_frames fuel (mix_frame_count s) 0 s with
  | Outcome.done s1 => Outcome.done (mix_advance s1)
  | Outcome.fault => Outcome.fault
  | Outcome.timeout => Outcome.timeout

/-! ## Initialisation, the sample store and the construction of a song

The calls into Windows (`waveOutOpen`, `GlobalAlloc`, `timeSetEvent`) and
`malloc` are taken to succeed. -/

abbrev SSSERR_OK : Nat := 65535
abbrev SSSERR_ALREADY_INITED : Nat := 65534
abbrev SSSERR_NOT_INITED : Nat := 65533
abbrev SSSERR_NO_MEMORY : Nat := 65532
abbrev SSSERR_NO_HANDLES : Nat := 65531
abbrev SSSERR_OPEN_FORMAT : Nat := 65528
abbrev SSSERR_BAD_PARAM : Nat := 65526

/-- The step descriptor filled with zero bytes by `memset`. -/
def zero_step : SSS_STEP_DESC :=
  { note_pitch := fun _ => 0, note_sample := fun _ => 0,
    note_effect := fun _ => 0, note_eparam := fun _ => 0 }

/-- The song descriptor after `memset(&song, 0, sizeof(song))`. -/
def zero_song : MUSICSONG_DESC :=
  { npatterns := 0, patterns := none, norder := 0, order := [], nsamples := 0, samples := [],
    pan_pos := fun _ => 0, playmode := 0, iorder := 0, ipattern := 0, istep := 0,
    song_pos := 0, step_delay := 0 }

/-- The static variables of sss.c when the program starts. -/
def boot : Engine :=
  { initialized := false, mixrate := 0, is_stereo := 0,
    chan := fun _ => { pan_pos := 0, isample := 0, vsize := 0, voffset := 0, volume := 0 },
    samples := fun _ => { data := none, size := 0, loop_start := 0, loop_size := 0, smprate := 0 },
    bfr_size := 0, buffers := fun _ => [], whdr_done := fun _ => false, bfr_toggle := 0,
    song := zero_song, song_counter := 0,
    volume_tables := List.replicate SSS_MAX_VOLUME (List.replicate 256 0),
    music_volume := SSS_MAX_VOLUME * 3 / 4 }

/-- The 8-bit format `sss_init` chooses from the capability bits `dwFormats`
of the device, as `(nChannels, nSamplesPerSec, nAvgBytesPerSec)`.  The bit
values are those of `WAVE_FORMAT_4S08`, `2S08`, `1S08`, `4M08`, `2M08`, `1M08`
in mmsystem.h. -/
def choose_format (dwFormats : Nat) : Option (Nat × Nat × Nat) :=
  if dwFormats &&& 512 ≠ 0 then some (2, 44100, 88200)
  else if dwFormats &&& 32 ≠ 0 then some (2, 22050, 44100)
  else if dwFormats &&& 2 ≠ 0 then some (2, 11025, 22050)
  else if dwFormats &&& 256 ≠ 0 then some (1, 44100, 44100)
  else if dwFormats &&& 16 ≠ 0 then some (1, 22050, 22050)
  else if dwFormats &&& 1 ≠ 0 then some (1, 11025, 11025)
  else none

/-- The C function `sss_init`, for a device with capability bits `dwFormats`;
the result is the new state and the return code. -/
def sss_init (s : Engine) (dwFormats : Nat) : Engine × Nat :=
  if s.initialized then (s, SSSERR_ALREADY_INITED)
  else
    let s1 : Engine := { s with
      samples := fun u =>
        if u < SSS_MAX_SAMPLES then { (s.samples u) with data := none, size := 0, smprate := 0 }
        else s.samples u,
      chan := fun u =>
        if u < SSS_MAX_CHANNELS then
          { pan_pos := SSS_PAN_CENTER, isample := IDLE, voffset := 0, vsize := 0,
            volume := SSS_MAX_VOLUME - 1 }
        else s.chan u,
      song := zero_song,
      volume_tables := build_volume_tables }
    match choose_format dwFormats with
    | none => (s1, SSSERR_OPEN_FORMAT)
    | some (nChannels, nSamplesPerSec, nAvgBytesPerSec) =>
      let size := (nAvgBytesPerSec / BUFFERS_PER_SECOND) / 4 * 4
      ({ s1 with
          mixrate := nSamplesPerSec,
          is_stereo := if nChannels > 1 then 1 else 0,
          bfr_size := size,
          buffers := fun u => if u < 2 then List.replicate size 0 else s1.buffers u,
          whdr_done := fun u => if u < 2 then true else s1.whdr_done u,
          bfr_toggle := 0,
          initialized := true }, SSSERR_OK)

/-- The search of `sss_sample_add` for an unused sample descriptor, from
`u` on, at most `n` descriptors: the first `u` with `samples[u].data == NULL`,
or `SSS_MAX_SAMPLES`. -/
def find_free_sample (s : Engine) : Nat → Nat → Nat
  | 0, u => u
  | n + 1, u => if (s.samples u).data = none then u else find_free_sample s n (u + 1)

/-- The C function `sss_sample_add`; `data` is the caller's buffer.  Reading
`size` bytes from a shorter buffer is a fault. -/
def sss_sample_add (s : Engine) (data : List Int) (size loopbeg loopsiz smprate center : Nat) :
    Option (Engine × Nat) :=
  if !s.initialized then some (s, SSSERR_NOT_INITED)
  else
    let u := find_free_sample s SSS_MAX_SAMPLES 0
    if u ≥ SSS_MAX_SAMPLES then some (s, SSSERR_NO_HANDLES)
    else if data.length < size then none
    else
      let copy := data.take size
      let stored := if center ≠ 0 then copy.map (fun b => toSChar (b - 128)) else copy
      let smp : SAMPLE_DESC :=
        { data := some stored, size := size, smprate := smprate,
          loop_start := loopbeg, loop_size := loopsiz }
      some ({ s with samples := upd s.samples u smp }, u)

/-- The C function `sss_sample_delete`. -/
def sss_sample_delete (s : Engine) (hsmp : Nat) : Engine :=
  if !s.initialized then s
  else if hsmp ≥ SSS_MAX_SAMPLES then s
  else if (s.samples hsmp).data = none then s
  else
    let smp : SAMPLE_DESC := { (s.samples hsmp) with data := none, size := 0, smprate := 0 }
    { s with samples := upd s.samples hsmp smp }

/-- The loop of `sss_music_flush` that deletes the samples of the song, over
the sample slots `us`. -/
def flush_samples (s : Engine) : List Nat → Option Engine
  | [] => some s
  | u :: us =>
    match s.song.samples[u]? with
    | none => none
    | some hsmp => flush_samples (sss_sample_delete s hsmp) us

/-- The C function `sss_music_flush`. -/
def sss_music_flush (s : Engine) : Option Engine :=
  if !s.initialized then some s
  else if s.song.npatterns = 0 then some s
  else
    let s1 := music_stop s
    match flush_samples s1 (List.range s1.song.nsamples) with
    | none => none
    | some s2 => some { s2 with song := zero_song }

/-- The C function `sss_music_create`. -/
def sss_music_create (s : Engine) (npatterns norder nsamples : Nat) : Option (Engine × Nat) :=
  if !s.initialized then some (s, SSSERR_NOT_INITED)
  else
    match sss_music_flush (music_stop s) with
    | none => none
    | some s1 =>
      let sg : MUSICSONG_DESC := { s1.song with
        patterns := some (List.replicate npatterns { nsteps := 0, steps := [] }),
        samples := List.replicate nsamples 0,
        order := List.replicate norder 0,
        npatterns := npatterns, norder := norder, nsamples := nsamples,
        pan_pos := fun u =>
          if u < SSS_MUSIC_CHANNELS then (if u % 2 ≠ 0 then SSS_PAN_LEFT else SSS_PAN_RIGHT)
          else s1.song.pan_pos u }
      some ({ s1 with song := sg }, SSSERR_OK)

/-- The C function `sss_music_define_order`. -/
def sss_music_define_order (s : Engine) (iorder ipattern : Nat) : Engine × Nat :=
  if !s.initialized then (s, SSSERR_NOT_INITED)
  else if s.song.npatterns < 1 then (s, SSSERR_BAD_PARAM)
  else if iorder ≥ s.song.norder then (s, SSSERR_BAD_PARAM)
  else if ipattern ≥ s.song.npatterns then (s, SSSERR_BAD_PARAM)
  else ({ s with song := { s.song with order := s.song.order.set iorder ipattern } }, SSSERR_OK)

/-- The C function `sss_music_define_pattern`. -/
def sss_music_define_pattern (s : Engine) (ipattern nsteps : Nat) : Option (Engine × Nat) :=
  if !s.initialized then some (s, SSSERR_NOT_INITED)
  else if s.song.npatterns < 1 then some (s, SSSERR_BAD_PARAM)
  else if ipattern ≥ s.song.npatterns then some (s, SSSERR_BAD_PARAM)
  else
    match s.song.patterns with
    | none => none
    | some pats =>
      if ipattern < pats.length then
        let pat : MUSICPATTERN_DESC := { nsteps := nsteps, steps := List.replicate nsteps zero_step }
        some ({ s with song := { s.song with patterns := some (pats.set ipattern pat) } },
              SSSERR_OK)
      else none

/-- The C function `sss_music_define_step`.  Its two index checks use `>`,
so the index one past the end reaches the array accesses, which are faults. -/
def sss_music_define_step (s : Engine) (ipattern istep : Nat) (step : SSS_STEP_DESC) :
    Option (Engine × Nat) :=
  if !s.initialized then some (s, SSSERR_NOT_INITED)
  else if s.song.npatterns < 1 then some (s, SSSERR_BAD_PARAM)
  else if ipattern > s.song.npatterns then some (s, SSSERR_BAD_PARAM)
  else
    match s.song.patterns with
    | none => none
    | some pats =>
      match pats[ipattern]? with
      | none => none
      | some pat =>
        if istep > pat.nsteps then some (s, SSSERR_BAD_PARAM)
        else if istep < pat.steps.length then
          let pat1 : MUSICPATTERN_DESC := { pat with steps := pat.steps.set istep step }
          some ({ s with song := { s.song with patterns := some (pats.set ipattern pat1) } },
                SSSERR_OK)
        else none

/-- The C function `sss_music_define_sample`. -/
def sss_music_define_sample (s : Engine) (isample hsmp : Nat) : Option (Engine × Nat) :=
  if !s.initialized then some (s, SSSERR_NOT_INITED)
  else if s.song.npatterns < 1 then some (s, SSSERR_BAD_PARAM)
  else if isample > s.song.nsamples then some (s, SSSERR_BAD_PARAM)
  else if hsmp ≥ SSS_MAX_SAMPLES then some (s, SSSERR_BAD_PARAM)
  else if (s.samples hsmp).data = none then some (s, SSSERR_BAD_PARAM)
  else if isample < s.song.samples.length then
    some ({ s with song := { s.song with samples := s.song.samples.set isample hsmp } },
          SSSERR_OK)
  else none

/-- The C function `sss_music_define_pan`. -/
def sss_music_define_pan (s : Engine) (ch pan : Nat) : Engine :=
  if ch ≥ SSS_MUSIC_CHANNELS then s
  else if pan > SSS_PAN_RIGHT then s
  else { s with song := { s.song with pan_pos := upd s.song.pan_pos ch pan } }

/-! ## The MOD loader: notes of a pattern -/

/-- The effect `switch` of the channel loop of `load15` and `load31` (the two
functions carry the same text). -/
def load_effect (dstep : SSS_STEP_DESC) (modnote : NOTE_DESC) (ichannel : Nat) :
    SSS_STEP_DESC :=
  if modnote.b3 &&& 15 = 11 then
    { dstep with note_effect := upd dstep.note_effect ichannel SSS_EFFECT_JUMP,
                 note_eparam := upd dstep.note_eparam ichannel modnote.b4 }
  else if modnote.b3 &&& 15 = 12 then
    { dstep with note_effect := upd dstep.note_effect ichannel SSS_EFFECT_SET_VOLUME,
                 note_eparam := upd dstep.note_eparam ichannel modnote.b4 }
  else if modnote.b3 &&& 15 = 13 then
    { dstep with note_effect := upd dstep.note_effect ichannel SSS_EFFECT_PATTERN_BREAK }
  else if modnote.b3 &&& 15 = 15 then
    { dstep with note_effect := upd dstep.note_effect ichannel SSS_EFFECT_SET_TEMPO,
                 note_eparam := upd dstep.note_eparam ichannel modnote.b4 }
  else dstep

/-- The note part of the channel loop, given the decoded instrument and
pitch (before scaling). -/
def load_note (dstep : SSS_STEP_DESC) (instrument pitch0 ichannel : Nat) : SSS_STEP_DESC :=
  let pitch := (pitch0 * PITCH_SCALE) % W32
  if instrument > 0 ∧ pitch > 0 then
    { dstep with note_pitch := upd dstep.note_pitch ichannel pitch,
                 note_sample := upd dstep.note_sample ichannel (instrument - 1) }
  else dstep

/-- Body of the channel loop of `load15`. -/
def load15_channel (dstep : SSS_STEP_DESC) (modnote : NOTE_DESC) (ichannel : Nat) :
    SSS_STEP_DESC :=
  let instrument := (modnote.b3 / 16) &&& 15
  let pitch := modnote.b1 * 256 + modnote.b2
  load_effect (load_note dstep instrument pitch ichannel) modnote ichannel

/-- Body of the channel loop of `load31`. -/
def load31_channel (dstep : SSS_STEP_DESC) (modnote : NOTE_DESC) (ichannel : Nat) :
    SSS_STEP_DESC :=
  let instrument := (modnote.b1 &&& 240) + ((modnote.b3 / 16) &&& 15)
  let pitch := (modnote.b1 &&& 15) * 256 + modnote.b2
  load_effect (load_note dstep instrument pitch ichannel) modnote ichannel

/-- The step `load15` builds for step `istep` of the pattern `notes` (the
array `modpattern.notes`): the channel loop over the four tracks. -/
def load15_step (notes : Nat → NOTE_DESC) (istep : Nat) : SSS_STEP_DESC :=
  (List.range NUM_TRACKS).foldl
    (fun dstep ichannel => load15_channel dstep (notes (ichannel + istep * NUM_TRACKS)) ichannel)
    zero_step

/-- The step `load31` builds for step `istep` of the pattern `notes`. -/
def load31_step (notes : Nat → NOTE_DESC) (istep : Nat) : SSS_STEP_DESC :=
  (List.range NUM_TRACKS).foldl
    (fun dstep ichannel => load31_channel dstep (notes (ichannel + istep * NUM_TRACKS)) ichannel)
    zero_step

/-- The note bytes of the 31-instrument layout for instrument `i`, period `p`,
effect `e` and parameter `a`, as the round-trip property writes them (the
source has no encoder). -/
def spec_encode31 (i p e a : Nat) : NOTE_DESC :=
  { b1 := (i &&& 240) ||| (p >>> 8), b2 := p &&& 255, b3 := ((i &&& 15) <<< 4) ||| e, b4 := a }

/-- The note bytes of the 15-instrument layout for instrument `i`, period `p`,
effect `e` and parameter `a`, as the round-trip property writes them. -/
def spec_encode15 (i p e a : Nat) : NOTE_DESC :=
  { b1 := p >>> 8, b2 := p &&& 255, b3 := (i <<< 4) ||| e, b4 := a }

/-! ## Auxiliary definitions for the statements and proofs -/

/-- The four values a step holds for music channel `j`. -/
def step_cell (d : SSS_STEP_DESC) (j : Nat) : Nat × Nat × Nat × Nat :=
  (d.note_pitch j, d.note_sample j, d.note_effect j, d.note_eparam j)

/-- The four values the channel loop of the loader leaves in a zeroed cell,
for a note decoded to `instrument` and `pitch0`. -/
def decoded_cell (instrument pitch0 : Nat) (n : NOTE_DESC) : Nat × Nat × Nat × Nat :=
  (if 0 < instrument ∧ 0 < (pitch0 * 18) % W32 then (pitch0 * 18) % W32 else 0,
   if 0 < instrument ∧ 0 < (pitch0 * 18) % W32 then instrument - 1 else 0,
   if n.b3 &&& 15 = 11 then SSS_EFFECT_JUMP else if n.b3 &&& 15 = 12 then SSS_EFFECT_SET_VOLUME
     else if n.b3 &&& 15 = 13 then SSS_EFFECT_PATTERN_BREAK
     else if n.b3 &&& 15 = 15 then SSS_EFFECT_SET_TEMPO else SSS_EFFECT_NONE,
   if n.b3 &&& 15 = 11 ∨ n.b3 &&& 15 = 12 ∨ n.b3 &&& 15 = 15 then n.b4 else 0)

/-! ## Shutdown, the timer poll and the reachable states -/

/-- The C function `sss_deinit`. -/
def sss_deinit (s : Engine) : Option Engine :=
  if !s.initialized then some s
  else
    match sss_music_flush (music_stop s) with
    | none => none
    | some s1 =>
      some { s1 with
        chan := fun u =>
          if u < SSS_MAX_CHANNELS then
            { (s1.chan u) with pan_pos := SSS_PAN_CENTER, isample := IDLE, voffset := 0, vsize := 0 }
          else s1.chan u,
        buffers := fun u => if u < 2 then [] else s1.buffers u,
        mixrate := 0,
        samples := fun u =>
          if u < SSS_MAX_SAMPLES then { (s1.samples u) with data := none, size := 0, smprate := 0 }
          else s1.samples u,
        initialized := false }

/-- The C function `sss_poll`, called by the timer (the `busy` flag against
re-entry is not modelled: calls do not overlap here). -/
def sss_poll (fuel : Nat) (s : Engine) : Outcome Engine :=
  if !(s.whdr_done s.bfr_toggle) then Outcome.done s
  else
    match mix fuel { s with whdr_done := upd s.whdr_done s.bfr_toggle false } with
    | Outcome.done s1 => Outcome.done { s1 with bfr_toggle := (s1.bfr_toggle + 1) &&& 1 }
    | Outcome.fault => Outcome.fault
    | Outcome.timeout => Outcome.timeout

/-- The audio device finishes playing buffer `u` and sets `WHDR_DONE`. -/
def device_done (s : Engine) (u : Nat) : Engine :=
  { s with whdr_done := upd s.whdr_done u true }

/-- The engine states a program can reach from program start through the
functions of sss.h, the timer poll and the audio device, as long as no call
runs into undefined behaviour. -/
inductive Reachable : Engine → Prop where
  | start : Reachable boot
  | init (s : Engine) (dwFormats : Nat) : Reachable s → Reachable (sss_init s dwFormats).1
  | deinit (s s1 : Engine) : Reachable s → sss_deinit s = some s1 → Reachable s1
  | pan_set (s : Engine) (channel pan : Nat) :
      Reachable s → Reachable (sss_channel_pan_set s channel pan)
  | stop (s : Engine) (channel : Nat) : Reachable s → Reachable (sss_channel_stop s channel)
  | volume (s : Engine) (channel v : Nat) :
      Reachable s → Reachable (sss_channel_volume s channel v)
  | sample_add (s s1 : Engine) (data : List Int) (size loopbeg loopsiz smprate center r : Nat) :
      Reachable s → sss_sample_add s data size loopbeg loopsiz smprate center = some (s1, r) →
      Reachable s1
  | sample_delete (s : Engine) (hsmp : Nat) : Reachable s → Reachable (sss_sample_delete s hsmp)
  | sample_play (s : Engine) (channel hsmp pitch : Nat) :
      Reachable s → Reachable (sss_sample_play s channel hsmp pitch)
  | flush (s s1 : Engine) : Reachable s → sss_music_flush s = some s1 → Reachable s1
  | create (s s1 : Engine) (npatterns norder nsamples r : Nat) :
      Reachable s → sss_music_create s npatterns norder nsamples = some (s1, r) → Reachable s1
  | define_order (s : Engine) (iorder ipattern : Nat) :
      Reachable s → Reachable (sss_music_define_order s iorder ipattern).1
  | define_pattern (s s1 : Engine) (ipattern nsteps r : Nat) :
      Reachable s → sss_music_define_pattern s ipattern nsteps = some (s1, r) → Reachable s1
  | define_step (s s1 : Engine) (ipattern istep r : Nat) (step : SSS_STEP_DESC) :
      Reachable s → sss_music_define_step s ipattern istep step = some (s1, r) → Reachable s1
  | define_sample (s s1 : Engine) (isample hsmp r : Nat) :
      Reachable s → sss_music_define_sample s isample hsmp = some (s1, r) → Reachable s1
  | define_pan (s : Engine) (ch pan : Nat) : Reachable s → Reachable (sss_music_define_pan s ch pan)
  | command (s : Engine) (cmd : Nat) : Reachable s → Reachable (sss_music_command s cmd)
  | poll (s s1 : Engine) (fuel : Nat) :
      Reachable s → s.initialized = true → sss_poll fuel s = Outcome.done s1 → Reachable s1
  | device (s : Engine) (u : Nat) : Reachable s → Reachable (device_done s u)

/-- A sample descriptor whose size is the length of its payload, and zero
without payload. -/
def SampleOK (smp : SAMPLE_DESC) : Prop :=
  (smp.data = none → smp.size = 0) ∧ (∀ d, smp.data = some d → d.length = smp.size)

/-- A channel descriptor with pan and volume row in 0..15 that, unless idle,
plays a sample handle below `SSS_MAX_SAMPLES` with a positive virtual size. -/
def ChanOK (c : CHANNEL_DESC) : Prop :=
  c.pan_pos ≤ 15 ∧ c.volume ≤ 15 ∧ (c.isample ≠ IDLE → c.isample < SSS_MAX_SAMPLES ∧ 1 ≤ c.vsize)

/-- Every channel descriptor is consistent. -/
def ChansOK (s : Engine) : Prop := ∀ ch, ch < SSS_MAX_CHANNELS → ChanOK (s.chan ch)

/-- The output format is one of the six `sss_init` can choose, with the two
buffers allocated at the buffer size. -/
def FormatOK (s : Engine) : Prop :=
  (s.mixrate = 44100 ∨ s.mixrate = 22050 ∨ s.mixrate = 11025) ∧
  (s.is_stereo = 0 ∨ s.is_stereo = 1) ∧
  s.bfr_size = (s.mixrate * (s.is_stereo + 1) / BUFFERS_PER_SECOND) / 4 * 4 ∧
  (∀ u, u < 2 → (s.buffers u).length = s.bfr_size) ∧
  s.bfr_toggle < 2

/-- The invariant of the reachable states: every sample descriptor is
consistent, and once the engine is initialised the volume tables are built,
the format is set and every channel is consistent. -/
def EngineOK (s : Engine) : Prop :=
  (∀ h, SampleOK (s.samples h)) ∧
  (s.initialized = true → s.volume_tables = build_volume_tables ∧ FormatOK s ∧ ChansOK s)

/-- The engine with the pan position `p` of every channel replaced by
`15 - p`. -/
def pan_mirror (s : Engine) : Engine :=
  { s with chan := fun ch => { (s.chan ch) with pan_pos := 15 - (s.chan ch).pan_pos } }

/-- The state of a call of the construction interface that returns a state
and a code; the state `s` itself if the call faults. -/
def state_of (r : Option (Engine × Nat)) (s : Engine) : Engine :=
  match r with
  | some (s1, _) => s1
  | none => s

/-- The state in which a run ends, `s` if it does not end normally. -/
def outcome_state (o : Outcome Engine) (s : Engine) : Engine :=
  match o with
  | Outcome.done s1 => s1
  | _ => s

/-- Whether a run ends normally. -/
def is_done (o : Outcome Engine) : Bool :=
  match o with
  | Outcome.done _ => true
  | _ => false

/-- The engine after `sss_init` on a device that offers 44.1 kHz stereo. -/
def engine_44s : Engine := (sss_init boot 512).1

/-- A step whose channel 0 carries JUMP with parameter 1 and nothing else. -/
def jump_step : SSS_STEP_DESC :=
  { zero_step with note_effect := upd zero_step.note_effect 0 SSS_EFFECT_JUMP,
                   note_eparam := upd zero_step.note_eparam 0 1 }

/-- Scenario S2, built through the construction interface: two patterns of 64
steps, order list [0, 1], JUMP(1) on step 3 of pattern 0; then PLAY. -/
def scenario_S2 : Engine :=
  let a := state_of (sss_music_create engine_44s 2 2 1) engine_44s
  let b := state_of (sss_music_define_pattern a 0 64) a
  let c := state_of (sss_music_define_pattern b 1 64) b
  let d := (sss_music_define_order c 0 0).1
  let e := (sss_music_define_order d 1 1).1
  let f := state_of (sss_music_define_step e 0 3 jump_step) e
  sss_music_command f SSS_CMD_MUSIC_PLAY

/-- The state `s1` differs from `s` at most in the channel descriptors. -/
def OnlyChan (s s1 : Engine) : Prop := ∃ f, s1 = { s with chan := f }

/-- The state `s1` differs from `s` at most in the channel descriptors, the
song descriptor and the song counter. -/
def OnlySong (s s1 : Engine) : Prop :=
  ∃ f g n, s1 = { s with chan := f, song := g, song_counter := n }

/-- A step from `s` to `s1` that touches at most the channels, the song and
the song counter, and keeps the channel descriptors consistent. -/
def StepOK (s s1 : Engine) : Prop := OnlySong s s1 ∧ (ChansOK s → ChansOK s1)

/-- A step of the mixer from `s` to `s1`: it touches at most the channels,
the song, the song counter and the content of the output buffers, and keeps
the channel descriptors consistent. -/
def MixOK (s s1 : Engine) : Prop :=
  (∃ f g n b, s1 = { s with chan := f, song := g, song_counter := n, buffers := b } ∧
    ∀ u, (b u).length = (s.buffers u).length) ∧
  (ChansOK s → ChansOK s1)

/-- A step of the sample store and the song construction from `s` to `s1`:
it touches at most the channels, the song, the song counter and the sample
descriptors, and keeps samples and channels consistent. -/
def StoreOK (s s1 : Engine) : Prop :=
  (∃ f g n m, s1 = { s with chan := f, song := g, song_counter := n, samples := m } ∧
    ((∀ h, SampleOK (s.samples h)) → ∀ h, SampleOK (m h))) ∧
  (ChansOK s → ChansOK s1)

/-- A reachable state for the loop restart: 44.1 kHz stereo, a four-byte
sample with loop start 1 and loop size 3 added and started on channel 0, then
deleted while the channel still plays it (the descriptor keeps its loop
fields, its size is 0). -/
def loop_state : Engine :=
  let a := state_of (sss_sample_add engine_44s [10, 20, 30, 40] 4 1 3 8000 0) engine_44s
  sss_sample_delete (sss_sample_play a 0 0 8000) 0

/-- The guard of `music_poll`: no song is playing (no patterns, or the song
is paused or stopped). -/
def NoSong (s : Engine) : Prop :=
  s.song.patterns.isNone ∨ s.song.playmode = PLAYMODE_PAUSED ∨
    s.song.playmode = PLAYMODE_STOPPED

/-- Channel `c0` plays, with a non-zero virtual size and pan and volume row
in 0..15, a sample whose payload is all zero bytes; the volume tables are
built. -/
def ZeroVoice (s : Engine) (c0 : Nat) : Prop :=
  s.volume_tables = build_volume_tables ∧ (s.chan c0).vsize ≠ 0 ∧
  (s.chan c0).volume ≤ 15 ∧ (s.chan c0).pan_pos ≤ 15 ∧
  ∃ d, (s.samples (s.chan c0).isample).data = some d ∧
    d.length = (s.samples (s.chan c0).isample).size ∧ ∀ b ∈ d, b = 0

/-- No channel other than `c0` is busy, and `c0` is idle or plays an all-zero
sample. -/
def Quiet (s : Engine) (c0 : Nat) : Prop :=
  (∀ ch, ch < SSS_MAX_CHANNELS → ch ≠ c0 → (s.chan ch).isample = IDLE) ∧
  ((s.chan c0).isample = IDLE ∨ ZeroVoice s c0)

/-- A reachable state with one voice on an all-zero sample: 44.1 kHz stereo,
a sample of 100 zero bytes recorded at 8000 Hz, started on channel 0 at pitch
8000. -/
def zero_voice_state : Engine :=
  let a := state_of (sss_sample_add engine_44s (List.replicate 100 0) 100 0 0 8000 0) engine_44s
  sss_sample_play a 0 0 8000

/-- A channel descriptor with the pan position `p` replaced by `15 - p`. -/
def mirror_chan (c : CHANNEL_DESC) : CHANNEL_DESC := { c with pan_pos := 15 - c.pan_pos }

/-- A reachable stereo state with one audible voice off centre: 44.1 kHz
stereo, a four-byte sample started on channel 0, which is panned to 3. -/
def pan_state : Engine :=
  let a := state_of (sss_sample_add engine_44s [100, -50, 30, 7] 4 0 0 8000 0) engine_44s
  sss_channel_pan_set (sss_sample_play a 0 0 8000) 0 3

/-- The outcome `o` with `f` applied to its final state. -/
def outcome_map (f : Engine → Engine) (o : Outcome Engine) : Outcome Engine :=
  match o with
  | Outcome.done s => Outcome.done (f s)
  | Outcome.fault => Outcome.fault
  | Outcome.timeout => Outcome.timeout

/-- What the channel loop of `music_poll` can change: the channels, and of
the song the order index, the step index and the step delay. -/
def ChanLoop (s s1 : Engine) : Prop :=
  ∃ f io i sd,
    s1 = { s with chan := f, song := { s.song with iorder := io, istep := i, step_delay := sd } }

/-- What one fired step can change: the channels, the running position and
tempo of the song, and the song counter. -/
def PollFrame (s s1 : Engine) : Prop :=
  ∃ f io ip i sp sd pm n,
    s1 = { s with
      chan := f
      song := { s.song with
        iorder := io, ipattern := ip, istep := i, song_pos := sp, step_delay := sd,
        playmode := pm }
      song_counter := n }

/-- A well-formed song whose patterns all have `N` steps: the patterns are
allocated, `1 ≤ N`, every entry of the order list names a pattern, every
pattern holds `N` steps, and every note names a slot of the sample list. -/
def SongWF (sg : MUSICSONG_DESC) (N : Nat) : Prop :=
  ∃ pats, sg.patterns = some pats ∧ sg.norder < W32 ∧ 1 ≤ N ∧ N < W32 ∧
    (∀ i, i < sg.norder → ∃ ip, sg.order[i]? = some ip ∧ ip < pats.length) ∧
    (∀ pat ∈ pats, pat.nsteps = N ∧ pat.steps.length = N) ∧
    (∀ pat ∈ pats, ∀ step ∈ pat.steps, ∀ c, c < SSS_MUSIC_CHANNELS →
      step.note_pitch c ≠ 0 → step.note_sample c < sg.samples.length)

/-- The step delay lies in `1..D`, and so does the delay every SET_TEMPO
effect of the song sets. -/
def TempoOK (s : Engine) (D : Nat) : Prop :=
  (1 ≤ s.song.step_delay ∧ s.song.step_delay ≤ D) ∧
  ∀ pats, s.song.patterns = some pats → ∀ pat ∈ pats, ∀ step ∈ pat.steps,
    ∀ c, c < SSS_MUSIC_CHANNELS → step.note_effect c = SSS_EFFECT_SET_TEMPO →
      step.note_eparam c ≠ 0 →
      1 ≤ tempo_delay s.mixrate (step.note_eparam c) ∧
        tempo_delay s.mixrate (step.note_eparam c) ≤ D

/-- The invariant of the `while` loop of `music_poll` on a well-formed song:
unless the song is stopped, the position is inside the order list and inside
the pattern. -/
def PollInv (N D : Nat) (s : Engine) : Prop :=
  SongWF s.song N ∧ TempoOK s D ∧
  (s.song.playmode ≠ PLAYMODE_STOPPED → s.song.iorder < s.song.norder ∧ s.song.istep < N)

/-- The one step of scenario S1: pitch 428 * 18 with sample slot 0 on music
channel 0, no note on the other channels, no effect. -/
def note_step : SSS_STEP_DESC :=
  { zero_step with note_pitch := upd zero_step.note_pitch 0 (428 * PITCH_SCALE) }

/-- The song of scenario S1, built through the construction interface on a
device with the capability bits `bits`: one pattern of one step, order list
[0], one sample of 100 zero bytes recorded at 8000 Hz without loop, and
`note_step` as the step. -/
def song_S1 (bits : Nat) : Engine :=
  let i := (sss_init boot bits).1
  let a := state_of (sss_music_create i 1 1 1) i
  let b := state_of (sss_sample_add a (List.replicate 100 0) 100 0 0 8000 0) a
  let c := state_of (sss_music_define_sample b 0 0) b
  let d := state_of (sss_music_define_pattern c 0 1) c
  let e := (sss_music_define_order d 0 0).1
  state_of (sss_music_define_step e 0 0 note_step) e

/-- Scenario S1: the song of `song_S1`, started with PLAY from STOPPED. -/
def scenario_S1 (bits : Nat) : Engine := sss_music_command (song_S1 bits) SSS_CMD_MUSIC_PLAY

/-- Scenario S1 at 44.1 kHz stereo, paused right after PLAY. -/
def paused_S1 : Engine := sss_music_command (scenario_S1 512) SSS_CMD_MUSIC_PAUSE

/-- The facts of scenario S1 that the engine keeps while it mixes one buffer,
with `V` the virtual size of the note: the engine is initialised at one of the
six formats with the volume tables built; sample 0 is 100 zero bytes recorded
at 8000 Hz without loop; the song is one pattern with the one step
`note_step`, order list [0], sample slot 0 naming sample 0; no channel other
than music channel 0 is busy. -/
def S1Static (V : Int) (s : Engine) : Prop :=
  s.initialized = true ∧ s.volume_tables = build_volume_tables ∧ FormatOK s ∧
  ((s.samples 0).data = some (List.replicate 100 0) ∧ (s.samples 0).size = 100 ∧
    (s.samples 0).loop_size = 0 ∧ (s.samples 0).smprate = 8000) ∧
  (play_vsize (s.samples 0) s.mixrate (428 * PITCH_SCALE) = V ∧ 1 ≤ V ∧ V ≤ 1000) ∧
  (s.song.patterns = some [{ nsteps := 1, steps := [note_step] }] ∧ s.song.order = [0] ∧
    s.song.norder = 1 ∧ s.song.samples = [0]) ∧
  (∀ ch, ch < SSS_MAX_CHANNELS → ch ≠ SSS_MUSIC_FIRST → (s.chan ch).isample = IDLE) ∧
  (s.chan SSS_MUSIC_FIRST).pan_pos ≤ 15

/-- Scenario S1 before its step has fired: playing at the start of the song,
the music voice idle. -/
def S1Wait (s : Engine) : Prop :=
  (s.chan SSS_MUSIC_FIRST).isample = IDLE ∧ s.song.playmode = PLAYMODE_PLAYING ∧
  s.song.song_pos = 0 ∧ s.song.iorder = 0 ∧ s.song.istep = 0 ∧ s.song_counter = 0

/-- Scenario S1 after its step has fired: the song is stopped with the song
counter reset, and the music voice plays sample 0 at virtual size `V` and
virtual offset `j`. -/
def S1Play (V j : Int) (s : Engine) : Prop :=
  s.song.playmode = PLAYMODE_STOPPED ∧ s.song_counter = 0 ∧
  (s.chan SSS_MUSIC_FIRST).isample = 0 ∧ (s.chan SSS_MUSIC_FIRST).vsize = V ∧
  (s.chan SSS_MUSIC_FIRST).voffset = j ∧ (s.chan SSS_MUSIC_FIRST).volume ≤ 15

/-- Scenario S1 after the note has ended: the song is stopped with the song
counter reset, and the music voice is idle. -/
def S1Rest (s : Engine) : Prop :=
  s.song.playmode = PLAYMODE_STOPPED ∧ s.song_counter = 0 ∧
  (s.chan SSS_MUSIC_FIRST).isample = IDLE

/-- The index of the first frame after frame 0 at which `mix` polls the
music: frame 1 in mono (`u = 1`, `u >> 1 = 0`), frame `(mixrate / 64) >> 1` in
stereo. -/
def first_poll (s : Engine) : Nat := if s.is_stereo ≠ 0 then (s.mixrate / 64) >>> 1 else 1

/-- The state of scenario S1 before frame `k` of the buffer: the step has not
fired and `k` is at most the first poll frame; or the voice plays at a virtual
offset `j` in `1..V` and `k` is at most `j` frames after the first poll frame;
or the note has ended. -/
def S1Inv (V : Int) (k : Nat) (s : Engine) : Prop :=
  S1Static V s ∧
  ((S1Wait s ∧ k ≤ first_poll s) ∨
   (∃ j : Int, 1 ≤ j ∧ j ≤ V ∧ (k : Int) ≤ (first_poll s : Int) + j ∧ S1Play V j s) ∨
   S1Rest s)

/-- The state after the step of scenario S1 has fired in `s`: the note is
started on the music voice at virtual size `V` and the music volume, and the
song is stopped at its start with the song counter reset. -/
def note_fired (V : Int) (s : Engine) : Engine :=
  { s with
    chan := upd s.chan SSS_MUSIC_FIRST
              { (s.chan SSS_MUSIC_FIRST) with
                vsize := V, isample := 0, voffset := 0, volume := volume_row s.music_volume }
    song := { s.song with
      playmode := PLAYMODE_STOPPED, song_pos := 0, istep := 0, iorder := 0, ipattern := 0 }
    song_counter := 0 }

/-- What the sequencer and the frame loop of the mixer can change: the
channels, the output buffers, the song counter, and of the song the position
(`iorder`, `ipattern`, `istep`, `song_pos`), the step delay and the mode.  The
mode and the song counter are as before, unless the song has ended: then the
mode is STOPPED. -/
def Sequenced (s s1 : Engine) : Prop :=
  ∃ f io ip i sp sd pm n b,
    s1 = { s with
      chan := f
      song := { s.song with
        iorder := io, ipattern := ip, istep := i, song_pos := sp, step_delay := sd,
        playmode := pm }
      song_counter := n
      buffers := b } ∧
    ((pm = s.song.playmode ∧ n = s.song_counter) ∨ pm = PLAYMODE_STOPPED)

/-- The song descriptor is consistent with the transport: a song is loaded
only in the initialised engine, the mode is STOPPED when no song is loaded,
and the initial pan positions of the music channels are pan positions
(0..15). -/
def SongOK (s : Engine) : Prop :=
  (1 ≤ s.song.npatterns → s.initialized = true) ∧
  (s.song.playmode ≠ PLAYMODE_STOPPED → 1 ≤ s.song.npatterns) ∧
  (∀ c, c < SSS_MUSIC_CHANNELS → s.song.pan_pos c ≤ SSS_PAN_RIGHT)

/-- A step whose channel 0 carries JUMP with parameter 0 (back to the first
entry of the order list) and nothing else. -/
def repeat_step : SSS_STEP_DESC :=
  { zero_step with note_effect := upd zero_step.note_effect 0 SSS_EFFECT_JUMP }

/-- A looping song at 44.1 kHz stereo, playing: one pattern of two steps, both
`repeat_step`, order list [0], no samples, built through the construction
interface and started with PLAY.  The song never ends. -/
def playing_loop : Engine :=
  let a := state_of (sss_music_create engine_44s 1 1 0) engine_44s
  let b := state_of (sss_music_define_pattern a 0 2) a
  let c := (sss_music_define_order b 0 0).1
  let d := state_of (sss_music_define_step c 0 0 repeat_step) c
  let e := state_of (sss_music_define_step d 0 1 repeat_step) d
  sss_music_command e SSS_CMD_MUSIC_PLAY

/-- Scenario S6: the looping song, REWIND issued while it plays. -/
def scenario_S6 : Engine := sss_music_command playing_loop SSS_CMD_MUSIC_REWIND

/-- The looping song with the song counter and the step deadline at
2^32 - 1: the clock of a song that has played for 2^32 - 1 frames. -/
def late_loop : Engine :=
  { playing_loop with
    song_counter := 4294967295
    song := { playing_loop.song with song_pos := 4294967295 } }

/-- The state holds the looping song, at its only order entry, with step
delay `D`. -/
def LoopInv (D : Nat) (s : Engine) : Prop :=
  s.song.patterns = some [{ nsteps := 2, steps := [repeat_step, repeat_step] }] ∧
  s.song.order = [0] ∧ s.song.norder = 1 ∧ s.song.iorder = 0 ∧ s.song.istep < 2 ∧
  s.song.step_delay = D

/-- A step whose channel `c` carries SET_TEMPO with parameter `p` and nothing
else. -/
def tempo_step (c p : Nat) : SSS_STEP_DESC :=
  { zero_step with note_effect := upd zero_step.note_effect c SSS_EFFECT_SET_TEMPO,
                   note_eparam := upd zero_step.note_eparam c p }

/-- A step with JUMP to order 0 on channel 0 and SET_TEMPO with parameter 7 on
channel 1. -/
def masked_tempo_step : SSS_STEP_DESC :=
  { zero_step with
    note_effect := upd (upd zero_step.note_effect 0 SSS_EFFECT_JUMP) 1 SSS_EFFECT_SET_TEMPO,
    note_eparam := upd zero_step.note_eparam 1 7 }

/-- A song of one pattern with two steps and order list [0] at 44.1 kHz
stereo, built through the construction interface, with `st` as step 0. -/
def tempo_song_built (st : SSS_STEP_DESC) : Engine :=
  let a := state_of (sss_music_create engine_44s 1 1 0) engine_44s
  let b := state_of (sss_music_define_pattern a 0 2) a
  let c := (sss_music_define_order b 0 0).1
  state_of (sss_music_define_step c 0 0 st) c

/-- The song `tempo_song_built st` after PLAY. -/
def tempo_song (st : SSS_STEP_DESC) : Engine :=
  sss_music_command (tempo_song_built st) SSS_CMD_MUSIC_PLAY

/-! ## The MOD loader: files

A file is the list of its bytes, each number of the list read modulo 256, and
is shorter than 2^31 bytes where `_llseek` has to report its size as a `long`.
The calls `_llseek` and `_lclose` are taken to succeed, and so is `malloc`.
The loader never reads the instrument names, so the store
`hdr->inst[u].name[21] = 0` of the byte-swap loop is left out. -/

abbrev SSSERR_OPEN_FILE : Nat := 65525
abbrev SSSERR_READ_FILE : Nat := 65524

/-- The call `_lread(fh, buf, n)` at file position `pos`: the `n` bytes read,
or `none` when fewer than `n` bytes are left in the file (the count `_lread`
returns is then not `n`). -/
def lread (file : List Nat) (pos n : Nat) : Option (List Nat) :=
  if pos + n ≤ file.length then some (((file.drop pos).take n).map (fun b => b % 256))
  else none

/-- The `unsigned short` at offset `off` of a buffer, as the processor reads
it (low byte first). -/
def word_at (buf : List Nat) (off : Nat) : Nat :=
  buf.getD off 0 + 256 * buf.getD (off + 1) 0

/-- The C function `byteswap`, on the value of `*w`. -/
def byteswap (w : Nat) : Nat :=
  (((w <<< 8) &&& 65280) + ((w >>> 8) &&& 255)) % 65536

/-- The field `inst[u].length` of a header after the byte-swap loop of
`load15` and `load31`; `inst[u]` starts at offset `20 + 30 * u` and `length`
at offset 22 of it. -/
def inst_length (hdr : List Nat) (u : Nat) : Nat :=
  byteswap (word_at hdr (20 + 30 * u + 22))

/-- The field `inst[u].repeat_start` after the byte-swap loop. -/
def inst_repeat_start (hdr : List Nat) (u : Nat) : Nat :=
  byteswap (word_at hdr (20 + 30 * u + 26))

/-- The field `inst[u].repeat_length` after the byte-swap loop, which sets a
value below 3 to 0. -/
def inst_repeat_length (hdr : List Nat) (u : Nat) : Nat :=
  if byteswap (word_at hdr (20 + 30 * u + 28)) < 3 then 0
  else byteswap (word_at hdr (20 + 30 * u + 28))

/-- The field `num_pats` of a header with `ninst` instruments. -/
def hdr_num_pats (hdr : List Nat) (ninst : Nat) : Nat :=
  hdr.getD (20 + 30 * ninst) 0

/-- The array `pat_order[128]` of a header with `ninst` instruments. -/
def hdr_pat_order (hdr : List Nat) (ninst : Nat) : List Nat :=
  (hdr.drop (20 + 30 * ninst + 2)).take 128

/-- The loop `ltmp -= (long)hdr->inst[u].length * 2` over the instruments
`us`. -/
def mod_ltmp (hdr : List Nat) : List Nat → Int → Int
  | [], ltmp => ltmp
  | u :: us, ltmp => mod_ltmp hdr us (toLong (ltmp - toLong (toLong (inst_length hdr u) * 2)))

/-- The number of patterns `load15` and `load31` compute:
`ltmp = filesize - sizeof(header)`, the loop over the instruments, and
`npats = (UINT)(ltmp / sizeof(PATTERN_DESC))`, an unsigned division by 1024. -/
def mod_npats (hdr : List Nat) (filesize : Int) (ninst hsize : Nat) : Nat :=
  toUInt (mod_ltmp hdr (List.range ninst) (toLong (filesize - hsize))) / 1024

/-- The loop of `load15` and `load31` that defines `n` patterns of 64 steps
from pattern `ipat` on. -/
def load_define_patterns (s : Engine) : Nat → Nat → Option (Engine × Nat)
  | 0, _ => some (s, SSSERR_OK)
  | n + 1, ipat =>
    match sss_music_define_pattern s ipat 64 with
    | none => none
    | some (s1, r) =>
      if r ≠ SSSERR_OK then some (s1, SSSERR_NO_MEMORY)
      else load_define_patterns s1 n (ipat + 1)

/-- The loop of `load15` and `load31` that defines `n` entries of the order
list from entry `u` on; a read of `pat_order[u]` with `u ≥ 128` leaves the
array. -/
def load_define_orders (pat_order : List Nat) (s : Engine) : Nat → Nat → Option Engine
  | 0, _ => some s
  | n + 1, u =>
    match pat_order[u]? with
    | none => none
    | some p => load_define_orders pat_order (sss_music_define_order s u p).1 n (u + 1)

/-- The note `modpattern.notes[i]` of a pattern buffer of 1024 bytes. -/
def note_at (modpattern : List Nat) (i : Nat) : NOTE_DESC :=
  { b1 := modpattern.getD (4 * i) 0, b2 := modpattern.getD (4 * i + 1) 0,
    b3 := modpattern.getD (4 * i + 2) 0, b4 := modpattern.getD (4 * i + 3) 0 }

/-- The step loop of `load15` and `load31` for pattern `ipat`: `n` steps from
step `istep` on, each built by `mkstep` (the channel loop) and handed to
`sss_music_define_step`, whose result code is not read. -/
def load_steps (mkstep : (Nat → NOTE_DESC) → Nat → SSS_STEP_DESC) (modpattern : List Nat)
    (ipat : Nat) (s : Engine) : Nat → Nat → Option Engine
  | 0, _ => some s
  | n + 1, istep =>
    match sss_music_define_step s ipat istep (mkstep (note_at modpattern) istep) with
    | none => none
    | some (s1, _) => load_steps mkstep modpattern ipat s1 n (istep + 1)

/-- The pattern loop of `load15` and `load31`: `n` patterns from pattern
`ipat` on, read from file position `pos` on.  The result holds the state, the
result code and the file position. -/
def load_patterns (mkstep : (Nat → NOTE_DESC) → Nat → SSS_STEP_DESC) (file : List Nat)
    (s : Engine) : Nat → Nat → Nat → Option (Engine × Nat × Nat)
  | 0, _, pos => some (s, SSSERR_OK, pos)
  | n + 1, ipat, pos =>
    match lread file pos 1024 with
    | none => some (s, SSSERR_READ_FILE, pos)
    | some modpattern =>
      match load_steps mkstep modpattern ipat s 64 0 with
      | none => none
      | some s1 => load_patterns mkstep file s1 n (ipat + 1) (pos + 1024)

/-- The sample loop of `load15` and `load31`: `n` instruments from instrument
`isample` on, read from file position `pos` on.  The bytes read are handed to
`sss_sample_add` as `char`. -/
def load_samples (hdr file : List Nat) (s : Engine) : Nat → Nat → Nat → Option (Engine × Nat)
  | 0, _, _ => some (s, SSSERR_OK)
  | n + 1, isample, pos =>
    match lread file pos (inst_length hdr isample * 2) with
    | none => some (s, SSSERR_READ_FILE)
    | some smpdata =>
      match sss_sample_add s (smpdata.map (fun b : Nat => toSChar (b : Int)))
          (inst_length hdr isample * 2)
          (inst_repeat_start hdr isample * 2) (inst_repeat_length hdr isample * 2)
          MOD_RECORDED_RATE 0 with
      | none => none
      | some (s1, hsmp) =>
        if hsmp ≥ SSS_MAX_SAMPLES then some (s1, hsmp)
        else
          match sss_music_define_sample s1 isample hsmp with
          | none => none
          | some (s2, _) =>
            load_samples hdr file s2 n (isample + 1) (pos + inst_length hdr isample * 2)

/-- The text `load15` and `load31` share, for a header of `hsize` bytes with
`ninst` instruments and the channel loop `mkstep`. -/
def load_layout (ninst hsize : Nat) (mkstep : (Nat → NOTE_DESC) → Nat → SSS_STEP_DESC)
    (s : Engine) (file : List Nat) : Option (Engine × Nat) :=
  match lread file 0 hsize with
  | none => some (s, SSSERR_READ_FILE)
  | some hdr =>
    match sss_music_create s (mod_npats hdr (toLong file.length) ninst hsize)
        (hdr_num_pats hdr ninst) ninst with
    | none => none
    | some (s1, r1) =>
      if r1 ≠ SSSERR_OK then some (s1, SSSERR_NO_MEMORY)
      else
        match load_define_patterns s1 (mod_npats hdr (toLong file.length) ninst hsize) 0 with
        | none => none
        | some (s2, r2) =>
          if r2 ≠ SSSERR_OK then some (s2, r2)
          else
            match load_define_orders (hdr_pat_order hdr ninst) s2 (hdr_num_pats hdr ninst) 0 with
            | none => none
            | some s3 =>
              match load_patterns mkstep file s3
                  (mod_npats hdr (toLong file.length) ninst hsize) 0 hsize with
              | none => none
              | some (s4, r4, pos) =>
                if r4 ≠ SSSERR_OK then some (s4, r4)
                else load_samples hdr file s4 ninst 0 pos

/-- The C function `load15`, on the open file `file`. -/
def load15 (s : Engine) (file : List Nat) : Option (Engine × Nat) :=
  load_layout 15 600 load15_step s file

/-- The C function `load31`, on the open file `file`. -/
def load31 (s : Engine) (file : List Nat) : Option (Engine × Nat) :=
  load_layout 31 1084 load31_step s file

/-- The C function `sss_music_load_mod`; `fn` is the file the path names,
`none` when `_lopen` cannot open it.  The signatures are "M.K." and "FLT4". -/
def sss_music_load_mod (s : Engine) (fn : Option (List Nat)) : Option (Engine × Nat) :=
  match fn with
  | none => some (s, SSSERR_OPEN_FILE)
  | some file =>
    match lread file 0 1084 with
    | none => some (s, SSSERR_READ_FILE)
    | some hdr31 =>
      match (if (hdr31.drop 1080).take 4 ≠ [77, 46, 75, 46] ∧
            (hdr31.drop 1080).take 4 ≠ [70, 76, 84, 52] then load15 s file
          else load31 s file) with
      | none => none
      | some (s1, result) =>
        if result ≠ SSSERR_OK then
          match sss_music_flush s1 with
          | none => none
          | some s2 => some (s2, result)
        else
          some (sss_music_define_pan (sss_music_define_pan (sss_music_define_pan
            (sss_music_define_pan s1 0 SSS_PAN_LEFT) 1 SSS_PAN_RIGHT) 2 SSS_PAN_RIGHT)
            3 SSS_PAN_LEFT, SSSERR_OK)

/-- The sum of the instrument lengths (in words, after byte-swapping) of a
header with `ninst` instruments. -/
def inst_words (hdr : List Nat) (ninst : Nat) : Nat :=
  ((List.range ninst).map (fun u => inst_length hdr u)).sum

/-- The first `hsize` bytes of a file. -/
def mod_header (file : List Nat) (hsize : Nat) : List Nat :=
  (file.take hsize).map (fun b => b % 256)

/-- The song the loader is building: the engine is initialised, the song has
`N` patterns and `ninst` sample slots, and the patterns below `k` have 64
steps each. -/
def Loading (N ninst k : Nat) (s : Engine) : Prop :=
  s.initialized = true ∧ s.song.npatterns = N ∧ s.song.nsamples = ninst ∧
  s.song.samples.length = ninst ∧
  ∃ pats, s.song.patterns = some pats ∧ pats.length = N ∧
    ∀ i, i < k → ∃ pat, pats[i]? = some pat ∧ pat.nsteps = 64 ∧ pat.steps.length = 64

/-- The sample slots from `k` on hold no payload. -/
def FreeFrom (k : Nat) (s : Engine) : Prop := ∀ h, k ≤ h → (s.samples h).data = none

/-- A 15-instrument file of zero bytes, of size 600 + 1024·3: no instrument
data, an empty order list, and three patterns. -/
def mod_file15 : List Nat := List.replicate 3672 0

/-- A 31-instrument file with the signature "M.K.": no instrument data, an
empty order list, and one pattern of zero bytes. -/
def mod_file31 : List Nat :=
  List.replicate 1080 0 ++ ([77, 46, 75, 46] ++ List.replicate 1024 0)

/-- The sample list of the song has at least `nsamples` entries. -/
def SampleListOK (s : Engine) : Prop := s.song.nsamples ≤ s.song.samples.length

/-- The engine at 44.1 kHz stereo with one sample of four bytes recorded at
1 Hz, added through `sss_sample_add`; its handle is 0. -/
def slow_sample_state : Engine :=
  state_of (sss_sample_add engine_44s [1, 2, 3, 4] 4 0 0 1 0) engine_44s

/-- The C function `sss_channel_is_busy`. -/
def sss_channel_is_busy (s : Engine) (channel : Nat) : Nat :=
  if !s.initialized then 0
  else if channel ≥ SSS_MAX_CHANNELS then 0
  else if (s.chan channel).isample ≠ IDLE then 1
  else 0

/-- The voice the body of the channel loop of `music_poll` leaves on music
channel `c`. -/
def channel_voice (step : SSS_STEP_DESC) (s : Engine) (c : Nat) : Option CHANNEL_DESC :=
  (music_poll_channel step s c).map (fun r => r.1.chan (SSS_MUSIC_FIRST + c))

/-- The states `s` and `s1` agree on everything the body of the channel loop
of `music_poll` reads when it works on channel `ch`. -/
def Alike (ch : Nat) (s s1 : Engine) : Prop :=
  s1.initialized = s.initialized ∧ s1.samples = s.samples ∧ s1.mixrate = s.mixrate ∧
  s1.music_volume = s.music_volume ∧ s1.song.samples = s.song.samples ∧ s1.chan ch = s.chan ch

/-- A step with one note: pitch `pitch` and sample slot `smp` on music channel
`c`. -/
def voice_step (c smp pitch : Nat) : SSS_STEP_DESC :=
  { zero_step with note_pitch := upd zero_step.note_pitch c pitch,
                   note_sample := upd zero_step.note_sample c smp }

/-- A step with JUMP to order 0 on channel 0 and a note (pitch 8000, sample
slot 0) on channel 1. -/
def jump_note_step : SSS_STEP_DESC :=
  { zero_step with note_effect := upd zero_step.note_effect 0 SSS_EFFECT_JUMP,
                   note_pitch := upd zero_step.note_pitch 1 8000 }

/-- A song of one pattern with the two steps `st0` and `st1` and order list
[0] at 44.1 kHz stereo, built through the construction interface.  Its sample
list has two slots: slot 0 names handle 0, a sample of four bytes recorded at
8000 Hz; slot 1 names handle 1, a sample that is deleted after the slot is
defined. -/
def voice_song_built (st0 st1 : SSS_STEP_DESC) : Engine :=
  let a := state_of (sss_music_create engine_44s 1 1 2) engine_44s
  let b := state_of (sss_sample_add a [10, 20, 30, 40] 4 0 0 8000 0) a
  let c := state_of (sss_sample_add b [10, 20, 30, 40] 4 0 0 8000 0) b
  let d := state_of (sss_music_define_sample c 0 0) c
  let e := state_of (sss_music_define_sample d 1 1) d
  let f := sss_sample_delete e 1
  let g := state_of (sss_music_define_pattern f 0 2) f
  let i := (sss_music_define_order g 0 0).1
  let j := state_of (sss_music_define_step i 0 0 st0) i
  state_of (sss_music_define_step j 0 1 st1) j

/-- The song `voice_song_built st0 st1` after PLAY. -/
def voice_song (st0 st1 : SSS_STEP_DESC) : Engine :=
  sss_music_command (voice_song_built st0 st1) SSS_CMD_MUSIC_PLAY
/-- A step with JUMP to order 0 on channel 0 and SET_VOLUME with parameter 0
on channel 1. -/
def jump_volume_step : SSS_STEP_DESC :=
  { zero_step with
    note_effect := upd (upd zero_step.note_effect 0 SSS_EFFECT_JUMP) 1 SSS_EFFECT_SET_VOLUME }

/-- A step with SET_VOLUME with parameter `p` on music channel `c`. -/
def volume_step (c p : Nat) : SSS_STEP_DESC :=
  { zero_step with note_effect := upd zero_step.note_effect c SSS_EFFECT_SET_VOLUME,
                   note_eparam := upd zero_step.note_eparam c p }

/-- A step with PATTERN_BREAK on music channel 0 and nothing else. -/
def break_step : SSS_STEP_DESC :=
  { zero_step with note_effect := upd zero_step.note_effect 0 SSS_EFFECT_PATTERN_BREAK }

/-- A song of one pattern with `n` steps and order list [0, 0] at 44.1 kHz
stereo, built through the construction interface, with `break_step` as step
0; then PLAY. -/
def break_song (n : Nat) : Engine :=
  let a := state_of (sss_music_create engine_44s 1 2 0) engine_44s
  let b := state_of (sss_music_define_pattern a 0 n) a
  let c := (sss_music_define_order b 0 0).1
  let d := (sss_music_define_order c 1 0).1
  let e := state_of (sss_music_define_step d 0 0 break_step) d
  sss_music_command e SSS_CMD_MUSIC_PLAY

/-- The step index is inside the pattern `ipattern` of the pattern list
`pats` of the song. -/
def StepInv (pats : List MUSICPATTERN_DESC) (s : Engine) : Prop :=
  s.song.patterns = some pats ∧
    ∃ pat, pats[s.song.ipattern]? = some pat ∧ s.song.istep < pat.nsteps

/-- The state `s1` has the patterns of `s`, and either the pattern index and
the step index of `s` or both indices 0. -/
def KeepsStep (s s1 : Engine) : Prop :=
  s1.song.patterns = s.song.patterns ∧
    ((s1.song.ipattern = s.song.ipattern ∧ s1.song.istep = s.song.istep) ∨
      (s1.song.ipattern = 0 ∧ s1.song.istep = 0))

/-- The states the engine reaches from `s0` through transport commands, music
polls, mix buffers, timer polls and the audio device, as long as no call runs
into undefined behaviour. -/
inductive Played (s0 : Engine) : Engine → Prop where
  | start : Played s0 s0
  | command (s : Engine) (cmd : Nat) : Played s0 s → Played s0 (sss_music_command s cmd)
  | poll (s s1 : Engine) (fuel T : Nat) :
      Played s0 s → music_poll fuel s T = Outcome.done s1 → Played s0 s1
  | buffer (s s1 : Engine) (fuel : Nat) :
      Played s0 s → mix fuel s = Outcome.done s1 → Played s0 s1
  | timer (s s1 : Engine) (fuel : Nat) :
      Played s0 s → sss_poll fuel s = Outcome.done s1 → Played s0 s1
  | device (s : Engine) (u : Nat) : Played s0 s → Played s0 (device_done s u)

/-- A song of two patterns of one step each with the order list [1, 0] at
44.1 kHz stereo, built through the construction interface; then PLAY. -/
def order_song : Engine :=
  let a := state_of (sss_music_create engine_44s 2 2 0) engine_44s
  let b := state_of (sss_music_define_pattern a 0 1) a
  let c := state_of (sss_music_define_pattern b 1 1) b
  let d := (sss_music_define_order c 0 1).1
  let e := (sss_music_define_order d 1 0).1
  sss_music_command e SSS_CMD_MUSIC_PLAY

/-- The voice after `n` mixed frames: each frame the channel loop of `mix`
skips the voice if it is idle and runs its body on it otherwise. -/
def voice_frames (tables : List (List Int)) (is_stereo : Nat) (psample : SAMPLE_DESC) :
    Nat → CHANNEL_DESC → Option CHANNEL_DESC
  | 0, c => some c
  | n + 1, c =>
    if c.isample = IDLE then some c
    else
      match mix_voice tables is_stereo psample c (0, 0) with
      | none => none
      | some (c1, _) => voice_frames tables is_stereo psample n c1

/-- The voice that `sss_sample_play` starts on channel 3 with the four-byte
sample of `slow_sample_state` at pitch 1: its virtual size is 176400. -/
def fresh_voice : CHANNEL_DESC := (sss_sample_play slow_sample_state 3 0 1).chan 3

/-- The number of busy channels among the channels of `l`. -/
def busy_count (s : Engine) (l : List Nat) : Nat :=
  l.countP (fun ch => decide ((s.chan ch).isample ≠ IDLE))

/-- The engine at 44.1 kHz mono with one sample of four bytes 127 recorded at
8000 Hz, started at pitch 8000 on the channels 0, 1, 2 and 3, every channel
at the volume and pan `sss_init` gives it. -/
def loud_voices_state : Engine :=
  let a := state_of (sss_sample_add (sss_init boot 256).1 [127, 127, 127, 127] 4 0 0 8000 0)
    (sss_init boot 256).1
  sss_sample_play (sss_sample_play (sss_sample_play (sss_sample_play a 0 0 8000) 1 0 8000)
    2 0 8000) 3 0 8000

/-- The engine at 44.1 kHz stereo with one sample of four bytes recorded at
8000 Hz whose loop is the bytes 1..3, started on channel 0 at pitch 8000: the
virtual size of the voice is 22. -/
def looping_voice_state : Engine :=
  let a := state_of (sss_sample_add engine_44s [10, 20, 30, 40] 4 1 3 8000 0) engine_44s
  sss_sample_play a 0 0 8000

/-- The looping song on the engine at 44.1 kHz stereo (step delay 5265, a
buffer of 44100 bytes), in a reachable state with the song counter `c` and the
buffer toggle `t`. -/
def LoopRun (s : Engine) (c t : Nat) : Prop :=
  Reachable s ∧ s.initialized = true ∧ LoopInv 5265 s ∧ s.song.npatterns = 1 ∧
  s.bfr_size = 44100 ∧ s.is_stereo = 1 ∧ s.song_counter = c ∧ s.bfr_toggle = t

/-- The state after a timer poll, `s` itself if the poll does not return. -/
def after_poll (s : Engine) : Engine := outcome_state (sss_poll 2000000 s) s

/-- The looping song at 44.1 kHz stereo after two buffers of FAST_FORWARD and
one of PLAY, when REWIND is issued: PLAY, FAST_FORWARD, two timer polls, the
device finishes buffer 0, PLAY, a timer poll, REWIND. -/
def rewind_start : Engine :=
  let a := sss_music_command playing_loop SSS_CMD_MUSIC_FASTFORWARD
  let b := after_poll (after_poll a)
  let c := after_poll (sss_music_command (device_done b 0) SSS_CMD_MUSIC_PLAY)
  sss_music_command c SSS_CMD_MUSIC_REWIND

/-- The engine at 44.1 kHz stereo with one sample of 40000 bytes recorded at
8000 Hz, the rate the MOD loader registers; its handle is 0. -/
def long_sample_state : Engine :=
  state_of (sss_sample_add engine_44s (List.replicate 40000 0) 40000 0 0 8000 0) engine_44s

/-- A song with 31 sample slots, none of them defined, one pattern of one
step and the order list [0] at 44.1 kHz stereo, built through the construction
interface as the loader builds a 31-instrument song; step 0 is the step
`load31` decodes from a pattern that begins with the note bytes `b1 = 0x20`,
`b2 = 1`, `b3 = 0`, `b4 = 0`; then PLAY. -/
def stray_note_song : Engine :=
  let a := state_of (sss_music_create engine_44s 1 1 31) engine_44s
  let b := state_of (sss_music_define_pattern a 0 1) a
  let c := (sss_music_define_order b 0 0).1
  let d := state_of (sss_music_define_step c 0 0 (load31_step (note_at [32, 1, 0, 0]) 0)) c
  sss_music_command d SSS_CMD_MUSIC_PLAY

/-- A song of two patterns at 44.1 kHz stereo, built through the construction
interface: pattern 0 has two steps, step 0 carrying JUMP to order entry 1;
pattern 1 has one step; the order list is [0, 1]; then PLAY. -/
def jump_short_song : Engine :=
  let a := state_of (sss_music_create engine_44s 2 2 0) engine_44s
  let b := state_of (sss_music_define_pattern a 0 2) a
  let c := state_of (sss_music_define_pattern b 1 1) b
  let d := (sss_music_define_order c 0 0).1
  let e := (sss_music_define_order d 1 1).1
  let f := state_of (sss_music_define_step e 0 0 jump_step) e
  sss_music_command f SSS_CMD_MUSIC_PLAY

/-- The engine at 44.1 kHz stereo after the caller has added a sample of four
bytes recorded at 8000 Hz (its handle is 0) and then created a song with one
sample slot, which is never defined. -/
def effect_sample_state : Engine :=
  let a := state_of (sss_sample_add engine_44s [1, 2, 3, 4] 4 0 0 8000 0) engine_44s
  state_of (sss_music_create a 1 1 1) a

/-- The tempo invariant of a started song at one of the three mix rates: the
step delay lies in `1..D`, and so does the delay every SET_TEMPO effect of the
song sets. -/
def TempoInv (D : Nat) (s : Engine) : Prop :=
  TempoOK s D ∧ (s.mixrate = 11025 ∨ s.mixrate = 22050 ∨ s.mixrate = 44100)

/-- A song of one pattern of two steps with the order list [0] at 44.1 kHz
stereo, built through the construction interface: step 0 carries SET_TEMPO
with parameter 0xFFFFFFFF on channel 0, step 1 carries JUMP to order entry 0;
then PLAY. -/
def stall_song : Engine :=
  let a := state_of (sss_music_create engine_44s 1 1 0) engine_44s
  let b := state_of (sss_music_define_pattern a 0 2) a
  let c := (sss_music_define_order b 0 0).1
  let d := state_of (sss_music_define_step c 0 0 (tempo_step 0 4294967295)) c
  let e := state_of (sss_music_define_step d 0 1 repeat_step) d
  sss_music_command e SSS_CMD_MUSIC_PLAY

/-- The song of `stall_song` stands at step 1 of its pattern with the step
delay 0 and the step deadline 0, playing. -/
def Stalled (s : Engine) : Prop :=
  s.song.patterns = some [{ nsteps := 2, steps := [tempo_step 0 4294967295, repeat_step] }] ∧
  s.song.order = [0] ∧ s.song.norder = 1 ∧ s.song.iorder = 0 ∧ s.song.istep = 1 ∧
  s.song.step_delay = 0 ∧ s.song.song_pos = 0 ∧ s.song.playmode = PLAYMODE_PLAYING

/-- A well-formed song whose patterns may differ in length: the patterns are
allocated, every pattern holds its `nsteps ≥ 1` steps, every entry of the
order list names a pattern, every note names a slot of the sample list, and
a JUMP that takes effect (no lower channel of its step carries JUMP or
PATTERN_BREAK), stands in a pattern of two or more steps and names an entry of
the order list leads to a pattern of two or more steps (the step index after a
JUMP is 1, not 0). -/
def SongFit (sg : MUSICSONG_DESC) : Prop :=
  ∃ pats, sg.patterns = some pats ∧ sg.norder < W32 ∧
    (∀ i, i < sg.norder → ∃ ip, sg.order[i]? = some ip ∧ ip < pats.length) ∧
    (∀ pat ∈ pats, 1 ≤ pat.nsteps ∧ pat.nsteps < W32 ∧ pat.steps.length = pat.nsteps) ∧
    (∀ pat ∈ pats, ∀ step ∈ pat.steps, ∀ c, c < SSS_MUSIC_CHANNELS →
      step.note_pitch c ≠ 0 → step.note_sample c < sg.samples.length) ∧
    (∀ pat ∈ pats, 2 ≤ pat.nsteps → ∀ step ∈ pat.steps, ∀ c, c < SSS_MUSIC_CHANNELS →
      step.note_effect c = SSS_EFFECT_JUMP →
      (∀ k, k < c → step.note_effect k ≠ SSS_EFFECT_PATTERN_BREAK ∧
        step.note_effect k ≠ SSS_EFFECT_JUMP) →
      step.note_eparam c < sg.norder →
      ∀ ip q, sg.order[step.note_eparam c]? = some ip → pats[ip]? = some q → 2 ≤ q.nsteps)

/-- The invariant of the `while` loop of `music_poll` on a well-formed song
with patterns of any lengths: the tempo stays in `1..D` and, unless the song
is stopped, the position is inside the order list and inside the pattern the
order entry names. -/
def PollFit (D : Nat) (s : Engine) : Prop :=
  SongFit s.song ∧ TempoOK s D ∧
  (s.song.playmode ≠ PLAYMODE_STOPPED →
    s.song.iorder < s.song.norder ∧
    ∀ pats ip q, s.song.patterns = some pats → s.song.order[s.song.iorder]? = some ip →
      pats[ip]? = some q → s.song.istep < q.nsteps)

/-- A song with patterns of different lengths at 44.1 kHz stereo, built
through the construction interface: pattern 0 has one step, pattern 1 has two
steps, the second carrying JUMP to order entry 1, the entry it stands in; the
order list is [0, 1]; then PLAY. -/
def mixed_song : Engine :=
  let a := state_of (sss_music_create engine_44s 2 2 0) engine_44s
  let b := state_of (sss_music_define_pattern a 0 1) a
  let c := state_of (sss_music_define_pattern b 1 2) b
  let d := (sss_music_define_order c 0 0).1
  let e := (sss_music_define_order d 1 1).1
  let f := state_of (sss_music_define_step e 1 1 jump_step) e
  sss_music_command f SSS_CMD_MUSIC_PLAY

/-- The engine at 44.1 kHz stereo with one sample of four bytes recorded at
8000 Hz whose loop is the whole sample (loop start 0, loop size 4), started on
channel 0 at pitch 8018182: the virtual size of the voice is 22050, the number
of frames of one buffer. -/
def buffer_loop_state : Engine :=
  let a := state_of (sss_sample_add engine_44s [10, 20, 30, 40] 4 0 4 8000 0) engine_44s
  sss_sample_play a 0 0 8018182

/-- The state `s` is the state `s0` after `k` frames of the buffer being
mixed: the voice of channel 0 stands at the virtual offset `k` and bytes of
the buffer have been stored, nothing else has changed. -/
def Rolling (s0 s : Engine) (k : Nat) : Prop :=
  ∃ b, s = { s0 with chan := upd s0.chan 0 { (s0.chan 0) with voffset := (k : Int) },
                      buffers := upd s0.buffers s0.bfr_toggle b } ∧
    b.length = (s0.buffers s0.bfr_toggle).length

/-- Channel 0 is the only busy channel of `s0`, with the volume tables built
and the song stopped; it plays, at the virtual size `V`, a sample with payload
`d` whose loop does not end before the end of the payload. -/
def SoloVoice (s0 : Engine) (d : List Int) (V : Nat) : Prop :=
  s0.song.playmode = PLAYMODE_STOPPED ∧ (s0.mixrate / 64) >>> s0.is_stereo ≠ 0 ∧
  s0.volume_tables = build_volume_tables ∧
  (∀ ch, ch < SSS_MAX_CHANNELS → ch ≠ 0 → (s0.chan ch).isample = IDLE) ∧
  (s0.chan 0).isample ≠ IDLE ∧
  (s0.samples (s0.chan 0).isample).data = some d ∧
  d.length = (s0.samples (s0.chan 0).isample).size ∧
  1 ≤ (s0.samples (s0.chan 0).isample).size ∧
  (s0.samples (s0.chan 0).isample).size ≤
    ((s0.samples (s0.chan 0).isample).loop_start +
      (s0.samples (s0.chan 0).isample).loop_size) % W32 ∧
  1 ≤ V ∧ (s0.chan 0).vsize = V ∧
  V * (s0.samples (s0.chan 0).isample).size < 2147483648 ∧
  (s0.chan 0).volume ≤ 15 ∧ (s0.chan 0).pan_pos ≤ 15

@[simp] theorem upd_same {α : Type} (f : Nat → α) (i : Nat) (v : α) : upd f i v i = v := by
  simp [upd]

theorem upd_other {α : Type} (f : Nat → α) (i j : Nat) (v : α) (h : j ≠ i) : upd f i v j = f j := by
  simp [upd, h]

theorem load_effect_at (d : SSS_STEP_DESC) (n : NOTE_DESC) (c : Nat)
    (he : d.note_effect c = 0) (hp : d.note_eparam c = 0) :
    (load_effect d n c).note_effect c =
      (if n.b3 &&& 15 = 11 then SSS_EFFECT_JUMP else if n.b3 &&& 15 = 12 then SSS_EFFECT_SET_VOLUME
       else if n.b3 &&& 15 = 13 then SSS_EFFECT_PATTERN_BREAK
       else if n.b3 &&& 15 = 15 then SSS_EFFECT_SET_TEMPO else SSS_EFFECT_NONE) ∧
    (load_effect d n c).note_eparam c =
      (if n.b3 &&& 15 = 11 ∨ n.b3 &&& 15 = 12 ∨ n.b3 &&& 15 = 15 then n.b4 else 0) ∧
    (load_effect d n c).note_pitch = d.note_pitch ∧
    (load_effect d n c).note_sample = d.note_sample := by
  unfold load_effect
  split_ifs <;> simp_all

theorem load_effect_other (d : SSS_STEP_DESC) (n : NOTE_DESC) (c j : Nat) (h : j ≠ c) :
    (load_effect d n c).note_effect j = d.note_effect j ∧
    (load_effect d n c).note_eparam j = d.note_eparam j := by
  unfold load_effect
  split_ifs <;> simp [upd_other, h]

theorem load_note_at (d : SSS_STEP_DESC) (i p c : Nat) (h0 : d.note_pitch c = 0)
    (h1 : d.note_sample c = 0) :
    (load_note d i p c).note_pitch c = (if 0 < i ∧ 0 < (p * 18) % W32 then (p * 18) % W32 else 0) ∧
    (load_note d i p c).note_sample c = (if 0 < i ∧ 0 < (p * 18) % W32 then i - 1 else 0) ∧
    (load_note d i p c).note_effect = d.note_effect ∧
    (load_note d i p c).note_eparam = d.note_eparam := by
  by_cases hc : 0 < i ∧ 0 < (p * 18) % W32
  · simp [load_note, hc]
  · simp [load_note, hc, h0, h1]

theorem load_note_other (d : SSS_STEP_DESC) (i p c j : Nat) (h : j ≠ c) :
    (load_note d i p c).note_pitch j = d.note_pitch j ∧
    (load_note d i p c).note_sample j = d.note_sample j := by
  by_cases hc : 0 < i ∧ 0 < (p * 18) % W32
  · simp [load_note, hc, upd_other, h]
  · simp [load_note, hc]


theorem load_note_pres (d : SSS_STEP_DESC) (i p c : Nat) :
    (load_note d i p c).note_effect = d.note_effect ∧
    (load_note d i p c).note_eparam = d.note_eparam := by
  by_cases hc : 0 < i ∧ 0 < (p * 18) % W32
  · simp [load_note, hc]
  · simp [load_note, hc]

theorem load_effect_pres (d : SSS_STEP_DESC) (n : NOTE_DESC) (c : Nat) :
    (load_effect d n c).note_pitch = d.note_pitch ∧
    (load_effect d n c).note_sample = d.note_sample := by
  unfold load_effect
  split_ifs <;> simp

theorem bits_b1 : ∀ i < 32, ∀ q < 16,
    ((i &&& 240) ||| q) &&& 240 = i &&& 240 ∧ ((i &&& 240) ||| q) &&& 15 = q := by decide

theorem bits_b3 : ∀ i < 32, ∀ e < 16,
    ((((i &&& 15) <<< 4) ||| e) / 16) &&& 15 = i &&& 15 ∧ (i &&& 240) + (i &&& 15) = i := by
  decide

theorem bits_b3_old : ∀ i < 16, ∀ e < 16, (((i <<< 4) ||| e) / 16) &&& 15 = i := by decide

theorem bits_period (p : Nat) : (p >>> 8) * 256 + (p &&& 255) = p := by
  have h1 : p >>> 8 = p / 256 := by simp [Nat.shiftRight_eq_div_pow]
  have h2 : p &&& 255 = p % 256 := by
    exact Nat.and_pow_two_sub_one_eq_mod p 8
  omega

theorem load_channel_at (d : SSS_STEP_DESC) (n : NOTE_DESC) (i p c : Nat)
    (h : step_cell d c = (0, 0, 0, 0)) :
    step_cell (load_effect (load_note d i p c) n c) c = decoded_cell i p n := by
  simp only [step_cell, Prod.mk.injEq] at h
  obtain ⟨h0, h1, h2, h3⟩ := h
  obtain ⟨a0, a1, a2, a3⟩ := load_note_at d i p c h0 h1
  obtain ⟨b0, b1, b2, b3⟩ := load_effect_at (load_note d i p c) n c (by rw [a2]; exact h2)
    (by rw [a3]; exact h3)
  simp only [step_cell, decoded_cell, b0, b1, b2, b3, a0, a1]

theorem load_channel_other (d : SSS_STEP_DESC) (n : NOTE_DESC) (i p c j : Nat) (h : j ≠ c) :
    step_cell (load_effect (load_note d i p c) n c) j = step_cell d j := by
  obtain ⟨a0, a1⟩ := load_note_other d i p c j h
  obtain ⟨b0, b1⟩ := load_effect_other (load_note d i p c) n c j h
  have hx := load_note_pres d i p c
  have hy := load_effect_pres (load_note d i p c) n c
  simp only [step_cell, b0, b1, hy.1, hy.2, a0, a1, hx.1, hx.2]

theorem load_fold (I P : NOTE_DESC → Nat) (N : Nat → NOTE_DESC) (t : Nat) :
    ∀ (l : List Nat) (d : SSS_STEP_DESC), l.Nodup →
      (t ∉ l → step_cell (l.foldl
        (fun d c => load_effect (load_note d (I (N c)) (P (N c)) c) (N c) c) d) t = step_cell d t) ∧
      (t ∈ l → step_cell d t = (0, 0, 0, 0) → step_cell (l.foldl
        (fun d c => load_effect (load_note d (I (N c)) (P (N c)) c) (N c) c) d) t
          = decoded_cell (I (N t)) (P (N t)) (N t)) := by
  intro l
  induction l with
  | nil => intro d _; simp
  | cons c cs ih =>
    intro d hnd
    rw [List.nodup_cons] at hnd
    obtain ⟨hc, hcs⟩ := hnd
    have ih1 := ih (load_effect (load_note d (I (N c)) (P (N c)) c) (N c) c) hcs
    simp only [List.foldl_cons, List.mem_cons, not_or]
    constructor
    · rintro ⟨h1, h2⟩
      rw [ih1.1 h2, load_channel_other _ _ _ _ _ _ h1]
    · intro hm hz
      rcases hm with rfl | hm
      · rw [ih1.1 hc, load_channel_at _ _ _ _ _ hz]
      · have hne : t ≠ c := fun e => hc (e ▸ hm)
        exact ih1.2 hm (by rw [load_channel_other _ _ _ _ _ _ hne]; exact hz)

theorem load31_step_cell (notes : Nat → NOTE_DESC) (istep t : Nat) :
    (t < 4 → step_cell (load31_step notes istep) t =
      decoded_cell (((notes (t + istep * 4)).b1 &&& 240) + (((notes (t + istep * 4)).b3 / 16) &&& 15))
        (((notes (t + istep * 4)).b1 &&& 15) * 256 + (notes (t + istep * 4)).b2)
        (notes (t + istep * 4))) ∧
    (4 ≤ t → step_cell (load31_step notes istep) t = (0, 0, 0, 0)) := by
  have h := load_fold (fun n => (n.b1 &&& 240) + ((n.b3 / 16) &&& 15))
    (fun n => (n.b1 &&& 15) * 256 + n.b2) (fun c => notes (c + istep * 4)) t
    (List.range 4) zero_step (List.nodup_range 4)
  constructor
  · intro ht
    exact h.2 (List.mem_range.mpr ht) rfl
  · intro ht
    have := h.1 (by simp; omega)
    exact this

theorem load15_step_cell (notes : Nat → NOTE_DESC) (istep t : Nat) :
    (t < 4 → step_cell (load15_step notes istep) t =
      decoded_cell (((notes (t + istep * 4)).b3 / 16) &&& 15)
        ((notes (t + istep * 4)).b1 * 256 + (notes (t + istep * 4)).b2)
        (notes (t + istep * 4))) ∧
    (4 ≤ t → step_cell (load15_step notes istep) t = (0, 0, 0, 0)) := by
  have h := load_fold (fun n => (n.b3 / 16) &&& 15)
    (fun n => n.b1 * 256 + n.b2) (fun c => notes (c + istep * 4)) t
    (List.range 4) zero_step (List.nodup_range 4)
  constructor
  · intro ht
    exact h.2 (List.mem_range.mpr ht) rfl
  · intro ht
    have := h.1 (by simp; omega)
    exact this

theorem lut_build (v x : Nat) (hv : v < 16) (hx : x < 256) :
    lut build_volume_tables v x = some (volume_entry v x) := by
  simp [lut, build_volume_tables, List.getElem?_map, List.getElem?_range, hv, hx]

theorem volume_entry_full (x : Nat) (hx : x ≤ 254) : volume_entry 15 x = (x : Int) - 127 := by
  unfold volume_entry toSChar
  have h : Int.tdiv (((x : Int) - 127) * ((15 : Nat) : Int)) 15 = (x : Int) - 127 := by
    exact Int.mul_tdiv_cancel _ (by decide)
  rw [h]
  omega

theorem volume_entry_zero (x : Nat) : volume_entry 0 x = 0 := by
  simp [volume_entry, toSChar]

/-- C1 (counterexample).  The entry `volume_tables[15][255]` is the signed
byte -128, not 255 - 127 = 128. -/
theorem lut_identity_fails_at_255 :
    lut build_volume_tables 15 255 = some (-128) ∧ ((-128 : Int) ≠ (255 : Int) - 127) := by
  refine ⟨?_, by decide⟩
  rw [lut_build 15 255 (by decide) (by decide)]
  decide

/-- C1 (amended).  In the table built by `build_volume_tables`, read as the
signed bytes stored, `volume_tables[0][x] = 0` for every `x` in 0..255 and
`volume_tables[15][x] = x - 127` for every `x` in 0..254. -/
theorem lut_identity (x : Nat) (hx : x ≤ 255) :
    lut build_volume_tables 0 x = some 0 ∧
    (x ≤ 254 → lut build_volume_tables 15 x = some ((x : Int) - 127)) := by
  constructor
  · rw [lut_build 0 x (by decide) (by omega), volume_entry_zero]
  · intro h
    rw [lut_build 15 x (by decide) (by omega), volume_entry_full x h]

/-- C1 (witness). -/
theorem lut_identity_witness :
    (200 : Nat) ≤ 255 ∧ lut build_volume_tables 0 200 = some 0 ∧
    ((200 : Nat) ≤ 254 → lut build_volume_tables 15 200 = some (((200 : Nat) : Int) - 127)) :=
  ⟨by decide, lut_identity 200 (by decide)⟩

/-- C8 (counterexample).  A note with effect code 13 and parameter byte 5 is
stored as PATTERN_BREAK with parameter 0, in either layout. -/
theorem pattern_break_drops_parameter :
    (load31_step (fun _ => { b1 := 0, b2 := 0, b3 := 13, b4 := 5 }) 0).note_effect 0
      = SSS_EFFECT_PATTERN_BREAK ∧
    (load31_step (fun _ => { b1 := 0, b2 := 0, b3 := 13, b4 := 5 }) 0).note_eparam 0 = 0 ∧
    (load15_step (fun _ => { b1 := 0, b2 := 0, b3 := 13, b4 := 5 }) 0).note_effect 0
      = SSS_EFFECT_PATTERN_BREAK ∧
    (load15_step (fun _ => { b1 := 0, b2 := 0, b3 := 13, b4 := 5 }) 0).note_eparam 0 = 0 ∧
    (0 : Nat) ≠ 5 := by
  decide

/-- C8 (amended).  For every note of a pattern, in either layout, with
effect code `b3 & 0x0F`: the loader stores JUMP, SET_VOLUME or SET_TEMPO with
parameter `b4` for the codes 11, 12 and 15, PATTERN_BREAK with parameter 0 for
code 13, and NONE with parameter 0 for every other code. -/
theorem mod_effect_mapping (notes : Nat → NOTE_DESC) (istep t : Nat) (ht : t < 4) :
    ((load31_step notes istep).note_effect t =
        (if (notes (t + istep * 4)).b3 &&& 15 = 11 then SSS_EFFECT_JUMP
         else if (notes (t + istep * 4)).b3 &&& 15 = 12 then SSS_EFFECT_SET_VOLUME
         else if (notes (t + istep * 4)).b3 &&& 15 = 13 then SSS_EFFECT_PATTERN_BREAK
         else if (notes (t + istep * 4)).b3 &&& 15 = 15 then SSS_EFFECT_SET_TEMPO
         else SSS_EFFECT_NONE) ∧
      (load31_step notes istep).note_eparam t =
        (if (notes (t + istep * 4)).b3 &&& 15 = 11 ∨ (notes (t + istep * 4)).b3 &&& 15 = 12 ∨
            (notes (t + istep * 4)).b3 &&& 15 = 15 then (notes (t + istep * 4)).b4 else 0)) ∧
    ((load15_step notes istep).note_effect t =
        (if (notes (t + istep * 4)).b3 &&& 15 = 11 then SSS_EFFECT_JUMP
         else if (notes (t + istep * 4)).b3 &&& 15 = 12 then SSS_EFFECT_SET_VOLUME
         else if (notes (t + istep * 4)).b3 &&& 15 = 13 then SSS_EFFECT_PATTERN_BREAK
         else if (notes (t + istep * 4)).b3 &&& 15 = 15 then SSS_EFFECT_SET_TEMPO
         else SSS_EFFECT_NONE) ∧
      (load15_step notes istep).note_eparam t =
        (if (notes (t + istep * 4)).b3 &&& 15 = 11 ∨ (notes (t + istep * 4)).b3 &&& 15 = 12 ∨
            (notes (t + istep * 4)).b3 &&& 15 = 15 then (notes (t + istep * 4)).b4 else 0)) := by
  have h31 := (load31_step_cell notes istep t).1 ht
  have h15 := (load15_step_cell notes istep t).1 ht
  simp only [step_cell, decoded_cell, Prod.mk.injEq] at h31 h15
  exact ⟨⟨h31.2.2.1, h31.2.2.2⟩, ⟨h15.2.2.1, h15.2.2.2⟩⟩

/-- C8 (witness). -/
theorem mod_effect_mapping_witness :
    (load31_step (fun _ => { b1 := 0, b2 := 0, b3 := 11, b4 := 7 }) 0).note_effect 2
      = SSS_EFFECT_JUMP ∧
    (load31_step (fun _ => { b1 := 0, b2 := 0, b3 := 11, b4 := 7 }) 0).note_eparam 2 = 7 := by
  have h := (mod_effect_mapping (fun _ => { b1 := 0, b2 := 0, b3 := 11, b4 := 7 }) 0 2
    (by decide)).1
  exact ⟨h.1.trans (by decide), h.2.trans (by decide)⟩

theorem pitch_scaled (p : Nat) (hp : p ≤ 65535) : (p * 18) % W32 = 18 * p := by
  simp only [W32]; omega

/-- C7.  MOD note round trip.  For every track `t` of every step of a
pattern: a 31-instrument note written for instrument `i` in 1..31 and period
`p` in 1..4095 is loaded as `note_pitch = 18 p`, `note_sample = i - 1`; so is a
15-instrument note for `i` in 1..15 and `p` in 1..65535; a note written with
`i = 0` or `p = 0` is loaded with pitch 0; and the music channels from 4 on
are empty in every loaded step. -/
theorem mod_note_round_trip (notes : Nat → NOTE_DESC) (istep t : Nat) (ht : t < 4) :
    (∀ i p e a, 1 ≤ i → i ≤ 31 → 1 ≤ p → p ≤ 4095 → e ≤ 15 →
      notes (t + istep * 4) = spec_encode31 i p e a →
      (load31_step notes istep).note_pitch t = 18 * p ∧
      (load31_step notes istep).note_sample t = i - 1) ∧
    (∀ i p e a, 1 ≤ i → i ≤ 15 → 1 ≤ p → p ≤ 65535 → e ≤ 15 →
      notes (t + istep * 4) = spec_encode15 i p e a →
      (load15_step notes istep).note_pitch t = 18 * p ∧
      (load15_step notes istep).note_sample t = i - 1) ∧
    (∀ i p e a, i ≤ 31 → p ≤ 4095 → e ≤ 15 → i = 0 ∨ p = 0 →
      notes (t + istep * 4) = spec_encode31 i p e a →
      (load31_step notes istep).note_pitch t = 0) ∧
    (∀ i p e a, i ≤ 15 → p ≤ 65535 → e ≤ 15 → i = 0 ∨ p = 0 →
      notes (t + istep * 4) = spec_encode15 i p e a →
      (load15_step notes istep).note_pitch t = 0) ∧
    (∀ c, 4 ≤ c →
      step_cell (load31_step notes istep) c = (0, 0, 0, 0) ∧
      step_cell (load15_step notes istep) c = (0, 0, 0, 0)) := by
  have h31 := (load31_step_cell notes istep t).1 ht
  have h15 := (load15_step_cell notes istep t).1 ht
  simp only [step_cell, decoded_cell, Prod.mk.injEq] at h31 h15
  have hq : ∀ p, p ≤ 4095 → p >>> 8 < 16 := by
    intro p hp
    have : p >>> 8 = p / 256 := by simp [Nat.shiftRight_eq_div_pow]
    omega
  refine ⟨?_, ?_, ?_, ?_, ?_⟩
  · intro i p e a hi1 hi2 hp1 hp2 he hn
    rw [hn] at h31
    simp only [spec_encode31] at h31
    obtain ⟨hb1a, hb1b⟩ := bits_b1 i (by omega) (p >>> 8) (hq p hp2)
    obtain ⟨hb3a, hb3b⟩ := bits_b3 i (by omega) e (by omega)
    rw [hb1a, hb1b, hb3a, hb3b, bits_period] at h31
    rw [pitch_scaled p (by omega)] at h31
    have hc : 0 < i ∧ 0 < 18 * p := by constructor <;> omega
    rw [if_pos hc, if_pos hc] at h31
    exact ⟨h31.1, h31.2.1⟩
  · intro i p e a hi1 hi2 hp1 hp2 he hn
    rw [hn] at h15
    simp only [spec_encode15] at h15
    rw [bits_b3_old i (by omega) e (by omega), bits_period] at h15
    rw [pitch_scaled p (by omega)] at h15
    have hc : 0 < i ∧ 0 < 18 * p := by constructor <;> omega
    rw [if_pos hc, if_pos hc] at h15
    exact ⟨h15.1, h15.2.1⟩
  · intro i p e a hi2 hp2 he hz hn
    rw [hn] at h31
    simp only [spec_encode31] at h31
    obtain ⟨hb1a, hb1b⟩ := bits_b1 i (by omega) (p >>> 8) (hq p hp2)
    obtain ⟨hb3a, hb3b⟩ := bits_b3 i (by omega) e (by omega)
    rw [hb1a, hb1b, hb3a, hb3b, bits_period] at h31
    rw [pitch_scaled p (by omega)] at h31
    have hc : ¬ (0 < i ∧ 0 < 18 * p) := by omega
    rw [if_neg hc] at h31
    exact h31.1
  · intro i p e a hi2 hp2 he hz hn
    rw [hn] at h15
    simp only [spec_encode15] at h15
    rw [bits_b3_old i (by omega) e (by omega), bits_period] at h15
    rw [pitch_scaled p (by omega)] at h15
    have hc : ¬ (0 < i ∧ 0 < 18 * p) := by omega
    rw [if_neg hc] at h15
    exact h15.1
  · intro c hc
    exact ⟨(load31_step_cell notes istep c).2 hc, (load15_step_cell notes istep c).2 hc⟩

/-- C7 (witness). -/
theorem mod_note_round_trip_witness :
    (load31_step (fun _ => spec_encode31 17 428 12 40) 5).note_pitch 1 = 18 * 428 ∧
    (load31_step (fun _ => spec_encode31 17 428 12 40) 5).note_sample 1 = 17 - 1 :=
  (mod_note_round_trip (fun _ => spec_encode31 17 428 12 40) 5 1 (by decide)).1
    17 428 12 40 (by decide) (by decide) (by decide) (by decide) (by decide) rfl

theorem upd_self {α : Type} (f : Nat → α) (i : Nat) : upd f i (f i) = f := by
  funext j
  by_cases h : j = i
  · simp [upd, h]
  · simp [upd, h]

theorem OnlyChan.chan_refl (s : Engine) : OnlyChan s s := ⟨s.chan, rfl⟩

theorem OnlyChan.chan_trans {s s1 s2 : Engine} (h1 : OnlyChan s s1) (h2 : OnlyChan s1 s2) :
    OnlyChan s s2 := by
  obtain ⟨f, rfl⟩ := h1
  obtain ⟨g, rfl⟩ := h2
  exact ⟨g, rfl⟩

theorem OnlyChan.toSong {s s1 : Engine} (h : OnlyChan s s1) : OnlySong s s1 := by
  obtain ⟨f, rfl⟩ := h
  exact ⟨f, s.song, s.song_counter, rfl⟩

theorem OnlySong.song_refl (s : Engine) : OnlySong s s := ⟨s.chan, s.song, s.song_counter, rfl⟩

theorem OnlySong.song_trans {s s1 s2 : Engine} (h1 : OnlySong s s1) (h2 : OnlySong s1 s2) :
    OnlySong s s2 := by
  obtain ⟨f, g, n, rfl⟩ := h1
  obtain ⟨f2, g2, n2, rfl⟩ := h2
  exact ⟨f2, g2, n2, rfl⟩

/-! ### Channel operations -/

theorem sss_channel_stop_only (s : Engine) (ch : Nat) : OnlyChan s (sss_channel_stop s ch) := by
  unfold sss_channel_stop
  split_ifs
  · exact OnlyChan.chan_refl s
  · exact OnlyChan.chan_refl s
  · exact ⟨_, rfl⟩

theorem sss_channel_stop_ok (s : Engine) (ch : Nat) (h : ChansOK s) :
    ChansOK (sss_channel_stop s ch) := by
  unfold sss_channel_stop
  split_ifs
  · exact h
  · exact h
  · intro c hc
    by_cases e : c = ch
    · subst e
      simp only [upd_same]
      have := h c hc
      exact ⟨this.1, this.2.1, fun hne => absurd rfl hne⟩
    · simp only [upd_other _ _ _ _ e]
      exact h c hc

theorem sss_channel_pan_set_only (s : Engine) (ch pan : Nat) :
    OnlyChan s (sss_channel_pan_set s ch pan) := by
  unfold sss_channel_pan_set
  split_ifs
  · exact OnlyChan.chan_refl s
  · exact OnlyChan.chan_refl s
  · exact OnlyChan.chan_refl s
  · exact ⟨_, rfl⟩

theorem sss_channel_pan_set_ok (s : Engine) (ch pan : Nat) (h : ChansOK s) :
    ChansOK (sss_channel_pan_set s ch pan) := by
  unfold sss_channel_pan_set
  split_ifs with h1 h2 h3
  · exact h
  · exact h
  · exact h
  · intro c hc
    by_cases e : c = ch
    · subst e
      simp only [upd_same]
      have := h c hc
      refine ⟨?_, this.2.1, this.2.2⟩
      simp only [SSS_PAN_LEFT, SSS_PAN_RIGHT, SSS_MAX_VOLUME] at h3
      show pan ≤ 15
      omega
    · simp only [upd_other _ _ _ _ e]
      exact h c hc

theorem volume_row_le (v : Nat) : volume_row v ≤ 15 := by
  unfold volume_row
  simp only [SSS_MAX_VOLUME]
  split_ifs <;> omega

theorem sss_channel_volume_only (s : Engine) (ch v : Nat) :
    OnlyChan s (sss_channel_volume s ch v) := by
  unfold sss_channel_volume
  split_ifs
  · exact OnlyChan.chan_refl s
  · exact OnlyChan.chan_refl s
  · exact ⟨_, rfl⟩

theorem sss_channel_volume_ok (s : Engine) (ch v : Nat) (h : ChansOK s) :
    ChansOK (sss_channel_volume s ch v) := by
  unfold sss_channel_volume
  split_ifs with h1 h2
  · exact h
  · exact h
  · intro c hc
    by_cases e : c = ch
    · subst e
      simp only [upd_same]
      have := h c hc
      exact ⟨this.1, volume_row_le v, this.2.2⟩
    · simp only [upd_other _ _ _ _ e]
      exact h c hc

theorem sss_sample_play_only (s : Engine) (ch hsmp pitch : Nat) :
    OnlyChan s (sss_sample_play s ch hsmp pitch) := by
  unfold sss_sample_play
  split_ifs
  · exact OnlyChan.chan_refl s
  · exact OnlyChan.chan_refl s
  · exact OnlyChan.chan_refl s
  · exact ⟨_, rfl⟩

theorem play_chan_ok (c : CHANNEL_DESC) (hsmp : Nat) (vsize : Int) (h : ChanOK c)
    (hh : hsmp < SSS_MAX_SAMPLES) : ChanOK (play_chan c hsmp vsize) := by
  unfold play_chan
  split_ifs with h4
  · exact ⟨h.1, h.2.1, fun hne => absurd rfl hne⟩
  · exact ⟨h.1, h.2.1, fun _ => ⟨hh, by simp only; omega⟩⟩

theorem sss_sample_play_ok (s : Engine) (ch hsmp pitch : Nat) (h : ChansOK s) :
    ChansOK (sss_sample_play s ch hsmp pitch) := by
  unfold sss_sample_play
  split_ifs with h1 h2 h3
  · exact h
  · exact h
  · exact h
  · intro c hc
    by_cases e : c = ch
    · subst e
      simp only [upd_same]
      simp only [not_or] at h3
      exact play_chan_ok _ _ _ (h c hc) (by omega)
    · simp only [upd_other _ _ _ _ e]
      exact h c hc

theorem StepOK.step_refl (s : Engine) : StepOK s s := ⟨OnlySong.song_refl s, id⟩

theorem StepOK.step_trans {s s1 s2 : Engine} (h1 : StepOK s s1) (h2 : StepOK s1 s2) : StepOK s s2 :=
  ⟨h1.1.song_trans h2.1, fun h => h2.2 (h1.2 h)⟩

theorem StepOK.of_chan {s s1 : Engine} (h1 : OnlyChan s s1) (h2 : ChansOK s → ChansOK s1) :
    StepOK s s1 := ⟨h1.toSong, h2⟩

/-- A change of the song descriptor and the song counter alone. -/
theorem StepOK.song (s : Engine) (g : MUSICSONG_DESC) (n : Nat) :
    StepOK s { s with song := g, song_counter := n } :=
  ⟨⟨s.chan, g, n, rfl⟩, id⟩

theorem StepOK.song_only (s : Engine) (g : MUSICSONG_DESC) :
    StepOK s { s with song := g } :=
  ⟨⟨s.chan, g, s.song_counter, rfl⟩, id⟩

theorem StepOK.counter (s : Engine) (n : Nat) :
    StepOK s { s with song_counter := n } :=
  ⟨⟨s.chan, s.song, n, rfl⟩, id⟩

theorem sss_channel_stop_step (s : Engine) (ch : Nat) : StepOK s (sss_channel_stop s ch) :=
  StepOK.of_chan (sss_channel_stop_only s ch) (sss_channel_stop_ok s ch)

theorem sss_channel_pan_set_step (s : Engine) (ch pan : Nat) :
    StepOK s (sss_channel_pan_set s ch pan) :=
  StepOK.of_chan (sss_channel_pan_set_only s ch pan) (sss_channel_pan_set_ok s ch pan)

theorem sss_channel_volume_step (s : Engine) (ch v : Nat) :
    StepOK s (sss_channel_volume s ch v) :=
  StepOK.of_chan (sss_channel_volume_only s ch v) (sss_channel_volume_ok s ch v)

theorem sss_sample_play_step (s : Engine) (ch hsmp pitch : Nat) :
    StepOK s (sss_sample_play s ch hsmp pitch) :=
  StepOK.of_chan (sss_sample_play_only s ch hsmp pitch) (sss_sample_play_ok s ch hsmp pitch)

theorem music_stop_channels_step (l : List Nat) : ∀ s : Engine, StepOK s (music_stop_channels s l) := by
  induction l with
  | nil => intro s; exact StepOK.step_refl s
  | cons u us ih =>
    intro s
    exact (sss_channel_stop_step s _).step_trans (ih _)

theorem music_stop_step (s : Engine) : StepOK s (music_stop s) := by
  unfold music_stop
  exact (music_stop_channels_step _ s).step_trans (StepOK.song _ _ _)

theorem music_play_pans_step (l : List Nat) : ∀ s : Engine, StepOK s (music_play_pans s l) := by
  induction l with
  | nil => intro s; exact StepOK.step_refl s
  | cons u us ih =>
    intro s
    exact (sss_channel_pan_set_step s _ _).step_trans (ih _)

theorem music_play_step (s : Engine) : StepOK s (music_play s) := by
  unfold music_play
  split_ifs
  · exact StepOK.step_refl s
  · exact StepOK.song_only _ _
  · exact StepOK.step_refl s
  · exact ((music_stop_step s).step_trans (music_play_pans_step _ _)).step_trans (StepOK.song _ _ _)

theorem sss_music_command_step (s : Engine) (cmd : Nat) : StepOK s (sss_music_command s cmd) := by
  unfold sss_music_command
  split_ifs
  · exact StepOK.step_refl s
  · exact StepOK.step_refl s
  · exact music_play_step s
  · exact StepOK.step_refl s
  · exact music_stop_step s
  · exact StepOK.step_refl s
  · exact (StepOK.song_only s _).step_trans (music_stop_channels_step _ _)
  · exact StepOK.step_refl s
  · exact StepOK.song_only _ _
  · exact StepOK.step_refl s
  · exact StepOK.song_only _ _
  · exact StepOK.step_refl s

/-! ### The sequencer -/

theorem music_poll_note_step (step : SSS_STEP_DESC) (s s1 : Engine) (c : Nat)
    (h : music_poll_note step s c = some s1) : StepOK s s1 := by
  unfold music_poll_note at h
  split_ifs at h with hp
  · split at h
    · exact absurd h (by simp)
    · simp only [Option.some.injEq] at h
      subst h
      exact (sss_sample_play_step _ _ _ _).step_trans (sss_channel_volume_step _ _ _)
  · simp only [Option.some.injEq] at h
    subst h
    exact StepOK.step_refl s

theorem music_poll_effect_step (step : SSS_STEP_DESC) (s : Engine) (c : Nat) :
    StepOK s (music_poll_effect step s c).1 := by
  unfold music_poll_effect
  split_ifs
  · exact StepOK.song_only _ _
  · exact StepOK.song_only _ _
  · exact StepOK.song_only _ _
  · exact StepOK.step_refl s
  · exact sss_channel_volume_step _ _ _
  · exact StepOK.step_refl s

theorem music_poll_channel_step (step : SSS_STEP_DESC) (s s1 : Engine) (c : Nat) (b : Bool)
    (h : music_poll_channel step s c = some (s1, b)) : StepOK s s1 := by
  unfold music_poll_channel at h
  split at h
  · exact absurd h (by simp)
  · rename_i s0 h0
    simp only [Option.some.injEq] at h
    have e : s1 = (music_poll_effect step s0 c).1 := by rw [h]
    rw [e]
    exact (music_poll_note_step step s s0 c h0).step_trans (music_poll_effect_step step s0 c)

theorem music_poll_channels_step (step : SSS_STEP_DESC) (l : List Nat) :
    ∀ s s1 : Engine, music_poll_channels step s l = some s1 → StepOK s s1 := by
  induction l with
  | nil =>
    intro s s1 h
    simp only [music_poll_channels, Option.some.injEq] at h
    subst h
    exact StepOK.step_refl s
  | cons c cs ih =>
    intro s s1 h
    simp only [music_poll_channels] at h
    split at h
    · exact absurd h (by simp)
    · rename_i s2 h2
      simp only [Option.some.injEq] at h
      subst h
      exact music_poll_channel_step step s _ c true h2
    · rename_i s2 h2
      exact (music_poll_channel_step step s s2 c false h2).step_trans (ih s2 s1 h)

theorem music_poll_advance_step (s s1 : Engine) (h : music_poll_advance s = some s1) :
    StepOK s s1 := by
  unfold music_poll_advance at h
  simp only at h
  split at h
  · exact absurd h (by simp)
  · split at h
    · exact absurd h (by simp)
    · split_ifs at h <;> simp only [Option.some.injEq] at h <;> subst h
      · exact StepOK.song _ _ _
      · exact StepOK.song_only _ _
      · exact StepOK.song _ _ _
      · exact StepOK.song_only _ _

theorem music_poll_step_step (s s1 : Engine) (h : music_poll_step s = some s1) : StepOK s s1 := by
  unfold music_poll_step at h
  split at h
  · exact absurd h (by simp)
  · simp only at h
    split at h
    · exact absurd h (by simp)
    · split at h
      · exact absurd h (by simp)
      · split at h
        · exact absurd h (by simp)
        · split at h
          · exact absurd h (by simp)
          · rename_i s2 h2
            exact ((StepOK.song_only s _).step_trans (music_poll_channels_step _ _ _ _ h2)).step_trans
              (music_poll_advance_step _ _ h)

theorem music_poll_loop_step (songp : Nat) (fuel : Nat) :
    ∀ s s1 : Engine, music_poll_loop fuel songp s = Outcome.done s1 → StepOK s s1 := by
  induction fuel with
  | zero =>
    intro s s1 h
    simp only [music_poll_loop] at h
    split_ifs at h
    simp only [Outcome.done.injEq] at h
    subst h
    exact StepOK.step_refl s
  | succ n ih =>
    intro s s1 h
    simp only [music_poll_loop] at h
    split_ifs at h
    · split at h
      · exact absurd h (by simp)
      · rename_i s2 h2
        exact (music_poll_step_step s s2 h2).step_trans (ih s2 s1 h)
    · simp only [Outcome.done.injEq] at h
      subst h
      exact StepOK.step_refl s

theorem music_poll_ok (fuel : Nat) (s s1 : Engine) (songp : Nat)
    (h : music_poll fuel s songp = Outcome.done s1) : StepOK s s1 := by
  unfold music_poll at h
  split_ifs at h
  · simp only [Outcome.done.injEq] at h
    subst h
    exact StepOK.step_refl s
  · exact music_poll_loop_step songp fuel s s1 h

theorem MixOK.mix_refl (s : Engine) : MixOK s s :=
  ⟨⟨s.chan, s.song, s.song_counter, s.buffers, rfl, fun _ => rfl⟩, id⟩

theorem MixOK.mix_trans {s s1 s2 : Engine} (h1 : MixOK s s1) (h2 : MixOK s1 s2) : MixOK s s2 := by
  obtain ⟨⟨f, g, n, b, rfl, hb⟩, hc⟩ := h1
  obtain ⟨⟨f2, g2, n2, b2, rfl, hb2⟩, hc2⟩ := h2
  exact ⟨⟨f2, g2, n2, b2, rfl, fun u => (hb2 u).trans (hb u)⟩, fun h => hc2 (hc h)⟩

theorem StepOK.toMix {s s1 : Engine} (h : StepOK s s1) : MixOK s s1 := by
  obtain ⟨⟨f, g, n, rfl⟩, hc⟩ := h
  exact ⟨⟨f, g, n, s.buffers, rfl, fun _ => rfl⟩, hc⟩

theorem volume_entry_range (v x : Nat) : -128 ≤ volume_entry v x ∧ volume_entry v x ≤ 127 := by
  unfold volume_entry toSChar
  omega

theorem toSChar_range (b : Int) : 0 ≤ toSChar b + 128 ∧ toSChar b + 128 < 256 := by
  unfold toSChar
  omega

theorem lutI_build (v : Nat) (i : Int) (hv : v < 16) (h0 : 0 ≤ i) (h1 : i < 256) :
    lutI build_volume_tables v i = some (volume_entry v i.toNat) := by
  unfold lutI
  rw [if_neg (by omega)]
  exact lut_build v i.toNat hv (by omega)

theorem toUInt_pan (p : Nat) (hp : p ≤ 15) :
    toUInt ((SSS_MAX_VOLUME : Int) - 1 - p) = 15 - p := by
  unfold toUInt
  simp only [SSS_MAX_VOLUME]
  omega

/-- On a consistent channel that plays a consistent sample, with the volume
tables built, the body of the channel loop runs without fault and leaves a
consistent channel. -/
theorem mix_voice_ok (st : Nat) (psample : SAMPLE_DESC) (c : CHANNEL_DESC) (acc : Int × Int)
    (hs : SampleOK psample) (hc : ChanOK c) (hb : c.isample ≠ IDLE) :
    ∃ c1 acc1, mix_voice build_volume_tables st psample c acc = some (c1, acc1) ∧ ChanOK c1 := by
  obtain ⟨hpan, hvol, hbusy⟩ := hc
  obtain ⟨hlt, hvs⟩ := hbusy hb
  unfold mix_voice
  rw [if_neg (by omega)]
  by_cases hend : mix_at_end psample (mix_offset psample c)
  · rw [if_pos hend]
    split_ifs
    · exact ⟨_, _, rfl, hpan, hvol, fun _ => ⟨hlt, hvs⟩⟩
    · exact ⟨_, _, rfl, hpan, hvol, fun hne => absurd rfl hne⟩
  · rw [if_neg hend]
    have hoff : mix_offset psample c < psample.size := by
      unfold mix_at_end at hend
      omega
    cases hd : psample.data with
    | none => have := hs.1 hd; omega
    | some d =>
      simp only
      have hlen := hs.2 d hd
      have hin : mix_offset psample c < d.length := by omega
      have hget : d[mix_offset psample c]? = some d[mix_offset psample c] :=
        List.getElem?_eq_getElem hin
      rw [hget]
      simp only
      obtain ⟨r0, r1⟩ := toSChar_range d[mix_offset psample c]
      rw [lutI_build c.volume _ (by omega) r0 r1]
      simp only
      obtain ⟨e0, e1⟩ := volume_entry_range c.volume (toSChar d[mix_offset psample c] + 128).toNat
      split_ifs
      · rw [toUInt_pan c.pan_pos hpan, lutI_build (15 - c.pan_pos) _ (by omega) (by omega) (by omega),
          lutI_build c.pan_pos _ (by omega) (by omega) (by omega)]
        exact ⟨_, _, rfl, hpan, hvol, fun _ => ⟨hlt, hvs⟩⟩
      · exact ⟨_, _, rfl, hpan, hvol, fun _ => ⟨hlt, hvs⟩⟩

/-- The three ways the body of the channel loop of `mix` can end: the loop
restart, the end of a sample, or a byte merged into the mix. -/
theorem mix_voice_cases (tables : List (List Int)) (st : Nat) (psample : SAMPLE_DESC)
    (c c1 : CHANNEL_DESC) (acc acc1 : Int × Int)
    (h : mix_voice tables st psample c acc = some (c1, acc1)) :
    c.vsize ≠ 0 ∧
    ((mix_at_end psample (mix_offset psample c) ∧ psample.loop_size > 2 ∧
        c1 = { c with voffset := toLong psample.loop_start } ∧ acc1 = acc) ∨
     (mix_at_end psample (mix_offset psample c) ∧ ¬ psample.loop_size > 2 ∧
        c1 = { c with isample := IDLE, voffset := 0, vsize := 0 } ∧ acc1 = acc) ∨
     (¬ mix_at_end psample (mix_offset psample c) ∧
        c1 = { c with voffset := toLong (c.voffset + 1) } ∧
        ∃ d b ival, psample.data = some d ∧ d[mix_offset psample c]? = some b ∧
          lutI tables c.volume (toSChar b + 128) = some ival ∧
          ((st ≠ 0 ∧ ∃ l r,
              lutI tables (toUInt ((SSS_MAX_VOLUME : Int) - 1 - c.pan_pos)) (ival + 128) = some l ∧
              lutI tables c.pan_pos (ival + 128) = some r ∧ acc1 = (acc.1 + l, acc.2 + r)) ∨
           (st = 0 ∧ acc1 = (acc.1 + ival, acc.2))))) := by
  unfold mix_voice at h
  by_cases h1 : c.vsize = 0
  · rw [if_pos h1] at h
    exact absurd h (by simp)
  rw [if_neg h1] at h
  refine ⟨h1, ?_⟩
  by_cases h2 : mix_at_end psample (mix_offset psample c)
  · rw [if_pos h2] at h
    by_cases h3 : psample.loop_size > 2
    · rw [if_pos h3] at h
      simp only [Option.some.injEq, Prod.mk.injEq] at h
      exact Or.inl ⟨h2, h3, h.1.symm, h.2.symm⟩
    · rw [if_neg h3] at h
      simp only [Option.some.injEq, Prod.mk.injEq] at h
      exact Or.inr (Or.inl ⟨h2, h3, h.1.symm, h.2.symm⟩)
  · rw [if_neg h2] at h
    refine Or.inr (Or.inr ⟨h2, ?_⟩)
    cases hd : psample.data with
    | none => rw [hd] at h; exact absurd h (by simp)
    | some d =>
      rw [hd] at h
      simp only at h
      cases hb : d[mix_offset psample c]? with
      | none => rw [hb] at h; exact absurd h (by simp)
      | some b =>
        rw [hb] at h
        simp only at h
        cases hi : lutI tables c.volume (toSChar b + 128) with
        | none => rw [hi] at h; exact absurd h (by simp)
        | some ival =>
          rw [hi] at h
          simp only at h
          by_cases hst : st ≠ 0
          · rw [if_pos hst] at h
            cases hl : lutI tables (toUInt ((SSS_MAX_VOLUME : Int) - 1 - c.pan_pos)) (ival + 128) with
            | none => rw [hl] at h; exact absurd h (by simp)
            | some l =>
              rw [hl] at h
              simp only at h
              cases hr : lutI tables c.pan_pos (ival + 128) with
              | none => rw [hr] at h; exact absurd h (by simp)
              | some r =>
                rw [hr] at h
                simp only [Option.some.injEq, Prod.mk.injEq] at h
                exact ⟨h.1.symm, d, b, ival, rfl, hb, hi,
                  Or.inl ⟨hst, l, r, hl, hr, by rw [← h.2]⟩⟩
          · rw [if_neg hst] at h
            simp only [Option.some.injEq, Prod.mk.injEq] at h
            exact ⟨h.1.symm, d, b, ival, rfl, hb, hi,
              Or.inr ⟨by simpa using hst, by rw [← h.2]⟩⟩

/-- Whatever the body of the channel loop returns, it keeps a consistent
channel consistent. -/
theorem mix_voice_keeps (tables : List (List Int)) (st : Nat) (psample : SAMPLE_DESC)
    (c c1 : CHANNEL_DESC) (acc acc1 : Int × Int)
    (h : mix_voice tables st psample c acc = some (c1, acc1)) (hc : ChanOK c) : ChanOK c1 := by
  obtain ⟨hpan, hvol, hbusy⟩ := hc
  obtain ⟨_, hcase⟩ := mix_voice_cases _ _ _ _ _ _ _ h
  rcases hcase with ⟨_, _, rfl, _⟩ | ⟨_, _, rfl, _⟩ | ⟨_, rfl, _⟩
  · exact ⟨hpan, hvol, hbusy⟩
  · exact ⟨hpan, hvol, fun hne => absurd rfl hne⟩
  · exact ⟨hpan, hvol, hbusy⟩

theorem ChansOK.upd {s : Engine} (h : ChansOK s) (ch : Nat) (c1 : CHANNEL_DESC)
    (hc : ch < SSS_MAX_CHANNELS → ChanOK c1) : ChansOK { s with chan := upd s.chan ch c1 } := by
  intro c hlt
  by_cases e : c = ch
  · subst e
    simp only [upd_same]
    exact hc hlt
  · simp only [upd_other _ _ _ _ e]
    exact h c hlt

theorem mix_channel_only (s s1 : Engine) (acc acc1 : Int × Int) (ch : Nat)
    (h : mix_channel s acc ch = some (s1, acc1)) :
    OnlyChan s s1 ∧ (ChansOK s → ChansOK s1) := by
  unfold mix_channel at h
  split_ifs at h with hi
  · simp only [Option.some.injEq, Prod.mk.injEq] at h
    obtain ⟨rfl, _⟩ := h
    exact ⟨OnlyChan.chan_refl _, id⟩
  · split at h
    · exact absurd h (by simp)
    · rename_i c1 a1 hv
      simp only [Option.some.injEq, Prod.mk.injEq] at h
      obtain ⟨rfl, _⟩ := h
      refine ⟨⟨_, rfl⟩, fun hok => hok.upd ch c1 (fun hlt => ?_)⟩
      exact mix_voice_keeps _ _ _ _ _ _ _ hv (hok ch hlt)

theorem mix_channels_only (l : List Nat) : ∀ (s s1 : Engine) (acc acc1 : Int × Int),
    mix_channels s acc l = some (s1, acc1) → OnlyChan s s1 ∧ (ChansOK s → ChansOK s1) := by
  induction l with
  | nil =>
    intro s s1 acc acc1 h
    simp only [mix_channels, Option.some.injEq, Prod.mk.injEq] at h
    obtain ⟨rfl, _⟩ := h
    exact ⟨OnlyChan.chan_refl _, id⟩
  | cons c cs ih =>
    intro s s1 acc acc1 h
    simp only [mix_channels] at h
    split at h
    · exact absurd h (by simp)
    · rename_i s2 a2 h2
      obtain ⟨o1, k1⟩ := mix_channel_only s s2 acc a2 c h2
      obtain ⟨o2, k2⟩ := ih s2 s1 a2 acc1 h
      exact ⟨o1.chan_trans o2, fun hok => k2 (k1 hok)⟩

theorem buffer_put_length (buf buf1 : List Nat) (i v : Nat) (h : buffer_put buf i v = some buf1) :
    buf1.length = buf.length := by
  unfold buffer_put at h
  split_ifs at h
  simp only [Option.some.injEq] at h
  subst h
  simp

theorem upd_length (b : Nat → List Nat) (i : Nat) (buf : List Nat)
    (h : buf.length = (b i).length) : ∀ u, (upd b i buf u).length = (b u).length := by
  intro u
  by_cases e : u = i
  · subst e; simp only [upd_same]; exact h
  · simp only [upd_other _ _ _ _ e]

theorem mix_output_ok (s s1 : Engine) (u : Nat) (h : mix_output s u = some s1) : MixOK s s1 := by
  unfold mix_output at h
  split at h
  · exact absurd h (by simp)
  · rename_i s2 l r h2
    obtain ⟨⟨f, rfl⟩, k⟩ := mix_channels_only _ _ _ _ _ h2
    split at h
    · exact absurd h (by simp)
    · rename_i buf1 hb1
      have l1 := buffer_put_length _ _ _ _ hb1
      split_ifs at h
      · split at h
        · exact absurd h (by simp)
        · rename_i buf2 hb2
          have l2 := buffer_put_length _ _ _ _ hb2
          simp only [Option.some.injEq] at h
          subst h
          exact ⟨⟨f, s.song, s.song_counter, _, rfl, upd_length _ _ _ (l2.trans l1)⟩, k⟩
      · simp only [Option.some.injEq] at h
        subst h
        exact ⟨⟨f, s.song, s.song_counter, _, rfl, upd_length _ _ _ l1⟩, k⟩

theorem mix_poll_ok (fuel : Nat) (s s1 : Engine) (u : Nat)
    (h : mix_poll fuel s u = Outcome.done s1) : StepOK s s1 := by
  unfold mix_poll at h
  split_ifs at h
  · exact music_poll_ok _ _ _ _ h
  · exact music_poll_ok _ _ _ _ h
  · simp only [Outcome.done.injEq] at h
    subst h
    exact StepOK.step_refl s

theorem mix_frame_ok (fuel : Nat) (s s1 : Engine) (u : Nat)
    (h : mix_frame fuel s u = Outcome.done s1) : MixOK s s1 := by
  unfold mix_frame at h
  split at h
  · rename_i s2 h2
    split at h
    · exact absurd h (by simp)
    · rename_i s3 h3
      simp only [Outcome.done.injEq] at h
      subst h
      exact (mix_poll_ok _ _ _ _ h2).toMix.mix_trans (mix_output_ok _ _ _ h3)
  · exact absurd h (by simp)
  · exact absurd h (by simp)

theorem mix_frames_ok (fuel : Nat) (n : Nat) : ∀ (u : Nat) (s s1 : Engine),
    mix_frames fuel n u s = Outcome.done s1 → MixOK s s1 := by
  induction n with
  | zero =>
    intro u s s1 h
    simp only [mix_frames, Outcome.done.injEq] at h
    subst h
    exact MixOK.mix_refl s
  | succ n ih =>
    intro u s s1 h
    simp only [mix_frames] at h
    split at h
    · rename_i s2 h2
      exact (mix_frame_ok _ _ _ _ h2).mix_trans (ih _ _ _ h)
    · exact absurd h (by simp)
    · exact absurd h (by simp)

theorem mix_advance_ok (s : Engine) : StepOK s (mix_advance s) := by
  unfold mix_advance
  split_ifs
  · exact StepOK.counter _ _
  · exact StepOK.counter _ _
  · exact StepOK.song _ _ _
  · exact music_stop_step s
  · exact StepOK.step_refl s

theorem mix_ok (fuel : Nat) (s s1 : Engine) (h : mix fuel s = Outcome.done s1) : MixOK s s1 := by
  unfold mix at h
  split at h
  · rename_i s2 h2
    simp only [Outcome.done.injEq] at h
    subst h
    exact (mix_frames_ok _ _ _ _ _ h2).mix_trans (mix_advance_ok _).toMix
  · exact absurd h (by simp)
  · exact absurd h (by simp)

theorem EngineOK.mix {s s1 : Engine} (h : EngineOK s) (hm : MixOK s s1) : EngineOK s1 := by
  obtain ⟨⟨f, g, n, b, rfl, hb⟩, hc⟩ := hm
  refine ⟨h.1, fun hi => ?_⟩
  obtain ⟨ht, hf, hch⟩ := h.2 hi
  refine ⟨ht, ?_, hc hch⟩
  obtain ⟨f1, f2, f3, f4, f5⟩ := hf
  exact ⟨f1, f2, f3, fun u hu => (hb u).trans (f4 u hu), f5⟩

theorem EngineOK.step {s s1 : Engine} (h : EngineOK s) (hm : StepOK s s1) : EngineOK s1 :=
  h.mix hm.toMix

theorem StoreOK.store_refl (s : Engine) : StoreOK s s :=
  ⟨⟨s.chan, s.song, s.song_counter, s.samples, rfl, id⟩, id⟩

theorem StoreOK.store_trans {s s1 s2 : Engine} (h1 : StoreOK s s1) (h2 : StoreOK s1 s2) :
    StoreOK s s2 := by
  obtain ⟨⟨f, g, n, m, rfl, hm⟩, hc⟩ := h1
  obtain ⟨⟨f2, g2, n2, m2, rfl, hm2⟩, hc2⟩ := h2
  exact ⟨⟨f2, g2, n2, m2, rfl, fun h => hm2 (hm h)⟩, fun h => hc2 (hc h)⟩

theorem StepOK.toStore {s s1 : Engine} (h : StepOK s s1) : StoreOK s s1 := by
  obtain ⟨⟨f, g, n, rfl⟩, hc⟩ := h
  exact ⟨⟨f, g, n, s.samples, rfl, id⟩, hc⟩

theorem EngineOK.store {s s1 : Engine} (h : EngineOK s) (hm : StoreOK s s1) : EngineOK s1 := by
  obtain ⟨⟨f, g, n, m, rfl, hs⟩, hc⟩ := hm
  refine ⟨hs h.1, fun hi => ?_⟩
  obtain ⟨ht, hf, hch⟩ := h.2 hi
  exact ⟨ht, hf, hc hch⟩

/-- A change of the sample descriptor `u` alone. -/
theorem StoreOK.sample (s : Engine) (u : Nat) (smp : SAMPLE_DESC) (h : SampleOK smp) :
    StoreOK s { s with samples := upd s.samples u smp } := by
  refine ⟨⟨s.chan, s.song, s.song_counter, _, rfl, fun hs j => ?_⟩, id⟩
  by_cases e : j = u
  · subst e; simp only [upd_same]; exact h
  · simp only [upd_other _ _ _ _ e]; exact hs j

theorem stored_sample_ok (data : List Int) (size loopbeg loopsiz smprate center : Nat)
    (h : ¬ data.length < size) :
    SampleOK { data := some (if center ≠ 0 then (data.take size).map (fun b => toSChar (b - 128))
                 else data.take size),
               size := size, smprate := smprate, loop_start := loopbeg, loop_size := loopsiz } := by
  refine ⟨fun hn => absurd hn (by simp), fun d hd => ?_⟩
  simp only [Option.some.injEq] at hd
  subst hd
  by_cases hc : center ≠ 0
  · rw [if_pos hc]; simp only [List.length_map, List.length_take]; omega
  · rw [if_neg hc]; simp only [List.length_take]; omega

theorem sss_sample_add_store (s s1 : Engine) (data : List Int)
    (size loopbeg loopsiz smprate center r : Nat)
    (h : sss_sample_add s data size loopbeg loopsiz smprate center = some (s1, r)) :
    StoreOK s s1 := by
  unfold sss_sample_add at h
  by_cases h1 : (!s.initialized) = true
  · rw [if_pos h1] at h
    simp only [Option.some.injEq, Prod.mk.injEq] at h
    obtain ⟨rfl, _⟩ := h
    exact StoreOK.store_refl s
  rw [if_neg h1] at h
  simp only at h
  by_cases h2 : find_free_sample s SSS_MAX_SAMPLES 0 ≥ SSS_MAX_SAMPLES
  · rw [if_pos h2] at h
    simp only [Option.some.injEq, Prod.mk.injEq] at h
    obtain ⟨rfl, _⟩ := h
    exact StoreOK.store_refl s
  rw [if_neg h2] at h
  by_cases h3 : data.length < size
  · rw [if_pos h3] at h
    exact absurd h (by simp)
  rw [if_neg h3] at h
  simp only [Option.some.injEq, Prod.mk.injEq] at h
  obtain ⟨rfl, _⟩ := h
  exact StoreOK.sample s _ _ (stored_sample_ok data size loopbeg loopsiz smprate center h3)

theorem sss_sample_delete_store (s : Engine) (hsmp : Nat) : StoreOK s (sss_sample_delete s hsmp) := by
  unfold sss_sample_delete
  split_ifs
  · exact StoreOK.store_refl s
  · exact StoreOK.store_refl s
  · exact StoreOK.store_refl s
  · apply StoreOK.sample
    exact ⟨fun _ => rfl, fun d hd => absurd hd (by simp)⟩

theorem flush_samples_store (l : List Nat) : ∀ s s1 : Engine,
    flush_samples s l = some s1 → StoreOK s s1 := by
  induction l with
  | nil =>
    intro s s1 h
    simp only [flush_samples, Option.some.injEq] at h
    subst h
    exact StoreOK.store_refl s
  | cons u us ih =>
    intro s s1 h
    simp only [flush_samples] at h
    split at h
    · exact absurd h (by simp)
    · exact (sss_sample_delete_store s _).store_trans (ih _ _ h)

theorem sss_music_flush_store (s s1 : Engine) (h : sss_music_flush s = some s1) : StoreOK s s1 := by
  unfold sss_music_flush at h
  split_ifs at h
  · simp only [Option.some.injEq] at h; subst h; exact StoreOK.store_refl s
  · simp only [Option.some.injEq] at h; subst h; exact StoreOK.store_refl s
  · simp only at h
    split at h
    · exact absurd h (by simp)
    · rename_i s2 h2
      simp only [Option.some.injEq] at h
      subst h
      exact ((music_stop_step s).toStore.store_trans (flush_samples_store _ _ _ h2)).store_trans
        (StepOK.song_only _ _).toStore

theorem sss_music_create_store (s s1 : Engine) (np no ns r : Nat)
    (h : sss_music_create s np no ns = some (s1, r)) : StoreOK s s1 := by
  unfold sss_music_create at h
  split_ifs at h
  · simp only [Option.some.injEq, Prod.mk.injEq] at h
    obtain ⟨rfl, _⟩ := h
    exact StoreOK.store_refl s
  · split at h
    · exact absurd h (by simp)
    · rename_i s2 h2
      simp only [Option.some.injEq, Prod.mk.injEq] at h
      obtain ⟨rfl, _⟩ := h
      exact ((music_stop_step s).toStore.store_trans (sss_music_flush_store _ _ h2)).store_trans
        (StepOK.song_only _ _).toStore

theorem sss_music_define_order_step (s : Engine) (io ip : Nat) :
    StepOK s (sss_music_define_order s io ip).1 := by
  unfold sss_music_define_order
  split_ifs
  · exact StepOK.step_refl s
  · exact StepOK.step_refl s
  · exact StepOK.step_refl s
  · exact StepOK.step_refl s
  · exact StepOK.song_only _ _

theorem sss_music_define_pattern_step (s s1 : Engine) (ip n r : Nat)
    (h : sss_music_define_pattern s ip n = some (s1, r)) : StepOK s s1 := by
  unfold sss_music_define_pattern at h
  split_ifs at h
  · simp only [Option.some.injEq, Prod.mk.injEq] at h; obtain ⟨rfl, _⟩ := h; exact StepOK.step_refl s
  · simp only [Option.some.injEq, Prod.mk.injEq] at h; obtain ⟨rfl, _⟩ := h; exact StepOK.step_refl s
  · simp only [Option.some.injEq, Prod.mk.injEq] at h; obtain ⟨rfl, _⟩ := h; exact StepOK.step_refl s
  · split at h
    · exact absurd h (by simp)
    · split_ifs at h
      simp only [Option.some.injEq, Prod.mk.injEq] at h
      obtain ⟨rfl, _⟩ := h
      exact StepOK.song_only _ _

theorem sss_music_define_step_step (s s1 : Engine) (ip i r : Nat) (step : SSS_STEP_DESC)
    (h : sss_music_define_step s ip i step = some (s1, r)) : StepOK s s1 := by
  unfold sss_music_define_step at h
  split_ifs at h
  · simp only [Option.some.injEq, Prod.mk.injEq] at h; obtain ⟨rfl, _⟩ := h; exact StepOK.step_refl s
  · simp only [Option.some.injEq, Prod.mk.injEq] at h; obtain ⟨rfl, _⟩ := h; exact StepOK.step_refl s
  · simp only [Option.some.injEq, Prod.mk.injEq] at h; obtain ⟨rfl, _⟩ := h; exact StepOK.step_refl s
  · split at h
    · exact absurd h (by simp)
    · split at h
      · exact absurd h (by simp)
      · split_ifs at h
        · simp only [Option.some.injEq, Prod.mk.injEq] at h
          obtain ⟨rfl, _⟩ := h
          exact StepOK.step_refl s
        · simp only [Option.some.injEq, Prod.mk.injEq] at h
          obtain ⟨rfl, _⟩ := h
          exact StepOK.song_only _ _

theorem sss_music_define_sample_step (s s1 : Engine) (i hsmp r : Nat)
    (h : sss_music_define_sample s i hsmp = some (s1, r)) : StepOK s s1 := by
  unfold sss_music_define_sample at h
  split_ifs at h <;> simp only [Option.some.injEq, Prod.mk.injEq] at h <;> obtain ⟨rfl, _⟩ := h
  · exact StepOK.step_refl s
  · exact StepOK.step_refl s
  · exact StepOK.step_refl s
  · exact StepOK.step_refl s
  · exact StepOK.step_refl s
  · exact StepOK.song_only _ _

theorem sss_music_define_pan_step (s : Engine) (ch pan : Nat) :
    StepOK s (sss_music_define_pan s ch pan) := by
  unfold sss_music_define_pan
  split_ifs
  · exact StepOK.step_refl s
  · exact StepOK.step_refl s
  · exact StepOK.song_only _ _

theorem choose_format_cases (f c r a : Nat) (h : choose_format f = some (c, r, a)) :
    (c = 2 ∧ r = 44100 ∧ a = 88200) ∨ (c = 2 ∧ r = 22050 ∧ a = 44100) ∨
    (c = 2 ∧ r = 11025 ∧ a = 22050) ∨ (c = 1 ∧ r = 44100 ∧ a = 44100) ∨
    (c = 1 ∧ r = 22050 ∧ a = 22050) ∨ (c = 1 ∧ r = 11025 ∧ a = 11025) := by
  unfold choose_format at h
  split_ifs at h <;> simp only [Option.some.injEq, Prod.mk.injEq] at h <;> omega

theorem boot_ok : EngineOK boot := by
  refine ⟨fun _ => ⟨fun _ => rfl, fun d hd => ?_⟩, fun hi => ?_⟩
  · have hx : (none : Option (List Int)) = some d := hd
    cases hx
  · have hx : false = true := hi
    cases hx

theorem sss_init_ok (s : Engine) (f : Nat) (h : EngineOK s) : EngineOK (sss_init s f).1 := by
  unfold sss_init
  by_cases hi : s.initialized = true
  · rw [if_pos hi]; exact h
  rw [if_neg hi]
  simp only
  have hsm : ∀ u, SampleOK (if u < SSS_MAX_SAMPLES then
      { (s.samples u) with data := none, size := 0, smprate := 0 } else s.samples u) := by
    intro u
    split_ifs
    · exact ⟨fun _ => rfl, fun d hd => absurd hd (by simp)⟩
    · exact h.1 u
  cases hf : choose_format f with
  | none =>
    simp only
    exact ⟨hsm, fun hi2 => absurd hi2 hi⟩
  | some t =>
    obtain ⟨c, r, a⟩ := t
    simp only
    refine ⟨hsm, fun _ => ⟨rfl, ?_, ?_⟩⟩
    · have hc := choose_format_cases f c r a hf
      refine ⟨?_, ?_, ?_, ?_, ?_⟩
      · show r = 44100 ∨ r = 22050 ∨ r = 11025
        omega
      · show (if c > 1 then 1 else 0) = 0 ∨ (if c > 1 then 1 else 0) = 1
        split_ifs <;> simp
      · show a / BUFFERS_PER_SECOND / 4 * 4 =
          r * ((if c > 1 then 1 else 0) + 1) / BUFFERS_PER_SECOND / 4 * 4
        have hac : a = r * c ∧ (if c > 1 then 1 else 0) + 1 = c := by
          rcases hc with h | h | h | h | h | h <;>
            (obtain ⟨h1, h2, h3⟩ := h; subst h1 h2 h3; decide)
        rw [hac.2, ← hac.1]
      · intro u hu
        show (if u < 2 then List.replicate (a / BUFFERS_PER_SECOND / 4 * 4) 0 else _).length = _
        rw [if_pos hu]
        simp
      · show (0 : Nat) < 2
        decide
    · intro ch hch
      show ChanOK (if ch < SSS_MAX_CHANNELS then _ else _)
      rw [if_pos hch]
      exact ⟨by decide, by decide, fun hne => absurd rfl hne⟩

theorem sss_deinit_ok (s s1 : Engine) (h : EngineOK s) (hd : sss_deinit s = some s1) :
    EngineOK s1 := by
  unfold sss_deinit at hd
  by_cases hi : (!s.initialized) = true
  · rw [if_pos hi] at hd
    simp only [Option.some.injEq] at hd
    subst hd; exact h
  rw [if_neg hi] at hd
  split at hd
  · exact absurd hd (by simp)
  · rename_i s2 h2
    simp only [Option.some.injEq] at hd
    subst hd
    have hok := (h.step (music_stop_step s)).store (sss_music_flush_store _ _ h2)
    refine ⟨fun u => ?_, fun hi2 => absurd hi2 (by simp)⟩
    show SampleOK (if u < SSS_MAX_SAMPLES then _ else _)
    split_ifs
    · exact ⟨fun _ => rfl, fun d hd => absurd hd (by simp)⟩
    · exact hok.1 u

theorem sss_poll_ok (fuel : Nat) (s s1 : Engine) (h : EngineOK s)
    (hp : sss_poll fuel s = Outcome.done s1) : EngineOK s1 := by
  unfold sss_poll at hp
  split_ifs at hp
  · simp only [Outcome.done.injEq] at hp
    subst hp; exact h
  · split at hp
    · rename_i s2 h2
      simp only [Outcome.done.injEq] at hp
      subst hp
      have h0 : EngineOK { s with whdr_done := upd s.whdr_done s.bfr_toggle false } := h
      have hm := h0.mix (mix_ok _ _ _ h2)
      refine ⟨hm.1, fun hi => ?_⟩
      obtain ⟨ht, hf, hc⟩ := hm.2 hi
      refine ⟨ht, ⟨hf.1, hf.2.1, hf.2.2.1, hf.2.2.2.1, ?_⟩, hc⟩
      show (s2.bfr_toggle + 1) &&& 1 < 2
      have := @Nat.and_le_right (s2.bfr_toggle + 1) 1
      omega
    · exact absurd hp (by simp)
    · exact absurd hp (by simp)

/-- Every reachable state satisfies the engine invariant. -/
theorem Reachable.engine_ok {s : Engine} (h : Reachable s) : EngineOK s := by
  induction h with
  | start => exact boot_ok
  | init s f _ ih => exact sss_init_ok s f ih
  | deinit s s1 _ hd ih => exact sss_deinit_ok s s1 ih hd
  | pan_set s ch pan _ ih => exact ih.step (sss_channel_pan_set_step s ch pan)
  | stop s ch _ ih => exact ih.step (sss_channel_stop_step s ch)
  | volume s ch v _ ih => exact ih.step (sss_channel_volume_step s ch v)
  | sample_add s s1 data size lb ls sr c r _ ha ih =>
    exact ih.store (sss_sample_add_store s s1 data size lb ls sr c r ha)
  | sample_delete s hsmp _ ih => exact ih.store (sss_sample_delete_store s hsmp)
  | sample_play s ch hsmp p _ ih => exact ih.step (sss_sample_play_step s ch hsmp p)
  | flush s s1 _ hf ih => exact ih.store (sss_music_flush_store s s1 hf)
  | create s s1 np no ns r _ hc ih => exact ih.store (sss_music_create_store s s1 np no ns r hc)
  | define_order s io ip _ ih => exact ih.step (sss_music_define_order_step s io ip)
  | define_pattern s s1 ip n r _ hd ih => exact ih.step (sss_music_define_pattern_step s s1 ip n r hd)
  | define_step s s1 ip i r step _ hd ih =>
    exact ih.step (sss_music_define_step_step s s1 ip i r step hd)
  | define_sample s s1 i hsmp r _ hd ih =>
    exact ih.step (sss_music_define_sample_step s s1 i hsmp r hd)
  | define_pan s ch pan _ ih => exact ih.step (sss_music_define_pan_step s ch pan)
  | command s cmd _ ih => exact ih.step (sss_music_command_step s cmd)
  | poll s s1 fuel _ _ hp ih => exact sss_poll_ok fuel s s1 ih hp
  | device s u _ ih => exact ih

theorem mix_channel_runs (s : Engine) (h : EngineOK s) (hi : s.initialized = true)
    (ch : Nat) (hch : ch < SSS_MAX_CHANNELS) (acc : Int × Int) :
    ∃ s1 acc1, mix_channel s acc ch = some (s1, acc1) := by
  obtain ⟨ht, _, hc⟩ := h.2 hi
  unfold mix_channel
  by_cases hb : (s.chan ch).isample = IDLE
  · rw [if_pos hb]; exact ⟨_, _, rfl⟩
  · rw [if_neg hb, ht]
    obtain ⟨c1, acc1, hv, _⟩ := mix_voice_ok s.is_stereo (s.samples (s.chan ch).isample)
      (s.chan ch) acc (h.1 _) (hc ch hch) hb
    rw [hv]
    exact ⟨_, _, rfl⟩

theorem OnlyChan.keeps_ok {s s1 : Engine} (h : EngineOK s) (ho : OnlyChan s s1)
    (hc : ChansOK s → ChansOK s1) : EngineOK s1 :=
  h.step ⟨ho.toSong, hc⟩

theorem OnlyChan.initialized {s s1 : Engine} (ho : OnlyChan s s1) :
    s1.initialized = s.initialized := by
  obtain ⟨f, rfl⟩ := ho
  rfl

theorem mix_channels_runs (l : List Nat) : ∀ (s : Engine) (acc : Int × Int),
    EngineOK s → s.initialized = true → (∀ ch ∈ l, ch < SSS_MAX_CHANNELS) →
    ∃ s1 acc1, mix_channels s acc l = some (s1, acc1) := by
  induction l with
  | nil => intro s acc _ _ _; exact ⟨_, _, rfl⟩
  | cons c cs ih =>
    intro s acc h hi hl
    obtain ⟨s2, a2, h2⟩ := mix_channel_runs s h hi c (hl c (List.mem_cons_self _ _)) acc
    obtain ⟨o, k⟩ := mix_channel_only s s2 acc a2 c h2
    obtain ⟨s3, a3, h3⟩ := ih s2 a2 (o.keeps_ok h k) (o.initialized.trans hi)
      (fun ch hm => hl ch (List.mem_cons_of_mem _ hm))
    refine ⟨s3, a3, ?_⟩
    simp only [mix_channels, h2, h3]

theorem toLong_small (n : Nat) (h : n < 2147483648) : toLong n = n := by
  unfold toLong
  omega

theorem loop_state_reachable : Reachable loop_state := by
  have h0 : Reachable engine_44s := Reachable.init boot 512 Reachable.start
  have h1 : Reachable (state_of (sss_sample_add engine_44s [10, 20, 30, 40] 4 1 3 8000 0)
      engine_44s) :=
    Reachable.sample_add engine_44s _ [10, 20, 30, 40] 4 1 3 8000 0 0 h0 rfl
  exact Reachable.sample_delete _ 0 (Reachable.sample_play _ 0 0 8000 h1)

/-- C3.  Loop closure.  In every reachable state of the initialised engine
and for every channel: the channel loop of the mixer runs without an access
outside an array; a channel that is playing and has not met the end-of-sample
test reads its sample byte at an offset below the sample size, inside the
payload; and a channel that meets the end-of-sample test on a sample with
`loop_size > 2` gets `voffset = loop_start` (as a `long`: the number
`loop_start` itself below 2^31) and stays on its sample. -/
theorem loop_closure (s : Engine) (hr : Reachable s) (hi : s.initialized = true)
    (ch : Nat) (hch : ch < SSS_MAX_CHANNELS) (acc : Int × Int) :
    (∃ s1 acc1, mix_channels s acc (List.range SSS_MAX_CHANNELS) = some (s1, acc1)) ∧
    (∃ s1 acc1, mix_channel s acc ch = some (s1, acc1)) ∧
    ((s.chan ch).isample ≠ IDLE →
      ¬ mix_at_end (s.samples (s.chan ch).isample)
          (mix_offset (s.samples (s.chan ch).isample) (s.chan ch)) →
      mix_offset (s.samples (s.chan ch).isample) (s.chan ch)
        < (s.samples (s.chan ch).isample).size ∧
      ∃ d b, (s.samples (s.chan ch).isample).data = some d ∧
        d.length = (s.samples (s.chan ch).isample).size ∧
        d[mix_offset (s.samples (s.chan ch).isample) (s.chan ch)]? = some b) ∧
    ((s.chan ch).isample ≠ IDLE →
      mix_at_end (s.samples (s.chan ch).isample)
          (mix_offset (s.samples (s.chan ch).isample) (s.chan ch)) →
      (s.samples (s.chan ch).isample).loop_size > 2 →
      ∃ s1, mix_channel s acc ch = some (s1, acc) ∧
        (s1.chan ch).voffset = toLong (s.samples (s.chan ch).isample).loop_start ∧
        ((s.samples (s.chan ch).isample).loop_start < 2147483648 →
          (s1.chan ch).voffset = (s.samples (s.chan ch).isample).loop_start) ∧
        (s1.chan ch).isample = (s.chan ch).isample ∧ (s1.chan ch).isample ≠ IDLE) := by
  have hok := hr.engine_ok
  obtain ⟨ht, _, hc⟩ := hok.2 hi
  refine ⟨mix_channels_runs _ s acc hok hi (fun c hm => List.mem_range.mp hm),
    mix_channel_runs s hok hi ch hch acc, ?_, ?_⟩
  · intro hb hend
    have hoff : mix_offset (s.samples (s.chan ch).isample) (s.chan ch)
        < (s.samples (s.chan ch).isample).size := by
      unfold mix_at_end at hend
      omega
    refine ⟨hoff, ?_⟩
    cases hd : (s.samples (s.chan ch).isample).data with
    | none => have := (hok.1 _).1 hd; omega
    | some d =>
      have hlen := (hok.1 _).2 d hd
      have hin : mix_offset (s.samples (s.chan ch).isample) (s.chan ch) < d.length := by omega
      exact ⟨d, d[mix_offset (s.samples (s.chan ch).isample) (s.chan ch)], rfl, hlen,
        List.getElem?_eq_getElem hin⟩
  · intro hb hend hloop
    have hvs : (s.chan ch).vsize ≠ 0 := by
      have := ((hc ch hch).2.2 hb).2
      omega
    let c1 : CHANNEL_DESC :=
      { (s.chan ch) with voffset := toLong (s.samples (s.chan ch).isample).loop_start }
    refine ⟨{ s with chan := upd s.chan ch c1 }, ?_, ?_, ?_, ?_, ?_⟩
    · unfold mix_channel
      rw [if_neg hb]
      unfold mix_voice
      rw [if_neg hvs, if_pos hend, if_pos hloop]
    · simp only [upd_same]
    · intro hsmall
      simp only [upd_same]
      exact toLong_small _ hsmall
    · simp only [upd_same]
    · simp only [upd_same]
      exact hb

set_option maxRecDepth 100000 in
/-- C9 (the code at the failing input).  Scenario S2 at 44.1 kHz: the song
starts with `step_delay = 5265`; a poll at clock `3 * 5265` has fired steps
0..2 and stands at order 0, step 3; the poll one tick later fires step 3,
whose channel 0 carries JUMP(1), and leaves `iorder = 1` with `istep = 1`,
not 0. -/
theorem jump_skips_step_zero :
    scenario_S2.song.step_delay = 5265 ∧
    is_done (music_poll 4 scenario_S2 (3 * 5265)) = true ∧
    (outcome_state (music_poll 4 scenario_S2 (3 * 5265)) scenario_S2).song.iorder = 0 ∧
    (outcome_state (music_poll 4 scenario_S2 (3 * 5265)) scenario_S2).song.istep = 3 ∧
    is_done (music_poll 4 scenario_S2 (3 * 5265 + 1)) = true ∧
    (outcome_state (music_poll 4 scenario_S2 (3 * 5265 + 1)) scenario_S2).song.iorder = 1 ∧
    (outcome_state (music_poll 4 scenario_S2 (3 * 5265 + 1)) scenario_S2).song.istep = 1 := by
  decide

theorem mix_scale_small (x : Int) (h0 : 0 ≤ x) (h1 : x ≤ 3) : mix_scale x = 127 := by
  unfold mix_scale toUChar
  rw [Int.shiftRight_eq_div_pow]
  have : x / ((2 ^ 2 : Nat) : Int) = 0 := by
    norm_num
    omega
  rw [this]
  decide

theorem zero_byte_row : ∀ v < 16, volume_entry v 128 = 0 ∨ volume_entry v 128 = 1 := by decide

theorem zero_byte_pan : ∀ p < 16,
    (0 ≤ volume_entry p 128 ∧ volume_entry p 128 ≤ 2) ∧
    (0 ≤ volume_entry p 129 ∧ volume_entry p 129 ≤ 2) := by decide

/-- The body of the channel loop on a voice that plays an all-zero sample:
it runs, adds between 0 and 2 to each sum, and leaves the voice idle or as it
was apart from `voffset`. -/
theorem mix_voice_zero (st : Nat) (psample : SAMPLE_DESC) (c : CHANNEL_DESC)
    (hv : c.vsize ≠ 0) (hvol : c.volume ≤ 15) (hpan : c.pan_pos ≤ 15)
    (d : List Int) (hd : psample.data = some d) (hlen : d.length = psample.size)
    (hz : ∀ b ∈ d, b = 0) :
    ∃ c1 l r, mix_voice build_volume_tables st psample c (0, 0) = some (c1, l, r) ∧
      (0 ≤ l ∧ l ≤ 2) ∧ (0 ≤ r ∧ r ≤ 2) ∧
      (c1.isample = IDLE ∨
        (c1.isample = c.isample ∧ c1.vsize = c.vsize ∧ c1.volume = c.volume ∧
          c1.pan_pos = c.pan_pos)) := by
  unfold mix_voice
  rw [if_neg hv]
  by_cases hend : mix_at_end psample (mix_offset psample c)
  · rw [if_pos hend]
    split_ifs
    · exact ⟨_, _, _, rfl, by decide, by decide, Or.inr ⟨rfl, rfl, rfl, rfl⟩⟩
    · exact ⟨_, _, _, rfl, by decide, by decide, Or.inl rfl⟩
  · rw [if_neg hend, hd]
    simp only
    have hoff : mix_offset psample c < d.length := by
      unfold mix_at_end at hend
      omega
    have hget : d[mix_offset psample c]? = some d[mix_offset psample c] :=
      List.getElem?_eq_getElem hoff
    have hb : d[mix_offset psample c] = 0 := hz _ (List.getElem_mem _)
    rw [hget, hb]
    simp only
    have h128 : toSChar 0 + 128 = 128 := by decide
    rw [h128, lutI_build c.volume 128 (by omega) (by decide) (by decide)]
    simp only
    have hrow := zero_byte_row c.volume (by omega)
    have hi : (128 : Int).toNat = 128 := by decide
    rw [hi]
    by_cases hst : st ≠ 0
    · rw [if_pos hst, toUInt_pan c.pan_pos hpan]
      have hl := zero_byte_pan (15 - c.pan_pos) (by omega)
      have hr := zero_byte_pan c.pan_pos (by omega)
      rcases hrow with h0 | h1
      · rw [h0]
        have e : (0 : Int) + 128 = 128 := by decide
        rw [e, lutI_build _ 128 (by omega) (by decide) (by decide),
          lutI_build _ 128 (by omega) (by decide) (by decide), hi]
        simp only
        exact ⟨_, _, _, rfl, by omega, by omega, Or.inr ⟨rfl, rfl, rfl, rfl⟩⟩
      · rw [h1]
        have e : (1 : Int) + 128 = 129 := by decide
        have hi2 : (129 : Int).toNat = 129 := by decide
        rw [e, lutI_build _ 129 (by omega) (by decide) (by decide),
          lutI_build _ 129 (by omega) (by decide) (by decide), hi2]
        simp only
        exact ⟨_, _, _, rfl, by omega, by omega, Or.inr ⟨rfl, rfl, rfl, rfl⟩⟩
    · rw [if_neg hst]
      exact ⟨_, _, _, rfl, by omega, by decide, Or.inr ⟨rfl, rfl, rfl, rfl⟩⟩

theorem quiet_channel (s : Engine) (c0 : Nat) (hq : Quiet s c0) (c : Nat)
    (hc : c < SSS_MAX_CHANNELS) (acc : Int × Int) (hacc : c = c0 → acc = (0, 0))
    (hin : (0 ≤ acc.1 ∧ acc.1 ≤ 2) ∧ (0 ≤ acc.2 ∧ acc.2 ≤ 2)) :
    ∃ s1 acc1, mix_channel s acc c = some (s1, acc1) ∧
      ((0 ≤ acc1.1 ∧ acc1.1 ≤ 2) ∧ (0 ≤ acc1.2 ∧ acc1.2 ≤ 2)) ∧
      Quiet s1 c0 ∧ OnlyChan s s1 := by
  unfold mix_channel
  by_cases hidle : (s.chan c).isample = IDLE
  · rw [if_pos hidle]
    exact ⟨s, acc, rfl, hin, hq, OnlyChan.chan_refl s⟩
  · rw [if_neg hidle]
    have hcc : c = c0 := by
      by_contra hne
      exact hidle (hq.1 c hc hne)
    subst hcc
    rw [hacc rfl]
    rcases hq.2 with hi | ⟨ht, hv, hvol, hpan, d, hd, hlen, hz⟩
    · exact absurd hi hidle
    · obtain ⟨c1, l, r, hmv, hl, hr, hc1⟩ :=
        mix_voice_zero s.is_stereo (s.samples (s.chan c).isample) (s.chan c) hv hvol hpan d hd hlen hz
      rw [← ht] at hmv
      rw [hmv]
      refine ⟨_, _, rfl, ⟨hl, hr⟩, ⟨fun ch hch hne => ?_, ?_⟩, ⟨_, rfl⟩⟩
      · show (upd s.chan c c1 ch).isample = IDLE
        rw [upd_other _ _ _ _ hne]
        exact hq.1 ch hch hne
      · show (upd s.chan c c1 c).isample = IDLE ∨ _
        rw [upd_same]
        rcases hc1 with h1 | ⟨h1, h2, h3, h4⟩
        · exact Or.inl h1
        · refine Or.inr ⟨ht, ?_, ?_, ?_, d, ?_, ?_, hz⟩
          · show (upd s.chan c c1 c).vsize ≠ 0
            rw [upd_same, h2]; exact hv
          · show (upd s.chan c c1 c).volume ≤ 15
            rw [upd_same, h3]; exact hvol
          · show (upd s.chan c c1 c).pan_pos ≤ 15
            rw [upd_same, h4]; exact hpan
          · show (s.samples (upd s.chan c c1 c).isample).data = some d
            rw [upd_same, h1]; exact hd
          · show d.length = (s.samples (upd s.chan c c1 c).isample).size
            rw [upd_same, h1]; exact hlen

theorem quiet_channels (c0 : Nat) (l : List Nat) : ∀ (s : Engine) (acc : Int × Int),
    Quiet s c0 → l.Nodup → (∀ c ∈ l, c < SSS_MAX_CHANNELS) → (c0 ∈ l → acc = (0, 0)) →
    ((0 ≤ acc.1 ∧ acc.1 ≤ 2) ∧ (0 ≤ acc.2 ∧ acc.2 ≤ 2)) →
    ∃ s1 acc1, mix_channels s acc l = some (s1, acc1) ∧
      ((0 ≤ acc1.1 ∧ acc1.1 ≤ 2) ∧ (0 ≤ acc1.2 ∧ acc1.2 ≤ 2)) ∧
      Quiet s1 c0 ∧ OnlyChan s s1 := by
  induction l with
  | nil =>
    intro s acc hq _ _ _ hin
    exact ⟨s, acc, rfl, hin, hq, OnlyChan.chan_refl s⟩
  | cons c cs ih =>
    intro s acc hq hnd hlt hacc hin
    rw [List.nodup_cons] at hnd
    obtain ⟨s2, a2, h2, hin2, hq2, o2⟩ := quiet_channel s c0 hq c
      (hlt c (List.mem_cons_self _ _)) acc (fun e => hacc (by rw [e]; exact List.mem_cons_self _ _)) hin
    have hacc2 : c0 ∈ cs → a2 = (0, 0) := by
      intro hm
      have hne : c ≠ c0 := fun e => hnd.1 (e ▸ hm)
      have hidle : (s.chan c).isample = IDLE := hq.1 c (hlt c (List.mem_cons_self _ _)) hne
      unfold mix_channel at h2
      rw [if_pos hidle] at h2
      simp only [Option.some.injEq, Prod.mk.injEq] at h2
      rw [← h2.2]
      exact hacc (List.mem_cons_of_mem _ hm)
    obtain ⟨s3, a3, h3, hin3, hq3, o3⟩ := ih s2 a2 hq2 hnd.2
      (fun ch hm => hlt ch (List.mem_cons_of_mem _ hm)) hacc2 hin2
    refine ⟨s3, a3, ?_, hin3, hq3, o2.chan_trans o3⟩
    simp only [mix_channels, h2, h3]

/-- One frame of a quiet engine: the channel loop and the stores put 127 in
the bytes of the frame and leave the rest of the buffer and the quiet state as
they were. -/
theorem quiet_output (s : Engine) (c0 u : Nat) (hq : Quiet s c0)
    (hlen : u + mix_stride s ≤ (s.buffers s.bfr_toggle).length) :
    ∃ s1 f b, mix_output s u = some s1 ∧
      s1 = { s with chan := f, buffers := upd s.buffers s.bfr_toggle b } ∧
      Quiet s1 c0 ∧ b.length = (s.buffers s.bfr_toggle).length ∧
      (∀ i, i < u → b[i]? = (s.buffers s.bfr_toggle)[i]?) ∧
      (∀ i, u ≤ i → i < u + mix_stride s → b[i]? = some 127) := by
  obtain ⟨s1, acc1, h1, ⟨hl, hr⟩, hq1, ⟨f, rfl⟩⟩ := quiet_channels c0 (List.range SSS_MAX_CHANNELS)
    s (0, 0) hq (List.nodup_range _) (fun c hm => List.mem_range.mp hm) (fun _ => rfl)
    (by decide)
  unfold mix_output
  rw [h1]
  simp only
  rw [mix_scale_small acc1.1 hl.1 (by omega), mix_scale_small acc1.2 hr.1 (by omega)]
  unfold mix_stride at hlen
  unfold buffer_put
  by_cases hst : s.is_stereo ≠ 0
  · rw [if_pos hst] at hlen
    rw [if_pos (by omega)]
    simp only
    rw [if_pos hst, if_pos (by simp only [List.length_set]; omega)]
    refine ⟨_, f, _, rfl, rfl, hq1, by simp, ?_, ?_⟩
    · intro i hi
      rw [List.getElem?_set_ne (by omega), List.getElem?_set_ne (by omega)]
    · intro i h1 h2
      unfold mix_stride at h2
      rw [if_pos hst] at h2
      by_cases e : i = u
      · subst e
        rw [List.getElem?_set_ne (by omega), List.getElem?_set_self (by omega)]
      · have e2 : i = u + 1 := by omega
        subst e2
        rw [List.getElem?_set_self (by simp only [List.length_set]; omega)]
  · rw [if_neg hst] at hlen
    rw [if_pos (by omega)]
    simp only
    rw [if_neg hst]
    refine ⟨_, f, _, rfl, rfl, hq1, by simp, ?_, ?_⟩
    · intro i hi
      rw [List.getElem?_set_ne (by omega)]
    · intro i h1 h2
      unfold mix_stride at h2
      rw [if_neg hst] at h2
      have e : i = u := by omega
      subst e
      rw [List.getElem?_set_self (by omega)]

theorem upd_upd {α : Type} (g : Nat → α) (i : Nat) (a b : α) :
    upd (upd g i a) i b = upd g i b := by
  funext j
  by_cases h : j = i
  · simp [upd, h]
  · simp [upd, h]

theorem music_poll_nosong (fuel : Nat) (s : Engine) (songp : Nat) (h : NoSong s) :
    music_poll fuel s songp = Outcome.done s := by
  unfold music_poll
  exact if_pos h

theorem quiet_poll (fuel : Nat) (s : Engine) (u : Nat) (h : NoSong s)
    (hp : (s.mixrate / 64) >>> s.is_stereo ≠ 0) : mix_poll fuel s u = Outcome.done s := by
  unfold mix_poll
  split_ifs
  · exact music_poll_nosong _ _ _ h
  · exact music_poll_nosong _ _ _ h
  · rfl

theorem quiet_frame (fuel : Nat) (s : Engine) (c0 u : Nat) (hq : Quiet s c0) (hn : NoSong s)
    (hp : (s.mixrate / 64) >>> s.is_stereo ≠ 0)
    (hlen : u + mix_stride s ≤ (s.buffers s.bfr_toggle).length) :
    ∃ s1 f b, mix_frame fuel s u = Outcome.done s1 ∧
      s1 = { s with chan := f, buffers := upd s.buffers s.bfr_toggle b } ∧
      Quiet s1 c0 ∧ b.length = (s.buffers s.bfr_toggle).length ∧
      (∀ i, i < u → b[i]? = (s.buffers s.bfr_toggle)[i]?) ∧
      (∀ i, u ≤ i → i < u + mix_stride s → b[i]? = some 127) := by
  obtain ⟨s1, f, b, h1, h2, h3, h4, h5, h6⟩ := quiet_output s c0 u hq hlen
  refine ⟨s1, f, b, ?_, h2, h3, h4, h5, h6⟩
  unfold mix_frame
  rw [quiet_poll fuel s u hn hp]
  simp only
  rw [h1]

theorem quiet_frames (fuel c0 : Nat) (n : Nat) : ∀ (u : Nat) (s : Engine),
    Quiet s c0 → NoSong s → (s.mixrate / 64) >>> s.is_stereo ≠ 0 →
    u + n * mix_stride s ≤ (s.buffers s.bfr_toggle).length →
    (∀ i, i < u → (s.buffers s.bfr_toggle)[i]? = some 127) →
    ∃ s1 f b, mix_frames fuel n u s = Outcome.done s1 ∧
      s1 = { s with chan := f, buffers := upd s.buffers s.bfr_toggle b } ∧
      (∀ i, i < u + n * mix_stride s → b[i]? = some 127) := by
  induction n with
  | zero =>
    intro u s _ _ _ _ hb
    refine ⟨s, s.chan, s.buffers s.bfr_toggle, rfl, ?_, ?_⟩
    · rw [upd_self]
    · intro i hi
      exact hb i (by omega)
  | succ n ih =>
    intro u s hq hn hp hlen hb
    have hlen1 : u + mix_stride s ≤ (s.buffers s.bfr_toggle).length := by
      have : (n + 1) * mix_stride s = n * mix_stride s + mix_stride s := by ring
      omega
    obtain ⟨s2, f, b, h1, h2, h3, h4, h5, h6⟩ := quiet_frame fuel s c0 u hq hn hp hlen1
    subst h2
    have hb2 : ∀ i, i < u + mix_stride s → b[i]? = some 127 := by
      intro i hi
      by_cases hlt : i < u
      · rw [h5 i hlt]; exact hb i hlt
      · exact h6 i (by omega) hi
    obtain ⟨s3, f3, b3, k1, k2, k3⟩ := ih (u + mix_stride s)
      { s with chan := f, buffers := upd s.buffers s.bfr_toggle b } h3 hn hp
      (by
        show u + mix_stride s + n * mix_stride s ≤ (upd s.buffers s.bfr_toggle b s.bfr_toggle).length
        rw [upd_same, h4]
        have : (n + 1) * mix_stride s = n * mix_stride s + mix_stride s := by ring
        omega)
      (by
        intro i hi
        show (upd s.buffers s.bfr_toggle b s.bfr_toggle)[i]? = some 127
        rw [upd_same]
        exact hb2 i hi)
    refine ⟨s3, f3, b3, ?_, ?_, ?_⟩
    · simp only [mix_frames, h1]
      exact k1
    · rw [k2]
      show ({ s with chan := f3, buffers := upd (upd s.buffers s.bfr_toggle b) s.bfr_toggle b3 } : Engine) = _
      rw [upd_upd]
    · intro i hi
      apply k3
      show i < u + mix_stride s + n * mix_stride s
      have : (n + 1) * mix_stride s = n * mix_stride s + mix_stride s := by ring
      omega

theorem mix_advance_buffers (s : Engine) :
    (mix_advance s).buffers = s.buffers ∧ (mix_advance s).bfr_toggle = s.bfr_toggle := by
  obtain ⟨⟨f, g, n, h⟩, _⟩ := mix_advance_ok s
  rw [h]
  exact ⟨rfl, rfl⟩

theorem mix_frame_count_mul (s : Engine) (h : s.bfr_size % mix_stride s = 0) :
    mix_frame_count s * mix_stride s = s.bfr_size := by
  unfold mix_frame_count
  have hs : mix_stride s = 1 ∨ mix_stride s = 2 := by
    unfold mix_stride
    split_ifs
    · exact Or.inr rfl
    · exact Or.inl rfl
  rcases hs with e | e <;> rw [e] at h ⊢ <;> omega

/-- A whole buffer mixed by a quiet engine holds 127 in every byte. -/
theorem quiet_mix (fuel : Nat) (s : Engine) (c0 : Nat) (hq : Quiet s c0) (hn : NoSong s)
    (hp : (s.mixrate / 64) >>> s.is_stereo ≠ 0)
    (hlen : (s.buffers s.bfr_toggle).length = s.bfr_size)
    (heven : s.bfr_size % mix_stride s = 0) :
    ∃ s1, mix fuel s = Outcome.done s1 ∧
      ∀ i, i < s.bfr_size → (s1.buffers s.bfr_toggle)[i]? = some 127 := by
  have hcount := mix_frame_count_mul s heven
  obtain ⟨s1, f, b, h1, h2, h3⟩ := quiet_frames fuel c0 (mix_frame_count s) 0 s hq hn hp
    (by omega) (fun i hi => absurd hi (by omega))
  refine ⟨mix_advance s1, ?_, ?_⟩
  · unfold mix
    rw [h1]
  · intro i hi
    rw [(mix_advance_buffers s1).1, h2]
    show (upd s.buffers s.bfr_toggle b s.bfr_toggle)[i]? = some 127
    rw [upd_same]
    exact h3 i (by omega)

theorem FormatOK.poll_safe {s : Engine} (h : FormatOK s) :
    (s.mixrate / 64) >>> s.is_stereo ≠ 0 := by
  obtain ⟨h1, h2, _⟩ := h
  rcases h1 with e | e | e <;> rcases h2 with k | k <;> rw [e, k] <;> decide

theorem FormatOK.buffer {s : Engine} (h : FormatOK s) :
    (s.buffers s.bfr_toggle).length = s.bfr_size ∧ s.bfr_size % mix_stride s = 0 := by
  obtain ⟨_, _, h3, h4, h5⟩ := h
  refine ⟨h4 _ h5, ?_⟩
  have hs : mix_stride s = 1 ∨ mix_stride s = 2 := by
    unfold mix_stride
    split_ifs
    · exact Or.inr rfl
    · exact Or.inl rfl
  rw [h3]
  simp only [BUFFERS_PER_SECOND]
  rcases hs with e | e <;> rw [e] <;> omega

theorem engine_44s_reachable : Reachable engine_44s := Reachable.init boot 512 Reachable.start

theorem engine_44s_format : FormatOK engine_44s :=
  (engine_44s_reachable.engine_ok.2 (by decide)).2.1

theorem zero_voice_state_reachable : Reachable zero_voice_state :=
  Reachable.sample_play _ 0 0 8000
    (Reachable.sample_add engine_44s _ (List.replicate 100 0) 100 0 0 8000 0 0
      engine_44s_reachable rfl)

/-- C6.  Mono silence.  At any of the six output formats, when every channel
is idle and no song is playing (no patterns, or the song is stopped or
paused), `mix` runs to its end for every fuel and every byte of the buffer it
fills is 127: the one byte of every frame in mono, both bytes in stereo. -/
theorem mono_silence (fuel : Nat) (s : Engine) (hf : FormatOK s)
    (hidle : ∀ ch, ch < SSS_MAX_CHANNELS → (s.chan ch).isample = IDLE) (hn : NoSong s) :
    ∃ s1, mix fuel s = Outcome.done s1 ∧
      ∀ i, i < s.bfr_size → (s1.buffers s.bfr_toggle)[i]? = some 127 :=
  quiet_mix fuel s 0 ⟨fun ch hch _ => hidle ch hch, Or.inl (hidle 0 (by decide))⟩ hn
    hf.poll_safe hf.buffer.1 hf.buffer.2

/-- C6 (witness): the engine right after `sss_init` at 44.1 kHz stereo. -/
theorem mono_silence_witness :
    ∃ s1, mix 0 engine_44s = Outcome.done s1 ∧
      ∀ i, i < engine_44s.bfr_size → (s1.buffers engine_44s.bfr_toggle)[i]? = some 127 :=
  mono_silence 0 engine_44s engine_44s_format (by decide) (Or.inr (Or.inr rfl))

/-- C5.  Center-sample silence.  At any of the six output formats (mono or
stereo), with the volume tables built and no song playing: when no channel
other than `c0` is busy and `c0` plays, at any virtual size and offset (any
pitch), any pan in 0..15 and any volume row in 0..15, a sample whose payload
is all zero bytes, `mix` runs to its end and every byte of the buffer it fills
is 127. -/
theorem center_sample_silence (fuel : Nat) (s : Engine) (c0 : Nat) (hf : FormatOK s)
    (ht : s.volume_tables = build_volume_tables)
    (honly : ∀ ch, ch < SSS_MAX_CHANNELS → ch ≠ c0 → (s.chan ch).isample = IDLE)
    (hv : (s.chan c0).vsize ≠ 0) (hvol : (s.chan c0).volume ≤ 15)
    (hpan : (s.chan c0).pan_pos ≤ 15) (d : List Int)
    (hd : (s.samples (s.chan c0).isample).data = some d)
    (hlen : d.length = (s.samples (s.chan c0).isample).size) (hz : ∀ b ∈ d, b = 0)
    (hn : NoSong s) :
    ∃ s1, mix fuel s = Outcome.done s1 ∧
      ∀ i, i < s.bfr_size → (s1.buffers s.bfr_toggle)[i]? = some 127 :=
  quiet_mix fuel s c0 ⟨honly, Or.inr ⟨ht, hv, hvol, hpan, d, hd, hlen, hz⟩⟩ hn
    hf.poll_safe hf.buffer.1 hf.buffer.2

set_option maxRecDepth 100000 in
/-- C5 (witness): `zero_voice_state`, channel 0 busy on 100 zero bytes. -/
theorem center_sample_silence_witness :
    (zero_voice_state.chan 0).isample ≠ IDLE ∧
    ∃ s1, mix 0 zero_voice_state = Outcome.done s1 ∧
      ∀ i, i < zero_voice_state.bfr_size →
        (s1.buffers zero_voice_state.bfr_toggle)[i]? = some 127 :=
  ⟨by decide,
   center_sample_silence 0 zero_voice_state 0
    ((zero_voice_state_reachable.engine_ok.2 (by decide)).2.1)
    ((zero_voice_state_reachable.engine_ok.2 (by decide)).1)
    (by decide) (by decide) (by decide) (by decide) (List.replicate 100 0) (by decide)
    (by decide) (fun b hb => List.eq_of_mem_replicate hb) (Or.inr (Or.inr rfl))⟩

theorem pan_mirror_chan (s : Engine) (ch : Nat) :
    (pan_mirror s).chan ch = mirror_chan (s.chan ch) := rfl

theorem pan_mirror_upd (s : Engine) (ch : Nat) (c1 : CHANNEL_DESC) :
    pan_mirror { s with chan := upd s.chan ch c1 } =
      { pan_mirror s with chan := upd (pan_mirror s).chan ch (mirror_chan c1) } := by
  unfold pan_mirror
  congr 1
  funext j
  by_cases e : j = ch
  · subst e; simp only [upd_same]; rfl
  · simp only [upd_other _ _ _ _ e]

theorem toUInt_mirror (p : Nat) (hp : p ≤ 15) :
    toUInt ((SSS_MAX_VOLUME : Int) - 1 - ((15 - p : Nat) : Int)) = p ∧
    toUInt ((SSS_MAX_VOLUME : Int) - 1 - (p : Int)) = 15 - p := by
  unfold toUInt
  simp only [SSS_MAX_VOLUME]
  omega

/-- The body of the channel loop on the mirrored channel adds to the right
sum what it adds to the left sum on the channel itself, and conversely. -/
theorem mix_voice_mirror (tables : List (List Int)) (st : Nat) (hst : st ≠ 0)
    (psample : SAMPLE_DESC) (c c1 : CHANNEL_DESC) (hp : c.pan_pos ≤ 15) (l r l1 r1 : Int)
    (h : mix_voice tables st psample c (l, r) = some (c1, l1, r1)) :
    mix_voice tables st psample (mirror_chan c) (r, l) = some (mirror_chan c1, r1, l1) := by
  obtain ⟨hv, hcase⟩ := mix_voice_cases _ _ _ _ _ _ _ h
  have hoff : mix_offset psample (mirror_chan c) = mix_offset psample c := rfl
  unfold mix_voice
  rw [hoff]
  have hv2 : ¬ (mirror_chan c).vsize = 0 := hv
  rw [if_neg hv2]
  rcases hcase with ⟨hend, hloop, rfl, hacc⟩ | ⟨hend, hloop, rfl, hacc⟩ |
    ⟨hend, rfl, d, b, ival, hd, hb, hi, hx⟩
  · rw [if_pos hend, if_pos hloop]
    simp only [Prod.mk.injEq] at hacc
    rw [hacc.1, hacc.2]
    rfl
  · rw [if_pos hend, if_neg hloop]
    simp only [Prod.mk.injEq] at hacc
    rw [hacc.1, hacc.2]
    rfl
  · rw [if_neg hend, hd]
    simp only
    rw [hb]
    simp only
    have hvol : (mirror_chan c).volume = c.volume := rfl
    rw [hvol, hi]
    simp only
    rw [if_pos hst]
    rcases hx with ⟨_, lv, rv, hl, hr, hacc⟩ | ⟨h0, _⟩
    · have hpm : (mirror_chan c).pan_pos = 15 - c.pan_pos := rfl
      obtain ⟨m1, m2⟩ := toUInt_mirror c.pan_pos hp
      rw [hpm, m1, hr]
      simp only
      rw [m2] at hl
      rw [hl]
      simp only [Prod.mk.injEq] at hacc
      rw [hacc.1, hacc.2]
      rfl
    · exact absurd h0 hst

theorem mix_channel_mirror (s s1 : Engine) (ch : Nat) (hst : s.is_stereo ≠ 0)
    (hp : (s.chan ch).pan_pos ≤ 15) (l r l1 r1 : Int)
    (h : mix_channel s (l, r) ch = some (s1, l1, r1)) :
    mix_channel (pan_mirror s) (r, l) ch = some (pan_mirror s1, r1, l1) := by
  unfold mix_channel at h ⊢
  by_cases hidle : (s.chan ch).isample = IDLE
  · rw [if_pos hidle] at h
    have h2 : ((pan_mirror s).chan ch).isample = IDLE := hidle
    rw [if_pos h2]
    simp only [Option.some.injEq, Prod.mk.injEq] at h
    obtain ⟨rfl, rfl, rfl⟩ := h
    rfl
  · rw [if_neg hidle] at h
    have h2 : ¬ ((pan_mirror s).chan ch).isample = IDLE := hidle
    rw [if_neg h2]
    cases hv : mix_voice s.volume_tables s.is_stereo (s.samples (s.chan ch).isample)
        (s.chan ch) (l, r) with
    | none => rw [hv] at h; exact absurd h (by simp)
    | some res =>
      obtain ⟨c1, a1, b1⟩ := res
      rw [hv] at h
      simp only [Option.some.injEq, Prod.mk.injEq] at h
      obtain ⟨rfl, rfl, rfl⟩ := h
      have hm := mix_voice_mirror _ _ hst _ _ _ hp _ _ _ _ hv
      have e : mix_voice (pan_mirror s).volume_tables (pan_mirror s).is_stereo
          ((pan_mirror s).samples ((pan_mirror s).chan ch).isample) ((pan_mirror s).chan ch) (r, l)
          = some (mirror_chan c1, b1, a1) := hm
      rw [e]
      simp only
      rw [pan_mirror_upd]

theorem mix_channel_pan (s s1 : Engine) (acc acc1 : Int × Int) (c : Nat)
    (h : mix_channel s acc c = some (s1, acc1)) (j : Nat) (hj : (s.chan j).pan_pos ≤ 15) :
    (s1.chan j).pan_pos ≤ 15 := by
  unfold mix_channel at h
  split_ifs at h with hidle
  · simp only [Option.some.injEq, Prod.mk.injEq] at h
    rw [← h.1]; exact hj
  · split at h
    · exact absurd h (by simp)
    · rename_i c1 a1 hv
      simp only [Option.some.injEq, Prod.mk.injEq] at h
      rw [← h.1]
      by_cases e : j = c
      · subst e
        simp only [upd_same]
        obtain ⟨_, hcase⟩ := mix_voice_cases _ _ _ _ _ _ _ hv
        rcases hcase with ⟨_, _, rfl, _⟩ | ⟨_, _, rfl, _⟩ | ⟨_, rfl, _⟩ <;> exact hj
      · simp only [upd_other _ _ _ _ e]
        exact hj

theorem mix_channels_mirror (chs : List Nat) : ∀ (s s1 : Engine) (l r l1 r1 : Int),
    s.is_stereo ≠ 0 → (∀ ch ∈ chs, (s.chan ch).pan_pos ≤ 15) →
    mix_channels s (l, r) chs = some (s1, l1, r1) →
    mix_channels (pan_mirror s) (r, l) chs = some (pan_mirror s1, r1, l1) := by
  induction chs with
  | nil =>
    intro s s1 l r l1 r1 _ _ h
    simp only [mix_channels, Option.some.injEq, Prod.mk.injEq] at h ⊢
    obtain ⟨rfl, rfl, rfl⟩ := h
    exact ⟨rfl, rfl, rfl⟩
  | cons c cs ih =>
    intro s s1 l r l1 r1 hst hp h
    simp only [mix_channels] at h ⊢
    cases hc : mix_channel s (l, r) c with
    | none => rw [hc] at h; exact absurd h (by simp)
    | some res =>
      obtain ⟨s2, a2, b2⟩ := res
      rw [hc] at h
      simp only at h
      rw [mix_channel_mirror s s2 c hst (hp c (List.mem_cons_self _ _)) l r a2 b2 hc]
      simp only
      obtain ⟨⟨f, hf⟩, hk⟩ := mix_channel_only s s2 (l, r) (a2, b2) c hc
      have hst2 : s2.is_stereo ≠ 0 := by rw [hf]; exact hst
      exact ih s2 s1 a2 b2 l1 r1 hst2
        (fun j hj => mix_channel_pan s s2 _ _ c hc j (hp j (List.mem_cons_of_mem _ hj))) h

/-! ### The sequencer does not look at the pan positions -/

theorem play_chan_mirror (c : CHANNEL_DESC) (hsmp : Nat) (v : Int) :
    play_chan (mirror_chan c) hsmp v = mirror_chan (play_chan c hsmp v) := by
  unfold play_chan
  split_ifs <;> rfl

theorem sss_sample_play_mirror (s : Engine) (ch hsmp pitch : Nat) :
    sss_sample_play (pan_mirror s) ch hsmp pitch = pan_mirror (sss_sample_play s ch hsmp pitch) := by
  unfold sss_sample_play
  have e1 : (pan_mirror s).initialized = s.initialized := rfl
  have e2 : (pan_mirror s).samples = s.samples := rfl
  have e3 : (pan_mirror s).mixrate = s.mixrate := rfl
  rw [e1, e2, e3]
  split_ifs
  · rfl
  · rfl
  · rfl
  · simp only
    rw [pan_mirror_upd, pan_mirror_chan, play_chan_mirror]
    rfl

theorem sss_channel_volume_mirror (s : Engine) (ch v : Nat) :
    sss_channel_volume (pan_mirror s) ch v = pan_mirror (sss_channel_volume s ch v) := by
  unfold sss_channel_volume
  have e1 : (pan_mirror s).initialized = s.initialized := rfl
  rw [e1]
  split_ifs
  · rfl
  · rfl
  · rw [pan_mirror_upd, pan_mirror_chan]
    rfl

theorem music_poll_note_mirror (step : SSS_STEP_DESC) (s : Engine) (c : Nat) :
    music_poll_note step (pan_mirror s) c = (music_poll_note step s c).map pan_mirror := by
  unfold music_poll_note
  have e1 : (pan_mirror s).song = s.song := rfl
  have e2 : (pan_mirror s).music_volume = s.music_volume := rfl
  rw [e1, e2]
  by_cases hp : step.note_pitch c ≠ 0
  · rw [if_pos hp, if_pos hp]
    cases hs : s.song.samples[step.note_sample c]? with
    | none => rfl
    | some hsmp =>
      simp only [Option.map_some']
      rw [sss_sample_play_mirror, sss_channel_volume_mirror]
  · rw [if_neg hp, if_neg hp]
    rfl

theorem music_poll_effect_mirror (step : SSS_STEP_DESC) (s : Engine) (c : Nat) :
    music_poll_effect step (pan_mirror s) c =
      (pan_mirror (music_poll_effect step s c).1, (music_poll_effect step s c).2) := by
  unfold music_poll_effect
  split_ifs
  · rfl
  · rfl
  · rfl
  · rfl
  · simp only
    rw [← sss_channel_volume_mirror]
    rfl
  · rfl

theorem music_poll_channel_mirror (step : SSS_STEP_DESC) (s : Engine) (c : Nat) :
    music_poll_channel step (pan_mirror s) c =
      (music_poll_channel step s c).map (fun p => (pan_mirror p.1, p.2)) := by
  unfold music_poll_channel
  rw [music_poll_note_mirror]
  cases music_poll_note step s c with
  | none => rfl
  | some s1 =>
    simp only [Option.map_some']
    rw [music_poll_effect_mirror]

theorem music_poll_channels_mirror (step : SSS_STEP_DESC) (l : List Nat) : ∀ s : Engine,
    music_poll_channels step (pan_mirror s) l = (music_poll_channels step s l).map pan_mirror := by
  induction l with
  | nil => intro s; rfl
  | cons c cs ih =>
    intro s
    simp only [music_poll_channels]
    rw [music_poll_channel_mirror]
    cases hc : music_poll_channel step s c with
    | none => rfl
    | some res =>
      obtain ⟨s1, b⟩ := res
      cases b with
      | true => rfl
      | false =>
        simp only [Option.map_some']
        exact ih s1

theorem music_poll_advance_mirror (s : Engine) :
    music_poll_advance (pan_mirror s) = (music_poll_advance s).map pan_mirror := by
  unfold music_poll_advance
  have e1 : (pan_mirror s).song = s.song := rfl
  rw [e1]
  simp only
  cases hp : s.song.patterns with
  | none => rfl
  | some pats =>
    simp only
    cases hq : pats[s.song.ipattern]? with
    | none => rfl
    | some pat =>
      simp only
      split_ifs <;> rfl

/-- The body of the `while` loop of `music_poll`, once its three array reads
are known to succeed. -/
theorem music_poll_step_some (s : Engine) (ipat : Nat) (pats : List MUSICPATTERN_DESC)
    (pat : MUSICPATTERN_DESC) (step : SSS_STEP_DESC)
    (ho : s.song.order[s.song.iorder]? = some ipat) (hp : s.song.patterns = some pats)
    (hq : pats[ipat]? = some pat) (hs : pat.steps[s.song.istep]? = some step) :
    music_poll_step s =
      (music_poll_channels step { s with song := { s.song with ipattern := ipat } }
        (List.range SSS_MUSIC_CHANNELS)).bind music_poll_advance := by
  unfold music_poll_step
  rw [ho]
  simp only
  rw [hp]
  simp only
  rw [hq]
  simp only
  rw [hs]
  simp only
  rw [← hp]
  cases music_poll_channels step { s with song := { s.song with ipattern := ipat } }
    (List.range SSS_MUSIC_CHANNELS) <;> rfl

/-- The body of the `while` loop of `music_poll` faults when one of its
array reads leaves its array. -/
theorem music_poll_step_none (s : Engine)
    (h : s.song.order[s.song.iorder]? = none ∨ s.song.patterns = none ∨
      ∃ ipat pats, s.song.order[s.song.iorder]? = some ipat ∧ s.song.patterns = some pats ∧
        (pats[ipat]? = none ∨ ∃ pat, pats[ipat]? = some pat ∧ pat.steps[s.song.istep]? = none)) :
    music_poll_step s = none := by
  unfold music_poll_step
  rcases h with ho | hp | ⟨ipat, pats, ho, hp, hq | ⟨pat, hq, hs⟩⟩
  · rw [ho]
  · cases ho : s.song.order[s.song.iorder]? with
    | none => rfl
    | some ipat => simp only; rw [hp]
  · rw [ho]; simp only; rw [hp]; simp only; rw [hq]
  · rw [ho]; simp only; rw [hp]; simp only; rw [hq]; simp only; rw [hs]

theorem music_poll_step_mirror (s : Engine) :
    music_poll_step (pan_mirror s) = (music_poll_step s).map pan_mirror := by
  cases ho : s.song.order[s.song.iorder]? with
  | none =>
    rw [music_poll_step_none s (Or.inl ho), music_poll_step_none (pan_mirror s) (Or.inl ho)]
    rfl
  | some ipat =>
    cases hp : s.song.patterns with
    | none =>
      rw [music_poll_step_none s (Or.inr (Or.inl hp)),
        music_poll_step_none (pan_mirror s) (Or.inr (Or.inl hp))]
      rfl
    | some pats =>
      cases hq : pats[ipat]? with
      | none =>
        rw [music_poll_step_none s (Or.inr (Or.inr ⟨ipat, pats, ho, hp, Or.inl hq⟩)),
          music_poll_step_none (pan_mirror s) (Or.inr (Or.inr ⟨ipat, pats, ho, hp, Or.inl hq⟩))]
        rfl
      | some pat =>
        cases hs : pat.steps[s.song.istep]? with
        | none =>
          rw [music_poll_step_none s (Or.inr (Or.inr ⟨ipat, pats, ho, hp, Or.inr ⟨pat, hq, hs⟩⟩)),
            music_poll_step_none (pan_mirror s)
              (Or.inr (Or.inr ⟨ipat, pats, ho, hp, Or.inr ⟨pat, hq, hs⟩⟩))]
          rfl
        | some step =>
          rw [music_poll_step_some s ipat pats pat step ho hp hq hs,
            music_poll_step_some (pan_mirror s) ipat pats pat step ho hp hq hs]
          have e := music_poll_channels_mirror step (List.range SSS_MUSIC_CHANNELS)
            { s with song := { s.song with ipattern := ipat } }
          have e2 : music_poll_channels step
              { pan_mirror s with song := { (pan_mirror s).song with ipattern := ipat } }
              (List.range SSS_MUSIC_CHANNELS) =
            Option.map pan_mirror (music_poll_channels step
              { s with song := { s.song with ipattern := ipat } }
              (List.range SSS_MUSIC_CHANNELS)) := e
          rw [e2]
          cases hc : music_poll_channels step { s with song := { s.song with ipattern := ipat } }
              (List.range SSS_MUSIC_CHANNELS) with
          | none => rfl
          | some s1 =>
            simp only [Option.map_some', Option.some_bind]
            exact music_poll_advance_mirror s1

theorem music_poll_loop_mirror (songp : Nat) (fuel : Nat) : ∀ s : Engine,
    music_poll_loop fuel songp (pan_mirror s) = outcome_map pan_mirror (music_poll_loop fuel songp s) := by
  induction fuel with
  | zero =>
    intro s
    simp only [music_poll_loop]
    have e1 : (pan_mirror s).song = s.song := rfl
    rw [e1]
    split_ifs <;> rfl
  | succ n ih =>
    intro s
    simp only [music_poll_loop]
    have e1 : (pan_mirror s).song = s.song := rfl
    rw [e1, music_poll_step_mirror]
    split_ifs
    · cases hs : music_poll_step s with
      | none => rfl
      | some s1 =>
        simp only [Option.map_some']
        exact ih s1
    · rfl

theorem music_poll_mirror (fuel : Nat) (s : Engine) (songp : Nat) :
    music_poll fuel (pan_mirror s) songp = outcome_map pan_mirror (music_poll fuel s songp) := by
  unfold music_poll
  have e1 : (pan_mirror s).song = s.song := rfl
  rw [e1]
  split_ifs
  · rfl
  · exact music_poll_loop_mirror songp fuel s

theorem mix_poll_mirror (fuel : Nat) (s : Engine) (u : Nat) :
    mix_poll fuel (pan_mirror s) u = outcome_map pan_mirror (mix_poll fuel s u) := by
  unfold mix_poll
  have e1 : (pan_mirror s).song_counter = s.song_counter := rfl
  have e2 : (pan_mirror s).mixrate = s.mixrate := rfl
  have e3 : (pan_mirror s).is_stereo = s.is_stereo := rfl
  have e4 : mix_stride (pan_mirror s) = mix_stride s := rfl
  rw [e1, e2, e3, e4]
  split_ifs
  · exact music_poll_mirror _ _ _
  · rfl
  · exact music_poll_mirror _ _ _
  · rfl

/-- The stores of a stereo frame on the mirrored engine put the two bytes
of the frame in the opposite order. -/
theorem mix_output_mirror (s s1 : Engine) (u : Nat) (hst : s.is_stereo ≠ 0)
    (hp : ∀ ch, ch < SSS_MAX_CHANNELS → (s.chan ch).pan_pos ≤ 15)
    (h : mix_output s u = some s1) :
    ∃ s2 vl vr, mix_output (pan_mirror s) u = some s2 ∧
      (s1.buffers s1.bfr_toggle)[u]? = some vl ∧ (s1.buffers s1.bfr_toggle)[u + 1]? = some vr ∧
      (s2.buffers s2.bfr_toggle)[u]? = some vr ∧ (s2.buffers s2.bfr_toggle)[u + 1]? = some vl ∧
      s2.chan = (pan_mirror s1).chan := by
  unfold mix_output at h
  cases hc : mix_channels s (0, 0) (List.range SSS_MAX_CHANNELS) with
  | none => rw [hc] at h; exact absurd h (by simp)
  | some res =>
    obtain ⟨sc, l, r⟩ := res
    rw [hc] at h
    simp only at h
    obtain ⟨⟨f, hf⟩, _⟩ := mix_channels_only _ _ _ _ _ hc
    have hstc : sc.is_stereo ≠ 0 := by rw [hf]; exact hst
    have hm := mix_channels_mirror (List.range SSS_MAX_CHANNELS) s sc 0 0 l r hst
      (fun ch hch => hp ch (List.mem_range.mp hch)) hc
    unfold buffer_put at h
    by_cases h1 : u < (sc.buffers sc.bfr_toggle).length
    · rw [if_pos h1] at h
      simp only at h
      rw [if_pos hstc] at h
      by_cases h2 : u + 1 < ((sc.buffers sc.bfr_toggle).set u (mix_scale l)).length
      · rw [if_pos h2] at h
        simp only [Option.some.injEq] at h
        subst h
        have h2b : u + 1 < (sc.buffers sc.bfr_toggle).length := by
          simpa only [List.length_set] using h2
        let buf2 : List Nat :=
          ((sc.buffers sc.bfr_toggle).set u (mix_scale r)).set (u + 1) (mix_scale l)
        refine ⟨{ pan_mirror sc with buffers := upd sc.buffers sc.bfr_toggle buf2 },
          mix_scale l, mix_scale r, ?_, ?_, ?_, ?_, ?_, rfl⟩
        · unfold mix_output
          rw [hm]
          simp only
          unfold buffer_put
          have e1 : (pan_mirror sc).buffers = sc.buffers := rfl
          have e2 : (pan_mirror sc).bfr_toggle = sc.bfr_toggle := rfl
          have e3 : (pan_mirror sc).is_stereo = sc.is_stereo := rfl
          rw [e1, e2, e3, if_pos h1]
          simp only
          rw [if_pos hstc, if_pos (by simpa only [List.length_set] using h2b)]
        · show (upd sc.buffers sc.bfr_toggle _ sc.bfr_toggle)[u]? = _
          rw [upd_same, List.getElem?_set_ne (by omega), List.getElem?_set_self h1]
        · show (upd sc.buffers sc.bfr_toggle _ sc.bfr_toggle)[u + 1]? = _
          rw [upd_same, List.getElem?_set_self h2]
        · show (upd sc.buffers sc.bfr_toggle _ sc.bfr_toggle)[u]? = _
          rw [upd_same, List.getElem?_set_ne (by omega), List.getElem?_set_self h1]
        · show (upd sc.buffers sc.bfr_toggle _ sc.bfr_toggle)[u + 1]? = _
          rw [upd_same, List.getElem?_set_self (by simpa only [List.length_set] using h2b)]
      · rw [if_neg h2] at h
        exact absurd h (by simp)
    · rw [if_neg h1] at h
      exact absurd h (by simp)

theorem mix_poll_stereo (fuel : Nat) (s s1 : Engine) (u : Nat)
    (h : mix_poll fuel s u = Outcome.done s1) : s1.is_stereo = s.is_stereo := by
  obtain ⟨⟨f, g, n, rfl⟩, _⟩ := mix_poll_ok fuel s s1 u h
  rfl

theorem pan_state_reachable : Reachable pan_state :=
  Reachable.pan_set _ 0 3 (Reachable.sample_play _ 0 0 8000
    (Reachable.sample_add engine_44s _ [100, -50, 30, 7] 4 0 0 8000 0 0
      engine_44s_reachable rfl))

/-- C4.  Pan symmetry.  In stereo mode, in every reachable state of the
initialised engine and at every frame of the buffer: if the frame (music poll,
mixing, stores) runs to its end, it also does on the engine with every pan
position `p` replaced by `15 - p`, the left byte of the one is the right byte
of the other and conversely, and the two engines are again mirror images of
each other after the frame. -/
theorem pan_symmetry (fuel : Nat) (s s1 : Engine) (u : Nat) (hr : Reachable s)
    (hi : s.initialized = true) (hst : s.is_stereo ≠ 0)
    (h : mix_frame fuel s u = Outcome.done s1) :
    ∃ s2 vl vr, mix_frame fuel (pan_mirror s) u = Outcome.done s2 ∧
      (s1.buffers s1.bfr_toggle)[u]? = some vl ∧ (s1.buffers s1.bfr_toggle)[u + 1]? = some vr ∧
      (s2.buffers s2.bfr_toggle)[u]? = some vr ∧ (s2.buffers s2.bfr_toggle)[u + 1]? = some vl ∧
      s2.chan = (pan_mirror s1).chan := by
  unfold mix_frame at h
  cases hp : mix_poll fuel s u with
  | fault => rw [hp] at h; exact absurd h (by simp)
  | timeout => rw [hp] at h; exact absurd h (by simp)
  | done sp =>
    rw [hp] at h
    simp only at h
    cases ho : mix_output sp u with
    | none => rw [ho] at h; exact absurd h (by simp)
    | some so =>
      rw [ho] at h
      simp only [Outcome.done.injEq] at h
      subst h
      have hok := hr.engine_ok.step (mix_poll_ok fuel s sp u hp)
      have hisp : sp.initialized = true := by
        obtain ⟨⟨f, g, n, e⟩, _⟩ := mix_poll_ok fuel s sp u hp
        rw [e]; exact hi
      have hch := (hok.2 hisp).2.2
      obtain ⟨s2, vl, vr, k1, k2, k3, k4, k5, k6⟩ := mix_output_mirror sp so u
        (by rw [mix_poll_stereo fuel s sp u hp]; exact hst) (fun ch hlt => (hch ch hlt).1) ho
      refine ⟨s2, vl, vr, ?_, k2, k3, k4, k5, k6⟩
      unfold mix_frame
      rw [mix_poll_mirror, hp]
      simp only [outcome_map]
      rw [k1]

/-- In a consistent initialised engine the mixing and the stores of a frame
inside the buffer run without fault. -/
theorem mix_output_runs (s : Engine) (u : Nat) (h : EngineOK s) (hi : s.initialized = true)
    (hu : u + mix_stride s ≤ s.bfr_size) : ∃ s1, mix_output s u = some s1 := by
  obtain ⟨sc, acc, hc⟩ := mix_channels_runs (List.range SSS_MAX_CHANNELS) s (0, 0) h hi
    (fun c hm => List.mem_range.mp hm)
  obtain ⟨⟨f, hf⟩, _⟩ := mix_channels_only _ _ _ _ _ hc
  have hlen : (sc.buffers sc.bfr_toggle).length = s.bfr_size := by
    rw [hf]
    exact (h.2 hi).2.1.buffer.1
  have hst : sc.is_stereo = s.is_stereo := by rw [hf]
  unfold mix_output
  rw [hc]
  simp only
  unfold buffer_put
  unfold mix_stride at hu
  by_cases hs : s.is_stereo ≠ 0
  · rw [if_pos hs] at hu
    rw [if_pos (by omega)]
    simp only
    rw [hst, if_pos hs, if_pos (by simp only [List.length_set]; omega)]
    exact ⟨_, rfl⟩
  · rw [if_neg hs] at hu
    rw [if_pos (by omega)]
    simp only
    rw [hst, if_neg hs]
    exact ⟨_, rfl⟩

/-- With no song playing, a frame inside the buffer of a consistent
initialised engine runs to its end. -/
theorem mix_frame_runs (fuel : Nat) (s : Engine) (u : Nat) (h : EngineOK s)
    (hi : s.initialized = true) (hn : NoSong s) (hu : u + mix_stride s ≤ s.bfr_size) :
    ∃ s1, mix_frame fuel s u = Outcome.done s1 := by
  obtain ⟨s1, h1⟩ := mix_output_runs s u h hi hu
  refine ⟨s1, ?_⟩
  unfold mix_frame
  rw [quiet_poll fuel s u hn (h.2 hi).2.1.poll_safe]
  simp only
  rw [h1]

/-- C4 (witness): the first frame of `pan_state`, whose voice is panned to 3,
and of its mirror image, whose voice is panned to 12. -/
theorem pan_symmetry_witness :
    (pan_state.chan 0).isample ≠ IDLE ∧ (pan_state.chan 0).pan_pos = 3 ∧
    ((pan_mirror pan_state).chan 0).pan_pos = 12 ∧
    ∃ s1 s2, mix_frame 0 pan_state 0 = Outcome.done s1 ∧
      mix_frame 0 (pan_mirror pan_state) 0 = Outcome.done s2 ∧
      (s1.buffers s1.bfr_toggle)[0]? = (s2.buffers s2.bfr_toggle)[0 + 1]? ∧
      (s1.buffers s1.bfr_toggle)[0 + 1]? = (s2.buffers s2.bfr_toggle)[0]? := by
  obtain ⟨s1, hm⟩ := mix_frame_runs 0 pan_state 0 pan_state_reachable.engine_ok (by decide)
    (Or.inr (Or.inr rfl)) (by decide)
  obtain ⟨s2, vl, vr, k1, k2, k3, k4, k5, _⟩ :=
    pan_symmetry 0 pan_state s1 0 pan_state_reachable (by decide) (by decide) hm
  exact ⟨by decide, by decide, by decide, s1, s2, hm, k1, by rw [k2, k5], by rw [k3, k4]⟩

theorem ChanLoop.loop_refl (s : Engine) : ChanLoop s s :=
  ⟨s.chan, s.song.iorder, s.song.istep, s.song.step_delay, rfl⟩

theorem ChanLoop.loop_trans {s s1 s2 : Engine} (h1 : ChanLoop s s1) (h2 : ChanLoop s1 s2) :
    ChanLoop s s2 := by
  obtain ⟨f, io, i, sd, rfl⟩ := h1
  obtain ⟨f2, io2, i2, sd2, rfl⟩ := h2
  exact ⟨f2, io2, i2, sd2, rfl⟩

theorem OnlyChan.toLoop {s s1 : Engine} (h : OnlyChan s s1) : ChanLoop s s1 := by
  obtain ⟨f, rfl⟩ := h
  exact ⟨f, s.song.iorder, s.song.istep, s.song.step_delay, rfl⟩

theorem music_poll_note_runs (step : SSS_STEP_DESC) (s : Engine) (c : Nat)
    (hs : step.note_pitch c ≠ 0 → step.note_sample c < s.song.samples.length) :
    ∃ s1, music_poll_note step s c = some s1 ∧ OnlyChan s s1 := by
  unfold music_poll_note
  by_cases hp : step.note_pitch c ≠ 0
  · rw [if_pos hp, List.getElem?_eq_getElem (hs hp)]
    exact ⟨_, rfl, (sss_sample_play_only _ _ _ _).chan_trans (sss_channel_volume_only _ _ _)⟩
  · rw [if_neg hp]
    exact ⟨s, rfl, OnlyChan.chan_refl s⟩

theorem music_poll_effect_loop (step : SSS_STEP_DESC) (s : Engine) (c : Nat) :
    ChanLoop s (music_poll_effect step s c).1 ∧
    ((music_poll_effect step s c).1.song.step_delay = s.song.step_delay ∨
      (step.note_effect c = SSS_EFFECT_SET_TEMPO ∧ step.note_eparam c ≠ 0 ∧
        (music_poll_effect step s c).1.song.step_delay
          = tempo_delay s.mixrate (step.note_eparam c))) := by
  unfold music_poll_effect
  split_ifs with h1 h2 h3 h4 h5
  · exact ⟨⟨_, _, _, _, rfl⟩, Or.inl rfl⟩
  · exact ⟨⟨_, _, _, _, rfl⟩, Or.inl rfl⟩
  · exact ⟨⟨_, _, _, _, rfl⟩, Or.inr ⟨h3, h4, by dsimp only⟩⟩
  · exact ⟨ChanLoop.loop_refl s, Or.inl rfl⟩
  · refine ⟨(sss_channel_volume_only _ _ _).toLoop, Or.inl ?_⟩
    obtain ⟨f, e⟩ := sss_channel_volume_only s (SSS_MUSIC_FIRST + c)
      ((step.note_eparam c * s.music_volume) % W32 / 63)
    simp only
    rw [e]
  · exact ⟨ChanLoop.loop_refl s, Or.inl rfl⟩

theorem music_poll_channels_runs (step : SSS_STEP_DESC) (D : Nat) (l : List Nat) :
    ∀ s : Engine,
    (∀ c ∈ l, step.note_pitch c ≠ 0 → step.note_sample c < s.song.samples.length) →
    (∀ c ∈ l, step.note_effect c = SSS_EFFECT_SET_TEMPO → step.note_eparam c ≠ 0 →
      1 ≤ tempo_delay s.mixrate (step.note_eparam c) ∧
        tempo_delay s.mixrate (step.note_eparam c) ≤ D) →
    (1 ≤ s.song.step_delay ∧ s.song.step_delay ≤ D) →
    ∃ s1, music_poll_channels step s l = some s1 ∧ ChanLoop s s1 ∧
      (1 ≤ s1.song.step_delay ∧ s1.song.step_delay ≤ D) := by
  induction l with
  | nil =>
    intro s _ _ hd
    exact ⟨s, rfl, ChanLoop.loop_refl s, hd⟩
  | cons c cs ih =>
    intro s hs ht hd
    obtain ⟨s1, h1, o1⟩ := music_poll_note_runs step s c (hs c (List.mem_cons_self _ _))
    obtain ⟨l2, d2⟩ := music_poll_effect_loop step s1 c
    have hmix : s1.mixrate = s.mixrate := by obtain ⟨f, e⟩ := o1; rw [e]
    have hsd1 : s1.song.step_delay = s.song.step_delay := by obtain ⟨f, e⟩ := o1; rw [e]
    have hd2 : 1 ≤ (music_poll_effect step s1 c).1.song.step_delay ∧
        (music_poll_effect step s1 c).1.song.step_delay ≤ D := by
      rcases d2 with e | ⟨e1, e2, e3⟩
      · rw [e, hsd1]; exact hd
      · rw [e3, hmix]; exact ht c (List.mem_cons_self _ _) e1 e2
    have hloop : ChanLoop s (music_poll_effect step s1 c).1 := o1.toLoop.loop_trans l2
    have hch : music_poll_channel step s c = some (music_poll_effect step s1 c) := by
      unfold music_poll_channel
      rw [h1]
    cases hb : (music_poll_effect step s1 c).2 with
    | true =>
      refine ⟨(music_poll_effect step s1 c).1, ?_, hloop, hd2⟩
      have e : music_poll_effect step s1 c = ((music_poll_effect step s1 c).1, true) := by
        rw [← hb]
      rw [e] at hch
      simp only [music_poll_channels, hch]
    | false =>
      have e : music_poll_effect step s1 c = ((music_poll_effect step s1 c).1, false) := by
        rw [← hb]
      rw [e] at hch
      obtain ⟨f, io, i, sd, e2⟩ := hloop
      obtain ⟨s3, h3, l3, d3⟩ := ih (music_poll_effect step s1 c).1
        (by rw [e2]; exact fun c hc => hs c (List.mem_cons_of_mem _ hc))
        (by rw [e2]; exact fun c hc => ht c (List.mem_cons_of_mem _ hc))
        hd2
      refine ⟨s3, ?_, ChanLoop.loop_trans ⟨f, io, i, sd, e2⟩ l3, d3⟩
      simp only [music_poll_channels, hch]
      exact h3

theorem PollFrame.frame_refl (s : Engine) : PollFrame s s :=
  ⟨_, _, _, _, _, _, _, _, rfl⟩

theorem PollFrame.frame_trans {s s1 s2 : Engine} (h1 : PollFrame s s1) (h2 : PollFrame s1 s2) :
    PollFrame s s2 := by
  obtain ⟨f, io, ip, i, sp, sd, pm, n, rfl⟩ := h1
  obtain ⟨f2, io2, ip2, i2, sp2, sd2, pm2, n2, rfl⟩ := h2
  exact ⟨_, _, _, _, _, _, _, _, rfl⟩

theorem ChanLoop.toFrame {s s1 : Engine} (h : ChanLoop s s1) : PollFrame s s1 := by
  obtain ⟨f, io, i, sd, rfl⟩ := h
  exact ⟨_, _, _, _, _, _, _, _, rfl⟩

/-- The position update at the end of a fired step, on a state whose current
pattern `pat` is allocated: the song stops, or the position moves on by the
step delay and stays inside the order list and inside a pattern of
`pat.nsteps` steps. -/
theorem music_poll_advance_runs (s : Engine) (pats : List MUSICPATTERN_DESC)
    (pat : MUSICPATTERN_DESC) (hp : s.song.patterns = some pats)
    (hq : pats[s.song.ipattern]? = some pat) (hN : 1 ≤ pat.nsteps) :
    ∃ s2, music_poll_advance s = some s2 ∧ PollFrame s s2 ∧
      s2.song.step_delay = s.song.step_delay ∧
      (s2.song.playmode = PLAYMODE_STOPPED ∨
        (s2.song.playmode = s.song.playmode ∧
          s2.song.song_pos = (s.song.song_pos + s.song.step_delay) % W32 ∧
          s2.song.iorder < s2.song.norder ∧ s2.song.istep < pat.nsteps)) := by
  unfold music_poll_advance
  simp only
  rw [hp]
  simp only
  rw [hq]
  simp only
  rw [← hp]
  by_cases h1 : (s.song.istep + 1) % W32 ≥ pat.nsteps
  · rw [if_pos h1]
    simp only
    by_cases h2 : (s.song.iorder + 1) % W32 ≥ s.song.norder
    · rw [if_pos h2]
      exact ⟨_, rfl, ⟨_, _, _, _, _, _, _, _, rfl⟩, rfl, Or.inl rfl⟩
    · rw [if_neg h2]
      refine ⟨_, rfl, ⟨_, _, _, _, _, _, _, _, rfl⟩, rfl, Or.inr ⟨rfl, rfl, ?_, ?_⟩⟩
      · simp only
        omega
      · simp only
        omega
  · rw [if_neg h1]
    simp only
    by_cases h2 : s.song.iorder ≥ s.song.norder
    · rw [if_pos h2]
      exact ⟨_, rfl, ⟨_, _, _, _, _, _, _, _, rfl⟩, rfl, Or.inl rfl⟩
    · rw [if_neg h2]
      refine ⟨_, rfl, ⟨_, _, _, _, _, _, _, _, rfl⟩, rfl, Or.inr ⟨rfl, rfl, ?_, ?_⟩⟩
      · simp only
        omega
      · simp only
        omega

theorem PollFrame.wf {s s1 : Engine} (h : PollFrame s s1) (N : Nat) (hw : SongWF s.song N) :
    SongWF s1.song N := by
  obtain ⟨f, io, ip, i, sp, sd, pm, n, rfl⟩ := h
  exact hw

theorem PollFrame.tempo {s s1 : Engine} (h : PollFrame s s1) (D : Nat) (ht : TempoOK s D)
    (hd : 1 ≤ s1.song.step_delay ∧ s1.song.step_delay ≤ D) : TempoOK s1 D := by
  obtain ⟨f, io, ip, i, sp, sd, pm, n, rfl⟩ := h
  exact ⟨hd, ht.2⟩

/-- One fired step of a well-formed song that is not stopped: the body of the
`while` loop runs without fault, keeps the invariant, and either stops the
song or moves `song_pos` on by at least 1. -/
theorem music_poll_step_runs (N D T : Nat) (s : Engine) (hinv : PollInv N D s)
    (hm : s.song.playmode ≠ PLAYMODE_STOPPED) (hpos : s.song.song_pos < T)
    (hT : T + D ≤ W32) :
    ∃ s1, music_poll_step s = some s1 ∧ PollFrame s s1 ∧ PollInv N D s1 ∧
      (s1.song.playmode = PLAYMODE_STOPPED ∨
        (s1.song.playmode = s.song.playmode ∧ s.song.song_pos < s1.song.song_pos)) := by
  obtain ⟨hw, ht, hp⟩ := hinv
  obtain ⟨hio, his⟩ := hp hm
  obtain ⟨pats, hpats, hno, hN1, hN2, hord, hlen, hsmp⟩ := hw
  obtain ⟨ip, hip, hiplt⟩ := hord _ hio
  have hq : pats[ip]? = some pats[ip] := List.getElem?_eq_getElem hiplt
  have hmem : pats[ip] ∈ pats := List.getElem_mem _
  obtain ⟨hn, hl⟩ := hlen _ hmem
  have hislt : s.song.istep < pats[ip].steps.length := by omega
  have hs : pats[ip].steps[s.song.istep]? = some pats[ip].steps[s.song.istep] :=
    List.getElem?_eq_getElem hislt
  have hsmem : pats[ip].steps[s.song.istep] ∈ pats[ip].steps := List.getElem_mem _
  rw [music_poll_step_some s ip pats pats[ip] _ hip hpats hq hs]
  obtain ⟨s1, h1, l1, d1⟩ := music_poll_channels_runs pats[ip].steps[s.song.istep] D
    (List.range SSS_MUSIC_CHANNELS) { s with song := { s.song with ipattern := ip } }
    (fun c hc => hsmp _ hmem _ hsmem c (List.mem_range.mp hc))
    (fun c hc => ht.2 pats hpats _ hmem _ hsmem c (List.mem_range.mp hc))
    ht.1
  rw [h1]
  simp only [Option.some_bind]
  have hf0 : PollFrame s { s with song := { s.song with ipattern := ip } } :=
    ⟨_, _, _, _, _, _, _, _, rfl⟩
  obtain ⟨f, io, i, sd, e1⟩ := l1
  have hp1 : s1.song.patterns = some pats := by rw [e1]; exact hpats
  have hq1 : pats[s1.song.ipattern]? = some pats[ip] := by rw [e1]; exact hq
  have hpos1 : s1.song.song_pos = s.song.song_pos := by rw [e1]
  have hmode1 : s1.song.playmode = s.song.playmode := by rw [e1]
  obtain ⟨s2, h2, l2, sd2, c2⟩ := music_poll_advance_runs s1 pats pats[ip] hp1 hq1 (by omega)
  have hframe : PollFrame s s2 :=
    (hf0.frame_trans (ChanLoop.toFrame ⟨f, io, i, sd, e1⟩)).frame_trans l2
  have hd2 : 1 ≤ s2.song.step_delay ∧ s2.song.step_delay ≤ D := by rw [sd2]; exact d1
  have hwf : SongWF s.song N := ⟨pats, hpats, hno, hN1, hN2, hord, hlen, hsmp⟩
  refine ⟨s2, h2, hframe, ⟨hframe.wf N hwf, hframe.tempo D ht hd2, ?_⟩, ?_⟩
  · intro hne
    rcases c2 with c | ⟨_, _, c3, c4⟩
    · exact absurd c hne
    · exact ⟨c3, by omega⟩
  · rcases c2 with c | ⟨c1, c2, _, _⟩
    · exact Or.inl c
    · refine Or.inr ⟨c1.trans hmode1, ?_⟩
      rw [c2, hpos1]
      have := d1.1
      have := d1.2
      simp only [W32] at hT ⊢
      omega

/-- The `while` loop of `music_poll` on a well-formed song ends: with fuel
for `T - song_pos` steps it returns a state that is stopped or has
`song_pos ≥ T`. -/
theorem music_poll_loop_runs (N D T : Nat) (hT : T + D ≤ W32) (k : Nat) : ∀ s : Engine,
    PollInv N D s → T - s.song.song_pos ≤ k →
    ∃ s1, (∀ fuel, k ≤ fuel → music_poll_loop fuel T s = Outcome.done s1) ∧
      PollFrame s s1 ∧ PollInv N D s1 ∧
      (T ≤ s1.song.song_pos ∨ s1.song.playmode = PLAYMODE_STOPPED) := by
  induction k with
  | zero =>
    intro s hinv hk
    refine ⟨s, fun fuel _ => ?_, PollFrame.frame_refl s, hinv, Or.inl (by omega)⟩
    have hc : ¬ (s.song.song_pos < T ∧ s.song.playmode ≠ PLAYMODE_STOPPED) := by omega
    cases fuel with
    | zero => simp only [music_poll_loop, if_neg hc]
    | succ n => simp only [music_poll_loop, if_neg hc]
  | succ k ih =>
    intro s hinv hk
    by_cases hc : s.song.song_pos < T ∧ s.song.playmode ≠ PLAYMODE_STOPPED
    · obtain ⟨s1, h1, f1, inv1, c1⟩ := music_poll_step_runs N D T s hinv hc.2 hc.1 hT
      rcases c1 with hstop | ⟨_, hlt⟩
      · refine ⟨s1, fun fuel hf => ?_, f1, inv1, Or.inr hstop⟩
        obtain ⟨n, rfl⟩ : ∃ n, fuel = n + 1 := ⟨fuel - 1, by omega⟩
        simp only [music_poll_loop, if_pos hc, h1]
        have hc1 : ¬ (s1.song.song_pos < T ∧ s1.song.playmode ≠ PLAYMODE_STOPPED) :=
          fun h => h.2 hstop
        cases n with
        | zero => simp only [music_poll_loop, if_neg hc1]
        | succ m => simp only [music_poll_loop, if_neg hc1]
      · obtain ⟨s2, h2, f2, inv2, c2⟩ := ih s1 inv1 (by omega)
        refine ⟨s2, fun fuel hf => ?_, f1.frame_trans f2, inv2, c2⟩
        obtain ⟨n, rfl⟩ : ∃ n, fuel = n + 1 := ⟨fuel - 1, by omega⟩
        simp only [music_poll_loop, if_pos hc, h1]
        exact h2 n (by omega)
    · refine ⟨s, fun fuel _ => ?_, PollFrame.frame_refl s, hinv, ?_⟩
      · cases fuel with
        | zero => simp only [music_poll_loop, if_neg hc]
        | succ n => simp only [music_poll_loop, if_neg hc]
      · by_cases hp : s.song.song_pos < T
        · exact Or.inr (by
            by_contra hne
            exact hc ⟨hp, hne⟩)
        · exact Or.inl (by omega)

/-- When the `while` loop of `music_poll` ends, its condition is false. -/
theorem music_poll_loop_exit (T : Nat) : ∀ (fuel : Nat) (s s1 : Engine),
    music_poll_loop fuel T s = Outcome.done s1 →
    ¬ (s1.song.song_pos < T ∧ s1.song.playmode ≠ PLAYMODE_STOPPED) := by
  intro fuel
  induction fuel with
  | zero =>
    intro s s1 h
    by_cases hc : s.song.song_pos < T ∧ s.song.playmode ≠ PLAYMODE_STOPPED
    · simp only [music_poll_loop, if_pos hc] at h
      exact absurd h (by simp)
    · simp only [music_poll_loop, if_neg hc, Outcome.done.injEq] at h
      subst h
      exact hc
  | succ n ih =>
    intro s s1 h
    by_cases hc : s.song.song_pos < T ∧ s.song.playmode ≠ PLAYMODE_STOPPED
    · simp only [music_poll_loop, if_pos hc] at h
      cases hs : music_poll_step s with
      | none =>
        rw [hs] at h
        exact absurd h (by simp)
      | some s2 =>
        rw [hs] at h
        exact ih s2 s1 h
    · simp only [music_poll_loop, if_neg hc, Outcome.done.injEq] at h
      subst h
      exact hc

/-- On a state in which the loop condition is false the loop returns at once,
whatever the fuel. -/
theorem music_poll_loop_settled (T : Nat) (s : Engine)
    (hc : ¬ (s.song.song_pos < T ∧ s.song.playmode ≠ PLAYMODE_STOPPED)) (m : Nat) :
    music_poll_loop m T s = Outcome.done s := by
  cases m with
  | zero => simp only [music_poll_loop, if_neg hc]
  | succ n => simp only [music_poll_loop, if_neg hc]

/-- A second poll at the same clock changes nothing: whenever `music_poll`
returns `s1`, a poll of `s1` at the same clock returns `s1`. -/
theorem music_poll_again (fuel T : Nat) (s s1 : Engine)
    (h : music_poll fuel s T = Outcome.done s1) (m : Nat) :
    music_poll m s1 T = Outcome.done s1 := by
  by_cases hg : NoSong s
  · rw [music_poll_nosong fuel s T hg] at h
    simp only [Outcome.done.injEq] at h
    subst h
    exact music_poll_nosong m s T hg
  · have hl : music_poll_loop fuel T s = Outcome.done s1 := by
      have e : music_poll fuel s T = music_poll_loop fuel T s := if_neg hg
      rw [← e]
      exact h
    have hx := music_poll_loop_exit T fuel s s1 hl
    by_cases hg1 : NoSong s1
    · exact music_poll_nosong m s1 T hg1
    · have e1 : music_poll m s1 T = music_poll_loop m T s1 := if_neg hg1
      rw [e1]
      exact music_poll_loop_settled T s1 hx m

/-- A state that holds the song of scenario S1 at its first step, with a step
delay in 1..D, satisfies the invariant of the sequencer. -/
theorem note_song_inv (s : Engine) (D : Nat)
    (hp : s.song.patterns = some [{ nsteps := 1, steps := [note_step] }])
    (ho : s.song.order = [0]) (hn : s.song.norder = 1) (hs : s.song.samples.length = 1)
    (hio : s.song.iorder = 0) (his : s.song.istep = 0)
    (hd : 1 ≤ s.song.step_delay ∧ s.song.step_delay ≤ D) : PollInv 1 D s := by
  refine ⟨⟨_, hp, ?_, le_refl 1, by decide, ?_, ?_, ?_⟩, ⟨hd, ?_⟩, fun _ => ?_⟩
  · rw [hn]; decide
  · intro i hi
    rw [hn] at hi
    have e : i = 0 := by omega
    subst e
    rw [ho]
    exact ⟨0, rfl, by decide⟩
  · intro pat hm
    rw [List.mem_singleton] at hm
    subst hm
    exact ⟨rfl, rfl⟩
  · intro pat hm step hst c _ hne
    rw [List.mem_singleton] at hm
    subst hm
    rw [List.mem_singleton] at hst
    subst hst
    rw [hs]
    by_cases e : c = 0
    · subst e; decide
    · exact absurd (upd_other _ _ _ _ e) hne
  · intro pats hq pat hm step hst c _ he
    rw [hp] at hq
    simp only [Option.some.injEq] at hq
    subst hq
    rw [List.mem_singleton] at hm
    subst hm
    rw [List.mem_singleton] at hst
    subst hst
    have hz : note_step.note_effect c = 0 := rfl
    rw [hz] at he
    exact absurd he (by decide)
  · rw [hn, hio, his]
    exact ⟨by decide, by decide⟩

set_option maxRecDepth 100000 in
/-- C2 (the second part fails).  Scenario S1 at 44.1 kHz stereo, paused right
after PLAY, holds a well-formed song; a poll at clock 1 returns the state
unchanged, with `song_pos = 0 < 1` and the mode PAUSED, not STOPPED. -/
theorem paused_poll_stays_behind :
    PollInv 1 5265 paused_S1 ∧
    (∀ fuel, music_poll fuel paused_S1 1 = Outcome.done paused_S1) ∧
    paused_S1.song.song_pos = 0 ∧ paused_S1.song.playmode = PLAYMODE_PAUSED ∧
    ¬ (1 ≤ paused_S1.song.song_pos ∨ paused_S1.song.playmode = PLAYMODE_STOPPED) :=
  ⟨note_song_inv paused_S1 5265 rfl rfl rfl rfl rfl rfl (by decide),
   fun fuel => music_poll_nosong fuel paused_S1 1 (Or.inr (Or.inl rfl)),
   rfl, rfl, by decide⟩

/-- The data offset of a voice at virtual offset `j` of virtual size `V` on a
100-byte sample: it reaches the size exactly when `j = V`. -/
theorem oneshot_offset (psample : SAMPLE_DESC) (c : CHANNEL_DESC) (hsz : psample.size = 100)
    (h0 : 0 ≤ c.voffset) (hj : c.voffset ≤ c.vsize) (hv1 : 1 ≤ c.vsize)
    (hv2 : c.vsize ≤ 1000) :
    (c.voffset = c.vsize → mix_offset psample c ≥ 100) ∧
    (c.voffset < c.vsize → mix_offset psample c < 100) := by
  have hl : toLong (c.voffset * toLong ((100 : Nat) : Int)) = c.voffset * 100 := by
    unfold toLong
    omega
  have hq0 : 0 ≤ c.voffset * 100 / c.vsize := Int.ediv_nonneg (by omega) (by omega)
  have hoff : ((mix_offset psample c : Nat) : Int) = c.voffset * 100 / c.vsize := by
    unfold mix_offset
    rw [hsz, hl, Int.tdiv_eq_ediv (by omega) (by omega)]
    have hq1 : c.voffset * 100 / c.vsize ≤ 100 := by
      have h := Int.ediv_le_ediv (by omega : (0 : Int) < c.vsize)
        (by omega : c.voffset * 100 ≤ 100 * c.vsize)
      rw [Int.mul_ediv_cancel _ (by omega : c.vsize ≠ 0)] at h
      exact h
    unfold toUInt
    omega
  constructor
  · intro e
    have h : c.voffset * 100 / c.vsize = 100 := by
      rw [e]
      exact Int.mul_ediv_cancel_left 100 (by omega)
    omega
  · intro hlt
    have h : c.voffset * 100 / c.vsize < 100 := by
      rw [Int.ediv_lt_iff_lt_mul (by omega)]
      omega
    omega

/-- The body of the channel loop on a one-shot voice that plays a sample of
100 zero bytes at virtual size `V` in 1..1000: at virtual offset `V` the voice
goes idle and the sums are kept; below `V` the virtual offset moves on by 1. -/
theorem oneshot_voice (st : Nat) (psample : SAMPLE_DESC) (c : CHANNEL_DESC)
    (hd : psample.data = some (List.replicate 100 0)) (hsz : psample.size = 100)
    (hl : psample.loop_size = 0) (h0 : 0 ≤ c.voffset) (hj : c.voffset ≤ c.vsize)
    (hv1 : 1 ≤ c.vsize) (hv2 : c.vsize ≤ 1000) (hvol : c.volume ≤ 15)
    (hpan : c.pan_pos ≤ 15) :
    (c.voffset = c.vsize →
      mix_voice build_volume_tables st psample c (0, 0)
        = some ({ c with isample := IDLE, voffset := 0, vsize := 0 }, (0, 0))) ∧
    (c.voffset < c.vsize →
      ∃ acc1, mix_voice build_volume_tables st psample c (0, 0)
        = some ({ c with voffset := c.voffset + 1 }, acc1)) := by
  obtain ⟨hend, hmid⟩ := oneshot_offset psample c hsz h0 hj hv1 hv2
  constructor
  · intro e
    have hat : mix_at_end psample (mix_offset psample c) := by
      unfold mix_at_end
      rw [hsz]
      exact Or.inl (hend e)
    unfold mix_voice
    rw [if_neg (by omega), if_pos hat, if_neg (by omega)]
  · intro hlt
    have hnot : ¬ mix_at_end psample (mix_offset psample c) := by
      unfold mix_at_end
      rw [hsz, hl]
      have := hmid hlt
      omega
    obtain ⟨c2, l, r, hm, _⟩ := mix_voice_zero st psample c (by omega) hvol hpan
      (List.replicate 100 0) hd (by rw [hsz]; exact List.length_replicate _ _)
      (fun b hb => List.eq_of_mem_replicate hb)
    obtain ⟨_, hcase⟩ := mix_voice_cases _ _ _ _ _ _ _ hm
    rcases hcase with ⟨ha, _⟩ | ⟨ha, _⟩ | ⟨_, e, _⟩
    · exact absurd ha hnot
    · exact absurd ha hnot
    · refine ⟨(l, r), ?_⟩
      rw [hm, e]
      have ht : toLong (c.voffset + 1) = c.voffset + 1 := by
        unfold toLong
        omega
      rw [ht]

/-- The channel loop over channels that are all idle changes nothing. -/
theorem idle_channels (l : List Nat) : ∀ (s : Engine) (acc : Int × Int),
    (∀ ch ∈ l, (s.chan ch).isample = IDLE) → mix_channels s acc l = some (s, acc) := by
  induction l with
  | nil => intro s acc _; rfl
  | cons c cs ih =>
    intro s acc h
    have hc : mix_channel s acc c = some (s, acc) := by
      unfold mix_channel
      rw [if_pos (h c (List.mem_cons_self _ _))]
    simp only [mix_channels, hc]
    exact ih s acc (fun ch hm => h ch (List.mem_cons_of_mem _ hm))

/-- The channel loop when `c0` is the only busy channel: it is the body of the
loop on `c0`. -/
theorem solo_channels (c0 : Nat) (c1 : CHANNEL_DESC) (acc1 : Int × Int) (l : List Nat) :
    ∀ (s : Engine) (acc : Int × Int) (tables : List (List Int)) (psample : SAMPLE_DESC),
    l.Nodup → c0 ∈ l →
    (∀ ch ∈ l, ch ≠ c0 → (s.chan ch).isample = IDLE) → (s.chan c0).isample ≠ IDLE →
    s.volume_tables = tables → s.samples (s.chan c0).isample = psample →
    mix_voice tables s.is_stereo psample (s.chan c0) acc = some (c1, acc1) →
    mix_channels s acc l = some ({ s with chan := upd s.chan c0 c1 }, acc1) := by
  induction l with
  | nil => intro s acc _ _ _ hm; exact absurd hm (List.not_mem_nil _)
  | cons c cs ih =>
    intro s acc tables psample hnd hm hidle hbusy ht hps hv
    rw [List.nodup_cons] at hnd
    by_cases e : c = c0
    · subst e
      have hc : mix_channel s acc c = some ({ s with chan := upd s.chan c c1 }, acc1) := by
        unfold mix_channel
        rw [if_neg hbusy, ht, hps, hv]
      simp only [mix_channels, hc]
      apply idle_channels
      intro ch hch
      have hne : ch ≠ c := fun e => hnd.1 (e ▸ hch)
      show (upd s.chan c c1 ch).isample = IDLE
      rw [upd_other _ _ _ _ hne]
      exact hidle ch (List.mem_cons_of_mem _ hch) hne
    · have hc : mix_channel s acc c = some (s, acc) := by
        unfold mix_channel
        rw [if_pos (hidle c (List.mem_cons_self _ _) e)]
      simp only [mix_channels, hc]
      have hm2 : c0 ∈ cs := by
        rcases List.mem_cons.mp hm with h | h
        · exact absurd h.symm e
        · exact h
      exact ih s acc tables psample hnd.2 hm2
        (fun ch hch => hidle ch (List.mem_cons_of_mem _ hch)) hbusy ht hps hv

/-- The stores of a frame after a channel loop that changed at most the
channels: inside the buffer they succeed and keep the length of the buffer. -/
theorem mix_output_store (s : Engine) (f : Nat → CHANNEL_DESC) (acc : Int × Int) (u : Nat)
    (hc : mix_channels s (0, 0) (List.range SSS_MAX_CHANNELS) = some ({ s with chan := f }, acc))
    (hu : u + mix_stride s ≤ (s.buffers s.bfr_toggle).length) :
    ∃ b, mix_output s u = some { s with chan := f, buffers := upd s.buffers s.bfr_toggle b } ∧
      b.length = (s.buffers s.bfr_toggle).length := by
  unfold mix_output
  rw [hc]
  simp only
  unfold buffer_put
  unfold mix_stride at hu
  by_cases hs : s.is_stereo ≠ 0
  · rw [if_pos hs] at hu
    rw [if_pos (by omega)]
    simp only
    rw [if_pos hs, if_pos (by rw [List.length_set]; omega)]
    exact ⟨_, rfl, by rw [List.length_set, List.length_set]⟩
  · rw [if_neg hs] at hu
    rw [if_pos (by omega)]
    simp only
    rw [if_neg hs]
    exact ⟨_, rfl, by rw [List.length_set]⟩

theorem S1Static.keep_song {V : Int} {s : Engine} (h : S1Static V s) (f : Nat → CHANNEL_DESC)
    (io ip i sp sd pm n : Nat)
    (hf : ∀ ch, ch < SSS_MAX_CHANNELS → ch ≠ SSS_MUSIC_FIRST → (f ch).isample = IDLE)
    (hpan : (f SSS_MUSIC_FIRST).pan_pos ≤ 15) :
    S1Static V { s with
      chan := f
      song := { s.song with
        iorder := io, ipattern := ip, istep := i, song_pos := sp, step_delay := sd,
        playmode := pm }
      song_counter := n } := by
  obtain ⟨h1, h2, h3, h4, h5, h6, _, _⟩ := h
  exact ⟨h1, h2, h3, h4, h5, h6, hf, hpan⟩

theorem S1Static.keep_out {V : Int} {s : Engine} (h : S1Static V s) (f : Nat → CHANNEL_DESC)
    (b : List Nat)
    (hf : ∀ ch, ch < SSS_MAX_CHANNELS → ch ≠ SSS_MUSIC_FIRST → (f ch).isample = IDLE)
    (hpan : (f SSS_MUSIC_FIRST).pan_pos ≤ 15)
    (hb : b.length = (s.buffers s.bfr_toggle).length) :
    S1Static V { s with chan := f, buffers := upd s.buffers s.bfr_toggle b } := by
  obtain ⟨h1, h2, ⟨g1, g2, g3, g4, g5⟩, h4, h5, h6, _, _⟩ := h
  refine ⟨h1, h2, ⟨g1, g2, g3, fun u hu => ?_, g5⟩, h4, h5, h6, hf, hpan⟩
  show (upd s.buffers s.bfr_toggle b u).length = s.bfr_size
  rw [upd_length s.buffers s.bfr_toggle b hb u]
  exact g4 u hu

/-- A poll at a clock the song position has reached changes nothing. -/
theorem music_poll_caught_up (fuel : Nat) (s : Engine) (T : Nat) (h : ¬ s.song.song_pos < T) :
    music_poll fuel s T = Outcome.done s := by
  by_cases hg : NoSong s
  · exact music_poll_nosong fuel s T hg
  · have e : music_poll fuel s T = music_poll_loop fuel T s := if_neg hg
    rw [e]
    exact music_poll_loop_settled T s (fun hc => h hc.1) fuel

/-- The channel loop of `music_poll` over channels on which the step has
neither a note nor an effect changes nothing. -/
theorem music_poll_channels_rest (step : SSS_STEP_DESC) (l : List Nat) : ∀ s : Engine,
    (∀ c ∈ l, step.note_pitch c = 0 ∧ step.note_effect c = 0) →
    music_poll_channels step s l = some s := by
  induction l with
  | nil => intro s _; rfl
  | cons c cs ih =>
    intro s h
    obtain ⟨hp, he⟩ := h c (List.mem_cons_self _ _)
    have hc : music_poll_channel step s c = some (s, false) := by
      unfold music_poll_channel music_poll_note music_poll_effect
      rw [if_neg (by rw [hp]; exact fun hx => hx rfl)]
      simp only
      rw [he]
      rfl
    simp only [music_poll_channels, hc]
    exact ih s (fun ch hm => h ch (List.mem_cons_of_mem _ hm))

/-- The call `sss_sample_play` on a live sample of the initialised engine. -/
theorem sss_sample_play_live (s : Engine) (ch hsmp pitch : Nat) (hi : s.initialized = true)
    (hch : ch < SSS_MAX_CHANNELS) (hh : hsmp < SSS_MAX_SAMPLES) (d : List Int)
    (hd : (s.samples hsmp).data = some d) (hr : (s.samples hsmp).smprate ≠ 0) :
    sss_sample_play s ch hsmp pitch =
      { s with
        chan := upd s.chan ch
                  (play_chan (s.chan ch) hsmp (play_vsize (s.samples hsmp) s.mixrate pitch)) } := by
  unfold sss_sample_play
  rw [if_neg (by rw [hi]; decide), if_neg (by omega)]
  have hno : ¬ (hsmp ≥ SSS_MAX_SAMPLES ∨ (s.samples hsmp).data = none ∨
      (s.samples hsmp).smprate = 0) := by
    rw [hd]
    intro hx
    rcases hx with h | h | h
    · omega
    · exact absurd h (by simp)
    · exact hr h
  rw [if_neg hno]

/-- The call `sss_channel_volume` on a channel of the initialised engine. -/
theorem sss_channel_volume_live (s : Engine) (ch v : Nat) (hi : s.initialized = true)
    (hch : ch < SSS_MAX_CHANNELS) :
    sss_channel_volume s ch v =
      { s with chan := upd s.chan ch { (s.chan ch) with volume := volume_row v } } := by
  unfold sss_channel_volume
  rw [if_neg (by rw [hi]; decide), if_neg (by omega)]

/-- The position update on the last step of the last pattern of the order
list: the song stops and the song counter is reset. -/
theorem music_poll_advance_end (s : Engine) (pats : List MUSICPATTERN_DESC)
    (pat : MUSICPATTERN_DESC) (hp : s.song.patterns = some pats)
    (hq : pats[s.song.ipattern]? = some pat)
    (h1 : (s.song.istep + 1) % W32 ≥ pat.nsteps)
    (h2 : (s.song.iorder + 1) % W32 ≥ s.song.norder) :
    music_poll_advance s = some { s with
      song := { s.song with
        playmode := PLAYMODE_STOPPED, song_pos := 0, istep := 0, iorder := 0, ipattern := 0 }
      song_counter := 0 } := by
  unfold music_poll_advance
  simp only
  rw [hp]
  simp only
  rw [hq]
  simp only
  rw [← hp, if_pos h1]
  simp only
  rw [if_pos h2]

theorem play_chan_live (c : CHANNEL_DESC) (h : Nat) (V : Int) (hV : 1 ≤ V) :
    play_chan c h V = { c with vsize := V, isample := h, voffset := 0 } := by
  unfold play_chan
  rw [if_neg (by omega)]

/-- The channel loop of `music_poll` on `note_step`: the note is started on
music channel 0 at the music volume, nothing else changes. -/
theorem note_step_channels (a : Engine) (V : Int) (hi : a.initialized = true)
    (hd : (a.samples 0).data = some (List.replicate 100 0)) (hr : (a.samples 0).smprate = 8000)
    (hV : play_vsize (a.samples 0) a.mixrate (428 * PITCH_SCALE) = V) (hV1 : 1 ≤ V)
    (hsm : a.song.samples = [0]) :
    music_poll_channels note_step a (List.range SSS_MUSIC_CHANNELS) =
      some { a with
        chan := upd a.chan SSS_MUSIC_FIRST
                  { (a.chan SSS_MUSIC_FIRST) with
                    vsize := V, isample := 0, voffset := 0, volume := volume_row a.music_volume } }
    := by
  have hplay := sss_sample_play_live a (SSS_MUSIC_FIRST + 0) 0 (428 * PITCH_SCALE) hi
    (by decide) (by decide) _ hd (by rw [hr]; decide)
  rw [hV, play_chan_live _ _ V hV1] at hplay
  have hi1 : (sss_sample_play a (SSS_MUSIC_FIRST + 0) 0 (428 * PITCH_SCALE)).initialized
      = true := by
    rw [hplay]
    exact hi
  have hvol := sss_channel_volume_live
    (sss_sample_play a (SSS_MUSIC_FIRST + 0) 0 (428 * PITCH_SCALE)) (SSS_MUSIC_FIRST + 0)
    a.music_volume hi1 (by decide)
  have hnote : music_poll_channel note_step a 0
      = some (sss_channel_volume
          (sss_sample_play a (SSS_MUSIC_FIRST + 0) 0 (428 * PITCH_SCALE))
          (SSS_MUSIC_FIRST + 0) a.music_volume, false) := by
    unfold music_poll_channel music_poll_note
    rw [if_pos (by decide)]
    have hget : a.song.samples[note_step.note_sample 0]? = some 0 := by
      rw [hsm]
      rfl
    rw [hget]
    simp only
    unfold music_poll_effect
    rw [if_neg (by decide), if_neg (by decide), if_neg (by decide), if_neg (by decide)]
    rfl
  have hr8 : List.range SSS_MUSIC_CHANNELS = 0 :: [1, 2, 3, 4, 5, 6, 7] := by decide
  rw [hr8, music_poll_channels, hnote]
  simp only
  rw [music_poll_channels_rest note_step [1, 2, 3, 4, 5, 6, 7] _ (by decide), hvol, hplay]
  simp only [Nat.add_zero, upd_same, upd_upd]

/-- The body of the `while` loop of `music_poll` on `note_step` as the only
step of the only pattern of the order list: the note is started, and the
position update stops the song and resets the song counter. -/
theorem note_step_fire (a : Engine) (V : Int) (hi : a.initialized = true)
    (hd : (a.samples 0).data = some (List.replicate 100 0)) (hr : (a.samples 0).smprate = 8000)
    (hV : play_vsize (a.samples 0) a.mixrate (428 * PITCH_SCALE) = V) (hV1 : 1 ≤ V)
    (hsm : a.song.samples = [0])
    (hp : a.song.patterns = some [{ nsteps := 1, steps := [note_step] }])
    (hip : a.song.ipattern = 0) (his : a.song.istep = 0) (hio : a.song.iorder = 0)
    (hn : a.song.norder = 1) :
    (music_poll_channels note_step a (List.range SSS_MUSIC_CHANNELS)).bind music_poll_advance =
      some { a with
        chan := upd a.chan SSS_MUSIC_FIRST
                  { (a.chan SSS_MUSIC_FIRST) with
                    vsize := V, isample := 0, voffset := 0, volume := volume_row a.music_volume }
        song := { a.song with
          playmode := PLAYMODE_STOPPED, song_pos := 0, istep := 0, iorder := 0, ipattern := 0 }
        song_counter := 0 } := by
  rw [note_step_channels a V hi hd hr hV hV1 hsm, Option.some_bind]
  exact music_poll_advance_end { a with chan := _ } [{ nsteps := 1, steps := [note_step] }]
    { nsteps := 1, steps := [note_step] } hp (by rw [hip]; rfl) (by rw [his]; decide)
    (by rw [hio, hn]; decide)

/-- The music poll that fires the step of scenario S1: at a clock of at least
1 and with fuel for one step it returns; the note is started on the music
voice at virtual offset 0 and the song, at the end of its order list, is
stopped with the song counter reset. -/
theorem s1_fire (V : Int) (fuel T : Nat) (s : Engine) (hs : S1Static V s) (hw : S1Wait s)
    (hT : 1 ≤ T) (hf : 1 ≤ fuel) :
    ∃ s1, music_poll fuel s T = Outcome.done s1 ∧ S1Static V s1 ∧ S1Play V 0 s1 := by
  obtain ⟨hi, ht, hfmt, ⟨hd, hsz, hl, hr⟩, ⟨hV, hV1, hV2⟩, ⟨hp, ho, hn, hsm⟩, hidle, hpan⟩ := hs
  obtain ⟨hc4, hmode, hpos, hio, his, hcnt⟩ := hw
  have hg : ¬ NoSong s := by
    intro h
    rcases h with h | h | h
    · rw [hp] at h
      exact absurd h (by simp)
    · rw [hmode] at h
      exact absurd h (by decide)
    · rw [hmode] at h
      exact absurd h (by decide)
  have e : music_poll fuel s T = music_poll_loop fuel T s := if_neg hg
  obtain ⟨n, rfl⟩ : ∃ n, fuel = n + 1 := ⟨fuel - 1, by omega⟩
  have hcond : s.song.song_pos < T ∧ s.song.playmode ≠ PLAYMODE_STOPPED := by
    rw [hpos, hmode]
    exact ⟨by omega, by decide⟩
  have hstep : music_poll_step s = some (note_fired V s) :=
    (music_poll_step_some s 0 _ _ note_step (by rw [ho, hio]; rfl) hp rfl
      (by rw [his]; rfl)).trans
    (note_step_fire { s with song := { s.song with ipattern := 0 } } V hi hd hr hV hV1 hsm hp
      rfl his hio hn)
  refine ⟨note_fired V s, ?_, ?_, ?_⟩
  · rw [e]
    simp only [music_poll_loop, if_pos hcond, hstep]
    exact music_poll_loop_settled T _ (fun hx => hx.2 rfl) n
  · refine S1Static.keep_song ⟨hi, ht, hfmt, ⟨hd, hsz, hl, hr⟩, ⟨hV, hV1, hV2⟩,
      ⟨hp, ho, hn, hsm⟩, hidle, hpan⟩ _ 0 0 0 0 s.song.step_delay PLAYMODE_STOPPED 0 ?_ ?_
    · intro ch hlt hne
      rw [upd_other _ _ _ _ hne]
      exact hidle ch hlt hne
    · simp only [upd_same]
      exact hpan
  · refine ⟨rfl, rfl, ?_, ?_, ?_, ?_⟩
    · simp only [note_fired, upd_same]
    · simp only [note_fired, upd_same]
    · simp only [note_fired, upd_same]
    · simp only [note_fired, upd_same]
      exact volume_row_le _

theorem MixOK.format {s s1 : Engine} (h : MixOK s s1) :
    s1.is_stereo = s.is_stereo ∧ s1.mixrate = s.mixrate ∧ s1.bfr_size = s.bfr_size := by
  obtain ⟨⟨f, g, n, b, rfl, _⟩, _⟩ := h
  exact ⟨rfl, rfl, rfl⟩

theorem mix_stride_cases (s : Engine) : mix_stride s = 1 ∨ mix_stride s = 2 := by
  unfold mix_stride
  split_ifs
  · exact Or.inr rfl
  · exact Or.inl rfl

/-- At each of the six formats the frame `first_poll` is at least 1 and meets
the poll condition of `mix`, and the buffer holds at most 44100 bytes. -/
theorem first_poll_fires (s : Engine) (h : FormatOK s) :
    1 ≤ first_poll s ∧
    ((first_poll s * mix_stride s) >>> 1) % ((s.mixrate / 64) >>> s.is_stereo) = 0 ∧
    s.bfr_size ≤ 44100 := by
  obtain ⟨h1, h2, h3, _⟩ := h
  unfold first_poll mix_stride
  rw [h3]
  rcases h1 with e | e | e <;> rcases h2 with k | k <;> rw [e, k] <;> decide

/-- The mixing and the stores of a frame of scenario S1 while the music voice
is idle: nothing but the output buffer changes. -/
theorem s1_output_idle (V : Int) (s : Engine) (u : Nat) (hs : S1Static V s)
    (hc : (s.chan SSS_MUSIC_FIRST).isample = IDLE) (hu : u + mix_stride s ≤ s.bfr_size) :
    ∃ s1, mix_output s u = some s1 ∧ S1Static V s1 ∧ (S1Wait s → S1Wait s1) ∧
      (S1Rest s → S1Rest s1) := by
  have hidle : ∀ ch ∈ List.range SSS_MAX_CHANNELS, (s.chan ch).isample = IDLE := by
    intro ch hm
    by_cases e : ch = SSS_MUSIC_FIRST
    · rw [e]
      exact hc
    · exact hs.2.2.2.2.2.2.1 ch (List.mem_range.mp hm) e
  obtain ⟨b, hb, hlen⟩ := mix_output_store s s.chan (0, 0) u
    (idle_channels _ s (0, 0) hidle) (by rw [hs.2.2.1.buffer.1]; exact hu)
  exact ⟨_, hb, hs.keep_out s.chan b hs.2.2.2.2.2.2.1 hs.2.2.2.2.2.2.2 hlen, fun h => h,
    fun h => h⟩

/-- The mixing and the stores of a frame of scenario S1 while the music voice
plays at virtual offset `j`: below `V` the offset moves on by 1, at `V` the
voice goes idle. -/
theorem s1_output_play (V j : Int) (s : Engine) (u : Nat) (hs : S1Static V s)
    (hp : S1Play V j s) (h0 : 0 ≤ j) (hj : j ≤ V) (hu : u + mix_stride s ≤ s.bfr_size) :
    ∃ s1, mix_output s u = some s1 ∧ S1Static V s1 ∧ (j < V → S1Play V (j + 1) s1) ∧
      (j = V → S1Rest s1) := by
  obtain ⟨hmode, hcnt, hsmp, hvs, hvo, hvol⟩ := hp
  have hst := hs
  obtain ⟨hi, ht, hfmt, ⟨hd, hsz, hl, hr⟩, ⟨hV, hV1, hV2⟩, hsong, hidle, hpan⟩ := hs
  clear hV
  have hbusy : (s.chan SSS_MUSIC_FIRST).isample ≠ IDLE := by
    rw [hsmp]
    decide
  have hlenu : u + mix_stride s ≤ (s.buffers s.bfr_toggle).length := by
    rw [hfmt.buffer.1]
    exact hu
  obtain ⟨hend, hmid⟩ := oneshot_voice s.is_stereo (s.samples 0) (s.chan SSS_MUSIC_FIRST)
    hd hsz hl (by omega) (by omega) (by omega) (by omega) hvol hpan
  have hidle2 : ∀ ch ∈ List.range SSS_MAX_CHANNELS, ch ≠ SSS_MUSIC_FIRST →
      (s.chan ch).isample = IDLE := fun ch hm hne => hidle ch (List.mem_range.mp hm) hne
  by_cases e : j = V
  · have hv := hend (by omega)
    have hch := solo_channels SSS_MUSIC_FIRST _ _ (List.range SSS_MAX_CHANNELS) s (0, 0)
      build_volume_tables (s.samples 0) (List.nodup_range _) (by decide) hidle2 hbusy ht
      (by rw [hsmp]) hv
    obtain ⟨b, hb, hlen⟩ := mix_output_store s _ _ u hch hlenu
    refine ⟨_, hb, hst.keep_out _ b ?_ ?_ hlen, fun hlt => absurd e (by omega), fun _ => ?_⟩
    · intro ch hlt hne
      rw [upd_other _ _ _ _ hne]
      exact hidle ch hlt hne
    · rw [upd_same]
      exact hpan
    · refine ⟨hmode, hcnt, ?_⟩
      simp only [upd_same]
  · obtain ⟨acc1, hv⟩ := hmid (by omega)
    have hch := solo_channels SSS_MUSIC_FIRST _ _ (List.range SSS_MAX_CHANNELS) s (0, 0)
      build_volume_tables (s.samples 0) (List.nodup_range _) (by decide) hidle2 hbusy ht
      (by rw [hsmp]) hv
    obtain ⟨b, hb, hlen⟩ := mix_output_store s _ _ u hch hlenu
    refine ⟨_, hb, hst.keep_out _ b ?_ ?_ hlen, fun _ => ?_, fun h => absurd h e⟩
    · intro ch hlt hne
      rw [upd_other _ _ _ _ hne]
      exact hidle ch hlt hne
    · rw [upd_same]
      exact hpan
    · refine ⟨hmode, hcnt, ?_, ?_, ?_, ?_⟩
      · simp only [upd_same]
        exact hsmp
      · simp only [upd_same]
        exact hvs
      · simp only [upd_same]
        rw [hvo]
      · simp only [upd_same]
        exact hvol

/-- One frame of `mix` in scenario S1, before frame `k` of the buffer: the
frame runs, and the state before frame `k + 1` is as `S1Inv` says, with the
first poll frame of the state before. -/
theorem s1_frame_core (V : Int) (fuel k : Nat) (s : Engine) (hinv : S1Inv V k s)
    (hfuel : 1 ≤ fuel) (hu : (k + 1) * mix_stride s ≤ s.bfr_size) :
    ∃ s1, mix_frame fuel s (k * mix_stride s) = Outcome.done s1 ∧ S1Static V s1 ∧
      ((S1Wait s1 ∧ k + 1 ≤ first_poll s) ∨
       (∃ j : Int, 1 ≤ j ∧ j ≤ V ∧ ((k + 1 : Nat) : Int) ≤ (first_poll s : Int) + j ∧
          S1Play V j s1) ∨
       S1Rest s1) := by
  obtain ⟨hs, hcase⟩ := hinv
  have hfmt : FormatOK s := hs.2.2.1
  have hM := hfmt.poll_safe
  obtain ⟨hk1, hfire, hsmall⟩ := first_poll_fires s hfmt
  have hstr := mix_stride_cases s
  have hV1 : 1 ≤ V := hs.2.2.2.2.1.2.1
  have hu1 : k * mix_stride s + mix_stride s ≤ s.bfr_size := by
    rw [Nat.add_mul, Nat.one_mul] at hu
    exact hu
  have hdiv : k * mix_stride s / mix_stride s = k :=
    Nat.mul_div_cancel k (by rcases hstr with e | e <;> omega)
  have hklt : k < W32 := by
    have : k * mix_stride s ≤ 44100 := by omega
    have : k ≤ k * mix_stride s := Nat.le_mul_of_pos_right k (by rcases hstr with e | e <;> omega)
    simp only [W32]
    omega
  rcases hcase with ⟨hw, hk⟩ | ⟨j, hj1, hjV, hkj, hp⟩ | hr
  · have hclock : (s.song_counter + k * mix_stride s / mix_stride s) % W32 = k := by
      rw [hw.2.2.2.2.2, hdiv, Nat.zero_add]
      exact Nat.mod_eq_of_lt hklt
    have hidle_case : ∀ (hpoll : mix_poll fuel s (k * mix_stride s) = Outcome.done s)
        (hnext : k + 1 ≤ first_poll s),
        ∃ s1, mix_frame fuel s (k * mix_stride s) = Outcome.done s1 ∧ S1Static V s1 ∧
          ((S1Wait s1 ∧ k + 1 ≤ first_poll s) ∨
           (∃ j : Int, 1 ≤ j ∧ j ≤ V ∧ ((k + 1 : Nat) : Int) ≤ (first_poll s : Int) + j ∧
              S1Play V j s1) ∨
           S1Rest s1) := by
      intro hpoll hnext
      obtain ⟨s1, ho, hs1, hw1, _⟩ := s1_output_idle V s (k * mix_stride s) hs hw.1 hu1
      refine ⟨s1, ?_, hs1, Or.inl ⟨hw1 hw, hnext⟩⟩
      unfold mix_frame
      rw [hpoll]
      simp only
      rw [ho]
    by_cases h0 : k * mix_stride s = 0
    · have hk0 : k = 0 := by
        rcases Nat.mul_eq_zero.mp h0 with e | e
        · exact e
        · rcases hstr with e1 | e1 <;> omega
      apply hidle_case
      · unfold mix_poll
        rw [if_pos h0, hclock]
        exact music_poll_caught_up fuel s k (by omega)
      · omega
    · by_cases hm : ((k * mix_stride s) >>> 1) % ((s.mixrate / 64) >>> s.is_stereo) = 0
      · have hkpos : 1 ≤ k := by
          rcases Nat.eq_zero_or_pos k with e | e
          · rw [e, Nat.zero_mul] at h0
            exact absurd rfl h0
          · exact e
        obtain ⟨sp, hpoll, hsp, hpp⟩ := s1_fire V fuel k s hs hw hkpos hfuel
        have hmp : mix_poll fuel s (k * mix_stride s) = Outcome.done sp := by
          unfold mix_poll
          rw [if_neg h0, if_neg hM, if_pos hm, hclock]
          exact hpoll
        obtain ⟨f, g, n, e⟩ := (mix_poll_ok fuel s sp _ hmp).1
        have hstride : mix_stride sp = mix_stride s := by rw [e]; rfl
        have hsize : sp.bfr_size = s.bfr_size := by rw [e]
        obtain ⟨s1, ho, hs1, hnext, _⟩ := s1_output_play V 0 sp (k * mix_stride s) hsp hpp
          (le_refl 0) (by omega) (by rw [hstride, hsize]; exact hu1)
        refine ⟨s1, ?_, hs1, Or.inr (Or.inl ⟨0 + 1, by omega, by omega, ?_, hnext (by omega)⟩)⟩
        · unfold mix_frame
          rw [hmp]
          simp only
          rw [ho]
        · push_cast
          omega
      · apply hidle_case
        · unfold mix_poll
          rw [if_neg h0, if_neg hM, if_neg hm]
        · have hne : k ≠ first_poll s := by
            intro e
            rw [e] at hm
            exact hm hfire
          omega
  · have hpoll : mix_poll fuel s (k * mix_stride s) = Outcome.done s :=
      quiet_poll fuel s _ (Or.inr (Or.inr hp.1)) hM
    obtain ⟨s1, ho, hs1, hnext, hend⟩ := s1_output_play V j s (k * mix_stride s) hs hp
      (by omega) hjV hu1
    have hframe : mix_frame fuel s (k * mix_stride s) = Outcome.done s1 := by
      unfold mix_frame
      rw [hpoll]
      simp only
      rw [ho]
    by_cases e : j = V
    · exact ⟨s1, hframe, hs1, Or.inr (Or.inr (hend e))⟩
    · refine ⟨s1, hframe, hs1, Or.inr (Or.inl ⟨j + 1, by omega, by omega, ?_, hnext (by omega)⟩)⟩
      push_cast
      omega
  · have hpoll : mix_poll fuel s (k * mix_stride s) = Outcome.done s :=
      quiet_poll fuel s _ (Or.inr (Or.inr hr.1)) hM
    obtain ⟨s1, ho, hs1, _, hr1⟩ := s1_output_idle V s (k * mix_stride s) hs hr.2.2 hu1
    refine ⟨s1, ?_, hs1, Or.inr (Or.inr (hr1 hr))⟩
    unfold mix_frame
    rw [hpoll]
    simp only
    rw [ho]

/-- One frame of `mix` in scenario S1 keeps the invariant. -/
theorem s1_frame (V : Int) (fuel k : Nat) (s : Engine) (hinv : S1Inv V k s)
    (hfuel : 1 ≤ fuel) (hu : (k + 1) * mix_stride s ≤ s.bfr_size) :
    ∃ s1, mix_frame fuel s (k * mix_stride s) = Outcome.done s1 ∧ S1Inv V (k + 1) s1 ∧
      mix_stride s1 = mix_stride s ∧ s1.bfr_size = s.bfr_size := by
  obtain ⟨s1, h1, hs1, hc⟩ := s1_frame_core V fuel k s hinv hfuel hu
  obtain ⟨e1, e2, e3⟩ := (mix_frame_ok fuel s s1 _ h1).format
  have hfp : first_poll s1 = first_poll s := by
    unfold first_poll
    rw [e1, e2]
  have hst : mix_stride s1 = mix_stride s := by
    unfold mix_stride
    rw [e1]
  refine ⟨s1, h1, ⟨hs1, ?_⟩, hst, e3⟩
  rw [hfp]
  exact hc

/-- The frame loop of `mix` in scenario S1 keeps the invariant. -/
theorem s1_frames (V : Int) (fuel : Nat) (hfuel : 1 ≤ fuel) (n : Nat) :
    ∀ (k : Nat) (s : Engine), S1Inv V k s → (k + n) * mix_stride s ≤ s.bfr_size →
    ∃ s1, mix_frames fuel n (k * mix_stride s) s = Outcome.done s1 ∧ S1Inv V (k + n) s1 := by
  induction n with
  | zero =>
    intro k s hinv _
    exact ⟨s, rfl, hinv⟩
  | succ n ih =>
    intro k s hinv hu
    have hs := mix_stride_cases s
    obtain ⟨s1, h1, hinv1, hst, hsz⟩ := s1_frame V fuel k s hinv hfuel (by
      have : (k + 1) * mix_stride s ≤ (k + (n + 1)) * mix_stride s :=
        Nat.mul_le_mul_right _ (by omega)
      omega)
    obtain ⟨s2, h2, hinv2⟩ := ih (k + 1) s1 hinv1 (by
      rw [hst, hsz]
      have e : k + 1 + n = k + (n + 1) := by omega
      rw [e]
      exact hu)
    refine ⟨s2, ?_, ?_⟩
    · simp only [mix_frames, h1]
      have e : k * mix_stride s + mix_stride s1 = (k + 1) * mix_stride s1 := by
        rw [hst, Nat.add_mul, Nat.one_mul]
      rw [e]
      exact h2
    · have e : k + (n + 1) = k + 1 + n := by omega
      rw [e]
      exact hinv2

/-- One buffer of `mix` in scenario S1, when the buffer has more frames than
the first poll frame plus the `V` frames of the note: `mix` returns with the
music voice idle, the song stopped and the song counter 0. -/
theorem s1_mix (V : Int) (fuel : Nat) (s : Engine) (hs : S1Static V s) (hw : S1Wait s)
    (hfuel : 1 ≤ fuel) (hlong : (first_poll s : Int) + V < (mix_frame_count s : Int)) :
    ∃ s1, mix fuel s = Outcome.done s1 ∧ (s1.chan SSS_MUSIC_FIRST).isample = IDLE ∧
      s1.song.playmode = PLAYMODE_STOPPED ∧ s1.song_counter = 0 := by
  have hfmt : FormatOK s := hs.2.2.1
  have hV1 : 1 ≤ V := hs.2.2.2.2.1.2.1
  have hcount := mix_frame_count_mul s hfmt.buffer.2
  obtain ⟨s1, h1, hs1, hc⟩ := s1_frames V fuel hfuel (mix_frame_count s) 0 s
    ⟨hs, Or.inl ⟨hw, Nat.zero_le _⟩⟩ (by rw [Nat.zero_add, hcount])
  rw [Nat.zero_mul] at h1
  obtain ⟨e1, e2, _⟩ := (mix_frames_ok fuel _ _ s s1 h1).format
  have hfp : first_poll s1 = first_poll s := by
    unfold first_poll
    rw [e1, e2]
  rw [hfp, Nat.zero_add] at hc
  have hrest : S1Rest s1 := by
    rcases hc with ⟨_, hk⟩ | ⟨j, _, hjV, hkj, _⟩ | hr
    · omega
    · omega
    · exact hr
  refine ⟨s1, ?_, hrest.2.2, hrest.1, hrest.2.1⟩
  unfold mix
  rw [h1]
  simp only
  unfold mix_advance
  rw [if_neg (by rw [hrest.1]; decide), if_neg (by rw [hrest.1]; decide),
    if_neg (by rw [hrest.1]; decide)]

theorem reach_create (s : Engine) (a b c : Nat) (h : Reachable s) :
    Reachable (state_of (sss_music_create s a b c) s) := by
  cases hr : sss_music_create s a b c with
  | none => exact h
  | some r => exact Reachable.create s r.1 a b c r.2 h hr

theorem reach_sample_add (s : Engine) (d : List Int) (a b c r e : Nat) (h : Reachable s) :
    Reachable (state_of (sss_sample_add s d a b c r e) s) := by
  cases hr : sss_sample_add s d a b c r e with
  | none => exact h
  | some x => exact Reachable.sample_add s x.1 d a b c r e x.2 h hr

theorem reach_define_sample (s : Engine) (a b : Nat) (h : Reachable s) :
    Reachable (state_of (sss_music_define_sample s a b) s) := by
  cases hr : sss_music_define_sample s a b with
  | none => exact h
  | some x => exact Reachable.define_sample s x.1 a b x.2 h hr

theorem reach_define_pattern (s : Engine) (a b : Nat) (h : Reachable s) :
    Reachable (state_of (sss_music_define_pattern s a b) s) := by
  cases hr : sss_music_define_pattern s a b with
  | none => exact h
  | some x => exact Reachable.define_pattern s x.1 a b x.2 h hr

theorem reach_define_step (s : Engine) (a b : Nat) (st : SSS_STEP_DESC) (h : Reachable s) :
    Reachable (state_of (sss_music_define_step s a b st) s) := by
  cases hr : sss_music_define_step s a b st with
  | none => exact h
  | some x => exact Reachable.define_step s x.1 a b x.2 st h hr

/-- Scenario S1 is built through the interface of sss.h: it is reachable. -/
theorem scenario_S1_reachable (bits : Nat) : Reachable (scenario_S1 bits) :=
  Reachable.command _ _
    (reach_define_step _ 0 0 note_step
      (Reachable.define_order _ 0 0
        (reach_define_pattern _ 0 1
          (reach_define_sample _ 0 0
            (reach_sample_add _ (List.replicate 100 0) 100 0 0 8000 0
              (reach_create _ 1 1 1 (Reachable.init boot bits Reachable.start)))))))

set_option maxRecDepth 100000 in
/-- Scenario S1 at each of the six formats: the facts the mixer keeps, with
the virtual size `play_vsize` computes for the note, the state right after
PLAY, and a buffer longer than the first poll frame plus the note. -/
theorem scenario_S1_ready (bits : Nat) (hb : bits ∈ [512, 32, 2, 256, 16, 1]) :
    S1Static (play_vsize ((scenario_S1 bits).samples 0) (scenario_S1 bits).mixrate
        (428 * PITCH_SCALE)) (scenario_S1 bits) ∧
    S1Wait (scenario_S1 bits) ∧
    (first_poll (scenario_S1 bits) : Int) +
        play_vsize ((scenario_S1 bits).samples 0) (scenario_S1 bits).mixrate (428 * PITCH_SCALE)
      < (mix_frame_count (scenario_S1 bits) : Int) := by
  have hok := fun (h : (scenario_S1 bits).initialized = true) =>
    (scenario_S1_reachable bits).engine_ok.2 h
  simp only [List.mem_cons, List.mem_singleton, List.not_mem_nil, or_false] at hb
  rcases hb with e | e | e | e | e | e <;> subst e <;>
    exact ⟨⟨rfl, (hok rfl).1, (hok rfl).2.1, ⟨rfl, rfl, rfl, rfl⟩, ⟨rfl, by decide, by decide⟩,
      ⟨rfl, rfl, rfl, rfl⟩, by decide, by decide⟩, ⟨rfl, rfl, rfl, rfl, rfl, rfl⟩, by decide⟩

/-- One buffer of `mix` in scenario S1 at each of the six formats. -/
theorem scenario_S1_mix (bits : Nat) (hb : bits ∈ [512, 32, 2, 256, 16, 1]) (fuel : Nat)
    (hfuel : 1 ≤ fuel) :
    ∃ s1, mix fuel (scenario_S1 bits) = Outcome.done s1 ∧
      (s1.chan SSS_MUSIC_FIRST).isample = IDLE ∧ s1.song.playmode = PLAYMODE_STOPPED ∧
      s1.song_counter = 0 := by
  obtain ⟨hs, hw, hlong⟩ := scenario_S1_ready bits hb
  exact s1_mix _ fuel (scenario_S1 bits) hs hw hfuel hlong

set_option maxRecDepth 100000 in
/-- C10 (the last part fails).  Scenario S1 at 44.1 kHz stereo, whose buffer
has 22050 frames: `mix` returns with `song_counter = 0`, not 22050. -/
theorem song_counter_reset_at_end :
    mix_frame_count (scenario_S1 512) = 22050 ∧
    ∃ s1, mix 1 (scenario_S1 512) = Outcome.done s1 ∧ s1.song_counter = 0 ∧
      s1.song_counter ≠ mix_frame_count (scenario_S1 512) := by
  obtain ⟨s1, h1, _, _, h4⟩ := scenario_S1_mix 512 (by decide) 1 (le_refl 1)
  have hn : mix_frame_count (scenario_S1 512) = 22050 := by decide
  refine ⟨hn, s1, h1, h4, ?_⟩
  rw [h4, hn]
  decide

/-- C10 (amended).  Scenario S1: the engine initialised on a device whose
capability word `bits` selects one of the six supported formats (44.1, 22.05
or 11.025 kHz, stereo or mono), a song of one pattern with one step, order
list [0] and one 100-byte all-zero non-looping sample recorded at 8000 Hz,
whose step has pitch 428 * 18 on music channel 0 and no effects, built through
the construction interface and started with PLAY from STOPPED (so the mode is
PLAYING, the music voice idle and the song counter 0).  Mixing exactly one
buffer returns, for every fuel of at least one step; afterwards the music
voice (channel `SSS_MUSIC_FIRST`) is idle, the mode is STOPPED, and
`song_counter` is 0: the end of the song resets it and `mix` does not advance
it in mode STOPPED. -/
theorem scenario_S1_one_buffer (bits : Nat) (hb : bits ∈ [512, 32, 2, 256, 16, 1])
    (fuel : Nat) (hfuel : 1 ≤ fuel) :
    ((scenario_S1 bits).song.playmode = PLAYMODE_PLAYING ∧
      ((scenario_S1 bits).chan SSS_MUSIC_FIRST).isample = IDLE ∧
      (scenario_S1 bits).song_counter = 0 ∧ 0 < mix_frame_count (scenario_S1 bits)) ∧
    ∃ s1, mix fuel (scenario_S1 bits) = Outcome.done s1 ∧
      (s1.chan SSS_MUSIC_FIRST).isample = IDLE ∧ s1.song.playmode = PLAYMODE_STOPPED ∧
      s1.song_counter = 0 := by
  obtain ⟨_, hw, hlong⟩ := scenario_S1_ready bits hb
  refine ⟨⟨hw.2.1, hw.1, hw.2.2.2.2.2, ?_⟩, scenario_S1_mix bits hb fuel hfuel⟩
  have h0 : (0 : Int) ≤ (first_poll (scenario_S1 bits) : Int) := Int.ofNat_nonneg _
  have h1 := (scenario_S1_ready bits hb).1.2.2.2.2.1.2.1
  omega

/-- C10 (witness): the 22.05 kHz mono format (capability bit 16), fuel 1. -/
theorem scenario_S1_one_buffer_witness :
    16 ∈ [512, 32, 2, 256, 16, 1] ∧ 1 ≤ 1 ∧
    ((scenario_S1 16).song.playmode = PLAYMODE_PLAYING ∧
      ((scenario_S1 16).chan SSS_MUSIC_FIRST).isample = IDLE ∧
      (scenario_S1 16).song_counter = 0 ∧ 0 < mix_frame_count (scenario_S1 16)) ∧
    ∃ s1, mix 1 (scenario_S1 16) = Outcome.done s1 ∧
      (s1.chan SSS_MUSIC_FIRST).isample = IDLE ∧ s1.song.playmode = PLAYMODE_STOPPED ∧
      s1.song_counter = 0 :=
  ⟨by decide, le_refl 1, scenario_S1_one_buffer 16 (by decide) 1 (le_refl 1)⟩

theorem Sequenced.seq_refl (s : Engine) : Sequenced s s :=
  ⟨_, _, _, _, _, _, _, _, _, rfl, Or.inl ⟨rfl, rfl⟩⟩

theorem Sequenced.seq_trans {s s1 s2 : Engine} (h1 : Sequenced s s1) (h2 : Sequenced s1 s2) :
    Sequenced s s2 := by
  obtain ⟨f, io, ip, i, sp, sd, pm, n, b, rfl, c1⟩ := h1
  obtain ⟨f2, io2, ip2, i2, sp2, sd2, pm2, n2, b2, rfl, c2⟩ := h2
  refine ⟨_, _, _, _, _, _, _, _, _, rfl, ?_⟩
  rcases c2 with ⟨e1, e2⟩ | e
  · rcases c1 with ⟨d1, d2⟩ | d
    · exact Or.inl ⟨e1.trans d1, e2.trans d2⟩
    · exact Or.inr (e1.trans d)
  · exact Or.inr e

theorem OnlyChan.chan_toSeq {s s1 : Engine} (h : OnlyChan s s1) : Sequenced s s1 := by
  obtain ⟨f, rfl⟩ := h
  exact ⟨_, _, _, _, _, _, _, _, _, rfl, Or.inl ⟨rfl, rfl⟩⟩

theorem ChanLoop.loop_toSeq {s s1 : Engine} (h : ChanLoop s s1) : Sequenced s s1 := by
  obtain ⟨f, io, i, sd, rfl⟩ := h
  exact ⟨_, _, _, _, _, _, _, _, _, rfl, Or.inl ⟨rfl, rfl⟩⟩

theorem music_poll_note_only (step : SSS_STEP_DESC) (s s1 : Engine) (c : Nat)
    (h : music_poll_note step s c = some s1) : OnlyChan s s1 := by
  unfold music_poll_note at h
  split_ifs at h with hp
  · split at h
    · exact absurd h (by simp)
    · simp only [Option.some.injEq] at h
      subst h
      exact (sss_sample_play_only _ _ _ _).chan_trans (sss_channel_volume_only _ _ _)
  · simp only [Option.some.injEq] at h
    subst h
    exact OnlyChan.chan_refl s

theorem music_poll_channel_loop (step : SSS_STEP_DESC) (s s1 : Engine) (c : Nat) (b : Bool)
    (h : music_poll_channel step s c = some (s1, b)) : ChanLoop s s1 := by
  unfold music_poll_channel at h
  cases hn : music_poll_note step s c with
  | none =>
    rw [hn] at h
    exact absurd h (by simp)
  | some s2 =>
    rw [hn] at h
    simp only [Option.some.injEq] at h
    have e : s1 = (music_poll_effect step s2 c).1 := by rw [h]
    rw [e]
    exact (music_poll_note_only step s s2 c hn).toLoop.loop_trans
      (music_poll_effect_loop step s2 c).1

theorem music_poll_channels_loop (step : SSS_STEP_DESC) (l : List Nat) :
    ∀ s s1 : Engine, music_poll_channels step s l = some s1 → ChanLoop s s1 := by
  induction l with
  | nil =>
    intro s s1 h
    simp only [music_poll_channels, Option.some.injEq] at h
    subst h
    exact ChanLoop.loop_refl s
  | cons c cs ih =>
    intro s s1 h
    rw [music_poll_channels] at h
    cases hc : music_poll_channel step s c with
    | none =>
      rw [hc] at h
      exact absurd h (by simp)
    | some r =>
      obtain ⟨s2, b⟩ := r
      rw [hc] at h
      have l2 := music_poll_channel_loop step s s2 c b hc
      cases b with
      | true =>
        simp only [Option.some.injEq] at h
        subst h
        exact l2
      | false =>
        simp only at h
        exact l2.loop_trans (ih s2 s1 h)

/-- The position update of a fired step changes the position fields only,
unless the song ends: then it also sets the mode STOPPED and the song counter
0.  The step delay is kept. -/
theorem music_poll_advance_seq (s s1 : Engine) (h : music_poll_advance s = some s1) :
    Sequenced s s1 ∧ s1.song.step_delay = s.song.step_delay := by
  unfold music_poll_advance at h
  simp only at h
  split at h
  · exact absurd h (by simp)
  · split at h
    · exact absurd h (by simp)
    · split_ifs at h <;> simp only [Option.some.injEq] at h <;> subst h
      · exact ⟨⟨_, _, _, _, _, _, _, _, _, rfl, Or.inr rfl⟩, rfl⟩
      · exact ⟨⟨_, _, _, _, _, _, _, _, _, rfl, Or.inl ⟨rfl, rfl⟩⟩, rfl⟩
      · exact ⟨⟨_, _, _, _, _, _, _, _, _, rfl, Or.inr rfl⟩, rfl⟩
      · exact ⟨⟨_, _, _, _, _, _, _, _, _, rfl, Or.inl ⟨rfl, rfl⟩⟩, rfl⟩

theorem music_poll_step_seq (s s1 : Engine) (h : music_poll_step s = some s1) :
    Sequenced s s1 := by
  unfold music_poll_step at h
  split at h
  · exact absurd h (by simp)
  · rename_i ipat ho
    simp only at h
    split at h
    · exact absurd h (by simp)
    · split at h
      · exact absurd h (by simp)
      · split at h
        · exact absurd h (by simp)
        · split at h
          · exact absurd h (by simp)
          · rename_i s2 hc
            have h0 : Sequenced s { s with song := { s.song with ipattern := ipat } } :=
              ⟨_, _, _, _, _, _, _, _, _, rfl, Or.inl ⟨rfl, rfl⟩⟩
            exact (h0.seq_trans (music_poll_channels_loop _ _ _ _ hc).loop_toSeq).seq_trans
              (music_poll_advance_seq s2 s1 h).1

theorem music_poll_loop_seq (songp : Nat) (fuel : Nat) :
    ∀ s s1 : Engine, music_poll_loop fuel songp s = Outcome.done s1 → Sequenced s s1 := by
  induction fuel with
  | zero =>
    intro s s1 h
    simp only [music_poll_loop] at h
    split_ifs at h
    simp only [Outcome.done.injEq] at h
    subst h
    exact Sequenced.seq_refl s
  | succ n ih =>
    intro s s1 h
    simp only [music_poll_loop] at h
    split_ifs at h
    · cases hs : music_poll_step s with
      | none =>
        rw [hs] at h
        exact absurd h (by simp)
      | some s2 =>
        rw [hs] at h
        exact (music_poll_step_seq s s2 hs).seq_trans (ih s2 s1 h)
    · simp only [Outcome.done.injEq] at h
      subst h
      exact Sequenced.seq_refl s

theorem music_poll_seq (fuel : Nat) (s s1 : Engine) (songp : Nat)
    (h : music_poll fuel s songp = Outcome.done s1) : Sequenced s s1 := by
  unfold music_poll at h
  split_ifs at h
  · simp only [Outcome.done.injEq] at h
    subst h
    exact Sequenced.seq_refl s
  · exact music_poll_loop_seq songp fuel s s1 h

theorem mix_poll_seq (fuel : Nat) (s s1 : Engine) (u : Nat)
    (h : mix_poll fuel s u = Outcome.done s1) : Sequenced s s1 := by
  unfold mix_poll at h
  split_ifs at h
  · exact music_poll_seq _ _ _ _ h
  · exact music_poll_seq _ _ _ _ h
  · simp only [Outcome.done.injEq] at h
    subst h
    exact Sequenced.seq_refl s

/-- The mixing and the stores of a frame change the channels and the output
buffers only. -/
theorem mix_output_seq (s s1 : Engine) (u : Nat) (h : mix_output s u = some s1) :
    Sequenced s s1 := by
  obtain ⟨⟨f, g, n, b, e, _⟩, _⟩ := mix_output_ok s s1 u h
  unfold mix_output at h
  split at h
  · exact absurd h (by simp)
  · rename_i s2 l r h2
    obtain ⟨⟨f2, rfl⟩, _⟩ := mix_channels_only _ _ _ _ _ h2
    split at h
    · exact absurd h (by simp)
    · split_ifs at h
      · split at h
        · exact absurd h (by simp)
        · simp only [Option.some.injEq] at h
          subst h
          exact ⟨_, _, _, _, _, _, _, _, _, rfl, Or.inl ⟨rfl, rfl⟩⟩
      · simp only [Option.some.injEq] at h
        subst h
        exact ⟨_, _, _, _, _, _, _, _, _, rfl, Or.inl ⟨rfl, rfl⟩⟩

theorem mix_frame_seq (fuel : Nat) (s s1 : Engine) (u : Nat)
    (h : mix_frame fuel s u = Outcome.done s1) : Sequenced s s1 := by
  unfold mix_frame at h
  split at h
  · rename_i s2 h2
    split at h
    · exact absurd h (by simp)
    · rename_i s3 h3
      simp only [Outcome.done.injEq] at h
      subst h
      exact (mix_poll_seq _ _ _ _ h2).seq_trans (mix_output_seq _ _ _ h3)
  · exact absurd h (by simp)
  · exact absurd h (by simp)

theorem mix_frames_seq (fuel : Nat) (n : Nat) : ∀ (u : Nat) (s s1 : Engine),
    mix_frames fuel n u s = Outcome.done s1 → Sequenced s s1 := by
  induction n with
  | zero =>
    intro u s s1 h
    simp only [mix_frames, Outcome.done.injEq] at h
    subst h
    exact Sequenced.seq_refl s
  | succ n ih =>
    intro u s s1 h
    simp only [mix_frames] at h
    split at h
    · rename_i s2 h2
      exact (mix_frame_seq _ _ _ _ h2).seq_trans (ih _ _ _ h)
    · exact absurd h (by simp)
    · exact absurd h (by simp)

theorem SongOK.of_eq {s s1 : Engine} (h : SongOK s) (hi : s1.initialized = s.initialized)
    (hn : s1.song.npatterns = s.song.npatterns)
    (hm : s1.song.playmode = s.song.playmode ∨ s1.song.playmode = PLAYMODE_STOPPED)
    (hp : s1.song.pan_pos = s.song.pan_pos) : SongOK s1 := by
  obtain ⟨h1, h2, h3⟩ := h
  refine ⟨fun hx => ?_, fun hx => ?_, fun c hc => ?_⟩
  · rw [hi]
    exact h1 (by rw [← hn]; exact hx)
  · rw [hn]
    rcases hm with e | e
    · exact h2 (by rw [← e]; exact hx)
    · exact absurd e hx
  · rw [hp]
    exact h3 c hc

theorem SongOK.zero (s : Engine) (hs : s.song = zero_song) : SongOK s := by
  refine ⟨fun hx => ?_, fun hx => ?_, fun c _ => ?_⟩
  · rw [hs] at hx
    exact absurd hx (by decide)
  · rw [hs] at hx
    exact absurd rfl hx
  · rw [hs]
    exact Nat.zero_le _

theorem Sequenced.seq_song_ok {s s1 : Engine} (hs : Sequenced s s1) (h : SongOK s) : SongOK s1 := by
  obtain ⟨f, io, ip, i, sp, sd, pm, n, b, rfl, c⟩ := hs
  refine h.of_eq rfl rfl ?_ rfl
  rcases c with ⟨e, _⟩ | e
  · exact Or.inl e
  · exact Or.inr e

theorem OnlyChan.chan_song_ok {s s1 : Engine} (hs : OnlyChan s s1) (h : SongOK s) : SongOK s1 :=
  hs.chan_toSeq.seq_song_ok h

theorem music_stop_channels_only (l : List Nat) : ∀ s : Engine,
    OnlyChan s (music_stop_channels s l) := by
  induction l with
  | nil => intro s; exact OnlyChan.chan_refl s
  | cons u us ih =>
    intro s
    exact (sss_channel_stop_only s _).chan_trans (ih _)

theorem music_play_pans_only (l : List Nat) : ∀ s : Engine,
    OnlyChan s (music_play_pans s l) := by
  induction l with
  | nil => intro s; exact OnlyChan.chan_refl s
  | cons u us ih =>
    intro s
    exact (sss_channel_pan_set_only s _ _).chan_trans (ih _)

/-- The function `music_stop` changes the channels, and sets the mode
STOPPED, `song_pos = 0` and the song counter 0. -/
theorem music_stop_eq (s : Engine) :
    ∃ f, music_stop s = { s with
      chan := f
      song := { s.song with playmode := PLAYMODE_STOPPED, song_pos := 0 }
      song_counter := 0 } := by
  obtain ⟨f, hf⟩ := music_stop_channels_only (List.range SSS_MUSIC_CHANNELS) s
  refine ⟨f, ?_⟩
  unfold music_stop
  rw [hf]

theorem music_stop_song_ok (s : Engine) (h : SongOK s) : SongOK (music_stop s) := by
  obtain ⟨f, e⟩ := music_stop_eq s
  rw [e]
  exact h.of_eq rfl rfl (Or.inr rfl) rfl

/-- The channel a stop leaves: idle, with `voffset` and `vsize` 0; pan and
volume row are kept. -/
theorem music_stop_channels_chan (l : List Nat) : ∀ s : Engine, s.initialized = true →
    (∀ u ∈ l, u < SSS_MUSIC_CHANNELS) → ∀ ch,
    (music_stop_channels s l).chan ch =
      if SSS_MUSIC_FIRST ≤ ch ∧ ch - SSS_MUSIC_FIRST ∈ l then
        { (s.chan ch) with isample := IDLE, voffset := 0, vsize := 0 }
      else s.chan ch := by
  induction l with
  | nil =>
    intro s _ _ ch
    simp only [music_stop_channels, List.not_mem_nil, and_false, if_false]
  | cons u us ih =>
    intro s hi hl ch
    have hu : u < 8 := hl u (List.mem_cons_self _ _)
    have hstop : sss_channel_stop s (SSS_MUSIC_FIRST + u) = { s with
        chan := upd s.chan (SSS_MUSIC_FIRST + u)
          { (s.chan (SSS_MUSIC_FIRST + u)) with isample := IDLE, voffset := 0, vsize := 0 } } := by
      unfold sss_channel_stop
      rw [if_neg (by rw [hi]; decide), if_neg (by show ¬ 4 + u ≥ 12; omega)]
    simp only [music_stop_channels]
    rw [ih _ (by rw [hstop]; exact hi) (fun v hv => hl v (List.mem_cons_of_mem _ hv)) ch, hstop]
    by_cases e : ch = SSS_MUSIC_FIRST + u
    · subst e
      have hm : SSS_MUSIC_FIRST ≤ SSS_MUSIC_FIRST + u ∧
          SSS_MUSIC_FIRST + u - SSS_MUSIC_FIRST ∈ u :: us :=
        ⟨by omega, by rw [Nat.add_sub_cancel_left]; exact List.mem_cons_self _ _⟩
      rw [if_pos hm]
      simp only [upd_same]
      split_ifs <;> rfl
    · simp only [upd_other _ _ _ _ e]
      have hiff : (SSS_MUSIC_FIRST ≤ ch ∧ ch - SSS_MUSIC_FIRST ∈ us) ↔
          (SSS_MUSIC_FIRST ≤ ch ∧ ch - SSS_MUSIC_FIRST ∈ u :: us) := by
        constructor
        · intro h
          exact ⟨h.1, List.mem_cons_of_mem _ h.2⟩
        · intro h
          refine ⟨h.1, ?_⟩
          rcases List.mem_cons.mp h.2 with h3 | h3
          · exact absurd (by omega) e
          · exact h3
      by_cases hc : SSS_MUSIC_FIRST ≤ ch ∧ ch - SSS_MUSIC_FIRST ∈ us
      · rw [if_pos hc, if_pos (hiff.mp hc)]
      · rw [if_neg hc, if_neg (fun h => hc (hiff.mpr h))]

/-- The channel the pan loop of `music_play` leaves: the initial pan of the
song, when that is a pan position; everything else is kept. -/
theorem music_play_pans_chan (l : List Nat) : ∀ s : Engine, s.initialized = true →
    (∀ u ∈ l, u < SSS_MUSIC_CHANNELS ∧ s.song.pan_pos u ≤ SSS_PAN_RIGHT) → ∀ ch,
    (music_play_pans s l).chan ch =
      if SSS_MUSIC_FIRST ≤ ch ∧ ch - SSS_MUSIC_FIRST ∈ l then
        { (s.chan ch) with pan_pos := s.song.pan_pos (ch - SSS_MUSIC_FIRST) }
      else s.chan ch := by
  induction l with
  | nil =>
    intro s _ _ ch
    simp only [music_play_pans, List.not_mem_nil, and_false, if_false]
  | cons u us ih =>
    intro s hi hl ch
    have hu : u < 8 := (hl u (List.mem_cons_self _ _)).1
    have hp : s.song.pan_pos u ≤ 15 := (hl u (List.mem_cons_self _ _)).2
    have hset : sss_channel_pan_set s (SSS_MUSIC_FIRST + u) (s.song.pan_pos u) = { s with
        chan := upd s.chan (SSS_MUSIC_FIRST + u)
          { (s.chan (SSS_MUSIC_FIRST + u)) with pan_pos := s.song.pan_pos u } } := by
      unfold sss_channel_pan_set
      rw [if_neg (by rw [hi]; decide), if_neg (by show ¬ 4 + u ≥ 12; omega),
        if_neg (by show ¬ (s.song.pan_pos u < 0 ∨ s.song.pan_pos u > 15); omega)]
    simp only [music_play_pans]
    rw [ih _ (by rw [hset]; exact hi)
      (fun v hv => by rw [hset]; exact hl v (List.mem_cons_of_mem _ hv)) ch, hset]
    by_cases e : ch = SSS_MUSIC_FIRST + u
    · subst e
      have hm : SSS_MUSIC_FIRST ≤ SSS_MUSIC_FIRST + u ∧
          SSS_MUSIC_FIRST + u - SSS_MUSIC_FIRST ∈ u :: us :=
        ⟨by omega, by rw [Nat.add_sub_cancel_left]; exact List.mem_cons_self _ _⟩
      rw [if_pos hm]
      simp only [upd_same, Nat.add_sub_cancel_left]
      split_ifs <;> rfl
    · simp only [upd_other _ _ _ _ e]
      have hiff : (SSS_MUSIC_FIRST ≤ ch ∧ ch - SSS_MUSIC_FIRST ∈ us) ↔
          (SSS_MUSIC_FIRST ≤ ch ∧ ch - SSS_MUSIC_FIRST ∈ u :: us) := by
        constructor
        · intro h
          exact ⟨h.1, List.mem_cons_of_mem _ h.2⟩
        · intro h
          refine ⟨h.1, ?_⟩
          rcases List.mem_cons.mp h.2 with h3 | h3
          · exact absurd (by omega) e
          · exact h3
      by_cases hc : SSS_MUSIC_FIRST ≤ ch ∧ ch - SSS_MUSIC_FIRST ∈ us
      · rw [if_pos hc, if_pos (hiff.mp hc)]
      · rw [if_neg hc, if_neg (fun h => hc (hiff.mpr h))]

/-- PLAY on a loaded song that is stopped: `music_play` runs `music_stop`,
sets the pans, and starts the song at its first step. -/
theorem music_play_start (s : Engine) (hn : s.song.npatterns ≠ 0)
    (hm : s.song.playmode = PLAYMODE_STOPPED) :
    music_play s = { s with
      chan := (music_play_pans (music_stop s) (List.range SSS_MUSIC_CHANNELS)).chan
      song := { s.song with
        song_pos := 0
        step_delay := toUInt (Int.tdiv (toLong (toLong s.mixrate * (1 + 7))) 67)
        iorder := 0, ipattern := 0, istep := 0, playmode := PLAYMODE_PLAYING }
      song_counter := 0 } := by
  unfold music_play
  rw [if_neg hn, if_neg (by rw [hm]; decide), if_neg (by rw [hm]; decide)]
  obtain ⟨f, e⟩ := music_play_pans_only (List.range SSS_MUSIC_CHANNELS) (music_stop s)
  obtain ⟨g, eg⟩ := music_stop_eq s
  simp only
  rw [e, eg]

theorem sss_music_command_song_ok (s : Engine) (cmd : Nat) (h : SongOK s) :
    SongOK (sss_music_command s cmd) := by
  unfold sss_music_command
  by_cases hi : (!s.initialized) = true
  · rw [if_pos hi]
    exact h
  rw [if_neg hi]
  have hini : s.initialized = true := by
    cases hb : s.initialized with
    | true => rfl
    | false => rw [hb] at hi; exact absurd rfl hi
  have hset : ∀ m : Nat, ¬ s.song.npatterns < 1 →
      SongOK { s with song := { s.song with playmode := m } } := by
    intro m hn
    exact ⟨fun _ => hini, fun _ => Nat.le_of_not_lt hn, h.2.2⟩
  split_ifs with h1 h2 h3 h4 h5 h6 h7 h8 h9 h10
  · exact h
  · unfold music_play
    split_ifs with k1 k2 k3
    · exact h
    · exact hset _ h2
    · exact h
    · have hst : s.song.playmode = PLAYMODE_STOPPED ∨ s.song.playmode ≠ PLAYMODE_STOPPED :=
        Decidable.em _
      obtain ⟨f, e⟩ := music_play_pans_only (List.range SSS_MUSIC_CHANNELS) (music_stop s)
      obtain ⟨g, eg⟩ := music_stop_eq s
      simp only
      rw [e, eg]
      exact ⟨fun _ => hini, fun _ => Nat.le_of_not_lt h2, h.2.2⟩
  · exact h
  · exact music_stop_song_ok s h
  · exact h
  · exact (music_stop_channels_only _ _).chan_song_ok (hset _ h6)
  · exact h
  · exact hset _ h8
  · exact h
  · exact hset _ h10
  · exact h

theorem sss_sample_delete_song (s : Engine) (h : Nat) :
    (sss_sample_delete s h).song = s.song ∧
    (sss_sample_delete s h).initialized = s.initialized := by
  unfold sss_sample_delete
  split_ifs <;> exact ⟨rfl, rfl⟩

theorem flush_samples_song (l : List Nat) : ∀ s s1 : Engine, flush_samples s l = some s1 →
    s1.song = s.song ∧ s1.initialized = s.initialized := by
  induction l with
  | nil =>
    intro s s1 h
    simp only [flush_samples, Option.some.injEq] at h
    subst h
    exact ⟨rfl, rfl⟩
  | cons u us ih =>
    intro s s1 h
    rw [flush_samples] at h
    split at h
    · exact absurd h (by simp)
    · rename_i hsmp _
      obtain ⟨h1, h2⟩ := ih _ _ h
      obtain ⟨k1, k2⟩ := sss_sample_delete_song s hsmp
      exact ⟨h1.trans k1, h2.trans k2⟩

/-- After `sss_music_flush` no song is loaded: the state is unchanged and had
no patterns (or the engine is not initialised), or the song descriptor is
zeroed. -/
theorem sss_music_flush_song (s s1 : Engine) (h : sss_music_flush s = some s1) :
    s1.initialized = s.initialized ∧
    ((s1 = s ∧ (s.initialized = false ∨ s.song.npatterns = 0)) ∨ s1.song = zero_song) := by
  unfold sss_music_flush at h
  split_ifs at h with h1 h2
  · simp only [Option.some.injEq] at h
    subst h
    refine ⟨rfl, Or.inl ⟨rfl, Or.inl ?_⟩⟩
    cases hb : s.initialized with
    | true => rw [hb] at h1; exact absurd h1 (by decide)
    | false => rfl
  · simp only [Option.some.injEq] at h
    subst h
    exact ⟨rfl, Or.inl ⟨rfl, Or.inr h2⟩⟩
  · simp only at h
    split at h
    · exact absurd h (by simp)
    · rename_i s2 hf
      simp only [Option.some.injEq] at h
      subst h
      obtain ⟨_, k2⟩ := flush_samples_song _ _ _ hf
      obtain ⟨f, e⟩ := music_stop_eq s
      refine ⟨?_, Or.inr rfl⟩
      show s2.initialized = s.initialized
      rw [k2, e]

theorem sss_music_flush_song_ok (s s1 : Engine) (h : SongOK s)
    (hf : sss_music_flush s = some s1) : SongOK s1 := by
  obtain ⟨_, c⟩ := sss_music_flush_song s s1 hf
  rcases c with ⟨e, _⟩ | e
  · rw [e]
    exact h
  · exact SongOK.zero s1 e

theorem sss_init_song_ok (s : Engine) (f : Nat) (h : SongOK s) : SongOK (sss_init s f).1 := by
  unfold sss_init
  split_ifs
  · exact h
  · simp only
    split
    · exact SongOK.zero _ rfl
    · exact SongOK.zero _ rfl

theorem sss_deinit_song_ok (s s1 : Engine) (h : SongOK s) (hd : sss_deinit s = some s1) :
    SongOK s1 := by
  unfold sss_deinit at hd
  split_ifs at hd with hi
  · simp only [Option.some.injEq] at hd
    subst hd
    exact h
  · split at hd
    · exact absurd hd (by simp)
    · rename_i s2 hf
      simp only [Option.some.injEq] at hd
      subst hd
      obtain ⟨hini, c⟩ := sss_music_flush_song _ _ hf
      obtain ⟨g, eg⟩ := music_stop_eq s
      rcases c with ⟨e, c2⟩ | e
      · have hinit : (music_stop s).initialized = true := by
          rw [eg]
          show s.initialized = true
          cases hb : s.initialized with
          | true => rfl
          | false => rw [hb] at hi; exact absurd rfl hi
        have hnp : s.song.npatterns = 0 := by
          rcases c2 with c3 | c3
          · rw [hinit] at c3
            exact absurd c3 (by decide)
          · rw [eg] at c3
            exact c3
        refine ⟨fun hx => ?_, fun hx => ?_, fun c hc => ?_⟩
        · have hx2 : 1 ≤ s2.song.npatterns := hx
          rw [e, eg] at hx2
          have hx3 : 1 ≤ s.song.npatterns := hx2
          omega
        · have hx2 : s2.song.playmode ≠ PLAYMODE_STOPPED := hx
          rw [e, eg] at hx2
          exact absurd rfl hx2
        · show s2.song.pan_pos c ≤ SSS_PAN_RIGHT
          rw [e, eg]
          exact h.2.2 c hc
      · exact SongOK.zero _ e

theorem sss_sample_add_song (s s1 : Engine) (d : List Int) (a b c r e x : Nat)
    (h : sss_sample_add s d a b c r e = some (s1, x)) :
    s1.song = s.song ∧ s1.initialized = s.initialized := by
  unfold sss_sample_add at h
  by_cases h1 : (!s.initialized) = true
  · rw [if_pos h1] at h
    simp only [Option.some.injEq, Prod.mk.injEq] at h
    obtain ⟨rfl, _⟩ := h
    exact ⟨rfl, rfl⟩
  rw [if_neg h1] at h
  simp only at h
  by_cases h2 : find_free_sample s SSS_MAX_SAMPLES 0 ≥ SSS_MAX_SAMPLES
  · rw [if_pos h2] at h
    simp only [Option.some.injEq, Prod.mk.injEq] at h
    obtain ⟨rfl, _⟩ := h
    exact ⟨rfl, rfl⟩
  rw [if_neg h2] at h
  by_cases h3 : d.length < a
  · rw [if_pos h3] at h
    exact absurd h (by simp)
  rw [if_neg h3] at h
  simp only [Option.some.injEq, Prod.mk.injEq] at h
  obtain ⟨rfl, _⟩ := h
  exact ⟨rfl, rfl⟩

theorem SongOK.same {s s1 : Engine} (h : SongOK s) (hs : s1.song = s.song)
    (hi : s1.initialized = s.initialized) : SongOK s1 :=
  h.of_eq hi (by rw [hs]) (Or.inl (by rw [hs])) (by rw [hs])

theorem sss_music_create_song_ok (s s1 : Engine) (a b c r : Nat) (h : SongOK s)
    (hc : sss_music_create s a b c = some (s1, r)) : SongOK s1 := by
  unfold sss_music_create at hc
  split_ifs at hc with hi
  · simp only [Option.some.injEq, Prod.mk.injEq] at hc
    obtain ⟨rfl, _⟩ := hc
    exact h
  · split at hc
    · exact absurd hc (by simp)
    · rename_i s2 hf
      simp only [Option.some.injEq, Prod.mk.injEq] at hc
      obtain ⟨rfl, _⟩ := hc
      obtain ⟨hini, c2⟩ := sss_music_flush_song _ _ hf
      obtain ⟨g, eg⟩ := music_stop_eq s
      have hinit : s2.initialized = true := by
        rw [hini, eg]
        show s.initialized = true
        cases hb : s.initialized with
        | true => rfl
        | false => rw [hb] at hi; exact absurd rfl hi
      have hmode : s2.song.playmode = PLAYMODE_STOPPED := by
        rcases c2 with ⟨e, _⟩ | e
        · rw [e, eg]
        · rw [e]
          rfl
      refine ⟨fun _ => hinit, fun hx => absurd hmode hx, fun ch hch => ?_⟩
      show (if ch < SSS_MUSIC_CHANNELS then (if ch % 2 ≠ 0 then SSS_PAN_LEFT else SSS_PAN_RIGHT)
        else s2.song.pan_pos ch) ≤ SSS_PAN_RIGHT
      rw [if_pos hch]
      split_ifs <;> decide

theorem sss_music_define_order_song_ok (s : Engine) (a b : Nat) (h : SongOK s) :
    SongOK (sss_music_define_order s a b).1 := by
  unfold sss_music_define_order
  split_ifs
  · exact h
  · exact h
  · exact h
  · exact h
  · exact h.of_eq rfl rfl (Or.inl rfl) rfl

theorem sss_music_define_pattern_song_ok (s s1 : Engine) (a b r : Nat) (h : SongOK s)
    (hd : sss_music_define_pattern s a b = some (s1, r)) : SongOK s1 := by
  unfold sss_music_define_pattern at hd
  split_ifs at hd
  · simp only [Option.some.injEq, Prod.mk.injEq] at hd
    obtain ⟨rfl, _⟩ := hd
    exact h
  · simp only [Option.some.injEq, Prod.mk.injEq] at hd
    obtain ⟨rfl, _⟩ := hd
    exact h
  · simp only [Option.some.injEq, Prod.mk.injEq] at hd
    obtain ⟨rfl, _⟩ := hd
    exact h
  · split at hd
    · exact absurd hd (by simp)
    · split_ifs at hd
      simp only [Option.some.injEq, Prod.mk.injEq] at hd
      obtain ⟨rfl, _⟩ := hd
      exact h.of_eq rfl rfl (Or.inl rfl) rfl

theorem sss_music_define_step_song_ok (s s1 : Engine) (a b r : Nat) (st : SSS_STEP_DESC)
    (h : SongOK s) (hd : sss_music_define_step s a b st = some (s1, r)) : SongOK s1 := by
  unfold sss_music_define_step at hd
  split_ifs at hd
  · simp only [Option.some.injEq, Prod.mk.injEq] at hd
    obtain ⟨rfl, _⟩ := hd
    exact h
  · simp only [Option.some.injEq, Prod.mk.injEq] at hd
    obtain ⟨rfl, _⟩ := hd
    exact h
  · simp only [Option.some.injEq, Prod.mk.injEq] at hd
    obtain ⟨rfl, _⟩ := hd
    exact h
  · split at hd
    · exact absurd hd (by simp)
    · split at hd
      · exact absurd hd (by simp)
      · split_ifs at hd
        · simp only [Option.some.injEq, Prod.mk.injEq] at hd
          obtain ⟨rfl, _⟩ := hd
          exact h
        · simp only [Option.some.injEq, Prod.mk.injEq] at hd
          obtain ⟨rfl, _⟩ := hd
          exact h.of_eq rfl rfl (Or.inl rfl) rfl

theorem sss_music_define_sample_song_ok (s s1 : Engine) (a b r : Nat) (h : SongOK s)
    (hd : sss_music_define_sample s a b = some (s1, r)) : SongOK s1 := by
  unfold sss_music_define_sample at hd
  split_ifs at hd <;> simp only [Option.some.injEq, Prod.mk.injEq] at hd <;>
    obtain ⟨rfl, _⟩ := hd
  · exact h
  · exact h
  · exact h
  · exact h
  · exact h
  · exact h.of_eq rfl rfl (Or.inl rfl) rfl

theorem sss_music_define_pan_song_ok (s : Engine) (ch pan : Nat) (h : SongOK s) :
    SongOK (sss_music_define_pan s ch pan) := by
  unfold sss_music_define_pan
  split_ifs with h1 h2
  · exact h
  · exact h
  · refine ⟨h.1, h.2.1, fun c hc => ?_⟩
    show upd s.song.pan_pos ch pan c ≤ SSS_PAN_RIGHT
    by_cases e : c = ch
    · rw [e, upd_same]
      exact Nat.le_of_not_lt h2
    · rw [upd_other _ _ _ _ e]
      exact h.2.2 c hc

theorem mix_advance_song_ok (s : Engine) (h : SongOK s) : SongOK (mix_advance s) := by
  unfold mix_advance
  split_ifs
  · exact h
  · exact h
  · exact h.of_eq rfl rfl (Or.inl rfl) rfl
  · exact music_stop_song_ok s h
  · exact h

theorem mix_song_ok (fuel : Nat) (s s1 : Engine) (h : SongOK s)
    (hm : mix fuel s = Outcome.done s1) : SongOK s1 := by
  unfold mix at hm
  split at hm
  · rename_i s2 h2
    simp only [Outcome.done.injEq] at hm
    subst hm
    exact mix_advance_song_ok _ ((mix_frames_seq _ _ _ _ _ h2).seq_song_ok h)
  · exact absurd hm (by simp)
  · exact absurd hm (by simp)

theorem sss_poll_song_ok (fuel : Nat) (s s1 : Engine) (h : SongOK s)
    (hp : sss_poll fuel s = Outcome.done s1) : SongOK s1 := by
  unfold sss_poll at hp
  split_ifs at hp
  · simp only [Outcome.done.injEq] at hp
    subst hp
    exact h
  · split at hp
    · rename_i s2 h2
      simp only [Outcome.done.injEq] at hp
      subst hp
      have h0 : SongOK { s with whdr_done := upd s.whdr_done s.bfr_toggle false } := h
      exact (mix_song_ok _ _ _ h0 h2).same rfl rfl
    · exact absurd hp (by simp)
    · exact absurd hp (by simp)

/-- In every reachable state the song descriptor is consistent with the
transport. -/
theorem Reachable.song_ok {s : Engine} (h : Reachable s) : SongOK s := by
  induction h with
  | start => exact SongOK.zero boot rfl
  | init s f _ ih => exact sss_init_song_ok s f ih
  | deinit s s1 _ hd ih => exact sss_deinit_song_ok s s1 ih hd
  | pan_set s ch pan _ ih => exact (sss_channel_pan_set_only s ch pan).chan_song_ok ih
  | stop s ch _ ih => exact (sss_channel_stop_only s ch).chan_song_ok ih
  | volume s ch v _ ih => exact (sss_channel_volume_only s ch v).chan_song_ok ih
  | sample_add s s1 data size lb ls sr c r _ ha ih =>
    obtain ⟨e1, e2⟩ := sss_sample_add_song s s1 data size lb ls sr c r ha
    exact ih.same e1 e2
  | sample_delete s hsmp _ ih =>
    exact ih.same (sss_sample_delete_song s hsmp).1 (sss_sample_delete_song s hsmp).2
  | sample_play s ch hsmp p _ ih => exact (sss_sample_play_only s ch hsmp p).chan_song_ok ih
  | flush s s1 _ hf ih => exact sss_music_flush_song_ok s s1 ih hf
  | create s s1 a b c r _ hc ih => exact sss_music_create_song_ok s s1 a b c r ih hc
  | define_order s a b _ ih => exact sss_music_define_order_song_ok s a b ih
  | define_pattern s s1 a b r _ hd ih => exact sss_music_define_pattern_song_ok s s1 a b r ih hd
  | define_step s s1 a b r st _ hd ih => exact sss_music_define_step_song_ok s s1 a b r st ih hd
  | define_sample s s1 a b r _ hd ih => exact sss_music_define_sample_song_ok s s1 a b r ih hd
  | define_pan s ch pan _ ih => exact sss_music_define_pan_song_ok s ch pan ih
  | command s cmd _ ih => exact sss_music_command_song_ok s cmd ih
  | poll s s1 fuel _ _ hp ih => exact sss_poll_song_ok fuel s s1 ih hp
  | device s u _ ih => exact ih

theorem initialized_of_not (s : Engine) (h : ¬ (!s.initialized) = true) :
    s.initialized = true := by
  cases hb : s.initialized with
  | true => rfl
  | false => rw [hb] at h; exact absurd rfl h

theorem command_play (s : Engine) (hi : s.initialized = true) (hn : 1 ≤ s.song.npatterns) :
    sss_music_command s SSS_CMD_MUSIC_PLAY = music_play s := by
  unfold sss_music_command
  rw [if_neg (by rw [hi]; decide), if_pos rfl, if_neg (by omega)]

theorem command_stop (s : Engine) (hi : s.initialized = true) (hn : 1 ≤ s.song.npatterns) :
    sss_music_command s SSS_CMD_MUSIC_STOP = music_stop s := by
  unfold sss_music_command
  rw [if_neg (by rw [hi]; decide), if_neg (by decide), if_pos rfl, if_neg (by omega)]

theorem command_pause (s : Engine) (hi : s.initialized = true) (hn : 1 ≤ s.song.npatterns) :
    sss_music_command s SSS_CMD_MUSIC_PAUSE =
      music_stop_channels { s with song := { s.song with playmode := PLAYMODE_PAUSED } }
        (List.range SSS_MUSIC_CHANNELS) := by
  unfold sss_music_command
  rw [if_neg (by rw [hi]; decide), if_neg (by decide), if_neg (by decide), if_pos rfl,
    if_neg (by omega)]

theorem command_rewind (s : Engine) (hi : s.initialized = true) (hn : 1 ≤ s.song.npatterns) :
    sss_music_command s SSS_CMD_MUSIC_REWIND =
      { s with song := { s.song with playmode := PLAYMODE_REWINDING } } := by
  unfold sss_music_command
  rw [if_neg (by rw [hi]; decide), if_neg (by decide), if_neg (by decide), if_neg (by decide),
    if_pos rfl, if_neg (by omega)]

theorem command_fastforward (s : Engine) (hi : s.initialized = true)
    (hn : 1 ≤ s.song.npatterns) :
    sss_music_command s SSS_CMD_MUSIC_FASTFORWARD =
      { s with song := { s.song with playmode := PLAYMODE_FASTFORWARDING } } := by
  unfold sss_music_command
  rw [if_neg (by rw [hi]; decide), if_neg (by decide), if_neg (by decide), if_neg (by decide),
    if_neg (by decide), if_pos rfl, if_neg (by omega)]

/-- With no song loaded `sss_music_command` changes nothing. -/
theorem command_no_song (s : Engine) (cmd : Nat) (hn : s.song.npatterns = 0) :
    sss_music_command s cmd = s := by
  unfold sss_music_command
  have h0 : s.song.npatterns < 1 := by omega
  split_ifs <;> rfl

/-- PLAY on a loaded song that is paused, rewinding or fast-forwarding sets
the mode PLAYING and nothing else. -/
theorem music_play_resume (s : Engine) (hn : 1 ≤ s.song.npatterns)
    (hm : s.song.playmode = PLAYMODE_PAUSED ∨ s.song.playmode = PLAYMODE_REWINDING ∨
      s.song.playmode = PLAYMODE_FASTFORWARDING) :
    music_play s = { s with song := { s.song with playmode := PLAYMODE_PLAYING } } := by
  unfold music_play
  rw [if_neg (by omega), if_pos hm]

theorem music_stop_mode (s : Engine) : (music_stop s).song.playmode = PLAYMODE_STOPPED := by
  obtain ⟨f, e⟩ := music_stop_eq s
  rw [e]

theorem command_pause_mode (s : Engine) (hi : s.initialized = true)
    (hn : 1 ≤ s.song.npatterns) :
    (sss_music_command s SSS_CMD_MUSIC_PAUSE).song.playmode = PLAYMODE_PAUSED := by
  rw [command_pause s hi hn]
  obtain ⟨f, e⟩ := music_stop_channels_only (List.range SSS_MUSIC_CHANNELS)
    { s with song := { s.song with playmode := PLAYMODE_PAUSED } }
  rw [e]

/-- PLAY from STOPPED: the state it leaves, field by field. -/
theorem command_play_start (s : Engine) (hi : s.initialized = true)
    (hn : 1 ≤ s.song.npatterns) (hm : s.song.playmode = PLAYMODE_STOPPED)
    (hp : ∀ c, c < SSS_MUSIC_CHANNELS → s.song.pan_pos c ≤ SSS_PAN_RIGHT) :
    (sss_music_command s SSS_CMD_MUSIC_PLAY).song.playmode = PLAYMODE_PLAYING ∧
    (sss_music_command s SSS_CMD_MUSIC_PLAY).song_counter = 0 ∧
    (sss_music_command s SSS_CMD_MUSIC_PLAY).song.song_pos = 0 ∧
    (sss_music_command s SSS_CMD_MUSIC_PLAY).song.iorder = 0 ∧
    (sss_music_command s SSS_CMD_MUSIC_PLAY).song.ipattern = 0 ∧
    (sss_music_command s SSS_CMD_MUSIC_PLAY).song.istep = 0 ∧
    (sss_music_command s SSS_CMD_MUSIC_PLAY).song.step_delay
      = toUInt (Int.tdiv (toLong (toLong s.mixrate * (1 + 7))) 67) ∧
    ∀ c, c < SSS_MUSIC_CHANNELS →
      ((sss_music_command s SSS_CMD_MUSIC_PLAY).chan (SSS_MUSIC_FIRST + c)).pan_pos
        = s.song.pan_pos c := by
  rw [command_play s hi hn, music_play_start s (by omega) hm]
  refine ⟨rfl, rfl, rfl, rfl, rfl, rfl, by dsimp only, fun c hc => ?_⟩
  obtain ⟨g, eg⟩ := music_stop_eq s
  have hi2 : (music_stop s).initialized = true := by rw [eg]; exact hi
  have hp2 : ∀ u ∈ List.range SSS_MUSIC_CHANNELS,
      u < SSS_MUSIC_CHANNELS ∧ (music_stop s).song.pan_pos u ≤ SSS_PAN_RIGHT := by
    intro u hu
    refine ⟨List.mem_range.mp hu, ?_⟩
    rw [eg]
    exact hp u (List.mem_range.mp hu)
  show ((music_play_pans (music_stop s) (List.range SSS_MUSIC_CHANNELS)).chan
    (SSS_MUSIC_FIRST + c)).pan_pos = s.song.pan_pos c
  rw [music_play_pans_chan _ _ hi2 hp2, if_pos ⟨Nat.le_add_right _ _, by
    rw [Nat.add_sub_cancel_left]
    exact List.mem_range.mpr hc⟩, Nat.add_sub_cancel_left, eg]

theorem song_S1_reachable (bits : Nat) : Reachable (song_S1 bits) :=
  reach_define_step _ 0 0 note_step
    (Reachable.define_order _ 0 0
      (reach_define_pattern _ 0 1
        (reach_define_sample _ 0 0
          (reach_sample_add _ (List.replicate 100 0) 100 0 0 8000 0
            (reach_create _ 1 1 1 (Reachable.init boot bits Reachable.start))))))

/-- C11.  Transport table, specified transitions.  In every reachable state:
with a song loaded (`npatterns ≥ 1`), `sss_music_command` yields PLAYING for
PLAY from STOPPED, PAUSED, REWINDING and FAST_FORWARDING; STOPPED for STOP
from PLAYING, PAUSED, REWINDING and FAST_FORWARDING; PAUSED, REWINDING and
FAST_FORWARDING for PAUSE, REWIND and FAST_FORWARD from PLAYING; REWINDING and
FAST_FORWARDING for REWIND and FAST_FORWARD from PAUSED; PLAY from STOPPED
also zeroes `song_counter`, `song_pos`, `iorder`, `ipattern` and `istep` and
sets the pan of music voice `SSS_MUSIC_FIRST + c` to the initial pan `c` of
the song, for `c` in 0..7.  With no song loaded (`npatterns = 0`) every
command, known or not, leaves the whole engine state unchanged. -/
theorem transport_table (s : Engine) (hr : Reachable s) :
    (1 ≤ s.song.npatterns →
      ((s.song.playmode = PLAYMODE_STOPPED ∨ s.song.playmode = PLAYMODE_PAUSED ∨
          s.song.playmode = PLAYMODE_REWINDING ∨ s.song.playmode = PLAYMODE_FASTFORWARDING) →
        (sss_music_command s SSS_CMD_MUSIC_PLAY).song.playmode = PLAYMODE_PLAYING) ∧
      ((s.song.playmode = PLAYMODE_PLAYING ∨ s.song.playmode = PLAYMODE_PAUSED ∨
          s.song.playmode = PLAYMODE_REWINDING ∨ s.song.playmode = PLAYMODE_FASTFORWARDING) →
        (sss_music_command s SSS_CMD_MUSIC_STOP).song.playmode = PLAYMODE_STOPPED) ∧
      (s.song.playmode = PLAYMODE_PLAYING →
        (sss_music_command s SSS_CMD_MUSIC_PAUSE).song.playmode = PLAYMODE_PAUSED ∧
        (sss_music_command s SSS_CMD_MUSIC_REWIND).song.playmode = PLAYMODE_REWINDING ∧
        (sss_music_command s SSS_CMD_MUSIC_FASTFORWARD).song.playmode
          = PLAYMODE_FASTFORWARDING) ∧
      (s.song.playmode = PLAYMODE_PAUSED →
        (sss_music_command s SSS_CMD_MUSIC_REWIND).song.playmode = PLAYMODE_REWINDING ∧
        (sss_music_command s SSS_CMD_MUSIC_FASTFORWARD).song.playmode
          = PLAYMODE_FASTFORWARDING) ∧
      (s.song.playmode = PLAYMODE_STOPPED →
        (sss_music_command s SSS_CMD_MUSIC_PLAY).song_counter = 0 ∧
        (sss_music_command s SSS_CMD_MUSIC_PLAY).song.song_pos = 0 ∧
        (sss_music_command s SSS_CMD_MUSIC_PLAY).song.iorder = 0 ∧
        (sss_music_command s SSS_CMD_MUSIC_PLAY).song.ipattern = 0 ∧
        (sss_music_command s SSS_CMD_MUSIC_PLAY).song.istep = 0 ∧
        ∀ c, c < SSS_MUSIC_CHANNELS →
          ((sss_music_command s SSS_CMD_MUSIC_PLAY).chan (SSS_MUSIC_FIRST + c)).pan_pos
            = s.song.pan_pos c)) ∧
    (s.song.npatterns = 0 → ∀ cmd, sss_music_command s cmd = s) := by
  obtain ⟨h1, _, h3⟩ := hr.song_ok
  refine ⟨fun hn => ?_, fun hn cmd => command_no_song s cmd hn⟩
  have hi := h1 hn
  refine ⟨fun hm => ?_, fun _ => ?_, fun _ => ⟨command_pause_mode s hi hn, ?_, ?_⟩,
    fun _ => ⟨?_, ?_⟩, fun hm => ?_⟩
  · rcases hm with hm | hm
    · exact (command_play_start s hi hn hm h3).1
    · rw [command_play s hi hn, music_play_resume s hn hm]
  · rw [command_stop s hi hn]
    exact music_stop_mode s
  · rw [command_rewind s hi hn]
  · rw [command_fastforward s hi hn]
  · rw [command_rewind s hi hn]
  · rw [command_fastforward s hi hn]
  · obtain ⟨_, k1, k2, k3, k4, k5, _, k7⟩ := command_play_start s hi hn hm h3
    exact ⟨k1, k2, k3, k4, k5, k7⟩

set_option maxRecDepth 100000 in
/-- C11 (witness): the song of scenario S1 at 44.1 kHz stereo, loaded and
stopped. -/
theorem transport_table_witness :
    1 ≤ (song_S1 512).song.npatterns ∧ (song_S1 512).song.playmode = PLAYMODE_STOPPED ∧
    (sss_music_command (song_S1 512) SSS_CMD_MUSIC_PLAY).song.playmode = PLAYMODE_PLAYING ∧
    ((sss_music_command (song_S1 512) SSS_CMD_MUSIC_PLAY).chan (SSS_MUSIC_FIRST + 1)).pan_pos
      = (song_S1 512).song.pan_pos 1 :=
  ⟨by decide, rfl,
   ((transport_table (song_S1 512) (song_S1_reachable 512)).1 (by decide)).1 (Or.inl rfl),
   ((transport_table (song_S1 512) (song_S1_reachable 512)).1 (by decide)).2.2.2.2 rfl
     |>.2.2.2.2.2 1 (by decide)⟩

set_option maxRecDepth 100000 in
/-- C12 (fails).  The song of scenario S1 at 44.1 kHz stereo is loaded and
STOPPED: PAUSE, REWIND and FAST_FORWARD issued there give PAUSED, REWINDING
and FAST_FORWARDING; and PAUSE issued in REWINDING (scenario S1 after PLAY and
REWIND) gives PAUSED. -/
theorem dash_entries_change_mode :
    1 ≤ (song_S1 512).song.npatterns ∧ (song_S1 512).song.playmode = PLAYMODE_STOPPED ∧
    (sss_music_command (song_S1 512) SSS_CMD_MUSIC_PAUSE).song.playmode = PLAYMODE_PAUSED ∧
    (sss_music_command (song_S1 512) SSS_CMD_MUSIC_REWIND).song.playmode
      = PLAYMODE_REWINDING ∧
    (sss_music_command (song_S1 512) SSS_CMD_MUSIC_FASTFORWARD).song.playmode
      = PLAYMODE_FASTFORWARDING ∧
    (sss_music_command (scenario_S1 512) SSS_CMD_MUSIC_REWIND).song.playmode
      = PLAYMODE_REWINDING ∧
    (sss_music_command (sss_music_command (scenario_S1 512) SSS_CMD_MUSIC_REWIND)
      SSS_CMD_MUSIC_PAUSE).song.playmode = PLAYMODE_PAUSED := by
  decide

/-- C12 (amended).  In every reachable state with a song loaded: PAUSE, REWIND
and FAST_FORWARD set the mode PAUSED, REWINDING and FAST_FORWARDING whatever
the mode was (so PAUSE in PAUSED, REWIND in REWINDING and FAST_FORWARD in
FAST_FORWARDING keep the mode, and every other `—` entry of these three
columns changes it); STOP issued in STOPPED keeps the mode STOPPED and PLAY
issued in PLAYING keeps the mode PLAYING, with the whole state unchanged. -/
theorem transport_dash_entries (s : Engine) (hr : Reachable s) (hn : 1 ≤ s.song.npatterns) :
    (sss_music_command s SSS_CMD_MUSIC_PAUSE).song.playmode = PLAYMODE_PAUSED ∧
    (sss_music_command s SSS_CMD_MUSIC_REWIND).song.playmode = PLAYMODE_REWINDING ∧
    (sss_music_command s SSS_CMD_MUSIC_FASTFORWARD).song.playmode = PLAYMODE_FASTFORWARDING ∧
    (s.song.playmode = PLAYMODE_STOPPED →
      (sss_music_command s SSS_CMD_MUSIC_STOP).song.playmode = PLAYMODE_STOPPED) ∧
    (s.song.playmode = PLAYMODE_PLAYING → sss_music_command s SSS_CMD_MUSIC_PLAY = s) := by
  have hi := hr.song_ok.1 hn
  refine ⟨command_pause_mode s hi hn, ?_, ?_, fun _ => ?_, fun hm => ?_⟩
  · rw [command_rewind s hi hn]
  · rw [command_fastforward s hi hn]
  · rw [command_stop s hi hn]
    exact music_stop_mode s
  · rw [command_play s hi hn]
    unfold music_play
    rw [if_neg (by omega), if_neg (by rw [hm]; decide), if_pos hm]

set_option maxRecDepth 100000 in
/-- C12 (witness): scenario S1 at 44.1 kHz stereo, playing. -/
theorem transport_dash_entries_witness :
    1 ≤ (scenario_S1 512).song.npatterns ∧
    (scenario_S1 512).song.playmode = PLAYMODE_PLAYING ∧
    (sss_music_command (scenario_S1 512) SSS_CMD_MUSIC_REWIND).song.playmode
      = PLAYMODE_REWINDING ∧
    sss_music_command (scenario_S1 512) SSS_CMD_MUSIC_PLAY = scenario_S1 512 :=
  ⟨by decide, rfl,
   (transport_dash_entries (scenario_S1 512) (scenario_S1_reachable 512) (by decide)).2.1,
   (transport_dash_entries (scenario_S1 512) (scenario_S1_reachable 512) (by decide)).2.2.2.2
     rfl⟩

/-- C13.  Transport round trip.  In every reachable state in PLAYING mode:
PAUSE followed by PLAY ends in PLAYING with `iorder`, `istep`, `ipattern`,
`song_pos`, `song_counter` and `step_delay` as before the PAUSE; PAUSE sets
the eight music voices idle (with `voffset` and `vsize` 0, pan and volume row
kept) and leaves the four sound-effect voices as they were, and the PLAY that
follows changes no voice. -/
theorem transport_round_trip (s : Engine) (hr : Reachable s)
    (hm : s.song.playmode = PLAYMODE_PLAYING) :
    (sss_music_command (sss_music_command s SSS_CMD_MUSIC_PAUSE)
        SSS_CMD_MUSIC_PLAY).song.playmode = PLAYMODE_PLAYING ∧
    (sss_music_command (sss_music_command s SSS_CMD_MUSIC_PAUSE)
        SSS_CMD_MUSIC_PLAY).song.iorder = s.song.iorder ∧
    (sss_music_command (sss_music_command s SSS_CMD_MUSIC_PAUSE)
        SSS_CMD_MUSIC_PLAY).song.istep = s.song.istep ∧
    (sss_music_command (sss_music_command s SSS_CMD_MUSIC_PAUSE)
        SSS_CMD_MUSIC_PLAY).song.ipattern = s.song.ipattern ∧
    (sss_music_command (sss_music_command s SSS_CMD_MUSIC_PAUSE)
        SSS_CMD_MUSIC_PLAY).song.song_pos = s.song.song_pos ∧
    (sss_music_command (sss_music_command s SSS_CMD_MUSIC_PAUSE)
        SSS_CMD_MUSIC_PLAY).song_counter = s.song_counter ∧
    (sss_music_command (sss_music_command s SSS_CMD_MUSIC_PAUSE)
        SSS_CMD_MUSIC_PLAY).song.step_delay = s.song.step_delay ∧
    (∀ c, c < SSS_MUSIC_CHANNELS →
      (sss_music_command s SSS_CMD_MUSIC_PAUSE).chan (SSS_MUSIC_FIRST + c) =
        { (s.chan (SSS_MUSIC_FIRST + c)) with isample := IDLE, voffset := 0, vsize := 0 }) ∧
    (∀ ch, ch < SSS_MUSIC_FIRST → (sss_music_command s SSS_CMD_MUSIC_PAUSE).chan ch = s.chan ch) ∧
    (sss_music_command (sss_music_command s SSS_CMD_MUSIC_PAUSE) SSS_CMD_MUSIC_PLAY).chan
      = (sss_music_command s SSS_CMD_MUSIC_PAUSE).chan := by
  obtain ⟨h1, h2, _⟩ := hr.song_ok
  have hn : 1 ≤ s.song.npatterns := h2 (by rw [hm]; decide)
  have hi := h1 hn
  obtain ⟨f, e⟩ := music_stop_channels_only (List.range SSS_MUSIC_CHANNELS)
    { s with song := { s.song with playmode := PLAYMODE_PAUSED } }
  have hchan := music_stop_channels_chan (List.range SSS_MUSIC_CHANNELS)
    { s with song := { s.song with playmode := PLAYMODE_PAUSED } } hi
    (fun u hu => List.mem_range.mp hu)
  have hplay : sss_music_command (sss_music_command s SSS_CMD_MUSIC_PAUSE) SSS_CMD_MUSIC_PLAY
      = { (sss_music_command s SSS_CMD_MUSIC_PAUSE) with
          song := { (sss_music_command s SSS_CMD_MUSIC_PAUSE).song with
            playmode := PLAYMODE_PLAYING } } := by
    have hi2 : (sss_music_command s SSS_CMD_MUSIC_PAUSE).initialized = true := by
      rw [command_pause s hi hn, e]
      exact hi
    have hn2 : 1 ≤ (sss_music_command s SSS_CMD_MUSIC_PAUSE).song.npatterns := by
      rw [command_pause s hi hn, e]
      exact hn
    rw [command_play _ hi2 hn2,
      music_play_resume _ hn2 (Or.inl (command_pause_mode s hi hn))]
  rw [hplay]
  refine ⟨rfl, ?_, ?_, ?_, ?_, ?_, ?_, fun c hc => ?_, fun ch hch => ?_, rfl⟩
  · rw [command_pause s hi hn, e]
  · rw [command_pause s hi hn, e]
  · rw [command_pause s hi hn, e]
  · rw [command_pause s hi hn, e]
  · rw [command_pause s hi hn, e]
  · rw [command_pause s hi hn, e]
  · rw [command_pause s hi hn, hchan, if_pos ⟨Nat.le_add_right _ _, by
      rw [Nat.add_sub_cancel_left]
      exact List.mem_range.mpr hc⟩]
  · rw [command_pause s hi hn, hchan, if_neg (fun h => absurd h.1 (by omega))]

set_option maxRecDepth 100000 in
/-- C13 (witness): scenario S1 at 44.1 kHz stereo, playing. -/
theorem transport_round_trip_witness :
    (scenario_S1 512).song.playmode = PLAYMODE_PLAYING ∧
    (sss_music_command (sss_music_command (scenario_S1 512) SSS_CMD_MUSIC_PAUSE)
        SSS_CMD_MUSIC_PLAY).song.playmode = PLAYMODE_PLAYING ∧
    (sss_music_command (sss_music_command (scenario_S1 512) SSS_CMD_MUSIC_PAUSE)
        SSS_CMD_MUSIC_PLAY).song.step_delay = (scenario_S1 512).song.step_delay :=
  ⟨rfl, (transport_round_trip (scenario_S1 512) (scenario_S1_reachable 512) rfl).1,
   (transport_round_trip (scenario_S1 512) (scenario_S1_reachable 512) rfl).2.2.2.2.2.2.1⟩

/-- A run of `mix` is a run of its frame loop followed by the update of the
song counter. -/
theorem mix_split (fuel : Nat) (s s1 : Engine) (h : mix fuel s = Outcome.done s1) :
    ∃ sf, mix_frames fuel (mix_frame_count s) 0 s = Outcome.done sf ∧ s1 = mix_advance sf ∧
      Sequenced s sf := by
  unfold mix at h
  cases hf : mix_frames fuel (mix_frame_count s) 0 s with
  | done sf =>
    rw [hf] at h
    simp only [Outcome.done.injEq] at h
    exact ⟨sf, rfl, h.symm, mix_frames_seq _ _ _ _ _ hf⟩
  | fault =>
    rw [hf] at h
    exact absurd h (by simp)
  | timeout =>
    rw [hf] at h
    exact absurd h (by simp)

/-- At each of the six formats the frame loop runs `bfr_size / step` times,
and `(DWORD)bfr_size * 4 / step` is four times that number. -/
theorem FormatOK.frames {s : Engine} (h : FormatOK s) :
    mix_frame_count s = s.bfr_size / mix_stride s ∧
    (s.bfr_size * 4) % W32 / mix_stride s = 4 * (s.bfr_size / mix_stride s) := by
  obtain ⟨h1, h2, h3, _⟩ := h
  unfold mix_frame_count mix_stride
  rw [h3]
  rcases h1 with e | e | e <;> rcases h2 with k | k <;> rw [e, k] <;> decide

theorem mix_advance_mode (s : Engine) :
    (mix_advance s).song.playmode = s.song.playmode ∨
    (s.song.playmode = PLAYMODE_REWINDING ∧
      (mix_advance s).song.playmode = PLAYMODE_STOPPED) := by
  unfold mix_advance
  split_ifs with h1 h2 h3 h4
  · exact Or.inl rfl
  · exact Or.inl rfl
  · exact Or.inl rfl
  · exact Or.inr ⟨h3, music_stop_mode s⟩
  · exact Or.inl rfl

theorem mix_advance_playing (s : Engine) (h : s.song.playmode = PLAYMODE_PLAYING) :
    mix_advance s = { s with song_counter := (s.song_counter + s.bfr_size / mix_stride s) % W32 }
    := by
  unfold mix_advance
  rw [if_pos h]

theorem mix_advance_forward (s : Engine) (h : s.song.playmode = PLAYMODE_FASTFORWARDING) :
    mix_advance s = { s with
      song_counter := (s.song_counter + (s.bfr_size * 4) % W32 / mix_stride s) % W32 } := by
  unfold mix_advance
  rw [if_neg (by rw [h]; decide), if_pos h]

/-- What the frame loop of a buffer leaves when the mode after it is not
STOPPED: the mode, the song counter and the format are those of the start. -/
theorem Sequenced.running {s sf : Engine} (h : Sequenced s sf)
    (hm : sf.song.playmode ≠ PLAYMODE_STOPPED) :
    sf.song.playmode = s.song.playmode ∧ sf.song_counter = s.song_counter ∧
    sf.bfr_size = s.bfr_size ∧ mix_stride sf = mix_stride s := by
  obtain ⟨f, io, ip, i, sp, sd, pm, n, b, rfl, c⟩ := h
  rcases c with ⟨e1, e2⟩ | e
  · exact ⟨e1, e2, rfl, rfl⟩
  · exact absurd e hm

/-- C14 (amended).  Song clock advance, at each of the six formats.  For
every run of `mix` over one buffer that ends in PLAYING mode: it started in
PLAYING mode, and `song_counter` has grown by the number of frames of the
buffer, `bfr_size / step`, as a 32-bit unsigned number (modulo 2^32); when
`song_counter` plus the number of frames stays below 2^32 it has grown by
exactly that number and has not decreased.  For a run that ends in
FAST_FORWARDING mode the same holds with four times the number of frames. -/
theorem song_clock_advance (fuel : Nat) (s s1 : Engine) (hf : FormatOK s)
    (hm : mix fuel s = Outcome.done s1) :
    mix_frame_count s = s.bfr_size / mix_stride s ∧
    (s1.song.playmode = PLAYMODE_PLAYING →
      s.song.playmode = PLAYMODE_PLAYING ∧
      s1.song_counter = (s.song_counter + s.bfr_size / mix_stride s) % W32 ∧
      (s.song_counter + s.bfr_size / mix_stride s < W32 →
        s1.song_counter = s.song_counter + s.bfr_size / mix_stride s ∧
        s.song_counter ≤ s1.song_counter)) ∧
    (s1.song.playmode = PLAYMODE_FASTFORWARDING →
      s.song.playmode = PLAYMODE_FASTFORWARDING ∧
      s1.song_counter = (s.song_counter + 4 * (s.bfr_size / mix_stride s)) % W32 ∧
      (s.song_counter + 4 * (s.bfr_size / mix_stride s) < W32 →
        s1.song_counter = s.song_counter + 4 * (s.bfr_size / mix_stride s) ∧
        s.song_counter ≤ s1.song_counter)) := by
  obtain ⟨sf, _, e, hseq⟩ := mix_split fuel s s1 hm
  refine ⟨hf.frames.1, fun h1 => ?_, fun h1 => ?_⟩
  · have hsf : sf.song.playmode = PLAYMODE_PLAYING := by
      rw [e] at h1
      rcases mix_advance_mode sf with k | ⟨_, k⟩
      · rw [← k]
        exact h1
      · rw [k] at h1
        exact absurd h1 (by decide)
    obtain ⟨k1, k2, k3, k4⟩ := hseq.running (by rw [hsf]; decide)
    have hc : s1.song_counter = (s.song_counter + s.bfr_size / mix_stride s) % W32 := by
      rw [e, mix_advance_playing sf hsf]
      show (sf.song_counter + sf.bfr_size / mix_stride sf) % W32 = _
      rw [k2, k3, k4]
    refine ⟨by rw [← k1]; exact hsf, hc, fun hlt => ?_⟩
    rw [hc, Nat.mod_eq_of_lt hlt]
    exact ⟨rfl, Nat.le_add_right _ _⟩
  · have hsf : sf.song.playmode = PLAYMODE_FASTFORWARDING := by
      rw [e] at h1
      rcases mix_advance_mode sf with k | ⟨_, k⟩
      · rw [← k]
        exact h1
      · rw [k] at h1
        exact absurd h1 (by decide)
    obtain ⟨k1, k2, k3, k4⟩ := hseq.running (by rw [hsf]; decide)
    have hc : s1.song_counter = (s.song_counter + 4 * (s.bfr_size / mix_stride s)) % W32 := by
      rw [e, mix_advance_forward sf hsf]
      show (sf.song_counter + (sf.bfr_size * 4) % W32 / mix_stride sf) % W32 = _
      rw [k2, k3, k4, hf.frames.2]
    refine ⟨by rw [← k1]; exact hsf, hc, fun hlt => ?_⟩
    rw [hc, Nat.mod_eq_of_lt hlt]
    exact ⟨rfl, Nat.le_add_right _ _⟩

/-- C15.  Scenario S6, rewind, at each of the six formats.  For every run of
`mix` over one buffer whose frame loop ends in REWINDING mode (the mode is
REWINDING and the song does not end during the buffer): the buffer started in
REWINDING mode, and `mix` returns; if `song_counter` is greater than four
times the number of frames of the buffer, it decreases by exactly that and the
mode stays REWINDING; otherwise the mode becomes STOPPED and `song_counter`
and `song_pos` are both 0. -/
theorem rewind_buffer (fuel : Nat) (s sf : Engine) (hf : FormatOK s)
    (hfr : mix_frames fuel (mix_frame_count s) 0 s = Outcome.done sf)
    (hmode : sf.song.playmode = PLAYMODE_REWINDING) :
    s.song.playmode = PLAYMODE_REWINDING ∧
    mix fuel s = Outcome.done (mix_advance sf) ∧
    mix_frame_count s = s.bfr_size / mix_stride s ∧
    (s.song_counter > 4 * (s.bfr_size / mix_stride s) →
      (mix_advance sf).song_counter = s.song_counter - 4 * (s.bfr_size / mix_stride s) ∧
      (mix_advance sf).song.playmode = PLAYMODE_REWINDING) ∧
    (¬ s.song_counter > 4 * (s.bfr_size / mix_stride s) →
      (mix_advance sf).song.playmode = PLAYMODE_STOPPED ∧
      (mix_advance sf).song_counter = 0 ∧ (mix_advance sf).song.song_pos = 0) := by
  obtain ⟨k1, k2, k3, k4⟩ := (mix_frames_seq _ _ _ _ _ hfr).running (by rw [hmode]; decide)
  have hq : (sf.bfr_size * 4) % W32 / mix_stride sf = 4 * (s.bfr_size / mix_stride s) := by
    rw [k3, k4]
    exact hf.frames.2
  refine ⟨by rw [← k1]; exact hmode, ?_, hf.frames.1, fun hgt => ?_, fun hle => ?_⟩
  · unfold mix
    rw [hfr]
  · have hgt2 : sf.song_counter > (sf.bfr_size * 4) % W32 / mix_stride sf := by
      rw [hq, k2]
      exact hgt
    unfold mix_advance
    rw [if_neg (by rw [hmode]; decide), if_neg (by rw [hmode]; decide), if_pos hmode,
      if_pos hgt2]
    refine ⟨?_, hmode⟩
    show sf.song_counter - (sf.bfr_size * 4) % W32 / mix_stride sf = _
    rw [hq, k2]
  · have hle2 : ¬ sf.song_counter > (sf.bfr_size * 4) % W32 / mix_stride sf := by
      rw [hq, k2]
      exact hle
    unfold mix_advance
    rw [if_neg (by rw [hmode]; decide), if_neg (by rw [hmode]; decide), if_pos hmode,
      if_neg hle2]
    obtain ⟨g, eg⟩ := music_stop_eq sf
    rw [eg]
    exact ⟨rfl, rfl, rfl⟩

/-- The position update of a fired step inside a pattern: `song_pos` moves on
by the step delay and `istep` by 1. -/
theorem music_poll_advance_next (s : Engine) (pats : List MUSICPATTERN_DESC)
    (pat : MUSICPATTERN_DESC) (hp : s.song.patterns = some pats)
    (hq : pats[s.song.ipattern]? = some pat)
    (h1 : ¬ (s.song.istep + 1) % W32 ≥ pat.nsteps) (h2 : ¬ s.song.iorder ≥ s.song.norder) :
    music_poll_advance s = some { s with
      song := { s.song with
        song_pos := (s.song.song_pos + s.song.step_delay) % W32
        istep := (s.song.istep + 1) % W32 } } := by
  unfold music_poll_advance
  simp only
  rw [hp]
  simp only
  rw [hq]
  simp only
  rw [← hp, if_neg h1]
  simp only
  rw [if_neg h2]

/-- The body of the `while` loop of `music_poll` on `repeat_step` in the
looping song: the JUMP leaves `iorder = 0`, and the position update leaves
`istep = 1`. -/
theorem repeat_step_fire (a : Engine)
    (hp : a.song.patterns = some [{ nsteps := 2, steps := [repeat_step, repeat_step] }])
    (hip : a.song.ipattern = 0) (hn : a.song.norder = 1) :
    (music_poll_channels repeat_step a (List.range SSS_MUSIC_CHANNELS)).bind music_poll_advance =
      some { a with
        song := { a.song with
          song_pos := (a.song.song_pos + a.song.step_delay) % W32
          istep := 1, iorder := 0 } } := by
  have hc : music_poll_channel repeat_step a 0
      = some ({ a with song := { a.song with istep := 0, iorder := 0 } }, true) := by
    unfold music_poll_channel music_poll_note
    rw [if_neg (by decide)]
    simp only
    unfold music_poll_effect
    rw [if_neg (by decide), if_pos (by decide)]
    rfl
  have hr8 : List.range SSS_MUSIC_CHANNELS = 0 :: [1, 2, 3, 4, 5, 6, 7] := by decide
  rw [hr8, music_poll_channels, hc]
  simp only [Option.some_bind]
  exact music_poll_advance_next { a with song := { a.song with istep := 0, iorder := 0 } }
    [{ nsteps := 2, steps := [repeat_step, repeat_step] }]
    { nsteps := 2, steps := [repeat_step, repeat_step] } hp (by rw [hip]; rfl)
    (by show ¬ (0 + 1) % W32 ≥ 2; decide)
    (by show ¬ (0 : Nat) ≥ a.song.norder; rw [hn]; decide)

/-- One fired step of the looping song. -/
theorem loop_song_step (D : Nat) (s : Engine) (h : LoopInv D s) :
    music_poll_step s = some { s with
      song := { s.song with
        ipattern := 0
        song_pos := (s.song.song_pos + D) % W32
        istep := 1, iorder := 0 } } := by
  obtain ⟨hp, ho, hn, hio, his, hd⟩ := h
  have hs : ([repeat_step, repeat_step] : List SSS_STEP_DESC)[s.song.istep]?
      = some repeat_step := by
    have e : s.song.istep = 0 ∨ s.song.istep = 1 := by omega
    rcases e with e | e <;> rw [e] <;> rfl
  rw [music_poll_step_some s 0 _ { nsteps := 2, steps := [repeat_step, repeat_step] }
    repeat_step (by rw [ho, hio]; rfl) hp rfl hs,
    repeat_step_fire { s with song := { s.song with ipattern := 0 } } hp rfl hn, ← hd]

/-- The `while` loop of `music_poll` on the looping song: it ends, the song
is still the looping song, and the mode is unchanged. -/
theorem loop_song_poll_loop (D T : Nat) (hD : 1 ≤ D) (k : Nat) : ∀ s : Engine,
    LoopInv D s → (s.song.song_pos < T → T + D ≤ W32) → T - s.song.song_pos ≤ k →
    ∃ s1, (∀ fuel, k ≤ fuel → music_poll_loop fuel T s = Outcome.done s1) ∧
      LoopInv D s1 ∧ s1.song.playmode = s.song.playmode ∧
      s.song.song_pos ≤ s1.song.song_pos := by
  induction k with
  | zero =>
    intro s hinv _ hk
    exact ⟨s, fun fuel _ => music_poll_loop_settled T s (fun hc => by omega) fuel, hinv, rfl,
      le_refl _⟩
  | succ k ih =>
    intro s hinv hT hk
    by_cases hc : s.song.song_pos < T ∧ s.song.playmode ≠ PLAYMODE_STOPPED
    · have hstep := loop_song_step D s hinv
      have hTD := hT hc.1
      have hpos : (s.song.song_pos + D) % W32 = s.song.song_pos + D := by
        apply Nat.mod_eq_of_lt
        have := hc.1
        omega
      rw [hpos] at hstep
      obtain ⟨hp, ho, hn, hio, his, hd⟩ := hinv
      obtain ⟨s2, h2, inv2, m2, p2⟩ := ih
        { s with
          song := { s.song with
            ipattern := 0
            song_pos := s.song.song_pos + D
            istep := 1, iorder := 0 } }
        ⟨hp, ho, hn, rfl, by show 1 < 2; decide, hd⟩ (fun _ => hTD)
        (by
          show T - (s.song.song_pos + D) ≤ k
          omega)
      refine ⟨s2, fun fuel hf => ?_, inv2, m2, ?_⟩
      · obtain ⟨n, rfl⟩ : ∃ n, fuel = n + 1 := ⟨fuel - 1, by omega⟩
        simp only [music_poll_loop, if_pos hc, hstep]
        exact h2 n (by omega)
      · have hle : s.song.song_pos + D ≤ s2.song.song_pos := p2
        omega
    · exact ⟨s, fun fuel _ => music_poll_loop_settled T s hc fuel, hinv, rfl, le_refl _⟩

/-- The function `music_poll` on the looping song. -/
theorem loop_song_poll (D T fuel : Nat) (hD : 1 ≤ D) (s : Engine) (h : LoopInv D s)
    (hT : s.song.song_pos < T → T + D ≤ W32 ∧ T ≤ fuel) :
    ∃ s1, music_poll fuel s T = Outcome.done s1 ∧ LoopInv D s1 ∧
      s1.song.playmode = s.song.playmode ∧ s.song.song_pos ≤ s1.song.song_pos := by
  by_cases hg : NoSong s
  · exact ⟨s, music_poll_nosong fuel s T hg, h, rfl, le_refl _⟩
  · have e : music_poll fuel s T = music_poll_loop fuel T s := if_neg hg
    rw [e]
    by_cases hlt : s.song.song_pos < T
    · obtain ⟨s1, h1, k1, k2, k3⟩ := loop_song_poll_loop D T hD (T - s.song.song_pos) s h
        (fun hx => (hT hx).1) (le_refl _)
      exact ⟨s1, h1 fuel (by have := (hT hlt).2; omega), k1, k2, k3⟩
    · exact ⟨s, music_poll_loop_settled T s (fun hc => hlt hc.1) fuel, h, rfl, le_refl _⟩

/-- The mixing and the stores of a frame change the channels and the output
buffer only. -/
theorem mix_output_shape (s s1 : Engine) (u : Nat) (h : mix_output s u = some s1) :
    ∃ f b, s1 = { s with chan := f, buffers := b } := by
  unfold mix_output at h
  split at h
  · exact absurd h (by simp)
  · rename_i s2 l r h2
    obtain ⟨⟨f2, rfl⟩, _⟩ := mix_channels_only _ _ _ _ _ h2
    split at h
    · exact absurd h (by simp)
    · split_ifs at h
      · split at h
        · exact absurd h (by simp)
        · simp only [Option.some.injEq] at h
          subst h
          exact ⟨_, _, rfl⟩
      · simp only [Option.some.injEq] at h
        subst h
        exact ⟨_, _, rfl⟩

theorem Sequenced.init {s s1 : Engine} (h : Sequenced s s1) :
    s1.initialized = s.initialized := by
  obtain ⟨f, io, ip, i, sp, sd, pm, n, b, rfl, _⟩ := h
  rfl

/-- The music poll that opens a frame, on the looping song. -/
theorem loop_song_mix_poll (D fuel : Nat) (hD : 1 ≤ D) (s : Engine) (k : Nat)
    (hf : FormatOK s) (hinv : LoopInv D s)
    (hT : s.song.song_pos < (s.song_counter + k) % W32 →
      (s.song_counter + k) % W32 + D ≤ W32 ∧ (s.song_counter + k) % W32 ≤ fuel) :
    ∃ sp, mix_poll fuel s (k * mix_stride s) = Outcome.done sp ∧ LoopInv D sp ∧
      sp.song.playmode = s.song.playmode ∧ s.song.song_pos ≤ sp.song.song_pos := by
  have hstr := mix_stride_cases s
  have hdiv : k * mix_stride s / mix_stride s = k :=
    Nat.mul_div_cancel k (by rcases hstr with e | e <;> omega)
  have hpoll := loop_song_poll D ((s.song_counter + k) % W32) fuel hD s hinv hT
  unfold mix_poll
  rw [hdiv]
  split_ifs with h1 h2 h3
  · exact hpoll
  · exact absurd h2 hf.poll_safe
  · exact hpoll
  · exact ⟨s, rfl, hinv, rfl, le_refl _⟩

/-- One frame of `mix` on the looping song in a consistent engine: the frame
runs, and the song, the mode and the song counter are kept. -/
theorem loop_song_frame (D fuel : Nat) (hD : 1 ≤ D) (s : Engine) (k : Nat)
    (hok : EngineOK s) (hi : s.initialized = true) (hinv : LoopInv D s)
    (hmode : s.song.playmode ≠ PLAYMODE_STOPPED)
    (hu : (k + 1) * mix_stride s ≤ s.bfr_size)
    (hT : s.song.song_pos < (s.song_counter + k) % W32 →
      (s.song_counter + k) % W32 + D ≤ W32 ∧ (s.song_counter + k) % W32 ≤ fuel) :
    ∃ s1, mix_frame fuel s (k * mix_stride s) = Outcome.done s1 ∧ EngineOK s1 ∧
      s1.initialized = true ∧ LoopInv D s1 ∧ s1.song.playmode = s.song.playmode ∧
      s1.song_counter = s.song_counter ∧ s.song.song_pos ≤ s1.song.song_pos ∧
      mix_stride s1 = mix_stride s ∧ s1.bfr_size = s.bfr_size := by
  have hf : FormatOK s := (hok.2 hi).2.1
  obtain ⟨sp, hp, invp, mp, pp⟩ := loop_song_mix_poll D fuel hD s k hf hinv hT
  have hseq := mix_poll_seq fuel s sp _ hp
  obtain ⟨_, cp, bp, stp⟩ := hseq.running (by rw [mp]; exact hmode)
  have hokp : EngineOK sp := hok.step (mix_poll_ok fuel s sp _ hp)
  have hip : sp.initialized = true := hseq.init.trans hi
  have hup : k * mix_stride s + mix_stride sp ≤ sp.bfr_size := by
    rw [stp, bp]
    rw [Nat.add_mul, Nat.one_mul] at hu
    exact hu
  obtain ⟨s1, ho⟩ := mix_output_runs sp (k * mix_stride s) hokp hip hup
  have hok1 : EngineOK s1 := hokp.mix (mix_output_ok sp s1 _ ho)
  obtain ⟨f, b, e⟩ := mix_output_shape sp s1 _ ho
  refine ⟨s1, ?_, hok1, ?_, ?_, ?_, ?_, ?_, ?_, ?_⟩
  · unfold mix_frame
    rw [hp]
    simp only
    rw [ho]
  · rw [e]
    exact hip
  · rw [e]
    exact invp
  · rw [e]
    exact mp
  · rw [e]
    exact cp
  · rw [e]
    exact pp
  · rw [e]
    exact stp
  · rw [e]
    exact bp

/-- The frame loop of `mix` on the looping song: it runs, and the mode and
the song counter are kept.  `p0` is a lower bound of the step deadline and
`c0` the song counter; a poll fires only at a clock `T` above the deadline,
and then `T + D ≤ 2^32` and the fuel is at least `T`. -/
theorem loop_song_frames (D fuel p0 c0 N : Nat) (hD : 1 ≤ D)
    (hT : ∀ j, j < N → p0 < (c0 + j) % W32 →
      (c0 + j) % W32 + D ≤ W32 ∧ (c0 + j) % W32 ≤ fuel) (n : Nat) :
    ∀ (k : Nat) (s : Engine), EngineOK s → s.initialized = true → LoopInv D s →
    s.song.playmode ≠ PLAYMODE_STOPPED → s.song_counter = c0 → p0 ≤ s.song.song_pos →
    k + n ≤ N → (k + n) * mix_stride s ≤ s.bfr_size →
    ∃ s1, mix_frames fuel n (k * mix_stride s) s = Outcome.done s1 ∧
      s1.song.playmode = s.song.playmode ∧ s1.song_counter = c0 := by
  induction n with
  | zero =>
    intro k s _ _ _ _ hc _ _ _
    exact ⟨s, rfl, rfl, hc⟩
  | succ n ih =>
    intro k s hok hi hinv hmode hc hp hN hu
    obtain ⟨s1, h1, ok1, i1, inv1, m1, c1, p1, st1, b1⟩ := loop_song_frame D fuel hD s k hok hi
      hinv hmode (by
        have : (k + 1) * mix_stride s ≤ (k + (n + 1)) * mix_stride s :=
          Nat.mul_le_mul_right _ (by omega)
        omega)
      (fun hlt => by
        rw [hc] at hlt ⊢
        exact hT k (by omega) (by omega))
    obtain ⟨s2, h2, m2, c2⟩ := ih (k + 1) s1 ok1 i1 inv1 (by rw [m1]; exact hmode)
      (c1.trans hc) (by omega) (by omega) (by
        rw [st1, b1]
        have e : k + 1 + n = k + (n + 1) := by omega
        rw [e]
        exact hu)
    refine ⟨s2, ?_, m2.trans m1, c2⟩
    simp only [mix_frames, h1]
    have e : k * mix_stride s + mix_stride s1 = (k + 1) * mix_stride s1 := by
      rw [st1, Nat.add_mul, Nat.one_mul]
    rw [e]
    exact h2

/-- One buffer of `mix` on the looping song: `mix` returns, and its frame
loop keeps the mode and the song counter. -/
theorem loop_song_mix (D fuel : Nat) (hD : 1 ≤ D) (s : Engine) (hok : EngineOK s)
    (hi : s.initialized = true) (hinv : LoopInv D s)
    (hmode : s.song.playmode ≠ PLAYMODE_STOPPED)
    (hT : ∀ j, j < mix_frame_count s → s.song.song_pos < (s.song_counter + j) % W32 →
      (s.song_counter + j) % W32 + D ≤ W32 ∧ (s.song_counter + j) % W32 ≤ fuel) :
    ∃ sf, mix_frames fuel (mix_frame_count s) 0 s = Outcome.done sf ∧
      mix fuel s = Outcome.done (mix_advance sf) ∧
      sf.song.playmode = s.song.playmode ∧ sf.song_counter = s.song_counter := by
  have hf : FormatOK s := (hok.2 hi).2.1
  have hcount := mix_frame_count_mul s hf.buffer.2
  obtain ⟨sf, h1, m1, c1⟩ := loop_song_frames D fuel s.song.song_pos s.song_counter
    (mix_frame_count s) hD hT (mix_frame_count s) 0 s hok hi hinv hmode rfl (le_refl _)
    (by omega) (by rw [Nat.zero_add, hcount])
  rw [Nat.zero_mul] at h1
  refine ⟨sf, h1, ?_, m1, c1⟩
  unfold mix
  rw [h1]

theorem playing_loop_reachable : Reachable playing_loop :=
  Reachable.command _ _
    (reach_define_step _ 0 1 repeat_step
      (reach_define_step _ 0 0 repeat_step
        (Reachable.define_order _ 0 0
          (reach_define_pattern _ 0 2
            (reach_create _ 1 1 0 engine_44s_reachable)))))

set_option maxRecDepth 100000 in
/-- The looping song right after PLAY at 44.1 kHz stereo: step delay 5265,
clock and deadline 0, a buffer of 22050 frames. -/
theorem playing_loop_facts :
    LoopInv 5265 playing_loop ∧ playing_loop.initialized = true ∧
    playing_loop.song.playmode = PLAYMODE_PLAYING ∧ playing_loop.song_counter = 0 ∧
    playing_loop.song.song_pos = 0 ∧ playing_loop.bfr_size = 44100 ∧
    mix_stride playing_loop = 2 ∧ mix_frame_count playing_loop = 22050 := by
  refine ⟨⟨?_, ?_, ?_, ?_, ?_, ?_⟩, ?_, ?_, ?_, ?_, ?_, ?_, ?_⟩ <;> first | rfl | decide

/-- The first buffer of the looping song in PLAYING mode. -/
theorem playing_loop_mix :
    ∃ sf, mix_frames 22050 (mix_frame_count playing_loop) 0 playing_loop = Outcome.done sf ∧
      mix 22050 playing_loop = Outcome.done (mix_advance sf) ∧
      sf.song.playmode = PLAYMODE_PLAYING ∧ sf.song_counter = 0 := by
  obtain ⟨inv, hi, hm, hc, hp, _, _, hn⟩ := playing_loop_facts
  obtain ⟨sf, h1, h2, h3, h4⟩ := loop_song_mix 5265 22050 (by decide) playing_loop
    playing_loop_reachable.engine_ok hi inv (by rw [hm]; decide) (by
      rw [hn, hc, hp]
      intro j hj _
      rw [Nat.zero_add, Nat.mod_eq_of_lt (by simp only [W32]; omega)]
      simp only [W32]
      omega)
  exact ⟨sf, h1, h2, h3.trans hm, h4.trans hc⟩

theorem scenario_S6_reachable : Reachable scenario_S6 :=
  Reachable.command _ _ playing_loop_reachable

set_option maxRecDepth 100000 in
theorem scenario_S6_facts :
    LoopInv 5265 scenario_S6 ∧ scenario_S6.initialized = true ∧
    scenario_S6.song.playmode = PLAYMODE_REWINDING ∧ scenario_S6.song_counter = 0 ∧
    scenario_S6.song.song_pos = 0 ∧ scenario_S6.bfr_size = 44100 ∧
    mix_stride scenario_S6 = 2 ∧ mix_frame_count scenario_S6 = 22050 := by
  refine ⟨⟨?_, ?_, ?_, ?_, ?_, ?_⟩, ?_, ?_, ?_, ?_, ?_, ?_, ?_⟩ <;> first | rfl | decide

/-- The frame loop of the first buffer of scenario S6. -/
theorem scenario_S6_frames :
    ∃ sf, mix_frames 22050 (mix_frame_count scenario_S6) 0 scenario_S6 = Outcome.done sf ∧
      sf.song.playmode = PLAYMODE_REWINDING := by
  obtain ⟨inv, hi, hm, hc, hp, _, _, hn⟩ := scenario_S6_facts
  obtain ⟨sf, h1, _, h3, _⟩ := loop_song_mix 5265 22050 (by decide) scenario_S6
    scenario_S6_reachable.engine_ok hi inv (by rw [hm]; decide) (by
      rw [hn, hc, hp]
      intro j hj _
      rw [Nat.zero_add, Nat.mod_eq_of_lt (by simp only [W32]; omega)]
      simp only [W32]
      omega)
  exact ⟨sf, h1, h3.trans hm⟩

/-- The invariant of the reachable states reads neither the song clock nor
the step deadline. -/
theorem EngineOK.retime {s : Engine} (h : EngineOK s) (n p : Nat) :
    EngineOK { s with song_counter := n, song := { s.song with song_pos := p } } := h

theorem late_loop_ok : EngineOK late_loop :=
  playing_loop_reachable.engine_ok.retime 4294967295 4294967295

set_option maxRecDepth 100000 in
theorem late_loop_facts :
    LoopInv 5265 late_loop ∧ late_loop.initialized = true ∧
    late_loop.song.playmode = PLAYMODE_PLAYING ∧ late_loop.song_counter = 4294967295 ∧
    late_loop.song.song_pos = 4294967295 ∧ late_loop.bfr_size = 44100 ∧
    mix_stride late_loop = 2 ∧ mix_frame_count late_loop = 22050 := by
  refine ⟨⟨?_, ?_, ?_, ?_, ?_, ?_⟩, ?_, ?_, ?_, ?_, ?_, ?_, ?_⟩ <;> first | rfl | decide

/-- A buffer of the looping song with the clock at the top of its 32-bit
range: `mix` returns in PLAYING mode with `song_counter` 22049. -/
theorem late_loop_mix (fuel : Nat) :
    ∃ s1, mix fuel late_loop = Outcome.done s1 ∧ s1.song.playmode = PLAYMODE_PLAYING ∧
      s1.song_counter = 22049 := by
  obtain ⟨inv, hi, hm, hc, hp, hb, hst, hn⟩ := late_loop_facts
  obtain ⟨sf, h1, h2, h3, h4⟩ := loop_song_mix 5265 fuel (by decide) late_loop
    late_loop_ok hi inv (by rw [hm]; decide) (by
      rw [hn, hc, hp]
      intro j hj hlt
      exfalso
      have := Nat.mod_lt (4294967295 + j) (show W32 > 0 by decide)
      simp only [W32] at this hlt
      omega)
  have hsf : sf.song.playmode = PLAYMODE_PLAYING := h3.trans hm
  obtain ⟨k1, k2, k3, k4⟩ := (mix_frames_seq _ _ _ _ _ h1).running (by rw [hsf]; decide)
  refine ⟨_, h2, ?_, ?_⟩
  · rw [mix_advance_playing sf hsf]
    exact hsf
  · rw [mix_advance_playing sf hsf]
    show (sf.song_counter + sf.bfr_size / mix_stride sf) % W32 = 22049
    rw [k2, k3, k4, hc, hb, hst]
    decide

/-- C14 (counterexample).  The looping song in PLAYING mode at 44.1 kHz stereo
with the clock at the top of its 32-bit range (`song_counter` 2^32 - 1): `mix`
of one buffer of 22050 frames starts and ends in PLAYING mode, and
`song_counter` is 22049 afterwards, which is less than before and is not
`song_counter + 22050`. -/
theorem song_clock_wraps :
    FormatOK late_loop ∧ late_loop.song.playmode = PLAYMODE_PLAYING ∧
    late_loop.bfr_size / mix_stride late_loop = 22050 ∧
    ∃ s1, mix 0 late_loop = Outcome.done s1 ∧ s1.song.playmode = PLAYMODE_PLAYING ∧
      s1.song_counter < late_loop.song_counter ∧
      s1.song_counter ≠ late_loop.song_counter + late_loop.bfr_size / mix_stride late_loop := by
  obtain ⟨_, hi, hm, hc, _, hb, hst, _⟩ := late_loop_facts
  obtain ⟨s1, h1, h2, h3⟩ := late_loop_mix 0
  refine ⟨(late_loop_ok.2 hi).2.1, hm, by rw [hb, hst], s1, h1, h2, ?_, ?_⟩
  · rw [h3, hc]
    decide
  · rw [h3, hc, hb, hst]
    decide

/-- The first buffer of the looping song started by PLAY at 44.1 kHz stereo:
`mix` returns in PLAYING mode and `song_counter` has gone from 0 to 22050. -/
theorem song_clock_advance_witness :
    ∃ s1, mix 22050 playing_loop = Outcome.done s1 ∧
      s1.song.playmode = PLAYMODE_PLAYING ∧ playing_loop.song.playmode = PLAYMODE_PLAYING ∧
      playing_loop.song_counter = 0 ∧ s1.song_counter = 22050 := by
  obtain ⟨_, hi, hm, hc, _, hb, hst, _⟩ := playing_loop_facts
  obtain ⟨sf, _, h2, h3, _⟩ := playing_loop_mix
  have hend : (mix_advance sf).song.playmode = PLAYMODE_PLAYING := by
    rw [mix_advance_playing sf h3]
    exact h3
  have key := song_clock_advance 22050 playing_loop (mix_advance sf)
    (playing_loop_reachable.engine_ok.2 hi).2.1 h2
  refine ⟨_, h2, hend, hm, hc, ?_⟩
  have e := (key.2.1 hend).2.2 (by rw [hc, hb, hst]; decide)
  rw [e.1, hc, hb, hst]

/-- Scenario S6 at 44.1 kHz stereo: REWIND right after PLAY of the looping
song; the first buffer ends with the song stopped at clock 0. -/
theorem rewind_buffer_witness :
    ∃ sf, mix_frames 22050 (mix_frame_count scenario_S6) 0 scenario_S6 = Outcome.done sf ∧
      scenario_S6.song.playmode = PLAYMODE_REWINDING ∧
      mix 22050 scenario_S6 = Outcome.done (mix_advance sf) ∧
      (mix_advance sf).song.playmode = PLAYMODE_STOPPED ∧
      (mix_advance sf).song_counter = 0 ∧ (mix_advance sf).song.song_pos = 0 := by
  obtain ⟨_, hi, hm, hc, _, hb, hst, _⟩ := scenario_S6_facts
  obtain ⟨sf, h1, h2⟩ := scenario_S6_frames
  have key := rewind_buffer 22050 scenario_S6 sf
    (scenario_S6_reachable.engine_ok.2 hi).2.1 h1 h2
  exact ⟨sf, h1, key.1, key.2.1, key.2.2.2.2 (by rw [hc]; exact Nat.not_lt_zero _)⟩

/-- The arithmetic of SET_TEMPO without overflow. -/
theorem tempo_delay_exact (m p : Nat) (h : m * (1 + p) < 2147483648) :
    tempo_delay m p = m * (1 + p) / 65 := by
  unfold tempo_delay
  rcases Nat.eq_zero_or_pos m with h0 | h0
  · subst h0
    have e : toLong ((0 : Nat) : Int) = 0 := rfl
    rw [e, Int.zero_mul]
    simp [toLong, toUInt, Int.tdiv]
  · have hp1 : 1 + p ≤ m * (1 + p) := Nat.le_mul_of_pos_left _ h0
    have hm1 : m ≤ m * (1 + p) := Nat.le_mul_of_pos_right _ (by omega)
    have e1 : toLong (p : Int) = p := toLong_small p (by omega)
    have e2 : toLong (1 + (p : Int)) = ((1 + p : Nat) : Int) := by
      have := toLong_small (1 + p) (by omega)
      rw [← this]
      push_cast
      rfl
    have e3 : toLong (m : Int) = m := toLong_small m (by omega)
    rw [e1, e2, e3]
    have e4 : ((m : Int) * ((1 + p : Nat) : Int)) = ((m * (1 + p) : Nat) : Int) := by
      push_cast
      rfl
    rw [e4, toLong_small _ h, Int.tdiv_eq_ediv (by omega) (by omega)]
    unfold toUInt
    have hq : m * (1 + p) / 65 < 4294967296 := by
      have := Nat.div_le_self (m * (1 + p)) 65
      omega
    omega

/-- The arithmetic of the initial tempo without overflow. -/
theorem play_delay_exact (m : Nat) (h : m * 8 < 2147483648) :
    toUInt (Int.tdiv (toLong (toLong m * (1 + 7))) 67) = m * 8 / 67 := by
  have e3 : toLong (m : Int) = m := toLong_small m (by omega)
  have e4 : ((m : Int) * (1 + 7)) = ((m * 8 : Nat) : Int) := by
    push_cast
    rfl
  rw [e3, e4, toLong_small _ h, Int.tdiv_eq_ediv (by omega) (by omega)]
  unfold toUInt
  have hq : m * 8 / 67 < 4294967296 := by
    have := Nat.div_le_self (m * 8) 67
    omega
  omega

/-- The effect switch on a channel that carries SET_TEMPO with a non-zero
parameter. -/
theorem music_poll_effect_tempo (step : SSS_STEP_DESC) (s : Engine) (c : Nat)
    (he : step.note_effect c = SSS_EFFECT_SET_TEMPO) (hp : step.note_eparam c ≠ 0) :
    music_poll_effect step s c =
      ({ s with song := { s.song with
          step_delay := tempo_delay s.mixrate (step.note_eparam c) } }, false) := by
  unfold music_poll_effect
  rw [if_neg (by rw [he]; decide), if_neg (by rw [he]; decide), if_pos he, if_pos hp]

/-- The effect switch sets `dobreak` only for JUMP and PATTERN_BREAK. -/
theorem music_poll_effect_pass (step : SSS_STEP_DESC) (s : Engine) (c : Nat)
    (h1 : step.note_effect c ≠ SSS_EFFECT_PATTERN_BREAK)
    (h2 : step.note_effect c ≠ SSS_EFFECT_JUMP) :
    (music_poll_effect step s c).2 = false := by
  unfold music_poll_effect
  rw [if_neg h1, if_neg h2]
  split_ifs <;> rfl

theorem ChanLoop.rate {s s1 : Engine} (h : ChanLoop s s1) : s1.mixrate = s.mixrate := by
  obtain ⟨f, io, i, sd, rfl⟩ := h
  rfl

/-- The body of the channel loop on a channel without an effective SET_TEMPO
keeps the step delay. -/
theorem music_poll_channel_delay (step : SSS_STEP_DESC) (s s1 : Engine) (c : Nat) (b : Bool)
    (h : music_poll_channel step s c = some (s1, b))
    (ht : step.note_effect c = SSS_EFFECT_SET_TEMPO → step.note_eparam c = 0) :
    s1.song.step_delay = s.song.step_delay := by
  unfold music_poll_channel at h
  cases hn : music_poll_note step s c with
  | none =>
    rw [hn] at h
    exact absurd h (by simp)
  | some s2 =>
    rw [hn] at h
    simp only [Option.some.injEq] at h
    have e : s1 = (music_poll_effect step s2 c).1 := by rw [h]
    obtain ⟨f, e2⟩ := music_poll_note_only step s s2 c hn
    have hd : s2.song.step_delay = s.song.step_delay := by rw [e2]
    rcases (music_poll_effect_loop step s2 c).2 with k | ⟨k1, k2, _⟩
    · rw [e, k, hd]
    · exact absurd (ht k1) k2

/-- The channel loop over channels without an effective SET_TEMPO keeps the
step delay. -/
theorem music_poll_channels_delay (step : SSS_STEP_DESC) (l : List Nat) :
    ∀ s s1 : Engine, music_poll_channels step s l = some s1 →
    (∀ c ∈ l, step.note_effect c = SSS_EFFECT_SET_TEMPO → step.note_eparam c = 0) →
    s1.song.step_delay = s.song.step_delay := by
  induction l with
  | nil =>
    intro s s1 h _
    simp only [music_poll_channels, Option.some.injEq] at h
    rw [← h]
  | cons c cs ih =>
    intro s s1 h ht
    rw [music_poll_channels] at h
    cases hc : music_poll_channel step s c with
    | none =>
      rw [hc] at h
      exact absurd h (by simp)
    | some r =>
      obtain ⟨s2, b⟩ := r
      rw [hc] at h
      have d2 := music_poll_channel_delay step s s2 c b hc (ht c (List.mem_cons_self _ _))
      cases b with
      | true =>
        simp only [Option.some.injEq] at h
        rw [← h, d2]
      | false =>
        simp only at h
        rw [ih s2 s1 h (fun k hk => ht k (List.mem_cons_of_mem _ hk)), d2]

/-- The channel loop over an increasing list of channels, of which channel
`c` carries SET_TEMPO with a non-zero parameter, no other channel carries
SET_TEMPO and no channel below `c` carries JUMP or PATTERN_BREAK: the step
delay it leaves is the one SET_TEMPO computes. -/
theorem music_poll_channels_tempo (step : SSS_STEP_DESC) (c : Nat)
    (he : step.note_effect c = SSS_EFFECT_SET_TEMPO) (hp : step.note_eparam c ≠ 0)
    (l : List Nat) :
    ∀ s s1 : Engine, music_poll_channels step s l = some s1 →
    l.Pairwise (fun a b => a < b) → c ∈ l →
    (∀ k ∈ l, k ≠ c → step.note_effect k ≠ SSS_EFFECT_SET_TEMPO) →
    (∀ k ∈ l, k < c → step.note_effect k ≠ SSS_EFFECT_JUMP ∧
      step.note_effect k ≠ SSS_EFFECT_PATTERN_BREAK) →
    s1.song.step_delay = tempo_delay s.mixrate (step.note_eparam c) := by
  induction l with
  | nil =>
    intro s s1 _ _ hc
    exact absurd hc (List.not_mem_nil c)
  | cons a rest ih =>
    intro s s1 h hpw hc hone hlow
    rw [List.pairwise_cons] at hpw
    rw [music_poll_channels] at h
    cases hch : music_poll_channel step s a with
    | none =>
      rw [hch] at h
      exact absurd h (by simp)
    | some r =>
      obtain ⟨s2, b⟩ := r
      rw [hch] at h
      have hloop := music_poll_channel_loop step s s2 a b hch
      by_cases hac : a = c
      · subst hac
        unfold music_poll_channel at hch
        cases hn : music_poll_note step s a with
        | none =>
          rw [hn] at hch
          exact absurd hch (by simp)
        | some sn =>
          rw [hn] at hch
          simp only [Option.some.injEq] at hch
          rw [music_poll_effect_tempo step sn a he hp] at hch
          simp only [Prod.mk.injEq] at hch
          obtain ⟨e1, e2⟩ := hch
          obtain ⟨f, e3⟩ := music_poll_note_only step s sn a hn
          have hrate : sn.mixrate = s.mixrate := by rw [e3]
          subst e2
          simp only at h
          have hrest := music_poll_channels_delay step rest s2 s1 h (fun k hk hkt =>
            absurd hkt (hone k (List.mem_cons_of_mem _ hk) (by
              have := hpw.1 k hk
              omega)))
          rw [hrest, ← e1, ← hrate]
      · have hcr : c ∈ rest := by
          rcases List.mem_cons.mp hc with e | e
          · exact absurd e.symm hac
          · exact e
        have hlt : a < c := hpw.1 c hcr
        have hfx := hlow a (List.mem_cons_self _ _) hlt
        have hd2 : s2.song.step_delay = s.song.step_delay :=
          music_poll_channel_delay step s s2 a b hch (fun k =>
            absurd k (hone a (List.mem_cons_self _ _) hac))
        have hb : b = false := by
          unfold music_poll_channel at hch
          cases hn : music_poll_note step s a with
          | none =>
            rw [hn] at hch
            exact absurd hch (by simp)
          | some sn =>
            rw [hn] at hch
            simp only [Option.some.injEq] at hch
            have := music_poll_effect_pass step sn a hfx.2 hfx.1
            rw [hch] at this
            exact this
        subst hb
        simp only at h
        rw [ih s2 s1 h hpw.2 hcr (fun k hk => hone k (List.mem_cons_of_mem _ hk))
          (fun k hk => hlow k (List.mem_cons_of_mem _ hk)), hloop.rate]

/-- The position update of a fired step returns when the pattern read stays
inside the pattern array. -/
theorem music_poll_advance_some (s : Engine) (pats : List MUSICPATTERN_DESC)
    (pat : MUSICPATTERN_DESC) (hp : s.song.patterns = some pats)
    (hq : pats[s.song.ipattern]? = some pat) :
    ∃ s2, music_poll_advance s = some s2 := by
  unfold music_poll_advance
  simp only
  rw [hp]
  simp only
  rw [hq]
  simp only
  split_ifs <;> exact ⟨_, rfl⟩

theorem range_increasing (n : Nat) : (List.range n).Pairwise (fun a b => a < b) :=
  List.pairwise_lt_range n

/-- The channel loop returns when every note names a sample slot of the
song. -/
theorem music_poll_channels_some (step : SSS_STEP_DESC) (l : List Nat) :
    ∀ s : Engine,
    (∀ c ∈ l, step.note_pitch c ≠ 0 → step.note_sample c < s.song.samples.length) →
    ∃ s1, music_poll_channels step s l = some s1 := by
  induction l with
  | nil =>
    intro s _
    exact ⟨s, rfl⟩
  | cons c cs ih =>
    intro s hs
    obtain ⟨sn, h1, o1⟩ := music_poll_note_runs step s c (hs c (List.mem_cons_self _ _))
    have hch : music_poll_channel step s c = some (music_poll_effect step sn c) := by
      unfold music_poll_channel
      rw [h1]
    have hloop : ChanLoop s (music_poll_effect step sn c).1 :=
      o1.toLoop.loop_trans (music_poll_effect_loop step sn c).1
    cases hb : (music_poll_effect step sn c).2 with
    | true =>
      have e : music_poll_effect step sn c = ((music_poll_effect step sn c).1, true) := by
        rw [← hb]
      rw [e] at hch
      exact ⟨(music_poll_effect step sn c).1, by simp only [music_poll_channels, hch]⟩
    | false =>
      have e : music_poll_effect step sn c = ((music_poll_effect step sn c).1, false) := by
        rw [← hb]
      rw [e] at hch
      obtain ⟨f, io, i, sd, e2⟩ := hloop
      obtain ⟨s3, h3⟩ := ih (music_poll_effect step sn c).1
        (by rw [e2]; exact fun k hk => hs k (List.mem_cons_of_mem _ hk))
      refine ⟨s3, ?_⟩
      simp only [music_poll_channels, hch]
      exact h3

/-- A fired step whose array reads stay inside their arrays: the step
returns, with the step delay its channel loop leaves. -/
theorem music_poll_step_delay (s : Engine) (ipat : Nat) (pats : List MUSICPATTERN_DESC)
    (pat : MUSICPATTERN_DESC) (step : SSS_STEP_DESC)
    (ho : s.song.order[s.song.iorder]? = some ipat) (hp : s.song.patterns = some pats)
    (hq : pats[ipat]? = some pat) (hs : pat.steps[s.song.istep]? = some step)
    (hn : ∀ k, k < SSS_MUSIC_CHANNELS → step.note_pitch k ≠ 0 →
      step.note_sample k < s.song.samples.length) :
    ∃ sc s1, music_poll_channels step { s with song := { s.song with ipattern := ipat } }
        (List.range SSS_MUSIC_CHANNELS) = some sc ∧
      music_poll_step s = some s1 ∧ s1.song.step_delay = sc.song.step_delay := by
  obtain ⟨sc, hc⟩ := music_poll_channels_some step (List.range SSS_MUSIC_CHANNELS)
    { s with song := { s.song with ipattern := ipat } }
    (fun k hk => hn k (List.mem_range.mp hk))
  obtain ⟨f, io, i, sd, e1⟩ := music_poll_channels_loop step _ _ _ hc
  have hp1 : sc.song.patterns = some pats := by rw [e1]; exact hp
  have hq1 : pats[sc.song.ipattern]? = some pat := by rw [e1]; exact hq
  obtain ⟨s2, h2⟩ := music_poll_advance_some sc pats pat hp1 hq1
  refine ⟨sc, s2, hc, ?_, (music_poll_advance_seq sc s2 h2).2⟩
  rw [music_poll_step_some s ipat pats pat step ho hp hq hs, hc]
  exact h2

/-- The tempo rule of a fired step, for a step in which music channel `c`
carries SET_TEMPO with parameter `p`, no other channel carries SET_TEMPO and
no channel below `c` carries JUMP or PATTERN_BREAK. -/
theorem music_poll_step_tempo (s : Engine) (ipat : Nat) (pats : List MUSICPATTERN_DESC)
    (pat : MUSICPATTERN_DESC) (step : SSS_STEP_DESC) (c p : Nat)
    (ho : s.song.order[s.song.iorder]? = some ipat) (hp : s.song.patterns = some pats)
    (hq : pats[ipat]? = some pat) (hs : pat.steps[s.song.istep]? = some step)
    (hn : ∀ k, k < SSS_MUSIC_CHANNELS → step.note_pitch k ≠ 0 →
      step.note_sample k < s.song.samples.length)
    (hc : c < SSS_MUSIC_CHANNELS) (he : step.note_effect c = SSS_EFFECT_SET_TEMPO)
    (hpar : step.note_eparam c = p)
    (hone : ∀ k, k < SSS_MUSIC_CHANNELS → k ≠ c → step.note_effect k ≠ SSS_EFFECT_SET_TEMPO)
    (hlow : ∀ k, k < c → step.note_effect k ≠ SSS_EFFECT_JUMP ∧
      step.note_effect k ≠ SSS_EFFECT_PATTERN_BREAK) :
    ∃ s1, music_poll_step s = some s1 ∧
      (p ≠ 0 → s1.song.step_delay = tempo_delay s.mixrate p) ∧
      (p = 0 → s1.song.step_delay = s.song.step_delay) := by
  obtain ⟨sc, s1, h1, h2, h3⟩ := music_poll_step_delay s ipat pats pat step ho hp hq hs hn
  refine ⟨s1, h2, fun hp0 => ?_, fun hp0 => ?_⟩
  · rw [h3, music_poll_channels_tempo step c he (by rw [hpar]; exact hp0)
      (List.range SSS_MUSIC_CHANNELS) _ sc h1 (range_increasing _) (List.mem_range.mpr hc)
      (fun k hk => hone k (List.mem_range.mp hk)) (fun k _ => hlow k), hpar]
  · rw [h3, music_poll_channels_delay step (List.range SSS_MUSIC_CHANNELS) _ sc h1
      (fun k hk hkt => by
        by_cases hkc : k = c
        · rw [hkc, hpar]
          exact hp0
        · exact absurd hkt (hone k (List.mem_range.mp hk) hkc))]

theorem tempo_song_built_reachable (st : SSS_STEP_DESC) : Reachable (tempo_song_built st) := by
  unfold tempo_song_built
  exact reach_define_step _ 0 0 st
    (Reachable.define_order _ 0 0
      (reach_define_pattern _ 0 2
        (reach_create _ 1 1 0 engine_44s_reachable)))

theorem tempo_song_reachable (st : SSS_STEP_DESC) : Reachable (tempo_song st) :=
  Reachable.command _ _ (tempo_song_built_reachable st)

set_option maxRecDepth 100000 in
/-- C16 (counterexample).  Two steps whose only tempo effect is SET_TEMPO with
a non-zero parameter, fired right after PLAY at 44.1 kHz (step delay
44100·8/67 = 5265).  With JUMP on channel 0 and SET_TEMPO 7 on channel 1 the
channel loop ends at channel 0 and the step delay stays 5265, not 44100·8/65 =
5427.  With SET_TEMPO 0xFFFFFFFF on channel 0 the factor `1 + (long)p` is 0
and the step delay becomes 0, not 44100·2^32/65. -/
theorem tempo_effect_not_applied :
    (tempo_song masked_tempo_step).mixrate = 44100 ∧
    (tempo_song masked_tempo_step).song.step_delay = 5265 ∧
    (music_poll_step (tempo_song masked_tempo_step)).map (fun s => s.song.step_delay)
      = some 5265 ∧
    44100 * (1 + 7) / 65 = 5427 ∧
    (tempo_song (tempo_step 0 4294967295)).mixrate = 44100 ∧
    (music_poll_step (tempo_song (tempo_step 0 4294967295))).map (fun s => s.song.step_delay)
      = some 0 ∧
    44100 * (1 + 4294967295) / 65 ≠ 0 := by
  refine ⟨?_, ?_, ?_, ?_, ?_, ?_, ?_⟩ <;> decide

/-- C16 (amended).  Tempo.  In every reachable state, PLAY from STOPPED on a
loaded song sets `step_delay = (mix_rate·8)/67`.  Firing a step in which music
channel `c` carries SET_TEMPO with parameter `p`, no other channel carries
SET_TEMPO and no channel below `c` carries JUMP or PATTERN_BREAK (the array
reads of the step staying inside their arrays) returns and, if `p ≠ 0` and
`mix_rate·(1+p) < 2^31`, sets `step_delay = (mix_rate·(1+p))/65` with integer
division, so `p = 7` gives `(mix_rate·8)/65`; with `p = 0` it leaves
`step_delay` unchanged. -/
theorem tempo_rules (s : Engine) (hr : Reachable s) :
    (1 ≤ s.song.npatterns → s.song.playmode = PLAYMODE_STOPPED →
      (sss_music_command s SSS_CMD_MUSIC_PLAY).song.step_delay = s.mixrate * 8 / 67) ∧
    (∀ (ipat : Nat) (pats : List MUSICPATTERN_DESC) (pat : MUSICPATTERN_DESC)
        (step : SSS_STEP_DESC) (c p : Nat),
      s.song.order[s.song.iorder]? = some ipat → s.song.patterns = some pats →
      pats[ipat]? = some pat → pat.steps[s.song.istep]? = some step →
      (∀ k, k < SSS_MUSIC_CHANNELS → step.note_pitch k ≠ 0 →
        step.note_sample k < s.song.samples.length) →
      c < SSS_MUSIC_CHANNELS → step.note_effect c = SSS_EFFECT_SET_TEMPO →
      step.note_eparam c = p →
      (∀ k, k < SSS_MUSIC_CHANNELS → k ≠ c → step.note_effect k ≠ SSS_EFFECT_SET_TEMPO) →
      (∀ k, k < c → step.note_effect k ≠ SSS_EFFECT_JUMP ∧
        step.note_effect k ≠ SSS_EFFECT_PATTERN_BREAK) →
      ∃ s1, music_poll_step s = some s1 ∧
        (p ≠ 0 → s.mixrate * (1 + p) < 2147483648 →
          s1.song.step_delay = s.mixrate * (1 + p) / 65) ∧
        (p = 7 → s.mixrate * 8 < 2147483648 → s1.song.step_delay = s.mixrate * 8 / 65) ∧
        (p = 0 → s1.song.step_delay = s.song.step_delay)) := by
  refine ⟨fun hn hm => ?_, ?_⟩
  · have hi := hr.song_ok.1 hn
    have hrate : s.mixrate * 8 < 2147483648 := by
      rcases (hr.engine_ok.2 hi).2.1.1 with e | e | e <;> omega
    rw [command_play s hi hn, music_play_start s (by omega) hm]
    dsimp only
    exact play_delay_exact s.mixrate hrate
  · intro ipat pats pat step c p ho hp hq hs hn hc he hpar hone hlow
    obtain ⟨s1, h1, h2, h3⟩ := music_poll_step_tempo s ipat pats pat step c p ho hp hq hs hn hc
      he hpar hone hlow
    refine ⟨s1, h1, fun hp0 hlt => ?_, fun hp7 hlt => ?_, h3⟩
    · rw [h2 hp0, tempo_delay_exact _ _ hlt]
    · subst hp7
      rw [h2 (by decide), tempo_delay_exact _ _ (by omega)]

set_option maxRecDepth 100000 in
/-- At 44.1 kHz: PLAY sets the step delay 44100·8/67 = 5265; a fired step with
SET_TEMPO 7 on channel 0 sets 44100·8/65 = 5427; a fired step with SET_TEMPO 0
leaves 5265. -/
theorem tempo_rules_witness :
    (sss_music_command (tempo_song_built (tempo_step 0 7)) SSS_CMD_MUSIC_PLAY).song.step_delay
      = 5265 ∧
    (∃ s1, music_poll_step (tempo_song (tempo_step 0 7)) = some s1 ∧
      s1.song.step_delay = 5427) ∧
    (∃ s1, music_poll_step (tempo_song (tempo_step 0 0)) = some s1 ∧
      s1.song.step_delay = 5265) := by
  refine ⟨?_, ?_, ?_⟩
  · rw [(tempo_rules (tempo_song_built (tempo_step 0 7))
      (tempo_song_built_reachable _)).1 (by decide) (by decide)]
    decide
  · obtain ⟨s1, h1, h2, _, _⟩ := (tempo_rules (tempo_song (tempo_step 0 7))
      (tempo_song_reachable _)).2 0 [{ nsteps := 2, steps := [tempo_step 0 7, zero_step] }]
      { nsteps := 2, steps := [tempo_step 0 7, zero_step] } (tempo_step 0 7) 0 7
      rfl rfl rfl rfl (fun k _ h => absurd rfl h) (by decide) rfl rfl (by decide)
      (fun k hk => absurd hk (Nat.not_lt_zero k))
    exact ⟨s1, h1, by rw [h2 (by decide) (by decide)]; decide⟩
  · obtain ⟨s1, h1, _, _, h2⟩ := (tempo_rules (tempo_song (tempo_step 0 0))
      (tempo_song_reachable _)).2 0 [{ nsteps := 2, steps := [tempo_step 0 0, zero_step] }]
      { nsteps := 2, steps := [tempo_step 0 0, zero_step] } (tempo_step 0 0) 0 0
      rfl rfl rfl rfl (fun k _ h => absurd rfl h) (by decide) rfl rfl (by decide)
      (fun k hk => absurd hk (Nat.not_lt_zero k))
    exact ⟨s1, h1, by rw [h2 rfl]; decide⟩

/-- The search loop of `sss_sample_add` over `n` slots from slot `u`: it ends
at the first slot without payload, or at `u + n` when there is none. -/
theorem find_free_sample_spec (s : Engine) (n : Nat) :
    ∀ u, u ≤ find_free_sample s n u ∧ find_free_sample s n u ≤ u + n ∧
      (∀ k, u ≤ k → k < find_free_sample s n u → (s.samples k).data ≠ none) ∧
      (find_free_sample s n u < u + n → (s.samples (find_free_sample s n u)).data = none) := by
  induction n with
  | zero =>
    intro u
    refine ⟨le_refl _, le_refl _, fun k h1 h2 => ?_, fun h => ?_⟩
    · simp only [find_free_sample] at h2
      omega
    · simp only [find_free_sample] at h
      omega
  | succ n ih =>
    intro u
    by_cases hu : (s.samples u).data = none
    · have e : find_free_sample s (n + 1) u = u := by
        simp only [find_free_sample, if_pos hu]
      rw [e]
      exact ⟨le_refl _, by omega, fun k h1 h2 => by omega, fun _ => hu⟩
    · have e : find_free_sample s (n + 1) u = find_free_sample s n (u + 1) := by
        simp only [find_free_sample, if_neg hu]
      rw [e]
      obtain ⟨a, b, c, d⟩ := ih (u + 1)
      refine ⟨by omega, by omega, fun k h1 h2 => ?_, fun h => d (by omega)⟩
      by_cases hk : k = u
      · rw [hk]
        exact hu
      · exact c k (by omega) h2

/-- The slot `sss_sample_add` chooses is the smallest one without payload. -/
theorem find_free_sample_least (s : Engine) (h : Nat) (hh : h < SSS_MAX_SAMPLES)
    (hfree : (s.samples h).data = none) (hlow : ∀ k, k < h → (s.samples k).data ≠ none) :
    find_free_sample s SSS_MAX_SAMPLES 0 = h := by
  obtain ⟨_, b, c, d⟩ := find_free_sample_spec s SSS_MAX_SAMPLES 0
  have h1 : ¬ h < find_free_sample s SSS_MAX_SAMPLES 0 :=
    fun hlt => c h (Nat.zero_le _) hlt hfree
  have h2 : ¬ find_free_sample s SSS_MAX_SAMPLES 0 < h := fun hlt =>
    hlow _ hlt (d (by
      have : h < 64 := hh
      omega))
  omega

/-- The search of `sss_sample_add` finds no slot exactly when all 64 slots
hold a payload. -/
theorem find_free_sample_full (s : Engine) :
    find_free_sample s SSS_MAX_SAMPLES 0 ≥ SSS_MAX_SAMPLES ↔
      ∀ h, h < SSS_MAX_SAMPLES → (s.samples h).data ≠ none := by
  obtain ⟨_, b, c, d⟩ := find_free_sample_spec s SSS_MAX_SAMPLES 0
  constructor
  · intro hge h hh
    exact c h (Nat.zero_le _) (by
      have : h < 64 := hh
      have : find_free_sample s SSS_MAX_SAMPLES 0 ≥ 64 := hge
      omega)
  · intro hall
    by_contra hlt
    have hlt2 : find_free_sample s SSS_MAX_SAMPLES 0 < 64 := by
      have : ¬ find_free_sample s SSS_MAX_SAMPLES 0 ≥ 64 := hlt
      omega
    exact hall _ hlt2 (d (by omega))

/-- The payload `sss_sample_add` stores: the first `size` bytes of the caller's
buffer, each lowered by 128 as a signed byte when `center` is set. -/
theorem sss_sample_add_new (s : Engine) (data : List Int)
    (size loopbeg loopsiz smprate center : Nat) (hi : s.initialized = true)
    (hd : size ≤ data.length)
    (hu : find_free_sample s SSS_MAX_SAMPLES 0 < SSS_MAX_SAMPLES) :
    sss_sample_add s data size loopbeg loopsiz smprate center =
      some ({ s with
          samples := upd s.samples (find_free_sample s SSS_MAX_SAMPLES 0)
            ({ data := some (if center ≠ 0 then
                  (data.take size).map (fun b => toSChar (b - 128)) else data.take size),
               size := size, smprate := smprate, loop_start := loopbeg,
               loop_size := loopsiz } : SAMPLE_DESC) },
        find_free_sample s SSS_MAX_SAMPLES 0) := by
  unfold sss_sample_add
  rw [if_neg (by rw [hi]; decide)]
  simp only
  rw [if_neg (by omega), if_neg (by omega)]

/-- The call `sss_sample_add` on a full sample store. -/
theorem sss_sample_add_full (s : Engine) (data : List Int)
    (size loopbeg loopsiz smprate center : Nat) (hi : s.initialized = true)
    (hu : find_free_sample s SSS_MAX_SAMPLES 0 ≥ SSS_MAX_SAMPLES) :
    sss_sample_add s data size loopbeg loopsiz smprate center = some (s, SSSERR_NO_HANDLES) := by
  unfold sss_sample_add
  rw [if_neg (by rw [hi]; decide)]
  simp only
  rw [if_pos hu]

/-- C19.  Sample store allocation.  On an initialised engine, with a buffer
that holds `size` bytes: `sss_sample_add` returns; if `h` in 0..63 is the
smallest handle whose slot holds no payload, it returns `h` and makes slot `h`
live with the given size and rate and its own copy of the `size` bytes (each
lowered by 128 as a signed byte when `center` is set), leaving every other
slot unchanged; it returns NO_HANDLES exactly when all 64 slots are live, and
then the engine state is unchanged. -/
theorem sample_add_allocates (s : Engine) (data : List Int)
    (size loopbeg loopsiz smprate center : Nat) (hi : s.initialized = true)
    (hd : size ≤ data.length) :
    (∃ s1 r, sss_sample_add s data size loopbeg loopsiz smprate center = some (s1, r) ∧
      (r = SSSERR_NO_HANDLES ↔ ∀ h, h < SSS_MAX_SAMPLES → (s.samples h).data ≠ none) ∧
      (r = SSSERR_NO_HANDLES → s1 = s)) ∧
    (∀ h, h < SSS_MAX_SAMPLES → (s.samples h).data = none →
      (∀ k, k < h → (s.samples k).data ≠ none) →
      ∃ s1, sss_sample_add s data size loopbeg loopsiz smprate center = some (s1, h) ∧
        (s1.samples h).data = some (if center ≠ 0 then
            (data.take size).map (fun b => toSChar (b - 128)) else data.take size) ∧
        (center = 0 → (s1.samples h).data = some (data.take size)) ∧
        (s1.samples h).size = size ∧ (s1.samples h).smprate = smprate ∧
        (∀ k, k ≠ h → s1.samples k = s.samples k)) := by
  constructor
  · by_cases hu : find_free_sample s SSS_MAX_SAMPLES 0 ≥ SSS_MAX_SAMPLES
    · exact ⟨s, SSSERR_NO_HANDLES, sss_sample_add_full s data _ _ _ _ _ hi hu,
        ⟨fun _ => (find_free_sample_full s).mp hu, fun _ => rfl⟩, fun _ => rfl⟩
    · have hlt : find_free_sample s SSS_MAX_SAMPLES 0 < SSS_MAX_SAMPLES := by omega
      refine ⟨_, _, sss_sample_add_new s data size loopbeg loopsiz smprate center hi hd hlt,
        ⟨fun e => ?_, fun hall => ?_⟩, fun e => ?_⟩
      · have : find_free_sample s SSS_MAX_SAMPLES 0 < 64 := hlt
        have e2 : find_free_sample s SSS_MAX_SAMPLES 0 = 65531 := e
        omega
      · exact absurd ((find_free_sample_full s).mpr hall) hu
      · have : find_free_sample s SSS_MAX_SAMPLES 0 < 64 := hlt
        have e2 : find_free_sample s SSS_MAX_SAMPLES 0 = 65531 := e
        omega
  · intro h hh hfree hlow
    have e := find_free_sample_least s h hh hfree hlow
    have hnew := sss_sample_add_new s data size loopbeg loopsiz smprate center hi hd
      (by rw [e]; exact hh)
    rw [e] at hnew
    refine ⟨_, hnew, ?_, fun hc => ?_, ?_, ?_, fun k hk => ?_⟩
    · simp only [upd_same]
    · simp only [upd_same]
      rw [if_neg (by rw [hc]; decide)]
    · simp only [upd_same]
    · simp only [upd_same]
    · simp only [upd_other _ _ _ _ hk]

set_option maxRecDepth 100000 in
/-- On the engine right after `sss_init`, whose 64 slots are free: adding a
sample of four bytes returns handle 0 and stores the four bytes. -/
theorem sample_add_allocates_witness :
    ∃ s1, sss_sample_add engine_44s [1, 2, 3, 4] 4 0 0 8000 0 = some (s1, 0) ∧
      (s1.samples 0).data = some [1, 2, 3, 4] ∧ (s1.samples 0).size = 4 ∧
      (s1.samples 0).smprate = 8000 := by
  obtain ⟨s1, h1, _, h3, h4, h5, _⟩ :=
    (sample_add_allocates engine_44s [1, 2, 3, 4] 4 0 0 8000 0 (by decide) (by decide)).2 0
      (by decide) (by decide) (fun k hk => absurd hk (Nat.not_lt_zero k))
  exact ⟨s1, h1, h3 rfl, h4, h5⟩

set_option maxRecDepth 100000 in
/-- The first sample added right after `sss_init` at 44.1 kHz stereo gets
handle 0. -/
theorem sss_sample_add_first (data : List Int) (size loopbeg loopsiz smprate center : Nat)
    (hd : size ≤ data.length) :
    ∃ s1, sss_sample_add engine_44s data size loopbeg loopsiz smprate center = some (s1, 0) := by
  have e : find_free_sample engine_44s SSS_MAX_SAMPLES 0 = 0 := by decide
  have h := sss_sample_add_new engine_44s data size loopbeg loopsiz smprate center
    (by decide) hd (by rw [e]; decide)
  rw [e] at h
  exact ⟨_, h⟩

set_option maxRecDepth 100000 in
/-- C20 (counterexample).  The call `sss_sample_add(data, 4, 0, 2, 8000, 0)`
right after `sss_init` returns handle 0, and the stored sample has
`loop_size` 2, not 0. -/
theorem add_stores_short_loop :
    (sss_sample_add engine_44s [1, 2, 3, 4] 4 0 2 8000 0).map
      (fun r => (r.2, (r.1.samples r.2).loop_size)) = some (0, 2) := by
  decide

/-- C20 (amended).  Loop fields in add: for every call
`sss_sample_add(data, size, loop_start, loop_size, rate, center)` that returns
a handle, the stored sample has exactly the given `loop_size` and the given
`loop_start`, also when the given `loop_size` is less than 3. -/
theorem sample_add_keeps_loop (s s1 : Engine) (data : List Int)
    (size loopbeg loopsiz smprate center h : Nat)
    (hr : sss_sample_add s data size loopbeg loopsiz smprate center = some (s1, h))
    (hh : h < SSS_MAX_SAMPLES) :
    (s1.samples h).loop_size = loopsiz ∧ (s1.samples h).loop_start = loopbeg := by
  unfold sss_sample_add at hr
  by_cases h1 : (!s.initialized) = true
  · rw [if_pos h1] at hr
    simp only [Option.some.injEq, Prod.mk.injEq] at hr
    have : h = 65533 := hr.2.symm
    have : h < 64 := hh
    omega
  rw [if_neg h1] at hr
  simp only at hr
  by_cases h2 : find_free_sample s SSS_MAX_SAMPLES 0 ≥ SSS_MAX_SAMPLES
  · rw [if_pos h2] at hr
    simp only [Option.some.injEq, Prod.mk.injEq] at hr
    have : h = 65531 := hr.2.symm
    have : h < 64 := hh
    omega
  rw [if_neg h2] at hr
  by_cases h3 : data.length < size
  · rw [if_pos h3] at hr
    exact absurd hr (by simp)
  rw [if_neg h3] at hr
  simp only [Option.some.injEq, Prod.mk.injEq] at hr
  obtain ⟨e1, e2⟩ := hr
  rw [← e1, ← e2]
  refine ⟨?_, ?_⟩ <;> simp only [upd_same]

/-- Two calls right after `sss_init`: a loop of 2 bytes from offset 1 and a
loop of 3 bytes from offset 1 are both stored as given. -/
theorem sample_add_keeps_loop_witness :
    (∃ s1, sss_sample_add engine_44s [1, 2, 3, 4] 4 1 2 8000 0 = some (s1, 0) ∧
      (s1.samples 0).loop_size = 2 ∧ (s1.samples 0).loop_start = 1) ∧
    (∃ s1, sss_sample_add engine_44s [1, 2, 3, 4] 4 1 3 8000 0 = some (s1, 0) ∧
      (s1.samples 0).loop_size = 3 ∧ (s1.samples 0).loop_start = 1) := by
  obtain ⟨s1, h1⟩ := sss_sample_add_first [1, 2, 3, 4] 4 1 2 8000 0 (by decide)
  obtain ⟨s2, h2⟩ := sss_sample_add_first [1, 2, 3, 4] 4 1 3 8000 0 (by decide)
  exact ⟨⟨s1, h1, sample_add_keeps_loop _ _ _ _ _ _ _ _ _ h1 (by decide)⟩,
    ⟨s2, h2, sample_add_keeps_loop _ _ _ _ _ _ _ _ _ h2 (by decide)⟩⟩

/-! ## The MOD loader -/

theorem lread_some (file : List Nat) (pos n : Nat) (h : pos + n ≤ file.length) :
    lread file pos n = some (((file.drop pos).take n).map (fun b => b % 256)) := by
  unfold lread
  rw [if_pos h]

theorem byteswap_lt (w : Nat) : byteswap w < 65536 := by
  unfold byteswap
  exact Nat.mod_lt _ (by decide)

theorem inst_length_lt (hdr : List Nat) (u : Nat) : inst_length hdr u < 65536 :=
  byteswap_lt _

/-- The product `(long)length * 2` for a 16-bit length. -/
theorem toLong_twice (w : Nat) (hw : w < 65536) :
    toLong (toLong ((w : Nat) : Int) * 2) = ((2 * w : Nat) : Int) := by
  rw [toLong_small _ (by omega)]
  unfold toLong
  omega

/-- The conversion of a non-negative `long` to `UINT`. -/
theorem toUInt_small (n : Nat) (h : n < 4294967296) : toUInt (n : Int) = n := by
  unfold toUInt
  omega

/-- The subtraction loop of the pattern count modulo 2^32: as a `UINT`, the
running value is the start value less two bytes for every word. -/
theorem mod_ltmp_wide (hdr : List Nat) (n : Nat) :
    ∀ (a : Nat) (x : Int),
    toUInt (mod_ltmp hdr (List.range' a n) x) =
      toUInt (x - ((2 * ((List.range' a n).map (fun u => inst_length hdr u)).sum : Nat) : Int)) := by
  induction n with
  | zero =>
    intro a x
    simp only [List.range'_zero, List.map_nil, List.sum_nil, Nat.mul_zero, Nat.cast_zero,
      sub_zero, mod_ltmp]
  | succ n ih =>
    intro a x
    rw [List.range'_succ]
    simp only [List.map_cons, List.sum_cons]
    generalize hS : ((List.range' (a + 1) n).map (fun u => inst_length hdr u)).sum = S
    have hw := inst_length_lt hdr a
    rw [mod_ltmp, toLong_twice _ hw, ih (a + 1), hS]
    generalize inst_length hdr a = w at hw
    unfold toUInt toLong
    push_cast
    omega

/-- The pattern count of `load15` and `load31` for a file of `L < 2^32`
bytes with `L = hsize + 2·Σ inst_length + 1024·N + r` and `r < 1024`. -/
theorem mod_npats_wide (hdr : List Nat) (L ninst hsize N r : Nat) (hL : L < 4294967296)
    (hr : r < 1024) (hsz : L = hsize + 2 * inst_words hdr ninst + 1024 * N + r) :
    mod_npats hdr (toLong (L : Int)) ninst hsize = N := by
  unfold mod_npats
  unfold inst_words at hsz
  rw [List.range_eq_range'] at hsz ⊢
  rw [mod_ltmp_wide hdr ninst 0]
  generalize hS : ((List.range' 0 ninst).map (fun u => inst_length hdr u)).sum = S at hsz ⊢
  have e : toUInt (toLong (toLong (L : Int) - (hsize : Int)) - ((2 * S : Nat) : Int)) =
      1024 * N + r := by
    unfold toUInt toLong
    push_cast
    omega
  rw [e]
  omega

theorem sss_sample_delete_free (s : Engine) (x h : Nat) (hf : (s.samples h).data = none) :
    ((sss_sample_delete s x).samples h).data = none := by
  unfold sss_sample_delete
  split_ifs
  · exact hf
  · exact hf
  · exact hf
  · by_cases e : h = x
    · subst e
      simp only [upd_same]
    · simp only [upd_other _ _ _ _ e]
      exact hf

/-- The sample loop of `sss_music_flush` returns when the song's sample list
holds every slot it reads; it frees sample slots only. -/
theorem flush_samples_runs (l : List Nat) : ∀ s : Engine,
    (∀ u ∈ l, u < s.song.samples.length) →
    ∃ s1, flush_samples s l = some s1 ∧ s1.song = s.song ∧ s1.initialized = s.initialized ∧
      ∀ h, (s.samples h).data = none → (s1.samples h).data = none := by
  induction l with
  | nil =>
    intro s _
    exact ⟨s, rfl, rfl, rfl, fun _ hf => hf⟩
  | cons u us ih =>
    intro s hl
    have hu : u < s.song.samples.length := hl u (List.mem_cons_self _ _)
    obtain ⟨k1, k2⟩ := sss_sample_delete_song s (s.song.samples[u])
    obtain ⟨s1, h1, h2, h3, h4⟩ := ih (sss_sample_delete s (s.song.samples[u])) (by
      rw [k1]
      exact fun v hv => hl v (List.mem_cons_of_mem _ hv))
    refine ⟨s1, ?_, h2.trans k1, h3.trans k2, fun h hf =>
      h4 h (sss_sample_delete_free s _ h hf)⟩
    rw [flush_samples, List.getElem?_eq_getElem hu]
    exact h1

/-- The call `sss_music_flush` returns when the song's sample list has
`nsamples` entries; it frees sample slots only. -/
theorem sss_music_flush_runs (s : Engine) (hs : s.song.nsamples ≤ s.song.samples.length) :
    ∃ s1, sss_music_flush s = some s1 ∧ s1.initialized = s.initialized ∧
      ∀ h, (s.samples h).data = none → (s1.samples h).data = none := by
  unfold sss_music_flush
  split_ifs with h1 h2
  · exact ⟨s, rfl, rfl, fun _ hf => hf⟩
  · exact ⟨s, rfl, rfl, fun _ hf => hf⟩
  · obtain ⟨g, eg⟩ := music_stop_eq s
    obtain ⟨s1, k1, k2, k3, k4⟩ := flush_samples_runs (List.range (music_stop s).song.nsamples)
      (music_stop s) (by
        rw [eg]
        intro u hu
        have := List.mem_range.mp hu
        exact Nat.lt_of_lt_of_le this hs)
    refine ⟨{ s1 with song := zero_song }, ?_, ?_, fun h hf => ?_⟩
    · simp only
      rw [k1]
    · show s1.initialized = s.initialized
      rw [k3, eg]
    · show (s1.samples h).data = none
      exact k4 h (by rw [eg]; exact hf)

/-- The call `sss_music_create` on an initialised engine whose song has a
sample list of `nsamples` entries: it returns SSSERR_OK and leaves a song of
`N` patterns and `ninst` sample slots. -/
theorem sss_music_create_runs (s : Engine) (N np ninst : Nat) (hi : s.initialized = true)
    (hs : s.song.nsamples ≤ s.song.samples.length) :
    ∃ s1, sss_music_create s N np ninst = some (s1, SSSERR_OK) ∧ Loading N ninst 0 s1 ∧
      ∀ h, (s.samples h).data = none → (s1.samples h).data = none := by
  obtain ⟨g, eg⟩ := music_stop_eq s
  obtain ⟨s1, k1, k2, k3⟩ := sss_music_flush_runs (music_stop s) (by rw [eg]; exact hs)
  have hi1 : s1.initialized = true := by
    rw [k2, eg]
    exact hi
  unfold sss_music_create
  rw [if_neg (by rw [hi]; decide), k1]
  refine ⟨_, rfl, ⟨hi1, rfl, rfl, List.length_replicate _ _, _, rfl,
    List.length_replicate _ _, fun i hlt => absurd hlt (Nat.not_lt_zero i)⟩, fun h hf => ?_⟩
  show (s1.samples h).data = none
  exact k3 h (by rw [eg]; exact hf)

/-- One call of the pattern loop: pattern `k` gets its 64 steps. -/
theorem sss_music_define_pattern_runs (N ninst k : Nat) (s : Engine) (h : Loading N ninst k s)
    (hk : k < N) :
    ∃ s1, sss_music_define_pattern s k 64 = some (s1, SSSERR_OK) ∧ Loading N ninst (k + 1) s1 ∧
      s1.samples = s.samples := by
  obtain ⟨hi, hn, hns, hsl, pats, hp, hlen, hdone⟩ := h
  unfold sss_music_define_pattern
  rw [if_neg (by rw [hi]; decide), if_neg (by omega), if_neg (by omega), hp]
  simp only
  rw [if_pos (by omega)]
  refine ⟨_, rfl, ⟨hi, hn, hns, hsl, _, rfl, by rw [List.length_set]; exact hlen,
    fun i hlt => ?_⟩, rfl⟩
  by_cases e : i = k
  · subst e
    refine ⟨{ nsteps := 64, steps := List.replicate 64 zero_step }, ?_, rfl,
      List.length_replicate _ _⟩
    rw [List.getElem?_set_eq (by omega)]
  · obtain ⟨pat, q1, q2, q3⟩ := hdone i (by omega)
    refine ⟨pat, ?_, q2, q3⟩
    rw [List.getElem?_set_ne (fun e2 => e e2.symm)]
    exact q1

/-- The loop that defines the patterns: every pattern gets 64 steps. -/
theorem load_define_patterns_runs (N ninst : Nat) (n : Nat) :
    ∀ (k : Nat) (s : Engine), Loading N ninst k s → k + n = N →
    ∃ s1, load_define_patterns s n k = some (s1, SSSERR_OK) ∧ Loading N ninst N s1 ∧
      s1.samples = s.samples := by
  induction n with
  | zero =>
    intro k s h hk
    have e : k = N := by omega
    subst e
    exact ⟨s, rfl, h, rfl⟩
  | succ n ih =>
    intro k s h hk
    obtain ⟨s1, h1, h2, h3⟩ := sss_music_define_pattern_runs N ninst k s h (by omega)
    obtain ⟨s2, k1, k2, k3⟩ := ih (k + 1) s1 h2 (by omega)
    refine ⟨s2, ?_, k2, k3.trans h3⟩
    rw [load_define_patterns, h1]
    simp only
    rw [if_neg (by decide)]
    exact k1

/-- A call of `sss_music_define_order` keeps the patterns and the sample
store. -/
theorem sss_music_define_order_keeps (N ninst k : Nat) (s : Engine) (u p : Nat)
    (h : Loading N ninst k s) :
    Loading N ninst k (sss_music_define_order s u p).1 ∧
      (sss_music_define_order s u p).1.samples = s.samples := by
  unfold sss_music_define_order
  split_ifs
  · exact ⟨h, rfl⟩
  · exact ⟨h, rfl⟩
  · exact ⟨h, rfl⟩
  · exact ⟨h, rfl⟩
  · exact ⟨h, rfl⟩

/-- The loop that defines the order list returns when it reads inside
`pat_order`. -/
theorem load_define_orders_runs (N ninst : Nat) (po : List Nat) (hpo : po.length = 128)
    (n : Nat) :
    ∀ (u : Nat) (s : Engine), Loading N ninst N s → u + n ≤ 128 →
    ∃ s1, load_define_orders po s n u = some s1 ∧ Loading N ninst N s1 ∧
      s1.samples = s.samples := by
  induction n with
  | zero =>
    intro u s h _
    exact ⟨s, rfl, h, rfl⟩
  | succ n ih =>
    intro u s h hu
    have hlt : u < po.length := by omega
    obtain ⟨q1, q2⟩ := sss_music_define_order_keeps N ninst N s u po[u] h
    obtain ⟨s2, k1, k2, k3⟩ := ih (u + 1) _ q1 (by omega)
    refine ⟨s2, ?_, k2, k3.trans q2⟩
    rw [load_define_orders, List.getElem?_eq_getElem hlt]
    exact k1

/-- A call of `sss_music_define_step` on a step of a pattern of the song
being loaded returns and keeps the number of steps. -/
theorem sss_music_define_step_runs (N ninst : Nat) (s : Engine) (ipat istep : Nat)
    (st : SSS_STEP_DESC) (h : Loading N ninst N s) (hip : ipat < N) (his : istep < 64) :
    ∃ s1 r, sss_music_define_step s ipat istep st = some (s1, r) ∧ Loading N ninst N s1 ∧
      s1.samples = s.samples := by
  obtain ⟨hi, hn, hns, hsl, pats, hp, hlen, hdone⟩ := h
  obtain ⟨pat, q1, q2, q3⟩ := hdone ipat hip
  unfold sss_music_define_step
  rw [if_neg (by rw [hi]; decide), if_neg (by omega), if_neg (by omega), hp]
  simp only
  rw [q1]
  simp only
  rw [if_neg (by omega), if_pos (by omega)]
  refine ⟨_, _, rfl, ⟨hi, hn, hns, hsl, _, rfl, by rw [List.length_set]; exact hlen,
    fun i hlt => ?_⟩, rfl⟩
  by_cases e : i = ipat
  · subst e
    refine ⟨{ pat with steps := pat.steps.set istep st }, ?_, q2, ?_⟩
    · rw [List.getElem?_set_eq (by omega)]
    · show (pat.steps.set istep st).length = 64
      rw [List.length_set]
      exact q3
  · obtain ⟨pat2, r1, r2, r3⟩ := hdone i hlt
    refine ⟨pat2, ?_, r2, r3⟩
    rw [List.getElem?_set_ne (fun e2 => e e2.symm)]
    exact r1

/-- The step loop of one pattern returns. -/
theorem load_steps_runs (N ninst : Nat) (mkstep : (Nat → NOTE_DESC) → Nat → SSS_STEP_DESC)
    (buf : List Nat) (ipat : Nat) (hip : ipat < N) (n : Nat) :
    ∀ (istep : Nat) (s : Engine), Loading N ninst N s → istep + n ≤ 64 →
    ∃ s1, load_steps mkstep buf ipat s n istep = some s1 ∧ Loading N ninst N s1 ∧
      s1.samples = s.samples := by
  induction n with
  | zero =>
    intro istep s h _
    exact ⟨s, rfl, h, rfl⟩
  | succ n ih =>
    intro istep s h hle
    obtain ⟨s1, r, h1, h2, h3⟩ := sss_music_define_step_runs N ninst s ipat istep
      (mkstep (note_at buf) istep) h hip (by omega)
    obtain ⟨s2, k1, k2, k3⟩ := ih (istep + 1) s1 h2 (by omega)
    refine ⟨s2, ?_, k2, k3.trans h3⟩
    rw [load_steps, h1]
    exact k1

/-- The pattern loop returns SSSERR_OK when the file holds the patterns. -/
theorem load_patterns_runs (N ninst : Nat) (mkstep : (Nat → NOTE_DESC) → Nat → SSS_STEP_DESC)
    (file : List Nat) (n : Nat) :
    ∀ (ipat pos : Nat) (s : Engine), Loading N ninst N s → ipat + n ≤ N →
    pos + 1024 * n ≤ file.length →
    ∃ s1, load_patterns mkstep file s n ipat pos = some (s1, SSSERR_OK, pos + 1024 * n) ∧
      Loading N ninst N s1 ∧ s1.samples = s.samples := by
  induction n with
  | zero =>
    intro ipat pos s h _ _
    exact ⟨s, rfl, h, rfl⟩
  | succ n ih =>
    intro ipat pos s h hle hfile
    obtain ⟨s1, h1, h2, h3⟩ := load_steps_runs N ninst mkstep
      (((file.drop pos).take 1024).map (fun b => b % 256)) ipat (by omega) 64 0 s h (by omega)
    obtain ⟨s2, k1, k2, k3⟩ := ih (ipat + 1) (pos + 1024) s1 h2 (by omega) (by omega)
    refine ⟨s2, ?_, k2, k3.trans h3⟩
    rw [load_patterns, lread_some file pos 1024 (by omega)]
    simp only
    rw [h1]
    simp only
    rw [k1]
    have e : pos + 1024 + 1024 * n = pos + 1024 * (n + 1) := by omega
    rw [e]

theorem lread_length (file : List Nat) (pos n : Nat) (h : pos + n ≤ file.length) :
    (((file.drop pos).take n).map (fun b => b % 256)).length = n := by
  rw [List.length_map, List.length_take, List.length_drop]
  omega

/-- With a free slot at `k < 64` the search of `sss_sample_add` ends at a
slot not above `k`. -/
theorem find_free_sample_le (s : Engine) (k : Nat) (hk : k < SSS_MAX_SAMPLES)
    (hf : (s.samples k).data = none) : find_free_sample s SSS_MAX_SAMPLES 0 ≤ k := by
  obtain ⟨_, _, c, _⟩ := find_free_sample_spec s SSS_MAX_SAMPLES 0
  by_contra hlt
  exact c k (Nat.zero_le _) (by omega) hf

/-- One round of the sample loop on the song being loaded: either the store
is full and `sss_sample_add` returns SSSERR_NO_HANDLES, or the sample is added
and bound to the song. -/
theorem load_sample_round (N ninst : Nat) (s : Engine) (data : List Int)
    (len lb ls isample : Nat) (h : Loading N ninst N s) (hd : len ≤ data.length)
    (his : isample < ninst) :
    (sss_sample_add s data len lb ls MOD_RECORDED_RATE 0 = some (s, SSSERR_NO_HANDLES) ∧
      ∀ k, k < SSS_MAX_SAMPLES → ¬ FreeFrom k s) ∨
    (∃ s1 hsmp s2 r, sss_sample_add s data len lb ls MOD_RECORDED_RATE 0 = some (s1, hsmp) ∧
      hsmp < SSS_MAX_SAMPLES ∧ sss_music_define_sample s1 isample hsmp = some (s2, r) ∧
      Loading N ninst N s2 ∧ ∀ k, FreeFrom k s → FreeFrom (k + 1) s2) := by
  obtain ⟨hi, hn, hns, hsl, pats, hp, hlen, hdone⟩ := h
  by_cases hu : find_free_sample s SSS_MAX_SAMPLES 0 ≥ SSS_MAX_SAMPLES
  · refine Or.inl ⟨sss_sample_add_full s data _ _ _ _ _ hi hu, fun k hk hfree => ?_⟩
    have := find_free_sample_le s k hk (hfree k (le_refl _))
    omega
  · have hlt : find_free_sample s SSS_MAX_SAMPLES 0 < SSS_MAX_SAMPLES := by omega
    have hadd := sss_sample_add_new s data len lb ls MOD_RECORDED_RATE 0 hi hd hlt
    have hle : ∀ k, FreeFrom k s → find_free_sample s SSS_MAX_SAMPLES 0 ≤ k := by
      intro k hk
      by_cases hk64 : k < SSS_MAX_SAMPLES
      · exact find_free_sample_le s k hk64 (hk k (le_refl _))
      · omega
    generalize find_free_sample s SSS_MAX_SAMPLES 0 = u at hlt hadd hle
    obtain ⟨smp, hlive, hadd⟩ : ∃ smp : SAMPLE_DESC, smp.data ≠ none ∧
        sss_sample_add s data len lb ls MOD_RECORDED_RATE 0 =
          some ({ s with samples := upd s.samples u smp }, u) := ⟨_, by simp, hadd⟩
    have hfree2 : ∀ (s2 : Engine), s2.samples = upd s.samples u smp →
        ∀ k, FreeFrom k s → FreeFrom (k + 1) s2 := by
      intro s2 e2 k hk x hx
      have hne : x ≠ u := by
        have := hle k hk
        omega
      rw [e2, upd_other _ _ _ _ hne]
      exact hk x (by omega)
    by_cases hN : s.song.npatterns < 1
    · refine Or.inr ⟨_, u, { s with samples := upd s.samples u smp }, SSSERR_BAD_PARAM, hadd,
        hlt, ?_, ⟨hi, hn, hns, hsl, pats, hp, hlen, hdone⟩, hfree2 _ rfl⟩
      unfold sss_music_define_sample
      rw [if_neg (by rw [hi]; decide), if_pos hN]
    · refine Or.inr ⟨_, u, { s with
          samples := upd s.samples u smp
          song := { s.song with samples := s.song.samples.set isample u } }, SSSERR_OK, hadd,
        hlt, ?_, ⟨hi, hn, hns, by rw [List.length_set]; exact hsl, pats, hp, hlen, hdone⟩,
        hfree2 _ rfl⟩
      unfold sss_music_define_sample
      dsimp only
      rw [if_neg (by rw [hi]; decide), if_neg hN, if_neg (by omega), if_neg (by omega)]
      simp only [upd_same]
      rw [if_neg hlive, if_pos (by omega)]

/-- The sample loop on the song being loaded, when the file holds the sample
data: it returns SSSERR_OK or SSSERR_NO_HANDLES and keeps the patterns; it
returns SSSERR_OK when the slots from `k` on are free and `k + n ≤ 64`. -/
theorem load_samples_runs (N ninst : Nat) (hdr file : List Nat) (n : Nat) :
    ∀ (isample pos : Nat) (s : Engine), Loading N ninst N s → isample + n ≤ ninst →
    pos + 2 * ((List.range' isample n).map (fun u => inst_length hdr u)).sum ≤ file.length →
    ∃ s1 code, load_samples hdr file s n isample pos = some (s1, code) ∧
      Loading N ninst N s1 ∧ (code = SSSERR_OK ∨ code = SSSERR_NO_HANDLES) ∧
      ∀ k, FreeFrom k s → k + n ≤ SSS_MAX_SAMPLES → code = SSSERR_OK := by
  induction n with
  | zero =>
    intro isample pos s h _ _
    exact ⟨s, SSSERR_OK, rfl, h, Or.inl rfl, fun _ _ _ => rfl⟩
  | succ n ih =>
    intro isample pos s h hle hfile
    rw [List.range'_succ] at hfile
    simp only [List.map_cons, List.sum_cons] at hfile
    generalize hS : ((List.range' (isample + 1) n).map (fun u => inst_length hdr u)).sum = S
      at hfile
    have hread : pos + inst_length hdr isample * 2 ≤ file.length := by omega
    have hlen := lread_length file pos (inst_length hdr isample * 2) hread
    rw [load_samples, lread_some file pos _ hread]
    simp only
    rcases load_sample_round N ninst s
      ((((file.drop pos).take (inst_length hdr isample * 2)).map (fun b => b % 256)).map
        (fun b : Nat => toSChar (b : Int)))
      (inst_length hdr isample * 2) (inst_repeat_start hdr isample * 2)
      (inst_repeat_length hdr isample * 2) isample h
      (by rw [List.length_map, hlen]) (by omega) with ⟨e, hfull⟩ | ⟨s1, hsmp, s2, r, e1, e2, e3, e4, e5⟩
    · rw [e]
      simp only
      rw [if_pos (by decide)]
      exact ⟨s, SSSERR_NO_HANDLES, rfl, h, Or.inr rfl, fun k hk hkn =>
        absurd hk (hfull k (by
          have : k + (n + 1) ≤ 64 := hkn
          omega))⟩
    · rw [e1]
      simp only
      rw [if_neg (by omega), e3]
      simp only
      obtain ⟨s3, code, k1, k2, k3, k4⟩ := ih (isample + 1) (pos + inst_length hdr isample * 2) s2
        e4 (by omega) (by rw [hS]; omega)
      exact ⟨s3, code, k1, k2, k3, fun k hk hkn => k4 (k + 1) (e5 k hk) (by omega)⟩

theorem lread_header (file : List Nat) (hsize : Nat) (h : hsize ≤ file.length) :
    lread file 0 hsize = some (mod_header file hsize) := by
  rw [lread_some file 0 hsize (by omega)]
  rfl

theorem mod_header_length (file : List Nat) (hsize : Nat) (h : hsize ≤ file.length) :
    (mod_header file hsize).length = hsize := by
  unfold mod_header
  rw [List.length_map, List.length_take]
  omega

theorem hdr_pat_order_length (hdr : List Nat) (ninst : Nat)
    (h : 20 + 30 * ninst + 130 ≤ hdr.length) : (hdr_pat_order hdr ninst).length = 128 := by
  unfold hdr_pat_order
  rw [List.length_take, List.length_drop]
  omega

/-- The text shared by `load15` and `load31` on an initialised engine and a
file of `hsize + 2·Σ inst_length + 1024·N + r` bytes: it returns SSSERR_OK or
SSSERR_NO_HANDLES and leaves a song of `N` patterns of 64 steps; it returns
SSSERR_OK when the sample slots from `k` on are free and `k + ninst ≤ 64`. -/
theorem load_layout_runs (ninst hsize : Nat)
    (mkstep : (Nat → NOTE_DESC) → Nat → SSS_STEP_DESC) (s : Engine) (file : List Nat)
    (N r : Nat) (hi : s.initialized = true) (hs : s.song.nsamples ≤ s.song.samples.length)
    (hL : file.length < 4294967296) (hr : r < 1024)
    (hsz : file.length = hsize + 2 * inst_words (mod_header file hsize) ninst + 1024 * N + r)
    (hnp : hdr_num_pats (mod_header file hsize) ninst ≤ 128)
    (hh : 20 + 30 * ninst + 130 ≤ hsize) :
    ∃ s1 code, load_layout ninst hsize mkstep s file = some (s1, code) ∧
      Loading N ninst N s1 ∧ (code = SSSERR_OK ∨ code = SSSERR_NO_HANDLES) ∧
      ∀ k, FreeFrom k s → k + ninst ≤ SSS_MAX_SAMPLES → code = SSSERR_OK := by
  have hle : hsize ≤ file.length := by omega
  have hnpats := mod_npats_wide (mod_header file hsize) file.length ninst hsize N r hL hr hsz
  obtain ⟨s1, c1, l1, f1⟩ := sss_music_create_runs s N
    (hdr_num_pats (mod_header file hsize) ninst) ninst hi hs
  obtain ⟨s2, c2, l2, f2⟩ := load_define_patterns_runs N ninst N 0 s1 l1 (by omega)
  obtain ⟨s3, c3, l3, f3⟩ := load_define_orders_runs N ninst
    (hdr_pat_order (mod_header file hsize) ninst)
    (hdr_pat_order_length _ _ (by rw [mod_header_length file hsize hle]; exact hh))
    (hdr_num_pats (mod_header file hsize) ninst) 0 s2 l2 (by omega)
  obtain ⟨s4, c4, l4, f4⟩ := load_patterns_runs N ninst mkstep file N 0 hsize s3 l3 (by omega)
    (by omega)
  obtain ⟨s5, code, c5, l5, k5, f5⟩ := load_samples_runs N ninst (mod_header file hsize) file
    ninst 0 (hsize + 1024 * N) s4 l4 (by omega) (by
      unfold inst_words at hsz
      rw [List.range_eq_range'] at hsz
      omega)
  refine ⟨s5, code, ?_, l5, k5, fun k hk hkn => f5 k (fun h hh2 => ?_) hkn⟩
  · unfold load_layout
    rw [lread_header file hsize hle]
    simp only
    rw [hnpats, c1]
    simp only
    rw [if_neg (not_not.mpr rfl), c2]
    simp only
    rw [if_neg (not_not.mpr rfl), c3]
    simp only
    rw [c4]
    simp only
    rw [if_neg (not_not.mpr rfl)]
    exact c5
  · rw [f4, f3, f2]
    exact f1 h (hk h hh2)

/-- The patterns of a loaded song, as a list. -/
theorem Loading.patterns {N ninst : Nat} {s : Engine} (h : Loading N ninst N s) :
    s.song.npatterns = N ∧ ∃ pats, s.song.patterns = some pats ∧ pats.length = N ∧
      ∀ pat ∈ pats, pat.nsteps = 64 ∧ pat.steps.length = 64 := by
  obtain ⟨_, hn, _, _, pats, hp, hlen, hdone⟩ := h
  refine ⟨hn, pats, hp, hlen, fun pat hmem => ?_⟩
  obtain ⟨i, hi, e⟩ := List.getElem_of_mem hmem
  obtain ⟨pat2, q1, q2, q3⟩ := hdone i (by omega)
  rw [List.getElem?_eq_getElem hi, e] at q1
  simp only [Option.some.injEq] at q1
  rw [q1]
  exact ⟨q2, q3⟩

set_option maxRecDepth 100000 in
/-- Right after `sss_init` no sample slot holds a payload. -/
theorem engine_44s_free : FreeFrom 0 engine_44s := by
  intro h _
  have e : engine_44s.samples = fun u =>
      if u < SSS_MAX_SAMPLES then { (boot.samples u) with data := none, size := 0, smprate := 0 }
      else boot.samples u := rfl
  rw [e]
  dsimp only
  split_ifs <;> rfl

/-- The header of a file of zero bytes. -/
theorem mod_header_zero (n hsize : Nat) (h : hsize ≤ n) :
    mod_header (List.replicate n 0) hsize = List.replicate hsize 0 := by
  unfold mod_header
  rw [List.take_replicate, List.map_replicate, Nat.min_eq_left h]

theorem getD_replicate_zero (n i : Nat) : (List.replicate n 0).getD i 0 = 0 := by
  rw [List.getD_eq_getElem?_getD, List.getElem?_replicate]
  split_ifs <;> rfl

theorem byteswap_zero : byteswap 0 = 0 := by decide

/-- A header whose first `n` bytes are zero has no instrument data in the
instruments that end before byte `n`. -/
theorem inst_length_zero (hdr : List Nat) (n u : Nat)
    (hz : ∀ i, i < n → hdr.getD i 0 = 0) (hu : 20 + 30 * u + 24 ≤ n) :
    inst_length hdr u = 0 := by
  unfold inst_length word_at
  rw [hz _ (by omega), hz _ (by omega)]
  exact byteswap_zero

theorem inst_words_zero (hdr : List Nat) (n ninst : Nat)
    (hz : ∀ i, i < n → hdr.getD i 0 = 0) (hn : 20 + 30 * ninst ≤ n) :
    inst_words hdr ninst = 0 := by
  unfold inst_words
  apply List.sum_eq_zero
  intro x hx
  obtain ⟨u, hu, e⟩ := List.mem_map.mp hx
  rw [← e]
  exact inst_length_zero hdr n u hz (by
    have := List.mem_range.mp hu
    omega)

/-- The header of the 31-instrument file: 1080 zero bytes, then "M.K.". -/
theorem mod_header31 :
    mod_header mod_file31 1084 = List.replicate 1080 0 ++ [77, 46, 75, 46] := by
  unfold mod_header mod_file31
  rw [← List.append_assoc]
  have hl : (List.replicate 1080 0 ++ [77, 46, 75, 46]).length = 1084 := by
    rw [List.length_append, List.length_replicate]
    rfl
  rw [← hl, List.take_left, List.map_append, List.map_replicate]
  rfl

theorem mod_header31_zero (i : Nat) (hi : i < 1080) :
    (mod_header mod_file31 1084).getD i 0 = 0 := by
  rw [mod_header31, List.getD_eq_getElem?_getD,
    List.getElem?_append_left (by rw [List.length_replicate]; exact hi),
    ← List.getD_eq_getElem?_getD]
  exact getD_replicate_zero 1080 i

theorem mod_file15_length : mod_file15.length = 3672 := List.length_replicate _ _

theorem mod_file31_length : mod_file31.length = 2108 := by
  unfold mod_file31
  rw [List.length_append, List.length_append, List.length_replicate, List.length_replicate]
  rfl

theorem mod_header15_zero (hsize i : Nat) (h : hsize ≤ 3672) :
    (mod_header mod_file15 hsize).getD i 0 = 0 := by
  unfold mod_file15
  rw [mod_header_zero 3672 hsize h]
  exact getD_replicate_zero hsize i

/-- The size equation and the order count of the 15-instrument file. -/
theorem mod_file15_size :
    mod_file15.length = 600 + 2 * inst_words (mod_header mod_file15 600) 15 + 1024 * 3 + 0 ∧
    hdr_num_pats (mod_header mod_file15 600) 15 ≤ 128 := by
  constructor
  · rw [mod_file15_length, inst_words_zero _ 600 15
      (fun i _ => mod_header15_zero 600 i (by decide)) (by decide)]
  · unfold hdr_num_pats
    rw [mod_header15_zero 600 _ (by decide)]
    exact Nat.zero_le _

/-- The size equation and the order count of the 31-instrument file. -/
theorem mod_file31_size :
    mod_file31.length = 1084 + 2 * inst_words (mod_header mod_file31 1084) 31 + 1024 * 1 + 0 ∧
    hdr_num_pats (mod_header mod_file31 1084) 31 ≤ 128 := by
  constructor
  · rw [mod_file31_length, inst_words_zero _ 1080 31
      (fun i hi => mod_header31_zero i hi) (by decide)]
  · unfold hdr_num_pats
    rw [mod_header31_zero _ (by decide)]
    exact Nat.zero_le _

set_option maxRecDepth 100000 in
/-- The 15-instrument file loads right after `sss_init`. -/
theorem mod_file15_loads :
    ∃ s1, sss_music_load_mod engine_44s (some mod_file15) = some (s1, SSSERR_OK) := by
  obtain ⟨s1, code, h1, _, _, h4⟩ := load_layout_runs 15 600 load15_step engine_44s mod_file15
    3 0 (by decide) (by decide) (by rw [mod_file15_length]; decide) (by decide)
    mod_file15_size.1 mod_file15_size.2 (by decide)
  have hc : code = SSSERR_OK := h4 0 engine_44s_free (by decide)
  subst hc
  have hsig : ((mod_header mod_file15 1084).drop 1080).take 4 = [0, 0, 0, 0] := by
    unfold mod_file15
    rw [mod_header_zero 3672 1084 (by decide), List.drop_replicate, List.take_replicate]
    rfl
  unfold sss_music_load_mod
  simp only
  rw [lread_header _ 1084 (by rw [mod_file15_length]; decide)]
  simp only
  rw [hsig, if_pos ⟨by decide, by decide⟩]
  have h2 : load15 engine_44s mod_file15 = some (s1, SSSERR_OK) := h1
  rw [h2]
  simp only
  rw [if_neg (not_not.mpr rfl)]
  exact ⟨_, rfl⟩

set_option maxRecDepth 100000 in
/-- The 31-instrument file with signature "M.K." loads right after
`sss_init`. -/
theorem mod_file31_loads :
    ∃ s1, sss_music_load_mod engine_44s (some mod_file31) = some (s1, SSSERR_OK) := by
  obtain ⟨s1, code, h1, _, _, h4⟩ := load_layout_runs 31 1084 load31_step engine_44s mod_file31
    1 0 (by decide) (by decide) (by rw [mod_file31_length]; decide) (by decide)
    mod_file31_size.1 mod_file31_size.2 (by decide)
  have hc : code = SSSERR_OK := h4 0 engine_44s_free (by decide)
  subst hc
  have hsig : ((mod_header mod_file31 1084).drop 1080).take 4 = [77, 46, 75, 46] := by
    rw [mod_header31]
    rw [List.drop_left' (List.length_replicate 1080 0)]
    rfl
  unfold sss_music_load_mod
  simp only
  rw [lread_header _ 1084 (by rw [mod_file31_length]; decide)]
  simp only
  rw [hsig, if_neg (fun h => h.1 rfl)]
  have h2 : load31 engine_44s mod_file31 = some (s1, SSSERR_OK) := h1
  rw [h2]
  simp only
  rw [if_neg (not_not.mpr rfl)]
  exact ⟨_, rfl⟩

/-- A call of `sss_music_define_pan` with a music channel and a pan position
in range stores the pan position. -/
theorem sss_music_define_pan_eq (s : Engine) (ch pan : Nat) (hc : ch < SSS_MUSIC_CHANNELS)
    (hp : pan ≤ SSS_PAN_RIGHT) :
    sss_music_define_pan s ch pan =
      { s with song := { s.song with pan_pos := upd s.song.pan_pos ch pan } } := by
  unfold sss_music_define_pan
  rw [if_neg (by omega), if_neg (by omega)]

/-- The four calls of `sss_music_define_pan` that end `sss_music_load_mod`. -/
theorem mod_pans (s : Engine) :
    (sss_music_define_pan (sss_music_define_pan (sss_music_define_pan
      (sss_music_define_pan s 0 SSS_PAN_LEFT) 1 SSS_PAN_RIGHT) 2 SSS_PAN_RIGHT)
      3 SSS_PAN_LEFT).song.pan_pos =
    upd (upd (upd (upd s.song.pan_pos 0 SSS_PAN_LEFT) 1 SSS_PAN_RIGHT) 2 SSS_PAN_RIGHT)
      3 SSS_PAN_LEFT := by
  rw [sss_music_define_pan_eq _ 3 _ (by decide) (by decide),
    sss_music_define_pan_eq _ 2 _ (by decide) (by decide),
    sss_music_define_pan_eq _ 1 _ (by decide) (by decide),
    sss_music_define_pan_eq _ 0 _ (by decide) (by decide)]

/-- C18.  Scenario S5.  After `sss_music_load_mod` has returned SSSERR_OK, on
a file of either layout, the initial pan positions of the song for the music
channels 0, 1, 2, 3 are LEFT (0), RIGHT (15), RIGHT (15), LEFT (0). -/
theorem mod_pan_positions (s s1 : Engine) (fn : Option (List Nat))
    (h : sss_music_load_mod s fn = some (s1, SSSERR_OK)) :
    s1.song.pan_pos 0 = SSS_PAN_LEFT ∧ s1.song.pan_pos 1 = SSS_PAN_RIGHT ∧
    s1.song.pan_pos 2 = SSS_PAN_RIGHT ∧ s1.song.pan_pos 3 = SSS_PAN_LEFT ∧
    SSS_PAN_LEFT = 0 ∧ SSS_PAN_RIGHT = 15 := by
  unfold sss_music_load_mod at h
  cases fn with
  | none =>
    simp only [Option.some.injEq, Prod.mk.injEq] at h
    exact absurd h.2 (by decide)
  | some file =>
    simp only at h
    cases hr : lread file 0 1084 with
    | none =>
      rw [hr] at h
      simp only [Option.some.injEq, Prod.mk.injEq] at h
      exact absurd h.2 (by decide)
    | some hdr31 =>
      rw [hr] at h
      simp only at h
      generalize (if (hdr31.drop 1080).take 4 ≠ [77, 46, 75, 46] ∧
        (hdr31.drop 1080).take 4 ≠ [70, 76, 84, 52] then load15 s file
        else load31 s file) = res at h
      cases res with
      | none => exact absurd h (by simp)
      | some p =>
        obtain ⟨s2, result⟩ := p
        simp only at h
        by_cases hres : result ≠ SSSERR_OK
        · rw [if_pos hres] at h
          cases hf : sss_music_flush s2 with
          | none =>
            rw [hf] at h
            exact absurd h (by simp)
          | some s3 =>
            rw [hf] at h
            simp only [Option.some.injEq, Prod.mk.injEq] at h
            exact absurd h.2 hres
        · rw [if_neg hres] at h
          simp only [Option.some.injEq, Prod.mk.injEq] at h
          rw [← h.1, mod_pans s2]
          refine ⟨?_, ?_, ?_, ?_, rfl, rfl⟩ <;> simp [upd]

/-- The two files loaded right after `sss_init` at 44.1 kHz stereo. -/
theorem mod_pan_positions_witness :
    (∃ s1, sss_music_load_mod engine_44s (some mod_file15) = some (s1, SSSERR_OK) ∧
      s1.song.pan_pos 0 = 0 ∧ s1.song.pan_pos 1 = 15 ∧ s1.song.pan_pos 2 = 15 ∧
      s1.song.pan_pos 3 = 0) ∧
    (∃ s1, sss_music_load_mod engine_44s (some mod_file31) = some (s1, SSSERR_OK) ∧
      s1.song.pan_pos 0 = 0 ∧ s1.song.pan_pos 1 = 15 ∧ s1.song.pan_pos 2 = 15 ∧
      s1.song.pan_pos 3 = 0) := by
  obtain ⟨s1, h1⟩ := mod_file15_loads
  obtain ⟨s2, h2⟩ := mod_file31_loads
  obtain ⟨a0, a1, a2, a3, _⟩ := mod_pan_positions _ _ _ h1
  obtain ⟨b0, b1, b2, b3, _⟩ := mod_pan_positions _ _ _ h2
  exact ⟨⟨s1, h1, a0, a1, a2, a3⟩, ⟨s2, h2, b0, b1, b2, b3⟩⟩

theorem SampleListOK.list_of_eq {s s1 : Engine} (h : SampleListOK s)
    (hn : s1.song.nsamples = s.song.nsamples) (hl : s1.song.samples = s.song.samples) :
    SampleListOK s1 := by
  unfold SampleListOK
  rw [hn, hl]
  exact h

theorem SampleListOK.of_song {s s1 : Engine} (h : SampleListOK s) (hs : s1.song = s.song) :
    SampleListOK s1 :=
  h.list_of_eq (by rw [hs]) (by rw [hs])

theorem SampleListOK.list_zero (s : Engine) (hs : s.song = zero_song) : SampleListOK s := by
  unfold SampleListOK
  rw [hs]
  exact Nat.le_refl _

theorem Sequenced.seq_sample_list {s s1 : Engine} (hs : Sequenced s s1) (h : SampleListOK s) :
    SampleListOK s1 := by
  obtain ⟨f, io, ip, i, sp, sd, pm, n, b, rfl, _⟩ := hs
  exact h.list_of_eq rfl rfl

theorem OnlyChan.chan_sample_list {s s1 : Engine} (hs : OnlyChan s s1) (h : SampleListOK s) :
    SampleListOK s1 :=
  hs.chan_toSeq.seq_sample_list h

theorem music_stop_sample_list (s : Engine) (h : SampleListOK s) :
    SampleListOK (music_stop s) := by
  obtain ⟨f, e⟩ := music_stop_eq s
  rw [e]
  exact h.list_of_eq rfl rfl

theorem sss_music_command_sample_list (s : Engine) (cmd : Nat) (h : SampleListOK s) :
    SampleListOK (sss_music_command s cmd) := by
  have hset : ∀ m : Nat, SampleListOK { s with song := { s.song with playmode := m } } :=
    fun m => h.list_of_eq rfl rfl
  unfold sss_music_command
  split_ifs
  · exact h
  · exact h
  · unfold music_play
    split_ifs
    · exact h
    · exact hset _
    · exact h
    · obtain ⟨f, e⟩ := music_play_pans_only (List.range SSS_MUSIC_CHANNELS) (music_stop s)
      obtain ⟨g, eg⟩ := music_stop_eq s
      simp only
      rw [e, eg]
      exact h.list_of_eq rfl rfl
  · exact h
  · exact music_stop_sample_list s h
  · exact h
  · exact (music_stop_channels_only _ _).chan_sample_list (hset _)
  · exact h
  · exact hset _
  · exact h
  · exact hset _
  · exact h

theorem sss_music_flush_sample_list (s s1 : Engine) (h : SampleListOK s)
    (hf : sss_music_flush s = some s1) : SampleListOK s1 := by
  rcases (sss_music_flush_song s s1 hf).2 with ⟨e, _⟩ | e
  · rw [e]
    exact h
  · exact SampleListOK.list_zero s1 e

theorem sss_init_sample_list (s : Engine) (f : Nat) (h : SampleListOK s) :
    SampleListOK (sss_init s f).1 := by
  unfold sss_init
  split_ifs
  · exact h
  · simp only
    split
    · exact SampleListOK.list_zero _ rfl
    · exact SampleListOK.list_zero _ rfl

theorem sss_deinit_sample_list (s s1 : Engine) (h : SampleListOK s)
    (hd : sss_deinit s = some s1) : SampleListOK s1 := by
  unfold sss_deinit at hd
  split_ifs at hd with hi
  · simp only [Option.some.injEq] at hd
    subst hd
    exact h
  · split at hd
    · exact absurd hd (by simp)
    · rename_i s2 hf
      simp only [Option.some.injEq] at hd
      subst hd
      exact (sss_music_flush_sample_list _ _ (music_stop_sample_list s h) hf).list_of_eq rfl rfl

theorem sss_music_create_sample_list (s s1 : Engine) (a b c r : Nat) (h : SampleListOK s)
    (hc : sss_music_create s a b c = some (s1, r)) : SampleListOK s1 := by
  unfold sss_music_create at hc
  split_ifs at hc with hi
  · simp only [Option.some.injEq, Prod.mk.injEq] at hc
    obtain ⟨rfl, _⟩ := hc
    exact h
  · split at hc
    · exact absurd hc (by simp)
    · simp only [Option.some.injEq, Prod.mk.injEq] at hc
      obtain ⟨rfl, _⟩ := hc
      show c ≤ (List.replicate c 0).length
      rw [List.length_replicate]

theorem sss_music_define_order_sample_list (s : Engine) (a b : Nat) (h : SampleListOK s) :
    SampleListOK (sss_music_define_order s a b).1 := by
  unfold sss_music_define_order
  split_ifs
  · exact h
  · exact h
  · exact h
  · exact h
  · exact h.list_of_eq rfl rfl

theorem sss_music_define_pattern_sample_list (s s1 : Engine) (a b r : Nat)
    (h : SampleListOK s) (hd : sss_music_define_pattern s a b = some (s1, r)) :
    SampleListOK s1 := by
  unfold sss_music_define_pattern at hd
  split_ifs at hd
  · simp only [Option.some.injEq, Prod.mk.injEq] at hd
    obtain ⟨rfl, _⟩ := hd
    exact h
  · simp only [Option.some.injEq, Prod.mk.injEq] at hd
    obtain ⟨rfl, _⟩ := hd
    exact h
  · simp only [Option.some.injEq, Prod.mk.injEq] at hd
    obtain ⟨rfl, _⟩ := hd
    exact h
  · split at hd
    · exact absurd hd (by simp)
    · split_ifs at hd
      simp only [Option.some.injEq, Prod.mk.injEq] at hd
      obtain ⟨rfl, _⟩ := hd
      exact h.list_of_eq rfl rfl

theorem sss_music_define_step_sample_list (s s1 : Engine) (a b r : Nat) (st : SSS_STEP_DESC)
    (h : SampleListOK s) (hd : sss_music_define_step s a b st = some (s1, r)) :
    SampleListOK s1 := by
  unfold sss_music_define_step at hd
  split_ifs at hd
  · simp only [Option.some.injEq, Prod.mk.injEq] at hd
    obtain ⟨rfl, _⟩ := hd
    exact h
  · simp only [Option.some.injEq, Prod.mk.injEq] at hd
    obtain ⟨rfl, _⟩ := hd
    exact h
  · simp only [Option.some.injEq, Prod.mk.injEq] at hd
    obtain ⟨rfl, _⟩ := hd
    exact h
  · split at hd
    · exact absurd hd (by simp)
    · split at hd
      · exact absurd hd (by simp)
      · split_ifs at hd
        · simp only [Option.some.injEq, Prod.mk.injEq] at hd
          obtain ⟨rfl, _⟩ := hd
          exact h
        · simp only [Option.some.injEq, Prod.mk.injEq] at hd
          obtain ⟨rfl, _⟩ := hd
          exact h.list_of_eq rfl rfl

theorem sss_music_define_sample_sample_list (s s1 : Engine) (a b r : Nat)
    (h : SampleListOK s) (hd : sss_music_define_sample s a b = some (s1, r)) :
    SampleListOK s1 := by
  unfold sss_music_define_sample at hd
  split_ifs at hd <;> simp only [Option.some.injEq, Prod.mk.injEq] at hd <;>
    obtain ⟨rfl, _⟩ := hd
  · exact h
  · exact h
  · exact h
  · exact h
  · exact h
  · show s.song.nsamples ≤ (s.song.samples.set a b).length
    rw [List.length_set]
    exact h

theorem sss_music_define_pan_sample_list (s : Engine) (ch pan : Nat) (h : SampleListOK s) :
    SampleListOK (sss_music_define_pan s ch pan) := by
  unfold sss_music_define_pan
  split_ifs
  · exact h
  · exact h
  · exact h.list_of_eq rfl rfl

theorem mix_advance_sample_list (s : Engine) (h : SampleListOK s) :
    SampleListOK (mix_advance s) := by
  unfold mix_advance
  split_ifs
  · exact h
  · exact h
  · exact h.list_of_eq rfl rfl
  · exact music_stop_sample_list s h
  · exact h

theorem sss_poll_sample_list (fuel : Nat) (s s1 : Engine) (h : SampleListOK s)
    (hp : sss_poll fuel s = Outcome.done s1) : SampleListOK s1 := by
  unfold sss_poll at hp
  split_ifs at hp
  · simp only [Outcome.done.injEq] at hp
    subst hp
    exact h
  · split at hp
    · rename_i s2 h2
      simp only [Outcome.done.injEq] at hp
      subst hp
      obtain ⟨sf, _, e, hseq⟩ := mix_split fuel _ s2 h2
      have h0 : SampleListOK { s with whdr_done := upd s.whdr_done s.bfr_toggle false } := h
      have h3 : SampleListOK s2 := by
        rw [e]
        exact mix_advance_sample_list sf (hseq.seq_sample_list h0)
      exact h3.list_of_eq rfl rfl
    · exact absurd hp (by simp)
    · exact absurd hp (by simp)

/-- In every reachable state the sample list of the song has at least
`nsamples` entries. -/
theorem Reachable.sample_list {s : Engine} (h : Reachable s) : SampleListOK s := by
  induction h with
  | start => exact SampleListOK.list_zero boot rfl
  | init s f _ ih => exact sss_init_sample_list s f ih
  | deinit s s1 _ hd ih => exact sss_deinit_sample_list s s1 ih hd
  | pan_set s ch pan _ ih => exact (sss_channel_pan_set_only s ch pan).chan_sample_list ih
  | stop s ch _ ih => exact (sss_channel_stop_only s ch).chan_sample_list ih
  | volume s ch v _ ih => exact (sss_channel_volume_only s ch v).chan_sample_list ih
  | sample_add s s1 data size lb ls sr c r _ ha ih =>
    exact ih.of_song (sss_sample_add_song s s1 data size lb ls sr c r ha).1
  | sample_delete s hsmp _ ih => exact ih.of_song (sss_sample_delete_song s hsmp).1
  | sample_play s ch hsmp p _ ih => exact (sss_sample_play_only s ch hsmp p).chan_sample_list ih
  | flush s s1 _ hf ih => exact sss_music_flush_sample_list s s1 ih hf
  | create s s1 a b c r _ hc ih => exact sss_music_create_sample_list s s1 a b c r ih hc
  | define_order s a b _ ih => exact sss_music_define_order_sample_list s a b ih
  | define_pattern s s1 a b r _ hd ih =>
    exact sss_music_define_pattern_sample_list s s1 a b r ih hd
  | define_step s s1 a b r st _ hd ih =>
    exact sss_music_define_step_sample_list s s1 a b r st ih hd
  | define_sample s s1 a b r _ hd ih =>
    exact sss_music_define_sample_sample_list s s1 a b r ih hd
  | define_pan s ch pan _ ih => exact sss_music_define_pan_sample_list s ch pan ih
  | command s cmd _ ih => exact sss_music_command_sample_list s cmd ih
  | poll s s1 fuel _ _ hp ih => exact sss_poll_sample_list fuel s s1 ih hp
  | device s u _ ih => exact ih

/-- The two divisions of `sss_sample_play` while nothing leaves its type: the
first product below 2^31 (it is a product of `long`), the second below 2^32
(it is a product of `UINT`), and the result below 2^31 (it is stored in a
`long`). -/
theorem play_vsize_exact (smp : SAMPLE_DESC) (mixrate pitch : Nat)
    (hm : mixrate < 2147483648) (hz : smp.size < 2147483648)
    (hr0 : 0 < smp.smprate) (hr1 : smp.smprate < 2147483648) (hp : pitch < 4294967296)
    (h1 : smp.size * mixrate < 2147483648)
    (h2 : smp.size * mixrate / smp.smprate * pitch < 4294967296)
    (h3 : smp.size * mixrate / smp.smprate * pitch / smp.smprate < 2147483648) :
    play_vsize smp mixrate pitch =
      ((smp.size * mixrate / smp.smprate * pitch / smp.smprate : Nat) : Int) := by
  unfold play_vsize
  simp only [W32]
  rw [toLong_small _ hz, toLong_small _ hm, toLong_small _ hr1]
  have e1 : ((smp.size : Int) * (mixrate : Int)) = ((smp.size * mixrate : Nat) : Int) := by
    push_cast; rfl
  rw [e1, toLong_small _ h1]
  have e2 : Int.tdiv ((smp.size * mixrate : Nat) : Int) (smp.smprate : Int) =
      ((smp.size * mixrate / smp.smprate : Nat) : Int) := by
    rw [Int.tdiv_eq_ediv (by omega) (by omega)]
    push_cast; rfl
  rw [e2]
  have h4 : smp.size * mixrate / smp.smprate < 4294967296 := by
    have := Nat.div_le_self (smp.size * mixrate) smp.smprate
    omega
  rw [toUInt_small _ h4, Nat.mod_eq_of_lt hp, Nat.mod_eq_of_lt h2, Nat.mod_eq_of_lt (by omega)]
  exact toLong_small _ h3

/-- The clamp of `sss_channel_volume` leaves nothing for the guard that
follows it: the row is the smaller of `v` and 15. -/
theorem volume_row_min (v : Nat) : volume_row v = min v 15 := by
  unfold volume_row
  simp only [SSS_MAX_VOLUME]
  split_ifs <;> omega

/-- The voice `sss_sample_play` leaves on a channel while nothing leaves its
type. -/
theorem sss_sample_play_exact (s : Engine) (ch h pitch : Nat) (d : List Int)
    (hf : FormatOK s) (hi : s.initialized = true)
    (hch : ch < SSS_MAX_CHANNELS) (hh : h < SSS_MAX_SAMPLES)
    (hd : (s.samples h).data = some d)
    (hr0 : 0 < (s.samples h).smprate) (hr1 : (s.samples h).smprate < 2147483648)
    (hp : pitch < 4294967296)
    (h1 : (s.samples h).size * s.mixrate < 2147483648)
    (h2 : (s.samples h).size * s.mixrate / (s.samples h).smprate * pitch < 4294967296)
    (h3 : (s.samples h).size * s.mixrate / (s.samples h).smprate * pitch /
      (s.samples h).smprate < 2147483648) :
    sss_sample_play s ch h pitch =
      { s with
        chan := upd s.chan ch
              ({ (s.chan ch) with
                vsize := (((s.samples h).size * s.mixrate / (s.samples h).smprate * pitch /
                  (s.samples h).smprate : Nat) : Int),
                voffset := 0,
                isample := if 1 ≤ (s.samples h).size * s.mixrate / (s.samples h).smprate * pitch /
                  (s.samples h).smprate then h else IDLE } : CHANNEL_DESC) } := by
  have hm : 11025 ≤ s.mixrate ∧ s.mixrate < 2147483648 := by
    rcases hf.1 with e | e | e <;> omega
  have hz : (s.samples h).size < 2147483648 := by
    have : (s.samples h).size * 1 ≤ (s.samples h).size * s.mixrate :=
      Nat.mul_le_mul_left _ (by omega)
    omega
  rw [sss_sample_play_live s ch h pitch hi hch hh d hd (by omega),
    play_vsize_exact (s.samples h) s.mixrate pitch hm.2 hz hr0 hr1 hp h1 h2 h3]
  unfold play_chan
  by_cases hV : 1 ≤ (s.samples h).size * s.mixrate / (s.samples h).smprate * pitch /
      (s.samples h).smprate
  · rw [if_neg (by omega), if_pos hV]
  · rw [if_pos (by omega), if_neg hV]

theorem slow_sample_state_reachable : Reachable slow_sample_state :=
  reach_sample_add engine_44s _ _ _ _ _ _ engine_44s_reachable

/-- C21 (counterexample).  On the engine at 44.1 kHz with sample 0 of four
bytes recorded at 1 Hz, `sss_sample_play(0, 0, 20000)` has the intermediate
products 4 * 44100 = 176400 and 176400 * 20000 = 3528000000, both inside 32
bits, and the claimed virtual size is 3528000000; stored in the `long` field
it is 3528000000 - 2^32 = -766967296, below 1, so the voice is idle and not
bound to the sample. -/
theorem virtual_size_wraps :
    slow_sample_state.initialized = true ∧
    (slow_sample_state.samples 0).data = some [1, 2, 3, 4] ∧
    (slow_sample_state.samples 0).size = 4 ∧ (slow_sample_state.samples 0).smprate = 1 ∧
    slow_sample_state.mixrate = 44100 ∧
    (slow_sample_state.samples 0).size * slow_sample_state.mixrate < 4294967296 ∧
    (slow_sample_state.samples 0).size * slow_sample_state.mixrate /
      (slow_sample_state.samples 0).smprate * 20000 < 4294967296 ∧
    (slow_sample_state.samples 0).size * slow_sample_state.mixrate /
      (slow_sample_state.samples 0).smprate * 20000 /
      (slow_sample_state.samples 0).smprate = 3528000000 ∧
    ((sss_sample_play slow_sample_state 0 0 20000).chan 0).vsize = -766967296 ∧
    ((sss_sample_play slow_sample_state 0 0 20000).chan 0).isample = IDLE := by
  decide

/-- C21 (amended).  Virtual size.  In every reachable state of the initialised
engine, for every channel below 12, every live sample handle `h` below 64 with
a rate `r` with 0 < r < 2^31 and every pitch below 2^32: provided the first
product `size * mix_rate` is below 2^31 (it is formed in `long`), the second
product `(size * mix_rate / r) * pitch` is below 2^32 (it is formed in `UINT`)
and the result `V = (size * mix_rate / r) * pitch / r` is below 2^31 (it is
stored in a `long`), `sss_sample_play` sets `vsize = V` and `voffset = 0` on
the channel, binds it to `h` when `V ≥ 1` and sets it idle when `V < 1`, keeps
its pan and volume row, and changes no other channel and nothing else of the
engine. -/
theorem virtual_size (s : Engine) (ch h pitch : Nat) (d : List Int)
    (hreach : Reachable s) (hi : s.initialized = true)
    (hch : ch < SSS_MAX_CHANNELS) (hh : h < SSS_MAX_SAMPLES)
    (hd : (s.samples h).data = some d)
    (hr0 : 0 < (s.samples h).smprate) (hr1 : (s.samples h).smprate < 2147483648)
    (hp : pitch < 4294967296)
    (h1 : (s.samples h).size * s.mixrate < 2147483648)
    (h2 : (s.samples h).size * s.mixrate / (s.samples h).smprate * pitch < 4294967296)
    (h3 : (s.samples h).size * s.mixrate / (s.samples h).smprate * pitch /
      (s.samples h).smprate < 2147483648) :
    sss_sample_play s ch h pitch =
      { s with
        chan := upd s.chan ch
              ({ (s.chan ch) with
                vsize := (((s.samples h).size * s.mixrate / (s.samples h).smprate * pitch /
                  (s.samples h).smprate : Nat) : Int),
                voffset := 0,
                isample := if 1 ≤ (s.samples h).size * s.mixrate / (s.samples h).smprate * pitch /
                  (s.samples h).smprate then h else IDLE } : CHANNEL_DESC) } ∧
    ∀ c, c ≠ ch → (sss_sample_play s ch h pitch).chan c = s.chan c := by
  have e := sss_sample_play_exact s ch h pitch d (hreach.engine_ok.2 hi).2.1 hi hch hh hd
    hr0 hr1 hp h1 h2 h3
  refine ⟨e, fun c hc => ?_⟩
  rw [e]
  exact upd_other _ _ _ _ hc

theorem virtual_size_witness :
    sss_sample_play slow_sample_state 3 0 2 =
      { slow_sample_state with
        chan := upd slow_sample_state.chan 3
              ({ (slow_sample_state.chan 3) with
                vsize := (((slow_sample_state.samples 0).size * slow_sample_state.mixrate /
                  (slow_sample_state.samples 0).smprate * 2 /
                  (slow_sample_state.samples 0).smprate : Nat) : Int),
                voffset := 0,
                isample := if 1 ≤ (slow_sample_state.samples 0).size * slow_sample_state.mixrate /
                  (slow_sample_state.samples 0).smprate * 2 /
                  (slow_sample_state.samples 0).smprate then 0 else IDLE } : CHANNEL_DESC) } ∧
    ∀ c, c ≠ 3 → (sss_sample_play slow_sample_state 3 0 2).chan c = slow_sample_state.chan c :=
  virtual_size slow_sample_state 3 0 2 [1, 2, 3, 4] slow_sample_state_reachable (by decide)
    (by decide) (by decide) (by decide) (by decide) (by decide) (by decide) (by decide)
    (by decide) (by decide)

/-- C22 (the code against the claim).  Channel volume.  On the initialised
engine and for every channel below 12 and every `v`, `sss_channel_volume` binds
the voice to volume row `v` when `v ≤ 15` and to row 15 for every larger `v`:
the clamp to 15 comes first, so the guard `v >= 0xFFFE` that follows it never
holds and a `v` of 0xFFFE or more gives row 15, not row 0. -/
theorem channel_volume_rows (s : Engine) (ch v : Nat) (hi : s.initialized = true)
    (hch : ch < SSS_MAX_CHANNELS) :
    (v ≤ 15 → ((sss_channel_volume s ch v).chan ch).volume = v) ∧
    (16 ≤ v → ((sss_channel_volume s ch v).chan ch).volume = 15) ∧
    (65534 ≤ v → ((sss_channel_volume s ch v).chan ch).volume ≠ 0) := by
  rw [sss_channel_volume_live s ch v hi hch]
  dsimp only
  rw [upd_same, volume_row_min]
  dsimp only
  omega

theorem channel_volume_rows_witness :
    (65535 ≤ 15 → ((sss_channel_volume engine_44s 0 65535).chan 0).volume = 65535) ∧
    (16 ≤ 65535 → ((sss_channel_volume engine_44s 0 65535).chan 0).volume = 15) ∧
    (65534 ≤ 65535 → ((sss_channel_volume engine_44s 0 65535).chan 0).volume ≠ 0) :=
  channel_volume_rows engine_44s 0 65535 (by decide) (by decide)

/-- A channel that `sss_channel_is_busy` reports busy is a channel below 12 of
the initialised engine that is not idle. -/
theorem sss_channel_is_busy_spec (s : Engine) (ch : Nat) (h : sss_channel_is_busy s ch ≠ 0) :
    s.initialized = true ∧ ch < SSS_MAX_CHANNELS ∧ (s.chan ch).isample ≠ IDLE := by
  unfold sss_channel_is_busy at h
  split_ifs at h with h1 h2 h3
  · exact absurd rfl h
  · exact absurd rfl h
  · exact ⟨initialized_of_not s h1, by omega, h3⟩
  · exact absurd rfl h

/-- The voice `sss_channel_stop` leaves on a channel below 12 of the
initialised engine. -/
theorem sss_channel_stop_voice (s : Engine) (ch : Nat) (hi : s.initialized = true)
    (hch : ch < SSS_MAX_CHANNELS) :
    ((sss_channel_stop s ch).chan ch).isample = IDLE ∧
    ((sss_channel_stop s ch).chan ch).vsize = 0 ∧
    ((sss_channel_stop s ch).chan ch).voffset = 0 := by
  unfold sss_channel_stop
  rw [if_neg (by rw [hi]; decide), if_neg (by omega)]
  dsimp only
  rw [upd_same]
  exact ⟨rfl, rfl, rfl⟩

/-- A voice the mixer turns idle has `vsize = 0` and `voffset = 0`. -/
theorem mix_channel_idle (s s1 : Engine) (acc acc1 : Int × Int) (ch : Nat)
    (h : mix_channel s acc ch = some (s1, acc1)) (hb : (s.chan ch).isample ≠ IDLE)
    (he : (s1.chan ch).isample = IDLE) :
    (s1.chan ch).vsize = 0 ∧ (s1.chan ch).voffset = 0 := by
  unfold mix_channel at h
  rw [if_neg hb] at h
  split at h
  · exact absurd h (by simp)
  · rename_i c1 a1 hv
    simp only [Option.some.injEq, Prod.mk.injEq] at h
    obtain ⟨rfl, _⟩ := h
    dsimp only at he ⊢
    rw [upd_same] at he ⊢
    obtain ⟨_, ⟨_, _, e, _⟩ | ⟨_, _, e, _⟩ | ⟨_, e, _⟩⟩ := mix_voice_cases _ _ _ _ _ _ _ hv
    · rw [e] at he
      exact absurd he hb
    · rw [e]
      exact ⟨rfl, rfl⟩
    · rw [e] at he
      exact absurd he hb

/-- C30.  Voice invariant.  In every reachable state of the initialised
engine (reached through any calls of the interface, among them play, stop, the
transport commands, the polls and the mix buffers): every channel below 12
whose sample is not IDLE has `vsize ≥ 1`, and the body of the channel loop of
the mixer runs on it without a division by zero; a channel that
`sss_channel_is_busy` reports busy has `vsize ≥ 1`; the voice
`sss_channel_stop` leaves on a channel is idle with `vsize = 0` and
`voffset = 0`; and a voice that was not idle and that the mixer leaves idle
has `vsize = 0` and `voffset = 0`. -/
theorem voice_invariant (s : Engine) (hreach : Reachable s) (hi : s.initialized = true) :
    (∀ ch, ch < SSS_MAX_CHANNELS → (s.chan ch).isample ≠ IDLE →
      1 ≤ (s.chan ch).vsize ∧ ∀ acc, ∃ s1 acc1, mix_channel s acc ch = some (s1, acc1)) ∧
    (∀ ch, sss_channel_is_busy s ch ≠ 0 → 1 ≤ (s.chan ch).vsize) ∧
    (∀ ch, ch < SSS_MAX_CHANNELS →
      ((sss_channel_stop s ch).chan ch).isample = IDLE ∧
      ((sss_channel_stop s ch).chan ch).vsize = 0 ∧
      ((sss_channel_stop s ch).chan ch).voffset = 0) ∧
    (∀ ch acc s1 acc1, mix_channel s acc ch = some (s1, acc1) →
      (s.chan ch).isample ≠ IDLE → (s1.chan ch).isample = IDLE →
      (s1.chan ch).vsize = 0 ∧ (s1.chan ch).voffset = 0) := by
  have hok := hreach.engine_ok
  have hc : ChansOK s := (hok.2 hi).2.2
  refine ⟨fun ch hch hb => ⟨((hc ch hch).2.2 hb).2, fun acc => mix_channel_runs s hok hi ch hch acc⟩,
    fun ch hb => ?_, fun ch hch => sss_channel_stop_voice s ch hi hch,
    fun ch acc s1 acc1 h hb he => mix_channel_idle s s1 acc acc1 ch h hb he⟩
  obtain ⟨_, hch, hn⟩ := sss_channel_is_busy_spec s ch hb
  exact ((hc ch hch).2.2 hn).2

/-- On the engine at 44.1 kHz stereo with a sample of 100 bytes recorded at
8000 Hz playing at pitch 8000 on channel 0. -/
theorem voice_invariant_witness :
    zero_voice_state.initialized = true ∧ sss_channel_is_busy zero_voice_state 0 = 1 ∧
    ((∀ ch, ch < SSS_MAX_CHANNELS → (zero_voice_state.chan ch).isample ≠ IDLE →
      1 ≤ (zero_voice_state.chan ch).vsize ∧
      ∀ acc, ∃ s1 acc1, mix_channel zero_voice_state acc ch = some (s1, acc1)) ∧
    (∀ ch, sss_channel_is_busy zero_voice_state ch ≠ 0 → 1 ≤ (zero_voice_state.chan ch).vsize) ∧
    (∀ ch, ch < SSS_MAX_CHANNELS →
      ((sss_channel_stop zero_voice_state ch).chan ch).isample = IDLE ∧
      ((sss_channel_stop zero_voice_state ch).chan ch).vsize = 0 ∧
      ((sss_channel_stop zero_voice_state ch).chan ch).voffset = 0) ∧
    (∀ ch acc s1 acc1, mix_channel zero_voice_state acc ch = some (s1, acc1) →
      (zero_voice_state.chan ch).isample ≠ IDLE → (s1.chan ch).isample = IDLE →
      (s1.chan ch).vsize = 0 ∧ (s1.chan ch).voffset = 0)) :=
  ⟨by decide, by decide, voice_invariant zero_voice_state zero_voice_state_reachable (by decide)⟩

/-- C26.  Song end.  On a state after the channel loop of a fired step, with
the pattern `ipattern` of the song: whenever the order index after the
position update (one more than before when the step index has reached the
number of steps of the pattern, unchanged otherwise) is at least `norder`, the
position update returns a state with the mode STOPPED and with `song_pos`,
`song_counter`, `iorder`, `istep` and `ipattern` 0; the loop of the poll
returns that state at once on every further turn, and a poll whose loop fires
a step that ends in this state returns it without firing another step. -/
theorem song_end (s : Engine) (pats : List MUSICPATTERN_DESC) (pat : MUSICPATTERN_DESC)
    (hp : s.song.patterns = some pats) (hq : pats[s.song.ipattern]? = some pat)
    (hend : (if (s.song.istep + 1) % W32 ≥ pat.nsteps then (s.song.iorder + 1) % W32
      else s.song.iorder) ≥ s.song.norder) :
    ∃ s1, music_poll_advance s = some s1 ∧
      s1.song.playmode = PLAYMODE_STOPPED ∧ s1.song.song_pos = 0 ∧ s1.song_counter = 0 ∧
      s1.song.iorder = 0 ∧ s1.song.istep = 0 ∧ s1.song.ipattern = 0 ∧
      (∀ fuel T, music_poll_loop fuel T s1 = Outcome.done s1) ∧
      (∀ fuel T s0, s0.song.song_pos < T ∧ s0.song.playmode ≠ PLAYMODE_STOPPED →
        music_poll_step s0 = some s1 → music_poll_loop (fuel + 1) T s0 = Outcome.done s1) := by
  have hadv : ∃ s1, music_poll_advance s = some s1 ∧
      s1.song.playmode = PLAYMODE_STOPPED ∧ s1.song.song_pos = 0 ∧ s1.song_counter = 0 ∧
      s1.song.iorder = 0 ∧ s1.song.istep = 0 ∧ s1.song.ipattern = 0 := by
    unfold music_poll_advance
    simp only
    rw [hp]
    simp only
    rw [hq]
    simp only
    by_cases h1 : (s.song.istep + 1) % W32 ≥ pat.nsteps
    · rw [if_pos h1] at hend ⊢
      simp only
      rw [if_pos hend]
      exact ⟨_, rfl, rfl, rfl, rfl, rfl, rfl, rfl⟩
    · rw [if_neg h1] at hend ⊢
      rw [if_pos hend]
      exact ⟨_, rfl, rfl, rfl, rfl, rfl, rfl, rfl⟩
  obtain ⟨s1, h1, hm, h2, h3, h4, h5, h6⟩ := hadv
  have hs : ∀ fuel T, music_poll_loop fuel T s1 = Outcome.done s1 := fun fuel T =>
    music_poll_loop_settled T s1 (fun hx => hx.2 hm) fuel
  refine ⟨s1, h1, hm, h2, h3, h4, h5, h6, hs, fun fuel T s0 hc hstep => ?_⟩
  simp only [music_poll_loop, if_pos hc, hstep]
  exact hs fuel T

set_option maxRecDepth 100000 in
/-- On scenario S1 (one pattern of one step, order list [0]) after PLAY. -/
theorem song_end_witness :
    ∃ s1, music_poll_advance (scenario_S1 512) = some s1 ∧
      s1.song.playmode = PLAYMODE_STOPPED ∧ s1.song.song_pos = 0 ∧ s1.song_counter = 0 ∧
      s1.song.iorder = 0 ∧ s1.song.istep = 0 ∧ s1.song.ipattern = 0 ∧
      (∀ fuel T, music_poll_loop fuel T s1 = Outcome.done s1) ∧
      (∀ fuel T s0, s0.song.song_pos < T ∧ s0.song.playmode ≠ PLAYMODE_STOPPED →
        music_poll_step s0 = some s1 → music_poll_loop (fuel + 1) T s0 = Outcome.done s1) :=
  song_end (scenario_S1 512) [{ nsteps := 1, steps := [note_step] }]
    { nsteps := 1, steps := [note_step] } rfl rfl (by decide)

theorem sss_sample_play_other (s : Engine) (ch h p c : Nat) (hc : c ≠ ch) :
    (sss_sample_play s ch h p).chan c = s.chan c := by
  unfold sss_sample_play
  split_ifs
  · rfl
  · rfl
  · rfl
  · exact upd_other _ _ _ _ hc

theorem sss_channel_volume_other (s : Engine) (ch v c : Nat) (hc : c ≠ ch) :
    (sss_channel_volume s ch v).chan c = s.chan c := by
  unfold sss_channel_volume
  split_ifs
  · rfl
  · rfl
  · exact upd_other _ _ _ _ hc

/-- The volume call keeps the sample, the virtual size and the offset of
every channel. -/
theorem sss_channel_volume_voice (s : Engine) (ch v c : Nat) :
    ((sss_channel_volume s ch v).chan c).isample = (s.chan c).isample ∧
    ((sss_channel_volume s ch v).chan c).vsize = (s.chan c).vsize ∧
    ((sss_channel_volume s ch v).chan c).voffset = (s.chan c).voffset := by
  by_cases hc : c = ch
  · subst hc
    unfold sss_channel_volume
    split_ifs
    · exact ⟨rfl, rfl, rfl⟩
    · exact ⟨rfl, rfl, rfl⟩
    · dsimp only
      rw [upd_same]
      exact ⟨rfl, rfl, rfl⟩
  · rw [sss_channel_volume_other s ch v c hc]
    exact ⟨rfl, rfl, rfl⟩

theorem music_poll_effect_other (step : SSS_STEP_DESC) (s : Engine) (k c : Nat)
    (hc : c ≠ SSS_MUSIC_FIRST + k) : (music_poll_effect step s k).1.chan c = s.chan c := by
  unfold music_poll_effect
  split_ifs
  · rfl
  · rfl
  · rfl
  · rfl
  · exact sss_channel_volume_other _ _ _ _ hc
  · rfl

/-- The effect of a channel keeps the sample, the virtual size and the offset
of every channel. -/
theorem music_poll_effect_voice (step : SSS_STEP_DESC) (s : Engine) (k c : Nat) :
    ((music_poll_effect step s k).1.chan c).isample = (s.chan c).isample ∧
    ((music_poll_effect step s k).1.chan c).vsize = (s.chan c).vsize ∧
    ((music_poll_effect step s k).1.chan c).voffset = (s.chan c).voffset := by
  unfold music_poll_effect
  split_ifs
  · exact ⟨rfl, rfl, rfl⟩
  · exact ⟨rfl, rfl, rfl⟩
  · exact ⟨rfl, rfl, rfl⟩
  · exact ⟨rfl, rfl, rfl⟩
  · exact sss_channel_volume_voice _ _ _ _
  · exact ⟨rfl, rfl, rfl⟩

theorem music_poll_note_other (step : SSS_STEP_DESC) (s s1 : Engine) (k c : Nat)
    (h : music_poll_note step s k = some s1) (hc : c ≠ SSS_MUSIC_FIRST + k) :
    s1.chan c = s.chan c := by
  unfold music_poll_note at h
  split_ifs at h with hp
  · split at h
    · exact absurd h (by simp)
    · simp only [Option.some.injEq] at h
      subst h
      rw [sss_channel_volume_other _ _ _ _ hc, sss_sample_play_other _ _ _ _ _ hc]
  · simp only [Option.some.injEq] at h
    subst h
    rfl

/-- The body of the channel loop on music channel `k` leaves every channel
other than `SSS_MUSIC_FIRST + k` as it is. -/
theorem music_poll_channel_other (step : SSS_STEP_DESC) (s s1 : Engine) (k c : Nat) (b : Bool)
    (h : music_poll_channel step s k = some (s1, b)) (hc : c ≠ SSS_MUSIC_FIRST + k) :
    s1.chan c = s.chan c := by
  unfold music_poll_channel at h
  cases hn : music_poll_note step s k with
  | none =>
    rw [hn] at h
    exact absurd h (by simp)
  | some s2 =>
    rw [hn] at h
    simp only [Option.some.injEq] at h
    have e : s1 = (music_poll_effect step s2 k).1 := by rw [h]
    rw [e, music_poll_effect_other step s2 k c hc]
    exact music_poll_note_other step s s2 k c hn hc

theorem music_poll_channels_other (step : SSS_STEP_DESC) (c : Nat) (l : List Nat) :
    ∀ s s1 : Engine, music_poll_channels step s l = some s1 →
    (∀ k ∈ l, c ≠ SSS_MUSIC_FIRST + k) → s1.chan c = s.chan c := by
  induction l with
  | nil =>
    intro s s1 h _
    simp only [music_poll_channels, Option.some.injEq] at h
    subst h
    rfl
  | cons k ks ih =>
    intro s s1 h hc
    rw [music_poll_channels] at h
    cases hk : music_poll_channel step s k with
    | none =>
      rw [hk] at h
      exact absurd h (by simp)
    | some r =>
      obtain ⟨s2, b⟩ := r
      rw [hk] at h
      have e2 := music_poll_channel_other step s s2 k c b hk (hc k (List.mem_cons_self _ _))
      cases b with
      | true =>
        simp only [Option.some.injEq] at h
        subst h
        exact e2
      | false =>
        simp only at h
        rw [ih s2 s1 h (fun j hj => hc j (List.mem_cons_of_mem _ hj)), e2]

theorem Alike.alike_refl (ch : Nat) (s : Engine) : Alike ch s s := ⟨rfl, rfl, rfl, rfl, rfl, rfl⟩

theorem ChanLoop.alike {s s1 : Engine} (h : ChanLoop s s1) (ch : Nat)
    (hc : s1.chan ch = s.chan ch) : Alike ch s s1 := by
  obtain ⟨f, io, i, sd, rfl⟩ := h
  exact ⟨rfl, rfl, rfl, rfl, rfl, hc⟩

theorem sss_sample_play_alike (ch h p : Nat) (s s1 : Engine) (ha : Alike ch s s1) :
    Alike ch (sss_sample_play s ch h p) (sss_sample_play s1 ch h p) := by
  obtain ⟨e1, e2, e3, e4, e5, e6⟩ := ha
  unfold sss_sample_play
  by_cases h1 : (!s.initialized) = true
  · rw [if_pos h1, if_pos (show (!s1.initialized) = true by rw [e1]; exact h1)]
    exact ⟨e1, e2, e3, e4, e5, e6⟩
  rw [if_neg h1, if_neg (show ¬ (!s1.initialized) = true by rw [e1]; exact h1)]
  by_cases h2 : ch ≥ SSS_MAX_CHANNELS
  · rw [if_pos h2, if_pos h2]
    exact ⟨e1, e2, e3, e4, e5, e6⟩
  rw [if_neg h2, if_neg h2]
  by_cases h3 : h ≥ SSS_MAX_SAMPLES ∨ (s.samples h).data = none ∨ (s.samples h).smprate = 0
  · rw [if_pos h3, if_pos (show h ≥ SSS_MAX_SAMPLES ∨ (s1.samples h).data = none ∨
      (s1.samples h).smprate = 0 by rw [e2]; exact h3)]
    exact ⟨e1, e2, e3, e4, e5, e6⟩
  rw [if_neg h3, if_neg (show ¬ (h ≥ SSS_MAX_SAMPLES ∨ (s1.samples h).data = none ∨
      (s1.samples h).smprate = 0) by rw [e2]; exact h3)]
  refine ⟨e1, e2, e3, e4, e5, ?_⟩
  dsimp only
  rw [upd_same, upd_same, e2, e3, e6]

theorem sss_channel_volume_alike (ch v : Nat) (s s1 : Engine) (ha : Alike ch s s1) :
    Alike ch (sss_channel_volume s ch v) (sss_channel_volume s1 ch v) := by
  obtain ⟨e1, e2, e3, e4, e5, e6⟩ := ha
  unfold sss_channel_volume
  by_cases h1 : (!s.initialized) = true
  · rw [if_pos h1, if_pos (show (!s1.initialized) = true by rw [e1]; exact h1)]
    exact ⟨e1, e2, e3, e4, e5, e6⟩
  rw [if_neg h1, if_neg (show ¬ (!s1.initialized) = true by rw [e1]; exact h1)]
  by_cases h2 : ch ≥ SSS_MAX_CHANNELS
  · rw [if_pos h2, if_pos h2]
    exact ⟨e1, e2, e3, e4, e5, e6⟩
  rw [if_neg h2, if_neg h2]
  refine ⟨e1, e2, e3, e4, e5, ?_⟩
  dsimp only
  rw [upd_same, upd_same, e6]

theorem ChanLoop.fields {s s1 : Engine} (h : ChanLoop s s1) :
    s1.initialized = s.initialized ∧ s1.samples = s.samples ∧ s1.mixrate = s.mixrate ∧
    s1.music_volume = s.music_volume ∧ s1.song.samples = s.song.samples := by
  obtain ⟨f, io, i, sd, rfl⟩ := h
  exact ⟨rfl, rfl, rfl, rfl, rfl⟩

/-- The effect SET_VOLUME of a channel is the volume call on its voice. -/
theorem music_poll_effect_volume (step : SSS_STEP_DESC) (s : Engine) (c : Nat)
    (h5 : step.note_effect c = SSS_EFFECT_SET_VOLUME) :
    (music_poll_effect step s c).1 =
      sss_channel_volume s (SSS_MUSIC_FIRST + c)
        ((step.note_eparam c * s.music_volume) % W32 / 63) := by
  unfold music_poll_effect
  have n1 : ¬ step.note_effect c = SSS_EFFECT_PATTERN_BREAK := by rw [h5]; decide
  have n2 : ¬ step.note_effect c = SSS_EFFECT_JUMP := by rw [h5]; decide
  have n3 : ¬ step.note_effect c = SSS_EFFECT_SET_TEMPO := by rw [h5]; decide
  rw [if_neg n1, if_neg n2, if_neg n3, if_pos h5]

/-- An effect other than SET_VOLUME leaves every channel as it is. -/
theorem music_poll_effect_quiet (step : SSS_STEP_DESC) (s : Engine) (c ch : Nat)
    (h5 : step.note_effect c ≠ SSS_EFFECT_SET_VOLUME) :
    (music_poll_effect step s c).1.chan ch = s.chan ch := by
  unfold music_poll_effect
  split_ifs
  · rfl
  · rfl
  · rfl
  · rfl
  · rfl

theorem music_poll_effect_alike (step : SSS_STEP_DESC) (c : Nat) (s s1 : Engine)
    (ha : Alike (SSS_MUSIC_FIRST + c) s s1) :
    Alike (SSS_MUSIC_FIRST + c) (music_poll_effect step s c).1 (music_poll_effect step s1 c).1 := by
  have hv := sss_channel_volume_alike (SSS_MUSIC_FIRST + c)
    ((step.note_eparam c * s.music_volume) % W32 / 63) s s1 ha
  obtain ⟨e1, e2, e3, e4, e5, e6⟩ := ha
  obtain ⟨a1, a2, a3, a4, a5⟩ := (music_poll_effect_loop step s c).1.fields
  obtain ⟨b1, b2, b3, b4, b5⟩ := (music_poll_effect_loop step s1 c).1.fields
  refine ⟨by rw [a1, b1, e1], by rw [a2, b2, e2], by rw [a3, b3, e3], by rw [a4, b4, e4],
    by rw [a5, b5, e5], ?_⟩
  by_cases h5 : step.note_effect c = SSS_EFFECT_SET_VOLUME
  · rw [music_poll_effect_volume step s c h5, music_poll_effect_volume step s1 c h5, e4]
    exact hv.2.2.2.2.2
  · rw [music_poll_effect_quiet step s c _ h5, music_poll_effect_quiet step s1 c _ h5]
    exact e6

/-- The voice the body of the channel loop leaves on a channel is the same
from two states that agree on what the body reads. -/
theorem channel_voice_alike (step : SSS_STEP_DESC) (c : Nat) (s s1 : Engine)
    (ha : Alike (SSS_MUSIC_FIRST + c) s s1) : channel_voice step s1 c = channel_voice step s c := by
  unfold channel_voice music_poll_channel music_poll_note
  by_cases hp : step.note_pitch c ≠ 0
  · rw [if_pos hp, if_pos hp, ha.2.2.2.2.1, ha.2.2.2.1]
    cases hs : s.song.samples[step.note_sample c]? with
    | none => rfl
    | some hsmp =>
      simp only [Option.map_some']
      exact congrArg some (music_poll_effect_alike step c _ _
        (sss_channel_volume_alike _ _ _ _ (sss_sample_play_alike _ _ _ _ _ ha))).2.2.2.2.2
  · rw [if_neg hp, if_neg hp]
    simp only [Option.map_some']
    exact congrArg some (music_poll_effect_alike step c _ _ ha).2.2.2.2.2

/-- The effect of a channel that carries JUMP or PATTERN_BREAK sets
`dobreak`. -/
theorem music_poll_effect_stop (step : SSS_STEP_DESC) (s : Engine) (c : Nat)
    (h : step.note_effect c = SSS_EFFECT_PATTERN_BREAK ∨ step.note_effect c = SSS_EFFECT_JUMP) :
    (music_poll_effect step s c).2 = true := by
  unfold music_poll_effect
  rcases h with h | h
  · rw [if_pos h]
  · rw [if_neg (by rw [h]; decide), if_pos h]

theorem music_poll_channel_flag (step : SSS_STEP_DESC) (s s1 : Engine) (c : Nat) (b : Bool)
    (h : music_poll_channel step s c = some (s1, b)) :
    (b = true ↔
      (step.note_effect c = SSS_EFFECT_PATTERN_BREAK ∨ step.note_effect c = SSS_EFFECT_JUMP)) := by
  unfold music_poll_channel at h
  cases hn : music_poll_note step s c with
  | none =>
    rw [hn] at h
    exact absurd h (by simp)
  | some s2 =>
    rw [hn] at h
    simp only [Option.some.injEq] at h
    have e : b = (music_poll_effect step s2 c).2 := by rw [h]
    constructor
    · intro hb
      by_contra hx
      rw [not_or] at hx
      rw [e, music_poll_effect_pass step s2 c hx.1 hx.2] at hb
      exact absurd hb (by decide)
    · intro hx
      rw [e]
      exact music_poll_effect_stop step s2 c hx

/-- The channel loop over an increasing list of channels: when no channel of
the list below `c` carries JUMP or PATTERN_BREAK, the voice of music channel
`c` after the loop is the one the body of the loop leaves on it from the state
before the loop. -/
theorem music_poll_channels_voice (step : SSS_STEP_DESC) (c : Nat) (l : List Nat) :
    ∀ s sc : Engine, l.Pairwise (fun a b => a < b) → c ∈ l →
    music_poll_channels step s l = some sc →
    (∀ k ∈ l, k < c → step.note_effect k ≠ SSS_EFFECT_PATTERN_BREAK ∧
      step.note_effect k ≠ SSS_EFFECT_JUMP) →
    channel_voice step s c = some (sc.chan (SSS_MUSIC_FIRST + c)) := by
  induction l with
  | nil => intro s sc _ hm; exact absurd hm (List.not_mem_nil _)
  | cons k ks ih =>
    intro s sc hpw hm h hnb
    rw [List.pairwise_cons] at hpw
    rw [music_poll_channels] at h
    cases hk : music_poll_channel step s k with
    | none =>
      rw [hk] at h
      exact absurd h (by simp)
    | some r =>
      obtain ⟨s2, b⟩ := r
      rw [hk] at h
      by_cases e : k = c
      · subst e
        have hv : channel_voice step s k = some (s2.chan (SSS_MUSIC_FIRST + k)) := by
          unfold channel_voice
          rw [hk]
          rfl
        cases b with
        | true =>
          simp only [Option.some.injEq] at h
          subst h
          exact hv
        | false =>
          simp only at h
          rw [hv, music_poll_channels_other step (SSS_MUSIC_FIRST + k) ks s2 sc h
            (fun j hj => by have := hpw.1 j hj; omega)]
      · have hmem : c ∈ ks := by
          rcases List.mem_cons.mp hm with hx | hx
          · exact absurd hx.symm e
          · exact hx
        have hlt : k < c := hpw.1 c hmem
        have hb : b = false := by
          cases b with
          | false => rfl
          | true =>
            have hx := (music_poll_channel_flag step s s2 k true hk).mp rfl
            have hy := hnb k (List.mem_cons_self _ _) hlt
            rcases hx with hx | hx
            · exact absurd hx hy.1
            · exact absurd hx hy.2
        subst hb
        simp only at h
        have hal : Alike (SSS_MUSIC_FIRST + c) s s2 :=
          (music_poll_channel_loop step s s2 k false hk).alike _
            (music_poll_channel_other step s s2 k _ false hk (by omega))
        rw [← channel_voice_alike step c s s2 hal]
        exact ih s2 sc hpw.2 hmem h (fun j hj hjc => hnb j (List.mem_cons_of_mem _ hj) hjc)

/-- The channel loop over an increasing list of channels: when a channel of
the list below `c` carries JUMP or PATTERN_BREAK, the loop leaves the voice of
music channel `c` as it is. -/
theorem music_poll_channels_skip (step : SSS_STEP_DESC) (c : Nat) (l : List Nat) :
    ∀ s sc : Engine, l.Pairwise (fun a b => a < b) →
    music_poll_channels step s l = some sc →
    (∃ k ∈ l, k < c ∧ (step.note_effect k = SSS_EFFECT_PATTERN_BREAK ∨
      step.note_effect k = SSS_EFFECT_JUMP)) →
    sc.chan (SSS_MUSIC_FIRST + c) = s.chan (SSS_MUSIC_FIRST + c) := by
  induction l with
  | nil =>
    intro s sc _ _ hb
    obtain ⟨k, hk, _⟩ := hb
    exact absurd hk (List.not_mem_nil _)
  | cons k ks ih =>
    intro s sc hpw h hbr
    rw [List.pairwise_cons] at hpw
    rw [music_poll_channels] at h
    obtain ⟨j, hj, hjc, hje⟩ := hbr
    have hkc : k < c := by
      rcases List.mem_cons.mp hj with hx | hx
      · omega
      · have := hpw.1 j hx
        omega
    cases hk : music_poll_channel step s k with
    | none =>
      rw [hk] at h
      exact absurd h (by simp)
    | some r =>
      obtain ⟨s2, b⟩ := r
      rw [hk] at h
      have e2 := music_poll_channel_other step s s2 k (SSS_MUSIC_FIRST + c) b hk (by omega)
      cases b with
      | true =>
        simp only [Option.some.injEq] at h
        subst h
        exact e2
      | false =>
        simp only at h
        have hjk : j ∈ ks := by
          rcases List.mem_cons.mp hj with hx | hx
          · subst hx
            have := (music_poll_channel_flag step s s2 j false hk).mpr hje
            exact absurd this (by decide)
          · exact hx
        rw [ih s2 sc hpw.2 h ⟨j, hjk, hjc, hje⟩, e2]
theorem music_poll_advance_chan (s s1 : Engine) (h : music_poll_advance s = some s1) :
    s1.chan = s.chan := by
  unfold music_poll_advance at h
  simp only at h
  split at h
  · exact absurd h (by simp)
  · split at h
    · exact absurd h (by simp)
    · split_ifs at h <;> simp only [Option.some.injEq] at h <;> subst h <;> rfl

/-- A step fires without a fault when the order entry names a pattern, the
step index is inside the pattern and every note of the step names a slot of
the sample list of the song. -/
theorem music_poll_step_fires (s : Engine) (ipat : Nat) (pats : List MUSICPATTERN_DESC)
    (pat : MUSICPATTERN_DESC) (step : SSS_STEP_DESC)
    (ho : s.song.order[s.song.iorder]? = some ipat) (hp : s.song.patterns = some pats)
    (hq : pats[ipat]? = some pat) (hs : pat.steps[s.song.istep]? = some step)
    (hall : ∀ k, k < SSS_MUSIC_CHANNELS → step.note_pitch k ≠ 0 →
      step.note_sample k < s.song.samples.length) :
    ∃ sc s1, music_poll_channels step { s with song := { s.song with ipattern := ipat } }
        (List.range SSS_MUSIC_CHANNELS) = some sc ∧
      music_poll_advance sc = some s1 ∧ music_poll_step s = some s1 := by
  obtain ⟨sc, hsc⟩ := music_poll_channels_some step (List.range SSS_MUSIC_CHANNELS)
    { s with song := { s.song with ipattern := ipat } }
    (fun c hc hn => hall c (List.mem_range.mp hc) hn)
  obtain ⟨f, io, i, sd, e⟩ := music_poll_channels_loop step _ _ _ hsc
  obtain ⟨s1, h1⟩ := music_poll_advance_some sc pats pat (by rw [e]; exact hp)
    (by rw [e]; exact hq)
  refine ⟨sc, s1, hsc, h1, ?_⟩
  rw [music_poll_step_some s ipat pats pat step ho hp hq hs, hsc]
  exact h1

/-- The voice of a music channel after a fired step: when no lower channel of
the step carries JUMP or PATTERN_BREAK it is the voice the body of the channel
loop leaves on it from the state before the step; when a lower channel does,
it is the voice of before the step. -/
theorem music_poll_step_voice (s s1 : Engine) (ipat : Nat) (pats : List MUSICPATTERN_DESC)
    (pat : MUSICPATTERN_DESC) (step : SSS_STEP_DESC)
    (ho : s.song.order[s.song.iorder]? = some ipat) (hp : s.song.patterns = some pats)
    (hq : pats[ipat]? = some pat) (hs : pat.steps[s.song.istep]? = some step)
    (h : music_poll_step s = some s1) (c : Nat) (hc : c < SSS_MUSIC_CHANNELS) :
    ((∀ k, k < c → step.note_effect k ≠ SSS_EFFECT_PATTERN_BREAK ∧
        step.note_effect k ≠ SSS_EFFECT_JUMP) →
      channel_voice step s c = some (s1.chan (SSS_MUSIC_FIRST + c))) ∧
    ((∃ k, k < c ∧ (step.note_effect k = SSS_EFFECT_PATTERN_BREAK ∨
        step.note_effect k = SSS_EFFECT_JUMP)) →
      s1.chan (SSS_MUSIC_FIRST + c) = s.chan (SSS_MUSIC_FIRST + c)) := by
  rw [music_poll_step_some s ipat pats pat step ho hp hq hs] at h
  cases hch : music_poll_channels step { s with song := { s.song with ipattern := ipat } }
      (List.range SSS_MUSIC_CHANNELS) with
  | none =>
    rw [hch] at h
    exact absurd h (by simp)
  | some sc =>
    rw [hch] at h
    have hadv : music_poll_advance sc = some s1 := h
    have e := music_poll_advance_chan sc s1 hadv
    rw [e]
    constructor
    · intro hnb
      have hv := music_poll_channels_voice step c (List.range SSS_MUSIC_CHANNELS) _ sc
        (range_increasing _) (List.mem_range.mpr hc) hch (fun k _ hk => hnb k hk)
      rw [← hv]
      exact (channel_voice_alike step c s { s with song := { s.song with ipattern := ipat } }
        ⟨rfl, rfl, rfl, rfl, rfl, rfl⟩).symm
    · intro hbr
      obtain ⟨k, hk, hke⟩ := hbr
      exact music_poll_channels_skip step c (List.range SSS_MUSIC_CHANNELS)
        { s with song := { s.song with ipattern := ipat } } sc
        (range_increasing _) hch ⟨k, List.mem_range.mpr (by omega), hk, hke⟩

theorem sss_sample_play_dead (s : Engine) (ch h p : Nat)
    (hd : h ≥ SSS_MAX_SAMPLES ∨ (s.samples h).data = none ∨ (s.samples h).smprate = 0) :
    sss_sample_play s ch h p = s := by
  unfold sss_sample_play
  split_ifs <;> rfl

/-- The voice the body of the channel loop leaves on a channel with a note:
its sample, virtual size and offset are those `sss_sample_play` sets. -/
theorem channel_voice_note (step : SSS_STEP_DESC) (s : Engine) (c h : Nat)
    (hp : step.note_pitch c ≠ 0) (hh : s.song.samples[step.note_sample c]? = some h) :
    ∃ v, channel_voice step s c = some v ∧
      v.isample = ((sss_sample_play s (SSS_MUSIC_FIRST + c) h (step.note_pitch c)).chan
        (SSS_MUSIC_FIRST + c)).isample ∧
      v.vsize = ((sss_sample_play s (SSS_MUSIC_FIRST + c) h (step.note_pitch c)).chan
        (SSS_MUSIC_FIRST + c)).vsize ∧
      v.voffset = ((sss_sample_play s (SSS_MUSIC_FIRST + c) h (step.note_pitch c)).chan
        (SSS_MUSIC_FIRST + c)).voffset := by
  refine ⟨(music_poll_effect step
    (sss_channel_volume (sss_sample_play s (SSS_MUSIC_FIRST + c) h (step.note_pitch c))
      (SSS_MUSIC_FIRST + c) s.music_volume) c).1.chan (SSS_MUSIC_FIRST + c), ?_, ?_⟩
  · unfold channel_voice music_poll_channel music_poll_note
    rw [if_pos hp, hh]
    rfl
  · obtain ⟨a1, a2, a3⟩ := music_poll_effect_voice step
      (sss_channel_volume (sss_sample_play s (SSS_MUSIC_FIRST + c) h (step.note_pitch c))
        (SSS_MUSIC_FIRST + c) s.music_volume) c (SSS_MUSIC_FIRST + c)
    obtain ⟨b1, b2, b3⟩ := sss_channel_volume_voice
      (sss_sample_play s (SSS_MUSIC_FIRST + c) h (step.note_pitch c))
      (SSS_MUSIC_FIRST + c) s.music_volume (SSS_MUSIC_FIRST + c)
    exact ⟨a1.trans b1, a2.trans b2, a3.trans b3⟩

theorem MixOK.keeps_volume {s s1 : Engine} (h : MixOK s s1) :
    s1.music_volume = s.music_volume := by
  obtain ⟨⟨f, g, n, b, rfl, _⟩, _⟩ := h
  rfl

theorem StoreOK.store_volume {s s1 : Engine} (h : StoreOK s s1) :
    s1.music_volume = s.music_volume := by
  obtain ⟨⟨f, g, n, m, rfl, _⟩, _⟩ := h
  rfl

theorem sss_init_volume (s : Engine) (f : Nat) : (sss_init s f).1.music_volume = s.music_volume := by
  unfold sss_init
  split_ifs
  · rfl
  · simp only
    split <;> rfl

theorem sss_deinit_volume (s s1 : Engine) (hd : sss_deinit s = some s1) :
    s1.music_volume = s.music_volume := by
  unfold sss_deinit at hd
  split_ifs at hd with hi
  · simp only [Option.some.injEq] at hd
    subst hd
    rfl
  · split at hd
    · exact absurd hd (by simp)
    · rename_i s2 h2
      simp only [Option.some.injEq] at hd
      subst hd
      exact (sss_music_flush_store _ _ h2).store_volume.trans (music_stop_step s).toMix.keeps_volume

theorem sss_poll_volume (fuel : Nat) (s s1 : Engine) (hp : sss_poll fuel s = Outcome.done s1) :
    s1.music_volume = s.music_volume := by
  unfold sss_poll at hp
  split_ifs at hp
  · simp only [Outcome.done.injEq] at hp
    subst hp
    rfl
  · split at hp
    · rename_i s2 h2
      simp only [Outcome.done.injEq] at hp
      subst hp
      exact (mix_ok _ _ _ h2).keeps_volume
    · exact absurd hp (by simp)
    · exact absurd hp (by simp)

/-- The music volume is never assigned: in every reachable state it has its
initial value `SSS_MAX_VOLUME * 3 / 4`, which is 12. -/
theorem Reachable.volume_const {s : Engine} (h : Reachable s) : s.music_volume = 12 := by
  induction h with
  | start => rfl
  | init s f _ ih => exact (sss_init_volume s f).trans ih
  | deinit s s1 _ hd ih => exact (sss_deinit_volume s s1 hd).trans ih
  | pan_set s ch pan _ ih => exact (sss_channel_pan_set_step s ch pan).toMix.keeps_volume.trans ih
  | stop s ch _ ih => exact (sss_channel_stop_step s ch).toMix.keeps_volume.trans ih
  | volume s ch v _ ih => exact (sss_channel_volume_step s ch v).toMix.keeps_volume.trans ih
  | sample_add s s1 data size lb ls sr c r _ ha ih =>
    exact (sss_sample_add_store s s1 data size lb ls sr c r ha).store_volume.trans ih
  | sample_delete s hsmp _ ih => exact (sss_sample_delete_store s hsmp).store_volume.trans ih
  | sample_play s ch hsmp p _ ih =>
    exact (sss_sample_play_step s ch hsmp p).toMix.keeps_volume.trans ih
  | flush s s1 _ hf ih => exact (sss_music_flush_store s s1 hf).store_volume.trans ih
  | create s s1 np no ns r _ hc ih =>
    exact (sss_music_create_store s s1 np no ns r hc).store_volume.trans ih
  | define_order s io ip _ ih =>
    exact (sss_music_define_order_step s io ip).toMix.keeps_volume.trans ih
  | define_pattern s s1 ip n r _ hd ih =>
    exact (sss_music_define_pattern_step s s1 ip n r hd).toMix.keeps_volume.trans ih
  | define_step s s1 ip i r step _ hd ih =>
    exact (sss_music_define_step_step s s1 ip i r step hd).toMix.keeps_volume.trans ih
  | define_sample s s1 i hsmp r _ hd ih =>
    exact (sss_music_define_sample_step s s1 i hsmp r hd).toMix.keeps_volume.trans ih
  | define_pan s ch pan _ ih =>
    exact (sss_music_define_pan_step s ch pan).toMix.keeps_volume.trans ih
  | command s cmd _ ih => exact (sss_music_command_step s cmd).toMix.keeps_volume.trans ih
  | poll s s1 fuel _ _ hp ih => exact (sss_poll_volume fuel s s1 hp).trans ih
  | device s u _ ih => exact ih

theorem voice_song_built_reachable (st0 st1 : SSS_STEP_DESC) :
    Reachable (voice_song_built st0 st1) := by
  unfold voice_song_built
  exact reach_define_step _ 0 1 st1
    (reach_define_step _ 0 0 st0
      (Reachable.define_order _ 0 0
        (reach_define_pattern _ 0 2
          (Reachable.sample_delete _ 1
            (reach_define_sample _ 1 1
              (reach_define_sample _ 0 0
                (reach_sample_add _ _ _ _ _ _ _
                  (reach_sample_add _ _ _ _ _ _ _
                    (reach_create _ 1 1 2 engine_44s_reachable)))))))))

theorem voice_song_reachable (st0 st1 : SSS_STEP_DESC) : Reachable (voice_song st0 st1) :=
  Reachable.command _ _ (voice_song_built_reachable st0 st1)

/-- The volume row of a music channel whose step carries SET_VOLUME, after the
body of the channel loop. -/
theorem channel_voice_volume (step : SSS_STEP_DESC) (s : Engine) (c : Nat)
    (hi : s.initialized = true) (hc : c < SSS_MUSIC_CHANNELS)
    (he : step.note_effect c = SSS_EFFECT_SET_VOLUME)
    (hs : step.note_pitch c ≠ 0 → step.note_sample c < s.song.samples.length) :
    ∃ v, channel_voice step s c = some v ∧
      v.volume = min ((step.note_eparam c * s.music_volume) % W32 / 63) 15 := by
  obtain ⟨sn, hn, ⟨f, e⟩⟩ := music_poll_note_runs step s c hs
  have hin : sn.initialized = true := by rw [e]; exact hi
  have hmv : sn.music_volume = s.music_volume := by rw [e]
  have hch : SSS_MUSIC_FIRST + c < SSS_MAX_CHANNELS := by
    have : c < 8 := hc
    show 4 + c < 12
    omega
  refine ⟨(music_poll_effect step sn c).1.chan (SSS_MUSIC_FIRST + c), ?_, ?_⟩
  · unfold channel_voice music_poll_channel
    rw [hn]
    rfl
  · rw [music_poll_effect_volume step sn c he,
      sss_channel_volume_live sn _ _ hin hch, hmv]
    dsimp only
    rw [upd_same, volume_row_min]
set_option maxRecDepth 100000 in
/-- C23 (counterexample).  In the song `voice_song` (sample slot 0 names the
live handle 0, slot 1 the deleted handle 1) the first step starts sample 0 on
music channel 0 and the second step has pitch 8000 on the same channel with
sample slot 1: after the second step has fired, voice `SSS_MUSIC_FIRST + 0` is
not idle, it still plays handle 0 with the virtual size 22 of the first note
and `sss_channel_is_busy` reports it busy.  A note whose sample slot 2 is
outside the sample list makes the step read outside the list. -/
theorem dead_note_keeps_playing :
    ((voice_song (voice_step 0 0 8000) (voice_step 0 1 8000)).song.samples = [0, 1] ∧
      ((voice_song (voice_step 0 0 8000) (voice_step 0 1 8000)).samples 0).data
        = some [10, 20, 30, 40] ∧
      ((voice_song (voice_step 0 0 8000) (voice_step 0 1 8000)).samples 1).data = none) ∧
    (music_poll_step (voice_song (voice_step 0 0 8000) (voice_step 0 1 8000))).map
      (fun r => (r.song.istep, (r.chan 4).isample, (r.chan 4).vsize)) = some (1, 0, 22) ∧
    ((music_poll_step (voice_song (voice_step 0 0 8000) (voice_step 0 1 8000))).bind
      music_poll_step).map
      (fun r => ((r.chan 4).isample, (r.chan 4).vsize, sss_channel_is_busy r 4))
      = some (0, 22, 1) ∧
    (music_poll_step (voice_song (voice_step 0 2 8000) zero_step)).isNone = true := by
  decide
/-- C23 (amended).  Sequencer totality.  When a step fires whose notes all
name slots of the sample list of the song, and music channel `c` has
pitch ≠ 0 with a slot whose handle is not a live sample (the handle is 64 or
more, or its sample has no data or rate 0): the step fires without error and
voice `SSS_MUSIC_FIRST + c` keeps the sample, the virtual size and the offset
it had before the step, so an idle voice stays idle and a playing voice goes on
playing. -/
theorem dead_note_keeps_voice (s : Engine) (ipat : Nat) (pats : List MUSICPATTERN_DESC)
    (pat : MUSICPATTERN_DESC) (step : SSS_STEP_DESC) (c h : Nat)
    (ho : s.song.order[s.song.iorder]? = some ipat) (hp : s.song.patterns = some pats)
    (hq : pats[ipat]? = some pat) (hs : pat.steps[s.song.istep]? = some step)
    (hc : c < SSS_MUSIC_CHANNELS) (hpitch : step.note_pitch c ≠ 0)
    (hall : ∀ k, k < SSS_MUSIC_CHANNELS → step.note_pitch k ≠ 0 →
      step.note_sample k < s.song.samples.length)
    (hh : s.song.samples[step.note_sample c]? = some h)
    (hdead : h ≥ SSS_MAX_SAMPLES ∨ (s.samples h).data = none ∨ (s.samples h).smprate = 0) :
    ∃ s1, music_poll_step s = some s1 ∧
      (s1.chan (SSS_MUSIC_FIRST + c)).isample = (s.chan (SSS_MUSIC_FIRST + c)).isample ∧
      (s1.chan (SSS_MUSIC_FIRST + c)).vsize = (s.chan (SSS_MUSIC_FIRST + c)).vsize ∧
      (s1.chan (SSS_MUSIC_FIRST + c)).voffset = (s.chan (SSS_MUSIC_FIRST + c)).voffset := by
  obtain ⟨sc, s1, _, _, h1⟩ := music_poll_step_fires s ipat pats pat step ho hp hq hs hall
  obtain ⟨ha, hb⟩ := music_poll_step_voice s s1 ipat pats pat step ho hp hq hs h1 c hc
  refine ⟨s1, h1, ?_⟩
  by_cases hbr : ∃ k, k < c ∧ (step.note_effect k = SSS_EFFECT_PATTERN_BREAK ∨
      step.note_effect k = SSS_EFFECT_JUMP)
  · rw [hb hbr]
    exact ⟨rfl, rfl, rfl⟩
  · have hnb : ∀ k, k < c → step.note_effect k ≠ SSS_EFFECT_PATTERN_BREAK ∧
        step.note_effect k ≠ SSS_EFFECT_JUMP := by
      intro k hk
      constructor
      · exact fun hx => hbr ⟨k, hk, Or.inl hx⟩
      · exact fun hx => hbr ⟨k, hk, Or.inr hx⟩
    obtain ⟨v, hv, v1, v2, v3⟩ := channel_voice_note step s c h hpitch hh
    rw [ha hnb] at hv
    simp only [Option.some.injEq] at hv
    rw [hv, v1, v2, v3, sss_sample_play_dead s _ h _ hdead]
    exact ⟨rfl, rfl, rfl⟩

set_option maxRecDepth 100000 in
/-- In the song `voice_song` whose first step has pitch 8000 and sample slot 1
(the deleted handle 1) on music channel 0. -/
theorem dead_note_keeps_voice_witness :
    ∃ s1, music_poll_step (voice_song (voice_step 0 1 8000) zero_step) = some s1 ∧
      (s1.chan (SSS_MUSIC_FIRST + 0)).isample =
        ((voice_song (voice_step 0 1 8000) zero_step).chan (SSS_MUSIC_FIRST + 0)).isample ∧
      (s1.chan (SSS_MUSIC_FIRST + 0)).vsize =
        ((voice_song (voice_step 0 1 8000) zero_step).chan (SSS_MUSIC_FIRST + 0)).vsize ∧
      (s1.chan (SSS_MUSIC_FIRST + 0)).voffset =
        ((voice_song (voice_step 0 1 8000) zero_step).chan (SSS_MUSIC_FIRST + 0)).voffset :=
  dead_note_keeps_voice (voice_song (voice_step 0 1 8000) zero_step) 0
    [{ nsteps := 2, steps := [voice_step 0 1 8000, zero_step] }]
    { nsteps := 2, steps := [voice_step 0 1 8000, zero_step] } (voice_step 0 1 8000) 0 1
    rfl rfl rfl rfl (by decide) (by decide)
    (fun k _ _ => by
      show (voice_step 0 1 8000).note_sample k < 2
      unfold voice_step upd zero_step
      dsimp only
      split_ifs <;> omega)
    rfl (Or.inr (Or.inl (by decide)))

set_option maxRecDepth 100000 in
/-- C24 (counterexample).  In the song `voice_song` whose first step carries
JUMP on music channel 0 and a note (pitch 8000, sample slot 0, a live sample)
on music channel 1: after the step has fired, voice `SSS_MUSIC_FIRST + 1` is
idle, the note-on was not given.  The same note without the JUMP on channel 0
starts the voice. -/
theorem note_lost_after_jump :
    (jump_note_step.note_effect 0 = SSS_EFFECT_JUMP ∧ jump_note_step.note_pitch 1 = 8000 ∧
      jump_note_step.note_sample 1 = 0) ∧
    (music_poll_step (voice_song jump_note_step zero_step)).map
      (fun r => ((r.chan 5).isample, sss_channel_is_busy r 5)) = some (IDLE, 0) ∧
    (music_poll_step (voice_song (voice_step 1 0 8000) zero_step)).map
      (fun r => ((r.chan 5).isample, (r.chan 5).vsize, sss_channel_is_busy r 5))
      = some (0, 22, 1) := by
  decide

/-- C24 (amended).  Note-ons and effects.  The channels of a firing step are
worked on in increasing order, each channel with its note-on first and its
effect second, and the loop ends after the first channel that carries JUMP or
PATTERN_BREAK.  So when a step fires whose notes all name slots of the sample
list, a music channel `c` with pitch ≠ 0 and sample handle `h` receives its
note-on (its voice has the sample, virtual size and offset that
`sss_sample_play` gives it from the state before the step) when no channel
below `c` carries JUMP or PATTERN_BREAK; when a channel below `c` carries one
of them, the voice of `c` is left as it was: the note-on is not given. -/
theorem note_on_order (s : Engine) (ipat : Nat) (pats : List MUSICPATTERN_DESC)
    (pat : MUSICPATTERN_DESC) (step : SSS_STEP_DESC) (c h : Nat)
    (ho : s.song.order[s.song.iorder]? = some ipat) (hp : s.song.patterns = some pats)
    (hq : pats[ipat]? = some pat) (hs : pat.steps[s.song.istep]? = some step)
    (hc : c < SSS_MUSIC_CHANNELS) (hpitch : step.note_pitch c ≠ 0)
    (hall : ∀ k, k < SSS_MUSIC_CHANNELS → step.note_pitch k ≠ 0 →
      step.note_sample k < s.song.samples.length)
    (hh : s.song.samples[step.note_sample c]? = some h) :
    ∃ s1, music_poll_step s = some s1 ∧
      ((∀ k, k < c → step.note_effect k ≠ SSS_EFFECT_PATTERN_BREAK ∧
          step.note_effect k ≠ SSS_EFFECT_JUMP) →
        (s1.chan (SSS_MUSIC_FIRST + c)).isample =
          ((sss_sample_play s (SSS_MUSIC_FIRST + c) h (step.note_pitch c)).chan
            (SSS_MUSIC_FIRST + c)).isample ∧
        (s1.chan (SSS_MUSIC_FIRST + c)).vsize =
          ((sss_sample_play s (SSS_MUSIC_FIRST + c) h (step.note_pitch c)).chan
            (SSS_MUSIC_FIRST + c)).vsize ∧
        (s1.chan (SSS_MUSIC_FIRST + c)).voffset =
          ((sss_sample_play s (SSS_MUSIC_FIRST + c) h (step.note_pitch c)).chan
            (SSS_MUSIC_FIRST + c)).voffset) ∧
      ((∃ k, k < c ∧ (step.note_effect k = SSS_EFFECT_PATTERN_BREAK ∨
          step.note_effect k = SSS_EFFECT_JUMP)) →
        s1.chan (SSS_MUSIC_FIRST + c) = s.chan (SSS_MUSIC_FIRST + c)) := by
  obtain ⟨sc, s1, _, _, h1⟩ := music_poll_step_fires s ipat pats pat step ho hp hq hs hall
  obtain ⟨ha, hb⟩ := music_poll_step_voice s s1 ipat pats pat step ho hp hq hs h1 c hc
  refine ⟨s1, h1, fun hnb => ?_, hb⟩
  obtain ⟨v, hv, v1, v2, v3⟩ := channel_voice_note step s c h hpitch hh
  rw [ha hnb] at hv
  simp only [Option.some.injEq] at hv
  rw [hv]
  exact ⟨v1, v2, v3⟩

set_option maxRecDepth 100000 in
/-- In the song `voice_song` whose first step has a note on music channel 1
and nothing on channel 0. -/
theorem note_on_order_witness :
    ∃ s1, music_poll_step (voice_song (voice_step 1 0 8000) zero_step) = some s1 ∧
      ((∀ k, k < 1 → (voice_step 1 0 8000).note_effect k ≠ SSS_EFFECT_PATTERN_BREAK ∧
          (voice_step 1 0 8000).note_effect k ≠ SSS_EFFECT_JUMP) →
        (s1.chan (SSS_MUSIC_FIRST + 1)).isample =
          ((sss_sample_play (voice_song (voice_step 1 0 8000) zero_step) (SSS_MUSIC_FIRST + 1) 0
            ((voice_step 1 0 8000).note_pitch 1)).chan (SSS_MUSIC_FIRST + 1)).isample ∧
        (s1.chan (SSS_MUSIC_FIRST + 1)).vsize =
          ((sss_sample_play (voice_song (voice_step 1 0 8000) zero_step) (SSS_MUSIC_FIRST + 1) 0
            ((voice_step 1 0 8000).note_pitch 1)).chan (SSS_MUSIC_FIRST + 1)).vsize ∧
        (s1.chan (SSS_MUSIC_FIRST + 1)).voffset =
          ((sss_sample_play (voice_song (voice_step 1 0 8000) zero_step) (SSS_MUSIC_FIRST + 1) 0
            ((voice_step 1 0 8000).note_pitch 1)).chan (SSS_MUSIC_FIRST + 1)).voffset) ∧
      ((∃ k, k < 1 ∧ ((voice_step 1 0 8000).note_effect k = SSS_EFFECT_PATTERN_BREAK ∨
          (voice_step 1 0 8000).note_effect k = SSS_EFFECT_JUMP)) →
        s1.chan (SSS_MUSIC_FIRST + 1) =
          (voice_song (voice_step 1 0 8000) zero_step).chan (SSS_MUSIC_FIRST + 1)) :=
  note_on_order (voice_song (voice_step 1 0 8000) zero_step) 0
    [{ nsteps := 2, steps := [voice_step 1 0 8000, zero_step] }]
    { nsteps := 2, steps := [voice_step 1 0 8000, zero_step] } (voice_step 1 0 8000) 1 0
    rfl rfl rfl rfl (by decide) (by decide)
    (fun k _ _ => by
      show (voice_step 1 0 8000).note_sample k < 2
      unfold voice_step upd zero_step
      dsimp only
      split_ifs <;> omega)
    rfl

set_option maxRecDepth 100000 in
/-- C27 (counterexample).  In the song `voice_song` whose first step carries
JUMP on music channel 0 and SET_VOLUME(0) on music channel 1, voice
`SSS_MUSIC_FIRST + 1` has volume row 15 before the step and still row 15 after
it, not row 0.  And with the music volume 12, SET_VOLUME(357913942) on music
channel 0 binds the voice to row 0: the product 4294967304 is reduced modulo
2^32 to 8 before the division by 63, while the claimed row is 15. -/
theorem set_volume_not_applied :
    (jump_volume_step.note_effect 0 = SSS_EFFECT_JUMP ∧
      jump_volume_step.note_effect 1 = SSS_EFFECT_SET_VOLUME ∧
      jump_volume_step.note_eparam 1 = 0) ∧
    ((voice_song jump_volume_step zero_step).chan 5).volume = 15 ∧
    (music_poll_step (voice_song jump_volume_step zero_step)).map
      (fun r => (r.chan 5).volume) = some 15 ∧
    (voice_song (volume_step 0 357913942) zero_step).music_volume = 12 ∧
    min (357913942 * (voice_song (volume_step 0 357913942) zero_step).music_volume / 63) 15
      = 15 ∧
    (music_poll_step (voice_song (volume_step 0 357913942) zero_step)).map
      (fun r => (r.chan 4).volume) = some 0 := by
  decide

/-- C27 (amended).  SET_VOLUME.  In every reachable state of the initialised
engine the music volume is 12.  Firing a step whose notes all name slots of
the sample list, whose music channel `c` carries SET_VOLUME(p) and none of
whose channels below `c` carries JUMP or PATTERN_BREAK binds voice
`SSS_MUSIC_FIRST + c` to the volume row `(p * music_volume mod 2^32) / 63`
clamped to 15; this is `floor(p * music_volume / 63)` clamped to 15 when
`p * music_volume < 2^32`; for `p ≤ 63` the row is at most `music_volume`, and
for `p = 63` it is `music_volume`. -/
theorem set_volume_row (s : Engine) (ipat : Nat) (pats : List MUSICPATTERN_DESC)
    (pat : MUSICPATTERN_DESC) (step : SSS_STEP_DESC) (c : Nat)
    (hreach : Reachable s) (hi : s.initialized = true)
    (ho : s.song.order[s.song.iorder]? = some ipat) (hp : s.song.patterns = some pats)
    (hq : pats[ipat]? = some pat) (hs : pat.steps[s.song.istep]? = some step)
    (hc : c < SSS_MUSIC_CHANNELS) (he : step.note_effect c = SSS_EFFECT_SET_VOLUME)
    (hnb : ∀ k, k < c → step.note_effect k ≠ SSS_EFFECT_PATTERN_BREAK ∧
      step.note_effect k ≠ SSS_EFFECT_JUMP)
    (hall : ∀ k, k < SSS_MUSIC_CHANNELS → step.note_pitch k ≠ 0 →
      step.note_sample k < s.song.samples.length) :
    s.music_volume = 12 ∧
    ∃ s1, music_poll_step s = some s1 ∧
      (s1.chan (SSS_MUSIC_FIRST + c)).volume =
        min ((step.note_eparam c * s.music_volume) % W32 / 63) 15 ∧
      (step.note_eparam c * s.music_volume < W32 →
        (s1.chan (SSS_MUSIC_FIRST + c)).volume =
          min (step.note_eparam c * s.music_volume / 63) 15) ∧
      (step.note_eparam c ≤ 63 → (s1.chan (SSS_MUSIC_FIRST + c)).volume ≤ s.music_volume) ∧
      (step.note_eparam c = 63 → (s1.chan (SSS_MUSIC_FIRST + c)).volume = s.music_volume) := by
  have hmv := hreach.volume_const
  obtain ⟨sc, s1, _, _, h1⟩ := music_poll_step_fires s ipat pats pat step ho hp hq hs hall
  obtain ⟨ha, _⟩ := music_poll_step_voice s s1 ipat pats pat step ho hp hq hs h1 c hc
  obtain ⟨v, hv, hrow⟩ := channel_voice_volume step s c hi hc he (hall c hc)
  rw [ha hnb] at hv
  simp only [Option.some.injEq] at hv
  refine ⟨hmv, s1, h1, ?_⟩
  rw [hv, hrow, hmv]
  refine ⟨rfl, fun hlt => ?_, fun hle => ?_, fun heq => ?_⟩
  · rw [Nat.mod_eq_of_lt hlt]
  · have : step.note_eparam c * 12 % W32 = step.note_eparam c * 12 :=
      Nat.mod_eq_of_lt (by simp only [W32]; omega)
    rw [this]
    omega
  · rw [heq]
    decide

set_option maxRecDepth 100000 in
/-- In the song `voice_song` whose first step carries SET_VOLUME(63) on music
channel 2. -/
theorem set_volume_row_witness :
    (voice_song (volume_step 2 63) zero_step).music_volume = 12 ∧
    ∃ s1, music_poll_step (voice_song (volume_step 2 63) zero_step) = some s1 ∧
      (s1.chan (SSS_MUSIC_FIRST + 2)).volume =
        min (((volume_step 2 63).note_eparam 2 *
          (voice_song (volume_step 2 63) zero_step).music_volume) % W32 / 63) 15 ∧
      ((volume_step 2 63).note_eparam 2 *
          (voice_song (volume_step 2 63) zero_step).music_volume < W32 →
        (s1.chan (SSS_MUSIC_FIRST + 2)).volume =
          min ((volume_step 2 63).note_eparam 2 *
            (voice_song (volume_step 2 63) zero_step).music_volume / 63) 15) ∧
      ((volume_step 2 63).note_eparam 2 ≤ 63 →
        (s1.chan (SSS_MUSIC_FIRST + 2)).volume ≤
          (voice_song (volume_step 2 63) zero_step).music_volume) ∧
      ((volume_step 2 63).note_eparam 2 = 63 →
        (s1.chan (SSS_MUSIC_FIRST + 2)).volume =
          (voice_song (volume_step 2 63) zero_step).music_volume) :=
  set_volume_row (voice_song (volume_step 2 63) zero_step) 0
    [{ nsteps := 2, steps := [volume_step 2 63, zero_step] }]
    { nsteps := 2, steps := [volume_step 2 63, zero_step] } (volume_step 2 63) 2
    (voice_song_reachable _ _) (by decide) rfl rfl rfl rfl (by decide) (by decide)
    (fun k hk => by
      have hk2 : k = 0 ∨ k = 1 := by omega
      rcases hk2 with e | e <;> subst e <;> decide)
    (fun k _ hn => absurd rfl hn)

/-- The position update in terms of its result: with `pat` the pattern of the
step just fired, the order index moves on when the step index reaches the
number of steps of `pat`; the song ends when the order index is then at least
`norder`, and otherwise mode and `ipattern` stay. -/
theorem music_poll_advance_spec (s s1 : Engine) (pats : List MUSICPATTERN_DESC)
    (pat : MUSICPATTERN_DESC) (hp : s.song.patterns = some pats)
    (hq : pats[s.song.ipattern]? = some pat) (h : music_poll_advance s = some s1) :
    s1.song.patterns = s.song.patterns ∧ s1.song.order = s.song.order ∧
    s1.song.norder = s.song.norder ∧
    (((if (s.song.istep + 1) % W32 ≥ pat.nsteps then (s.song.iorder + 1) % W32
        else s.song.iorder) ≥ s.song.norder ∧
      s1.song.playmode = PLAYMODE_STOPPED ∧ s1.song.iorder = 0 ∧ s1.song.istep = 0 ∧
      s1.song.ipattern = 0) ∨
     (¬ (if (s.song.istep + 1) % W32 ≥ pat.nsteps then (s.song.iorder + 1) % W32
        else s.song.iorder) ≥ s.song.norder ∧
      s1.song.playmode = s.song.playmode ∧ s1.song.ipattern = s.song.ipattern ∧
      s1.song.iorder = (if (s.song.istep + 1) % W32 ≥ pat.nsteps then (s.song.iorder + 1) % W32
        else s.song.iorder) ∧
      s1.song.istep = (if (s.song.istep + 1) % W32 ≥ pat.nsteps then 0
        else (s.song.istep + 1) % W32))) := by
  unfold music_poll_advance at h
  simp only at h
  rw [hp] at h
  simp only at h
  rw [hq] at h
  simp only at h
  rw [← hp] at h
  by_cases h1 : (s.song.istep + 1) % W32 ≥ pat.nsteps
  · rw [if_pos h1] at h
    simp only at h
    rw [if_pos h1, if_pos h1]
    by_cases h2 : (s.song.iorder + 1) % W32 ≥ s.song.norder
    · rw [if_pos h2] at h
      simp only [Option.some.injEq] at h
      subst h
      exact ⟨rfl, rfl, rfl, Or.inl ⟨h2, rfl, rfl, rfl, rfl⟩⟩
    · rw [if_neg h2] at h
      simp only [Option.some.injEq] at h
      subst h
      exact ⟨rfl, rfl, rfl, Or.inr ⟨h2, rfl, rfl, rfl, rfl⟩⟩
  · rw [if_neg h1] at h
    rw [if_neg h1, if_neg h1]
    by_cases h2 : s.song.iorder ≥ s.song.norder
    · rw [if_pos h2] at h
      simp only [Option.some.injEq] at h
      subst h
      exact ⟨rfl, rfl, rfl, Or.inl ⟨h2, rfl, rfl, rfl, rfl⟩⟩
    · rw [if_neg h2] at h
      simp only [Option.some.injEq] at h
      subst h
      exact ⟨rfl, rfl, rfl, Or.inr ⟨h2, rfl, rfl, rfl, rfl⟩⟩

theorem tempo_effect_pos (s : Engine) (d : Nat) (b : Bool) :
    (({ s with song := { s.song with step_delay := d } }, b) : Engine × Bool).1.song.istep
      = s.song.istep ∧
    (({ s with song := { s.song with step_delay := d } }, b) : Engine × Bool).1.song.iorder
      = s.song.iorder := ⟨rfl, rfl⟩

theorem music_poll_effect_idle (step : SSS_STEP_DESC) (s : Engine) (k : Nat)
    (h1 : step.note_effect k ≠ SSS_EFFECT_PATTERN_BREAK)
    (h2 : step.note_effect k ≠ SSS_EFFECT_JUMP)
    (h3 : step.note_effect k = SSS_EFFECT_SET_TEMPO → step.note_eparam k = 0)
    (h5 : step.note_effect k ≠ SSS_EFFECT_SET_VOLUME) :
    music_poll_effect step s k = (s, false) := by
  unfold music_poll_effect
  rw [if_neg h1, if_neg h2]
  by_cases h4 : step.note_effect k = SSS_EFFECT_SET_TEMPO
  · rw [if_pos h4, if_neg (fun hx => hx (h3 h4))]
  · rw [if_neg h4, if_neg h5]

/-- The effect of a channel without JUMP and without PATTERN_BREAK keeps the
order index and the step index. -/
theorem music_poll_effect_pos (step : SSS_STEP_DESC) (s : Engine) (k : Nat)
    (h1 : step.note_effect k ≠ SSS_EFFECT_PATTERN_BREAK)
    (h2 : step.note_effect k ≠ SSS_EFFECT_JUMP) :
    (music_poll_effect step s k).1.song.istep = s.song.istep ∧
    (music_poll_effect step s k).1.song.iorder = s.song.iorder := by
  by_cases h3 : step.note_effect k = SSS_EFFECT_SET_TEMPO ∧ step.note_eparam k ≠ 0
  · rw [music_poll_effect_tempo step s k h3.1 h3.2]
    exact tempo_effect_pos s _ false
  · by_cases h5 : step.note_effect k = SSS_EFFECT_SET_VOLUME
    · rw [music_poll_effect_volume step s k h5]
      obtain ⟨g, e4⟩ := sss_channel_volume_only s (SSS_MUSIC_FIRST + k)
        ((step.note_eparam k * s.music_volume) % W32 / 63)
      rw [e4]
      exact ⟨rfl, rfl⟩
    · rw [music_poll_effect_idle step s k h1 h2
        (fun hx => by_contra (fun hy => h3 ⟨hx, hy⟩)) h5]
      exact ⟨rfl, rfl⟩

/-- The body of the channel loop on a channel without JUMP and without
PATTERN_BREAK keeps the order index and the step index. -/
theorem music_poll_channel_pos (step : SSS_STEP_DESC) (s s1 : Engine) (k : Nat) (b : Bool)
    (h : music_poll_channel step s k = some (s1, b))
    (h1 : step.note_effect k ≠ SSS_EFFECT_PATTERN_BREAK)
    (h2 : step.note_effect k ≠ SSS_EFFECT_JUMP) :
    s1.song.istep = s.song.istep ∧ s1.song.iorder = s.song.iorder := by
  unfold music_poll_channel at h
  cases hn : music_poll_note step s k with
  | none =>
    rw [hn] at h
    exact absurd h (by simp)
  | some s2 =>
    rw [hn] at h
    simp only [Option.some.injEq] at h
    have e : s1 = (music_poll_effect step s2 k).1 := by rw [h]
    obtain ⟨f, e2⟩ := music_poll_note_only step s s2 k hn
    have e3 : s2.song = s.song := by rw [e2]
    rw [e, ← e3]
    exact music_poll_effect_pos step s2 k h1 h2

/-- The body of the channel loop on a channel with PATTERN_BREAK sets the step
index to 999, keeps the order index and sets `dobreak`. -/
theorem music_poll_channel_break (step : SSS_STEP_DESC) (s s1 : Engine) (k : Nat) (b : Bool)
    (h : music_poll_channel step s k = some (s1, b))
    (h1 : step.note_effect k = SSS_EFFECT_PATTERN_BREAK) :
    s1.song.istep = 999 ∧ s1.song.iorder = s.song.iorder ∧ b = true := by
  have hb := (music_poll_channel_flag step s s1 k b h).mpr (Or.inl h1)
  unfold music_poll_channel at h
  cases hn : music_poll_note step s k with
  | none =>
    rw [hn] at h
    exact absurd h (by simp)
  | some s2 =>
    rw [hn] at h
    simp only [Option.some.injEq] at h
    have e : s1 = (music_poll_effect step s2 k).1 := by rw [h]
    obtain ⟨f, e2⟩ := music_poll_note_only step s s2 k hn
    have e3 : s2.song = s.song := by rw [e2]
    rw [e, ← e3]
    unfold music_poll_effect
    rw [if_pos h1]
    exact ⟨rfl, rfl, hb⟩

/-- The channel loop over an increasing list of channels in which `c` is the
first channel with JUMP or PATTERN_BREAK and carries PATTERN_BREAK: after the
loop the step index is 999 and the order index is as before. -/
theorem music_poll_channels_break (step : SSS_STEP_DESC) (c : Nat) (l : List Nat) :
    ∀ s sc : Engine, l.Pairwise (fun a b => a < b) → c ∈ l →
    music_poll_channels step s l = some sc →
    (∀ k ∈ l, k < c → step.note_effect k ≠ SSS_EFFECT_PATTERN_BREAK ∧
      step.note_effect k ≠ SSS_EFFECT_JUMP) →
    step.note_effect c = SSS_EFFECT_PATTERN_BREAK →
    sc.song.istep = 999 ∧ sc.song.iorder = s.song.iorder := by
  induction l with
  | nil => intro s sc _ hm; exact absurd hm (List.not_mem_nil _)
  | cons k ks ih =>
    intro s sc hpw hm h hnb hbr
    rw [List.pairwise_cons] at hpw
    rw [music_poll_channels] at h
    cases hk : music_poll_channel step s k with
    | none =>
      rw [hk] at h
      exact absurd h (by simp)
    | some r =>
      obtain ⟨s2, b⟩ := r
      rw [hk] at h
      by_cases e : k = c
      · subst e
        obtain ⟨a1, a2, a3⟩ := music_poll_channel_break step s s2 k b hk hbr
        subst a3
        simp only [Option.some.injEq] at h
        subst h
        exact ⟨a1, a2⟩
      · have hmem : c ∈ ks := by
          rcases List.mem_cons.mp hm with hx | hx
          · exact absurd hx.symm e
          · exact hx
        have hlt : k < c := hpw.1 c hmem
        obtain ⟨n1, n2⟩ := hnb k (List.mem_cons_self _ _) hlt
        have hb : b = false := by
          cases b with
          | false => rfl
          | true =>
            rcases (music_poll_channel_flag step s s2 k true hk).mp rfl with hx | hx
            · exact absurd hx n1
            · exact absurd hx n2
        subst hb
        simp only at h
        obtain ⟨p1, p2⟩ := music_poll_channel_pos step s s2 k false hk n1 n2
        obtain ⟨q1, q2⟩ := ih s2 sc hpw.2 hmem h
          (fun j hj hjc => hnb j (List.mem_cons_of_mem _ hj) hjc) hbr
        exact ⟨q1, q2.trans p2⟩
theorem ChanLoop.song_fields {s s1 : Engine} (h : ChanLoop s s1) :
    s1.song.patterns = s.song.patterns ∧ s1.song.ipattern = s.song.ipattern ∧
    s1.song.norder = s.song.norder ∧ s1.song.playmode = s.song.playmode ∧
    s1.song.order = s.song.order := by
  obtain ⟨f, io, i, sd, rfl⟩ := h
  exact ⟨rfl, rfl, rfl, rfl, rfl⟩

/-- C25 (amended).  PATTERN_BREAK.  When a step fires whose notes all name
slots of the sample list, whose music channel `c` carries PATTERN_BREAK and
none of whose channels below `c` carries JUMP or PATTERN_BREAK, in a pattern
of at most 1000 steps (and with `iorder + 1 < 2^32`): playback has advanced to
the next order entry, `iorder` is one more than before with `istep = 0` and
the mode unchanged, or, if that was the last order entry, the song has ended
(mode STOPPED, `iorder = 0`, `istep = 0`).  In a pattern of more than 1000
steps the step leaves `iorder` as it is and sets `istep = 1000`: the sentinel
999 plus one is still inside the pattern. -/
theorem pattern_break (s : Engine) (ipat : Nat) (pats : List MUSICPATTERN_DESC)
    (pat : MUSICPATTERN_DESC) (step : SSS_STEP_DESC) (c : Nat)
    (ho : s.song.order[s.song.iorder]? = some ipat) (hp : s.song.patterns = some pats)
    (hq : pats[ipat]? = some pat) (hs : pat.steps[s.song.istep]? = some step)
    (hc : c < SSS_MUSIC_CHANNELS) (he : step.note_effect c = SSS_EFFECT_PATTERN_BREAK)
    (hnb : ∀ k, k < c → step.note_effect k ≠ SSS_EFFECT_PATTERN_BREAK ∧
      step.note_effect k ≠ SSS_EFFECT_JUMP)
    (hall : ∀ k, k < SSS_MUSIC_CHANNELS → step.note_pitch k ≠ 0 →
      step.note_sample k < s.song.samples.length)
    (hio : s.song.iorder + 1 < W32) :
    ∃ s1, music_poll_step s = some s1 ∧
      (pat.nsteps ≤ 1000 →
        (s.song.iorder + 1 < s.song.norder →
          s1.song.iorder = s.song.iorder + 1 ∧ s1.song.istep = 0 ∧
          s1.song.playmode = s.song.playmode) ∧
        (s.song.norder ≤ s.song.iorder + 1 →
          s1.song.playmode = PLAYMODE_STOPPED ∧ s1.song.iorder = 0 ∧ s1.song.istep = 0)) ∧
      (1000 < pat.nsteps → s.song.iorder < s.song.norder →
        s1.song.iorder = s.song.iorder ∧ s1.song.istep = 1000 ∧
        s1.song.playmode = s.song.playmode) := by
  obtain ⟨sc, s1, hsc, hadv, h1⟩ := music_poll_step_fires s ipat pats pat step ho hp hq hs hall
  obtain ⟨b1, b2⟩ := music_poll_channels_break step c (List.range SSS_MUSIC_CHANNELS) _ sc
    (range_increasing _) (List.mem_range.mpr hc) hsc (fun k _ hk => hnb k hk) he
  obtain ⟨f1, f2, f3, f4, _⟩ := (music_poll_channels_loop step _ _ _ hsc).song_fields
  have b3 : sc.song.iorder = s.song.iorder := b2
  have g1 : sc.song.patterns = some pats := f1.trans hp
  have g2 : pats[sc.song.ipattern]? = some pat := by rw [f2]; exact hq
  have g3 : sc.song.norder = s.song.norder := f3
  have g4 : sc.song.playmode = s.song.playmode := f4
  obtain ⟨_, _, _, hcase⟩ := music_poll_advance_spec sc s1 pats pat g1 g2 hadv
  rw [b1, b3, g3, g4] at hcase
  have e1000 : (999 + 1) % W32 = 1000 := by decide
  have eio : (s.song.iorder + 1) % W32 = s.song.iorder + 1 := Nat.mod_eq_of_lt hio
  rw [e1000, eio] at hcase
  refine ⟨s1, h1, fun hn => ⟨fun hlt => ?_, fun hge => ?_⟩, fun hn hlt => ?_⟩
  · rw [if_pos hn, if_pos hn] at hcase
    rcases hcase with ⟨k1, _⟩ | ⟨_, k2, _, k4, k5⟩
    · omega
    · exact ⟨k4, k5, k2⟩
  · rw [if_pos hn, if_pos hn] at hcase
    rcases hcase with ⟨_, k2, k3, k4, _⟩ | ⟨k1, _⟩
    · exact ⟨k2, k3, k4⟩
    · omega
  · rw [if_neg (by omega), if_neg (by omega)] at hcase
    rcases hcase with ⟨k1, _⟩ | ⟨_, k2, _, k4, k5⟩
    · omega
    · exact ⟨k4, k5, k2⟩

set_option maxRecDepth 100000 in
/-- In the song `break_song 64`: one pattern of 64 steps, order list [0, 0],
PATTERN_BREAK on channel 0 of step 0. -/
theorem pattern_break_witness :
    ∃ s1, music_poll_step (break_song 64) = some s1 ∧
      (64 ≤ 1000 →
        ((break_song 64).song.iorder + 1 < (break_song 64).song.norder →
          s1.song.iorder = (break_song 64).song.iorder + 1 ∧ s1.song.istep = 0 ∧
          s1.song.playmode = (break_song 64).song.playmode) ∧
        ((break_song 64).song.norder ≤ (break_song 64).song.iorder + 1 →
          s1.song.playmode = PLAYMODE_STOPPED ∧ s1.song.iorder = 0 ∧ s1.song.istep = 0)) ∧
      (1000 < 64 → (break_song 64).song.iorder < (break_song 64).song.norder →
        s1.song.iorder = (break_song 64).song.iorder ∧ s1.song.istep = 1000 ∧
        s1.song.playmode = (break_song 64).song.playmode) :=
  pattern_break (break_song 64) 0
    [{ nsteps := 64, steps := (List.replicate 64 zero_step).set 0 break_step }]
    { nsteps := 64, steps := (List.replicate 64 zero_step).set 0 break_step } break_step 0
    rfl rfl rfl rfl (by decide) (by decide)
    (fun k hk => absurd hk (Nat.not_lt_zero k)) (fun k _ hn => absurd rfl hn) (by decide)
set_option maxRecDepth 1000000 in
/-- C25 (counterexample).  A song with order list [0, 0] whose pattern 0 has
1001 steps, step 0 carrying PATTERN_BREAK: after step 0 has fired, `iorder` is
still 0 and `istep` is 1000, and the song is still playing; playback has not
advanced to the next order entry.  With a pattern of 64 steps it has. -/
theorem pattern_break_long_pattern :
    ((break_song 1001).song.patterns.map (fun ps => ps.map (fun p => p.nsteps)) = some [1001] ∧
      (break_song 1001).song.order = [0, 0] ∧ (break_song 1001).song.norder = 2 ∧
      (break_song 1001).song.iorder = 0 ∧ (break_song 1001).song.istep = 0) ∧
    (music_poll_step (break_song 1001)).map
      (fun r => (r.song.iorder, r.song.istep, r.song.playmode))
      = some (0, 1000, PLAYMODE_PLAYING) ∧
    (music_poll_step (break_song 64)).map
      (fun r => (r.song.iorder, r.song.istep, r.song.playmode))
      = some (1, 0, PLAYMODE_PLAYING) := by
  decide

/-- The parts of a fired step: the order entry, the pattern, the step, the
channel loop and the position update. -/
theorem music_poll_step_parts (s s1 : Engine) (h : music_poll_step s = some s1) :
    ∃ ipat pats pat step sc,
      s.song.order[s.song.iorder]? = some ipat ∧ s.song.patterns = some pats ∧
      pats[ipat]? = some pat ∧ pat.steps[s.song.istep]? = some step ∧
      music_poll_channels step { s with song := { s.song with ipattern := ipat } }
        (List.range SSS_MUSIC_CHANNELS) = some sc ∧
      music_poll_advance sc = some s1 := by
  cases ho : s.song.order[s.song.iorder]? with
  | none => rw [music_poll_step_none s (Or.inl ho)] at h; exact absurd h (by simp)
  | some ipat =>
    cases hp : s.song.patterns with
    | none => rw [music_poll_step_none s (Or.inr (Or.inl hp))] at h; exact absurd h (by simp)
    | some pats =>
      cases hq : pats[ipat]? with
      | none =>
        rw [music_poll_step_none s (Or.inr (Or.inr ⟨ipat, pats, ho, hp, Or.inl hq⟩))] at h
        exact absurd h (by simp)
      | some pat =>
        cases hs : pat.steps[s.song.istep]? with
        | none =>
          rw [music_poll_step_none s
            (Or.inr (Or.inr ⟨ipat, pats, ho, hp, Or.inr ⟨pat, hq, hs⟩⟩))] at h
          exact absurd h (by simp)
        | some step =>
          rw [music_poll_step_some s ipat pats pat step ho hp hq hs] at h
          cases hc : music_poll_channels step { s with song := { s.song with ipattern := ipat } }
              (List.range SSS_MUSIC_CHANNELS) with
          | none => rw [hc] at h; exact absurd h (by simp)
          | some sc =>
            rw [hc] at h
            exact ⟨ipat, pats, pat, step, sc, rfl, rfl, hq, hs, hc, h⟩

/-- The pattern index after a fired step: 0 with the mode STOPPED when the
song has ended, and otherwise the order entry the step was fired at, with the
mode and the order list unchanged. -/
theorem music_poll_step_pattern (s s1 : Engine) (h : music_poll_step s = some s1) :
    s1.song.order = s.song.order ∧
    ((s1.song.playmode = PLAYMODE_STOPPED ∧ s1.song.ipattern = 0 ∧ s1.song.iorder = 0 ∧
        s1.song.istep = 0) ∨
      (s1.song.playmode = s.song.playmode ∧
        s.song.order[s.song.iorder]? = some s1.song.ipattern)) := by
  obtain ⟨ipat, pats, pat, step, sc, ho, hp, hq, hs, hc, hadv⟩ := music_poll_step_parts s s1 h
  obtain ⟨f1, f2, f3, f4, f5⟩ := (music_poll_channels_loop step _ _ _ hc).song_fields
  have g1 : sc.song.patterns = some pats := f1.trans hp
  have g2 : pats[sc.song.ipattern]? = some pat := by rw [f2]; exact hq
  have g4 : sc.song.playmode = s.song.playmode := f4
  have g5 : sc.song.order = s.song.order := f5
  have g6 : sc.song.ipattern = ipat := f2
  obtain ⟨_, k2, _, hcase⟩ := music_poll_advance_spec sc s1 pats pat g1 g2 hadv
  refine ⟨k2.trans g5, ?_⟩
  rcases hcase with ⟨_, a1, a2, a3, a4⟩ | ⟨_, a1, a2, _, _⟩
  · exact Or.inl ⟨a1, a4, a2, a3⟩
  · exact Or.inr ⟨a1.trans g4, by rw [a2, g6]; exact ho⟩

set_option maxRecDepth 100000 in
/-- C28 (counterexample).  The song `order_song` has the order list [1, 0].
Right after PLAY the mode is PLAYING with `iorder = 0` and `ipattern = 0`,
while `order[0]` is 1.  After the first step has fired (a poll at clock 1
fires just this step) the mode is PLAYING with `iorder = 1` and
`ipattern = 1`, while `order[1]` is 0. -/
theorem ipattern_stale :
    (order_song.song.playmode = PLAYMODE_PLAYING ∧ order_song.song.order = [1, 0] ∧
      order_song.song.iorder = 0 ∧ order_song.song.ipattern = 0) ∧
    (music_poll_step order_song).map
      (fun r => (r.song.playmode, r.song.iorder, r.song.ipattern, r.song.order[r.song.iorder]?))
      = some (PLAYMODE_PLAYING, 1, 1, some 0) ∧
    is_done (music_poll 5 order_song 1) = true ∧
    (outcome_state (music_poll 5 order_song 1) order_song).song.playmode = PLAYMODE_PLAYING ∧
    (outcome_state (music_poll 5 order_song 1) order_song).song.iorder = 1 ∧
    (outcome_state (music_poll 5 order_song 1) order_song).song.ipattern = 1 := by
  decide

/-- C28 (amended).  Pattern index.  The pattern index is set when a step
fires and is not updated when the order index moves on.  After every fired
step that does not end the song, `ipattern` is the order entry at the order
index the step was fired at, with the mode and the order list unchanged; so
`ipattern = order[iorder]` holds after the step when it has left `iorder` as
it was.  When the step ends the song, the mode is STOPPED and `ipattern`,
`iorder` and `istep` are 0. -/
theorem ipattern_of_fired_step (s s1 : Engine) (h : music_poll_step s = some s1) :
    s1.song.order = s.song.order ∧
    ((s1.song.playmode = PLAYMODE_STOPPED ∧ s1.song.ipattern = 0 ∧ s1.song.iorder = 0 ∧
        s1.song.istep = 0) ∨
      (s1.song.playmode = s.song.playmode ∧
        s.song.order[s.song.iorder]? = some s1.song.ipattern ∧
        (s1.song.iorder = s.song.iorder →
          s1.song.order[s1.song.iorder]? = some s1.song.ipattern))) := by
  obtain ⟨e, hcase⟩ := music_poll_step_pattern s s1 h
  refine ⟨e, ?_⟩
  rcases hcase with hx | ⟨a1, a2⟩
  · exact Or.inl hx
  · exact Or.inr ⟨a1, a2, fun hio => by rw [e, hio]; exact a2⟩

set_option maxRecDepth 100000 in
/-- In the song `break_song 64`, whose first step moves to order entry 1. -/
theorem ipattern_of_fired_step_witness :
    ∃ s1, music_poll_step (break_song 64) = some s1 ∧
      s1.song.order = (break_song 64).song.order ∧
      ((s1.song.playmode = PLAYMODE_STOPPED ∧ s1.song.ipattern = 0 ∧ s1.song.iorder = 0 ∧
          s1.song.istep = 0) ∨
        (s1.song.playmode = (break_song 64).song.playmode ∧
          (break_song 64).song.order[(break_song 64).song.iorder]? = some s1.song.ipattern ∧
          (s1.song.iorder = (break_song 64).song.iorder →
            s1.song.order[s1.song.iorder]? = some s1.song.ipattern))) := by
  obtain ⟨sc, s1, _, _, h1⟩ := music_poll_step_fires (break_song 64) 0
    [{ nsteps := 64, steps := (List.replicate 64 zero_step).set 0 break_step }]
    { nsteps := 64, steps := (List.replicate 64 zero_step).set 0 break_step } break_step
    rfl rfl rfl rfl (fun k _ hn => absurd rfl hn)
  exact ⟨s1, h1, ipattern_of_fired_step (break_song 64) s1 h1⟩
theorem KeepsStep.keeps_refl (s : Engine) : KeepsStep s s := ⟨rfl, Or.inl ⟨rfl, rfl⟩⟩

theorem KeepsStep.keeps_of_song {s s1 : Engine} (h : s1.song = s.song) : KeepsStep s s1 := by
  unfold KeepsStep
  rw [h]
  exact ⟨rfl, Or.inl ⟨rfl, rfl⟩⟩

theorem OnlyChan.chan_keeps_step {s s1 : Engine} (h : OnlyChan s s1) : KeepsStep s s1 := by
  obtain ⟨f, rfl⟩ := h
  exact KeepsStep.keeps_refl _

/-- A change of the channels, the mode, the song position and the song
counter keeps the patterns, the pattern index and the step index. -/
theorem KeepsStep.of_mode (s : Engine) (f : Nat → CHANNEL_DESC) (pm sp n : Nat) :
    KeepsStep s { s with
      chan := f
      song := { s.song with playmode := pm, song_pos := sp }
      song_counter := n } :=
  ⟨rfl, Or.inl ⟨rfl, rfl⟩⟩

/-- The state PLAY leaves from STOPPED has the patterns of before and the
pattern index and the step index 0. -/
theorem KeepsStep.of_start (s : Engine) (f : Nat → CHANNEL_DESC) (pm sp sd n : Nat) :
    KeepsStep s { s with
      chan := f
      song := { s.song with
        song_pos := sp, step_delay := sd, iorder := 0, ipattern := 0, istep := 0,
        playmode := pm }
      song_counter := n } :=
  ⟨rfl, Or.inr ⟨rfl, rfl⟩⟩

theorem music_stop_keeps (s : Engine) : KeepsStep s (music_stop s) := by
  obtain ⟨f, e⟩ := music_stop_eq s
  rw [e]
  exact KeepsStep.of_mode s f _ _ _

theorem music_play_keeps (s : Engine) : KeepsStep s (music_play s) := by
  unfold music_play
  split_ifs
  · exact KeepsStep.keeps_refl s
  · exact KeepsStep.of_mode s s.chan _ s.song.song_pos s.song_counter
  · exact KeepsStep.keeps_refl s
  · obtain ⟨f, e⟩ := music_play_pans_only (List.range SSS_MUSIC_CHANNELS) (music_stop s)
    obtain ⟨g, eg⟩ := music_stop_eq s
    simp only
    rw [e, eg]
    exact KeepsStep.of_start s f _ _ _ _

theorem sss_music_command_keeps (s : Engine) (cmd : Nat) :
    KeepsStep s (sss_music_command s cmd) := by
  unfold sss_music_command
  split_ifs
  · exact KeepsStep.keeps_refl s
  · exact KeepsStep.keeps_refl s
  · exact music_play_keeps s
  · exact KeepsStep.keeps_refl s
  · exact music_stop_keeps s
  · exact KeepsStep.keeps_refl s
  · obtain ⟨f, e⟩ := music_stop_channels_only (List.range SSS_MUSIC_CHANNELS)
      { s with song := { s.song with playmode := PLAYMODE_PAUSED } }
    rw [e]
    exact KeepsStep.of_mode s f _ s.song.song_pos s.song_counter
  · exact KeepsStep.keeps_refl s
  · exact KeepsStep.of_mode s s.chan _ s.song.song_pos s.song_counter
  · exact KeepsStep.keeps_refl s
  · exact KeepsStep.of_mode s s.chan _ s.song.song_pos s.song_counter
  · exact KeepsStep.keeps_refl s

theorem mix_advance_keeps (s : Engine) : KeepsStep s (mix_advance s) := by
  unfold mix_advance
  split_ifs
  · exact KeepsStep.of_mode s s.chan s.song.playmode s.song.song_pos _
  · exact KeepsStep.of_mode s s.chan s.song.playmode s.song.song_pos _
  · exact KeepsStep.of_mode s s.chan s.song.playmode _ _
  · exact music_stop_keeps s
  · exact KeepsStep.keeps_refl s

theorem mix_output_keeps (s s1 : Engine) (u : Nat) (h : mix_output s u = some s1) :
    KeepsStep s s1 := by
  unfold mix_output at h
  split at h
  · exact absurd h (by simp)
  · rename_i s2 l r h2
    obtain ⟨⟨f2, rfl⟩, _⟩ := mix_channels_only _ _ _ _ _ h2
    split at h
    · exact absurd h (by simp)
    · split_ifs at h
      · split at h
        · exact absurd h (by simp)
        · simp only [Option.some.injEq] at h
          subst h
          exact KeepsStep.keeps_refl _
      · simp only [Option.some.injEq] at h
        subst h
        exact KeepsStep.keeps_refl _

/-- The invariant of the step index is kept by every change that keeps the
patterns and either keeps the two indices or sets both to 0. -/
theorem StepInv.inv_keeps {pats : List MUSICPATTERN_DESC} {s s1 : Engine} (h : StepInv pats s)
    (hne : pats ≠ []) (hall : ∀ p ∈ pats, 1 ≤ p.nsteps) (hk : KeepsStep s s1) :
    StepInv pats s1 := by
  obtain ⟨hp, pat, hq, hlt⟩ := h
  obtain ⟨k1, k2⟩ := hk
  refine ⟨k1.trans hp, ?_⟩
  rcases k2 with ⟨a1, a2⟩ | ⟨a1, a2⟩
  · exact ⟨pat, by rw [a1]; exact hq, by rw [a2]; exact hlt⟩
  · have h0 : 0 < pats.length := List.length_pos.mpr hne
    refine ⟨pats[0], by rw [a1]; exact List.getElem?_eq_getElem h0, ?_⟩
    rw [a2]
    exact hall _ (List.getElem_mem _)

/-- A fired step keeps the invariant of the step index: the position update
leaves a step index inside the pattern of the step, whatever the channel loop
did to it, or index 0 in pattern 0. -/
theorem StepInv.fired {pats : List MUSICPATTERN_DESC} {s s1 : Engine} (h : StepInv pats s)
    (hne : pats ≠ []) (hall : ∀ p ∈ pats, 1 ≤ p.nsteps) (hs : music_poll_step s = some s1) :
    StepInv pats s1 := by
  obtain ⟨ipat, pats1, pat, step, sc, ho, hp, hq, hst, hc, hadv⟩ := music_poll_step_parts s s1 hs
  have e : pats1 = pats := by
    have := hp.symm.trans h.1
    simpa using this
  subst e
  obtain ⟨f1, f2, f3, f4, f5⟩ := (music_poll_channels_loop step _ _ _ hc).song_fields
  have g1 : sc.song.patterns = some pats1 := f1.trans hp
  have g2 : pats1[sc.song.ipattern]? = some pat := by rw [f2]; exact hq
  obtain ⟨k1, _, _, hcase⟩ := music_poll_advance_spec sc s1 pats1 pat g1 g2 hadv
  refine ⟨k1.trans g1, ?_⟩
  have hn : 1 ≤ pat.nsteps := hall pat (List.getElem?_mem hq)
  rcases hcase with ⟨_, _, _, a3, a4⟩ | ⟨_, _, a2, _, a4⟩
  · have h0 : 0 < pats1.length := List.length_pos.mpr hne
    refine ⟨pats1[0], by rw [a4]; exact List.getElem?_eq_getElem h0, ?_⟩
    rw [a3]
    exact hall _ (List.getElem_mem _)
  · refine ⟨pat, by rw [a2]; exact g2, ?_⟩
    rw [a4]
    split_ifs with hge
    · exact hn
    · omega

theorem music_poll_loop_inv (pats : List MUSICPATTERN_DESC) (hne : pats ≠ [])
    (hall : ∀ p ∈ pats, 1 ≤ p.nsteps) (songp : Nat) (fuel : Nat) :
    ∀ s s1 : Engine, StepInv pats s → music_poll_loop fuel songp s = Outcome.done s1 →
    StepInv pats s1 := by
  induction fuel with
  | zero =>
    intro s s1 hi h
    simp only [music_poll_loop] at h
    split_ifs at h
    simp only [Outcome.done.injEq] at h
    subst h
    exact hi
  | succ n ih =>
    intro s s1 hi h
    simp only [music_poll_loop] at h
    split_ifs at h
    · cases hs : music_poll_step s with
      | none =>
        rw [hs] at h
        exact absurd h (by simp)
      | some s2 =>
        rw [hs] at h
        exact ih s2 s1 (hi.fired hne hall hs) h
    · simp only [Outcome.done.injEq] at h
      subst h
      exact hi

theorem music_poll_inv (pats : List MUSICPATTERN_DESC) (hne : pats ≠ [])
    (hall : ∀ p ∈ pats, 1 ≤ p.nsteps) (fuel : Nat) (s s1 : Engine) (songp : Nat)
    (hi : StepInv pats s) (h : music_poll fuel s songp = Outcome.done s1) : StepInv pats s1 := by
  unfold music_poll at h
  split_ifs at h
  · simp only [Outcome.done.injEq] at h
    subst h
    exact hi
  · exact music_poll_loop_inv pats hne hall songp fuel s s1 hi h

theorem mix_poll_inv (pats : List MUSICPATTERN_DESC) (hne : pats ≠ [])
    (hall : ∀ p ∈ pats, 1 ≤ p.nsteps) (fuel : Nat) (s s1 : Engine) (u : Nat)
    (hi : StepInv pats s) (h : mix_poll fuel s u = Outcome.done s1) : StepInv pats s1 := by
  unfold mix_poll at h
  split_ifs at h
  · exact music_poll_inv pats hne hall _ _ _ _ hi h
  · exact music_poll_inv pats hne hall _ _ _ _ hi h
  · simp only [Outcome.done.injEq] at h
    subst h
    exact hi

theorem mix_frame_inv (pats : List MUSICPATTERN_DESC) (hne : pats ≠ [])
    (hall : ∀ p ∈ pats, 1 ≤ p.nsteps) (fuel : Nat) (s s1 : Engine) (u : Nat)
    (hi : StepInv pats s) (h : mix_frame fuel s u = Outcome.done s1) : StepInv pats s1 := by
  unfold mix_frame at h
  split at h
  · rename_i s2 h2
    split at h
    · exact absurd h (by simp)
    · rename_i s3 h3
      simp only [Outcome.done.injEq] at h
      subst h
      exact (mix_poll_inv pats hne hall _ _ _ _ hi h2).inv_keeps hne hall (mix_output_keeps _ _ _ h3)
  · exact absurd h (by simp)
  · exact absurd h (by simp)

theorem mix_frames_inv (pats : List MUSICPATTERN_DESC) (hne : pats ≠ [])
    (hall : ∀ p ∈ pats, 1 ≤ p.nsteps) (fuel : Nat) (n : Nat) : ∀ (u : Nat) (s s1 : Engine),
    StepInv pats s → mix_frames fuel n u s = Outcome.done s1 → StepInv pats s1 := by
  induction n with
  | zero =>
    intro u s s1 hi h
    simp only [mix_frames, Outcome.done.injEq] at h
    subst h
    exact hi
  | succ n ih =>
    intro u s s1 hi h
    simp only [mix_frames] at h
    split at h
    · rename_i s2 h2
      exact ih _ _ _ (mix_frame_inv pats hne hall _ _ _ _ hi h2) h
    · exact absurd h (by simp)
    · exact absurd h (by simp)

theorem mix_inv (pats : List MUSICPATTERN_DESC) (hne : pats ≠ [])
    (hall : ∀ p ∈ pats, 1 ≤ p.nsteps) (fuel : Nat) (s s1 : Engine)
    (hi : StepInv pats s) (h : mix fuel s = Outcome.done s1) : StepInv pats s1 := by
  unfold mix at h
  split at h
  · rename_i s2 h2
    simp only [Outcome.done.injEq] at h
    subst h
    exact (mix_frames_inv pats hne hall _ _ _ _ _ hi h2).inv_keeps hne hall (mix_advance_keeps _)
  · exact absurd h (by simp)
  · exact absurd h (by simp)

theorem sss_poll_inv (pats : List MUSICPATTERN_DESC) (hne : pats ≠ [])
    (hall : ∀ p ∈ pats, 1 ≤ p.nsteps) (fuel : Nat) (s s1 : Engine)
    (hi : StepInv pats s) (h : sss_poll fuel s = Outcome.done s1) : StepInv pats s1 := by
  unfold sss_poll at h
  split_ifs at h
  · simp only [Outcome.done.injEq] at h
    subst h
    exact hi
  · split at h
    · rename_i s2 h2
      simp only [Outcome.done.injEq] at h
      subst h
      have h0 : StepInv pats { s with whdr_done := upd s.whdr_done s.bfr_toggle false } := hi
      exact mix_inv pats hne hall fuel _ s2 h0 h2
    · exact absurd h (by simp)
    · exact absurd h (by simp)

/-- C29.  Step-index invariant.  For every song whose pattern list is not
empty and all of whose patterns have at least one step, started in a state
whose step index is inside the pattern `ipattern` (as after the construction
of the song, where both indices are 0): in every state reached through
transport commands, music polls, mix buffers, timer polls and the audio device
(each call taken as a whole, so the state is observed between polls), the
pattern list is unchanged and `istep < nsteps` of `patterns[ipattern]`. -/
theorem step_index_invariant (s0 s : Engine) (pats : List MUSICPATTERN_DESC)
    (hp : s0.song.patterns = some pats) (hne : pats ≠ [])
    (hall : ∀ p ∈ pats, 1 ≤ p.nsteps)
    (h0 : ∃ pat, pats[s0.song.ipattern]? = some pat ∧ s0.song.istep < pat.nsteps)
    (h : Played s0 s) :
    s.song.patterns = some pats ∧
      ∃ pat, pats[s.song.ipattern]? = some pat ∧ 0 ≤ s.song.istep ∧
        s.song.istep < pat.nsteps := by
  have hinv : StepInv pats s := by
    induction h with
    | start => exact ⟨hp, h0⟩
    | command s cmd _ ih => exact ih.inv_keeps hne hall (sss_music_command_keeps s cmd)
    | poll s s1 fuel T _ hpoll ih => exact music_poll_inv pats hne hall fuel s s1 T ih hpoll
    | buffer s s1 fuel _ hmix ih => exact mix_inv pats hne hall fuel s s1 ih hmix
    | timer s s1 fuel _ hpoll ih => exact sss_poll_inv pats hne hall fuel s s1 ih hpoll
    | device s u _ ih => exact ih
  obtain ⟨a, pat, b, c⟩ := hinv
  exact ⟨a, pat, b, Nat.zero_le _, c⟩
set_option maxRecDepth 100000 in
/-- On the song `tempo_song_built zero_step` (one pattern of two steps, both
indices 0 after its construction) and the state after PLAY. -/
theorem step_index_invariant_witness :
    (tempo_song zero_step).song.patterns
      = some [{ nsteps := 2, steps := [zero_step, zero_step] }] ∧
      ∃ pat, [({ nsteps := 2, steps := [zero_step, zero_step] } : MUSICPATTERN_DESC)][
          (tempo_song zero_step).song.ipattern]? = some pat ∧
        0 ≤ (tempo_song zero_step).song.istep ∧ (tempo_song zero_step).song.istep < pat.nsteps :=
  step_index_invariant (tempo_song_built zero_step) (tempo_song zero_step)
    [{ nsteps := 2, steps := [zero_step, zero_step] }] rfl (by simp)
    (fun p hm => by
      rw [List.mem_singleton] at hm
      rw [hm]
      decide)
    ⟨{ nsteps := 2, steps := [zero_step, zero_step] }, rfl, by decide⟩
    (Played.command _ _ Played.start)

/-- The data offset the mixer computes for a voice at virtual offset `k` of
virtual size `V`, while `k * size` is inside the range of a `long`. -/
theorem mix_offset_exact (psample : SAMPLE_DESC) (c : CHANNEL_DESC) (V k : Nat)
    (hV : 1 ≤ V) (hvs : c.vsize = V) (hk : c.voffset = k) (hkV : k ≤ V)
    (hprod : V * psample.size < 2147483648) :
    mix_offset psample c = k * psample.size / V := by
  have hsz : psample.size < 2147483648 := by
    have : 1 * psample.size ≤ V * psample.size := Nat.mul_le_mul_right _ hV
    omega
  have hks : k * psample.size < 2147483648 := by
    have : k * psample.size ≤ V * psample.size := Nat.mul_le_mul_right _ hkV
    omega
  unfold mix_offset
  rw [hvs, hk, toLong_small _ hsz]
  have e1 : ((k : Int) * (psample.size : Int)) = ((k * psample.size : Nat) : Int) := by
    push_cast; rfl
  rw [e1, toLong_small _ hks]
  have e2 : Int.tdiv ((k * psample.size : Nat) : Int) (V : Int) =
      ((k * psample.size / V : Nat) : Int) := by
    rw [Int.tdiv_eq_ediv (by omega) (by omega)]
    push_cast; rfl
  rw [e2]
  have hq : k * psample.size / V ≤ k * psample.size := Nat.div_le_self _ _
  exact toUInt_small _ (by omega)

theorem lut_build_none (v x : Nat) (h : ¬ (v < 16 ∧ x < 256)) :
    lut build_volume_tables v x = none := by
  unfold lut
  cases hrow : build_volume_tables[v]? with
  | none => rfl
  | some r =>
    have hv : v < 16 := by
      by_contra hx
      have : build_volume_tables[v]? = none := by
        apply List.getElem?_eq_none
        simp only [build_volume_tables, List.length_map, List.length_range, SSS_MAX_VOLUME]
        omega
      rw [this] at hrow
      exact absurd hrow (by simp)
    have hr : r = (List.range 256).map fun pos => volume_entry v pos := by
      simp only [build_volume_tables, List.getElem?_map, List.getElem?_range hv,
        Option.map_some', Option.some.injEq] at hrow
      exact hrow.symm
    simp only
    apply List.getElem?_eq_none
    rw [hr, List.length_map, List.length_range]
    omega

/-- The entry of the built volume tables a read returns. -/
theorem lutI_build_some (v : Nat) (i l : Int) (h : lutI build_volume_tables v i = some l) :
    v < 16 ∧ 0 ≤ i ∧ i < 256 ∧ l = volume_entry v i.toNat := by
  unfold lutI at h
  split_ifs at h with h0
  have hin : v < 16 ∧ i.toNat < 256 := by
    by_contra hx
    rw [lut_build_none v i.toNat hx] at h
    exact absurd h (by simp)
  rw [lut_build v i.toNat hin.1 hin.2] at h
  simp only [Option.some.injEq] at h
  exact ⟨hin.1, by omega, by omega, h.symm⟩
/-- The body of the channel loop on a voice at virtual offset `k` of virtual
size `V` that plays a sample without loop, while `V * size` is inside the
range of a `long`: below `V` the byte at data offset `k * size / V` is merged
and the virtual offset moves on by 1; at `V` the voice goes idle and the sums
are kept. -/
theorem mix_voice_oneshot (st : Nat) (psample : SAMPLE_DESC) (c : CHANNEL_DESC) (d : List Int)
    (V k : Nat) (acc : Int × Int) (hd : psample.data = some d)
    (hlen : d.length = psample.size) (hl : psample.loop_size = 0)
    (hsize : 1 ≤ psample.size)
    (hV : 1 ≤ V) (hvs : c.vsize = V) (hprod : V * psample.size < 2147483648)
    (hk : c.voffset = k) (hkV : k ≤ V) (hvol : c.volume ≤ 15) (hpan : c.pan_pos ≤ 15) :
    (k < V →
      k * psample.size / V < psample.size ∧
      ∃ b, d[k * psample.size / V]? = some b ∧
        mix_voice build_volume_tables st psample c acc =
          some ({ c with voffset := (k : Int) + 1 },
            if st ≠ 0 then
              (acc.1 + volume_entry (15 - c.pan_pos)
                  (volume_entry c.volume (toSChar b + 128).toNat + 128).toNat,
                acc.2 + volume_entry c.pan_pos
                  (volume_entry c.volume (toSChar b + 128).toNat + 128).toNat)
            else (acc.1 + volume_entry c.volume (toSChar b + 128).toNat, acc.2))) ∧
    (k = V →
      mix_voice build_volume_tables st psample c acc =
        some ({ c with isample := IDLE, voffset := 0, vsize := 0 }, acc)) := by
  have hoff := mix_offset_exact psample c V k hV hvs hk hkV hprod
  have hne : ¬ c.vsize = 0 := by omega
  constructor
  · intro hlt
    have hin : k * psample.size / V < psample.size := by
      apply Nat.div_lt_of_lt_mul
      exact Nat.mul_lt_mul_of_pos_right hlt (by omega)
    have hnot : ¬ mix_at_end psample (mix_offset psample c) := by
      unfold mix_at_end
      rw [hoff, hl]
      intro hx
      rcases hx with hx | hx
      · omega
      · exact absurd hx.2 (by omega)
    have hget : d[k * psample.size / V]? = some (d.get ⟨k * psample.size / V, by omega⟩) :=
      List.getElem?_eq_getElem (by omega)
    refine ⟨hin, _, hget, ?_⟩
    have hb := toSChar_range (d.get ⟨k * psample.size / V, by omega⟩)
    have hv := volume_entry_range c.volume
      (toSChar (d.get ⟨k * psample.size / V, by omega⟩) + 128).toNat
    unfold mix_voice
    rw [if_neg hne, if_neg hnot, hd]
    simp only
    rw [hoff, hget]
    simp only
    rw [lutI_build c.volume _ (by omega) (by omega) (by omega)]
    simp only
    have hVb : V ≤ V * psample.size := Nat.le_mul_of_pos_right V (by omega)
    have hlong : toLong ((k : Int) + 1) = (k : Int) + 1 := by
      have := toLong_small (k + 1) (by omega)
      rw [Nat.cast_add, Nat.cast_one] at this
      exact this
    rw [hk, hlong]
    by_cases hst : st ≠ 0
    · rw [if_pos hst, if_pos hst, toUInt_pan c.pan_pos hpan,
        lutI_build (15 - c.pan_pos) _ (by omega) (by omega) (by omega),
        lutI_build c.pan_pos _ (by omega) (by omega) (by omega)]
    · rw [if_neg hst, if_neg hst]
  · intro e
    have hat : mix_at_end psample (mix_offset psample c) := by
      unfold mix_at_end
      rw [hoff, e, Nat.mul_div_cancel_left _ (by omega : 0 < V)]
      exact Or.inl (le_refl _)
    unfold mix_voice
    rw [if_neg hne, if_pos hat, if_neg (by omega)]
theorem voice_frames_idle (tables : List (List Int)) (st : Nat) (psample : SAMPLE_DESC)
    (n : Nat) (c : CHANNEL_DESC) (h : c.isample = IDLE) :
    voice_frames tables st psample n c = some c := by
  cases n with
  | zero => rfl
  | succ m => simp only [voice_frames, if_pos h]

/-- A busy voice freshly started on a sample without loop is at virtual offset
`k` after `k` frames, for every `k` up to its virtual size. -/
theorem voice_frames_oneshot (st : Nat) (psample : SAMPLE_DESC) (c0 : CHANNEL_DESC)
    (d : List Int) (V : Nat) (hd : psample.data = some d)
    (hlen : d.length = psample.size) (hl : psample.loop_size = 0)
    (hsize : 1 ≤ psample.size) (hV : 1 ≤ V) (hvs : c0.vsize = V)
    (hprod : V * psample.size < 2147483648) (hvol : c0.volume ≤ 15) (hpan : c0.pan_pos ≤ 15)
    (hbusy : c0.isample ≠ IDLE) :
    ∀ (n j : Nat), j + n ≤ V →
      voice_frames build_volume_tables st psample n { c0 with voffset := (j : Int) } =
        some { c0 with voffset := ((j + n : Nat) : Int) } := by
  intro n
  induction n with
  | zero => intro j _; rfl
  | succ m ih =>
    intro j hj
    obtain ⟨hmid, _⟩ := mix_voice_oneshot st psample { c0 with voffset := (j : Int) } d V j (0, 0)
      hd hlen hl hsize hV hvs hprod rfl (by omega) hvol hpan
    obtain ⟨_, b, _, hrun⟩ := hmid (by omega)
    have hnext := ih (j + 1) (by omega)
    simp only [voice_frames, if_neg hbusy, hrun]
    rw [show j + (m + 1) = j + 1 + m by omega]
    rw [← hnext]
    simp only [Nat.cast_add, Nat.cast_one]

/-- After more frames than its virtual size, a voice freshly started on a
sample without loop is idle. -/
theorem voice_frames_done (st : Nat) (psample : SAMPLE_DESC) (c0 : CHANNEL_DESC)
    (d : List Int) (V : Nat) (hd : psample.data = some d)
    (hlen : d.length = psample.size) (hl : psample.loop_size = 0)
    (hsize : 1 ≤ psample.size) (hV : 1 ≤ V) (hvs : c0.vsize = V)
    (hprod : V * psample.size < 2147483648) (hvol : c0.volume ≤ 15) (hpan : c0.pan_pos ≤ 15)
    (hbusy : c0.isample ≠ IDLE) :
    ∀ (n j : Nat), j ≤ V → V < j + n →
      voice_frames build_volume_tables st psample n { c0 with voffset := (j : Int) } =
        some { c0 with isample := IDLE, voffset := 0, vsize := 0 } := by
  intro n
  induction n with
  | zero => intro j h1 h2; omega
  | succ m ih =>
    intro j h1 h2
    obtain ⟨hmid, hend⟩ := mix_voice_oneshot st psample { c0 with voffset := (j : Int) } d V j
      (0, 0) hd hlen hl hsize hV hvs hprod rfl h1 hvol hpan
    by_cases e : j = V
    · simp only [voice_frames, if_neg hbusy, hend e]
      exact voice_frames_idle _ _ _ _ _ rfl
    · obtain ⟨_, b, _, hrun⟩ := hmid (by omega)
      have hnext := ih (j + 1) (by omega) (by omega)
      simp only [voice_frames, if_neg hbusy, hrun]
      rw [← hnext]
      simp only [Nat.cast_add, Nat.cast_one]
/-- C40 (exact play length): a voice freshly started (virtual offset 0, virtual
size `V ≥ 1`) on a sample without loop of size at least 1, with
`V * size < 2^31`, is at virtual offset `k` after `k` frames for every
`k ≤ V`; in the frame that follows, for `k < V`, the mixer reads the data
byte at offset `k * size / V`, which is below `size` and not below the offset
of any earlier frame, adds its volume-table entry to the sums and moves the
virtual offset on by 1; for `k = V` it sets the voice idle and keeps the
sums; after more than `V` frames the voice is idle.  So the voice contributes
to exactly the `V` frames `0 .. V - 1`. -/
theorem exact_play_length (st : Nat) (psample : SAMPLE_DESC) (c0 : CHANNEL_DESC)
    (d : List Int) (V : Nat) (hd : psample.data = some d)
    (hlen : d.length = psample.size) (hl : psample.loop_size = 0)
    (hsize : 1 ≤ psample.size) (hV : 1 ≤ V) (hvs : c0.vsize = V) (hvo : c0.voffset = 0)
    (hprod : V * psample.size < 2147483648) (hvol : c0.volume ≤ 15) (hpan : c0.pan_pos ≤ 15)
    (hbusy : c0.isample ≠ IDLE) :
    (∀ k, k ≤ V →
      voice_frames build_volume_tables st psample k c0 = some { c0 with voffset := (k : Int) }) ∧
    (∀ k, k < V →
      k * psample.size / V < psample.size ∧
      (∀ j, j ≤ k → j * psample.size / V ≤ k * psample.size / V) ∧
      ∃ b, d[k * psample.size / V]? = some b ∧
        ∀ acc, mix_voice build_volume_tables st psample { c0 with voffset := (k : Int) } acc =
          some ({ c0 with voffset := (k : Int) + 1 },
            if st ≠ 0 then
              (acc.1 + volume_entry (15 - c0.pan_pos)
                  (volume_entry c0.volume (toSChar b + 128).toNat + 128).toNat,
                acc.2 + volume_entry c0.pan_pos
                  (volume_entry c0.volume (toSChar b + 128).toNat + 128).toNat)
            else (acc.1 + volume_entry c0.volume (toSChar b + 128).toNat, acc.2))) ∧
    (∀ acc, mix_voice build_volume_tables st psample { c0 with voffset := (V : Int) } acc =
      some ({ c0 with isample := IDLE, voffset := 0, vsize := 0 }, acc)) ∧
    (∀ n, V < n → voice_frames build_volume_tables st psample n c0 =
      some { c0 with isample := IDLE, voffset := 0, vsize := 0 }) := by
  have hc0 : c0 = { c0 with voffset := ((0 : Nat) : Int) } := by
    rw [Nat.cast_zero, ← hvo]
  refine ⟨fun k hk => ?_, fun k hk => ?_, fun acc => ?_, fun n hn => ?_⟩
  · have h := voice_frames_oneshot st psample c0 d V hd hlen hl hsize hV hvs hprod hvol hpan
      hbusy k 0 (by omega)
    rw [← hc0, Nat.zero_add] at h
    exact h
  · obtain ⟨hin, b, hb, _⟩ := (mix_voice_oneshot st psample { c0 with voffset := (k : Int) } d V k
      (0, 0) hd hlen hl hsize hV hvs hprod rfl (by omega) hvol hpan).1 hk
    refine ⟨hin, fun j hj => Nat.div_le_div_right (Nat.mul_le_mul_right _ hj), b, hb,
      fun acc => ?_⟩
    obtain ⟨_, b1, hb1, hrun⟩ := (mix_voice_oneshot st psample { c0 with voffset := (k : Int) } d
      V k acc hd hlen hl hsize hV hvs hprod rfl (by omega) hvol hpan).1 hk
    rw [hb] at hb1
    simp only [Option.some.injEq] at hb1
    rw [hb1]
    exact hrun
  · exact (mix_voice_oneshot st psample { c0 with voffset := (V : Int) } d V V acc hd hlen hl
      hsize hV hvs hprod rfl (le_refl _) hvol hpan).2 rfl
  · have h := voice_frames_done st psample c0 d V hd hlen hl hsize hV hvs hprod hvol hpan
      hbusy n 0 (by omega) (by omega)
    rw [← hc0] at h
    exact h
/-- C40 (witness): the voice of `fresh_voice` on the sample of
`slow_sample_state`, with the virtual size 176400. -/
theorem exact_play_length_witness :
    (slow_sample_state.samples 0).data = some [1, 2, 3, 4] ∧
    fresh_voice.vsize = ((176400 : Nat) : Int) ∧ fresh_voice.voffset = 0 ∧
    fresh_voice.isample ≠ IDLE ∧
    (∀ k, k ≤ 176400 →
      voice_frames build_volume_tables 1 (slow_sample_state.samples 0) k fresh_voice =
        some { fresh_voice with voffset := (k : Int) }) ∧
    (∀ k, k < 176400 →
      k * (slow_sample_state.samples 0).size / 176400 < (slow_sample_state.samples 0).size ∧
      (∀ j, j ≤ k → j * (slow_sample_state.samples 0).size / 176400 ≤
        k * (slow_sample_state.samples 0).size / 176400) ∧
      ∃ b, [1, 2, 3, 4][k * (slow_sample_state.samples 0).size / 176400]? = some b ∧
        ∀ acc, mix_voice build_volume_tables 1 (slow_sample_state.samples 0)
            { fresh_voice with voffset := (k : Int) } acc =
          some ({ fresh_voice with voffset := (k : Int) + 1 },
            if 1 ≠ 0 then
              (acc.1 + volume_entry (15 - fresh_voice.pan_pos)
                  (volume_entry fresh_voice.volume (toSChar b + 128).toNat + 128).toNat,
                acc.2 + volume_entry fresh_voice.pan_pos
                  (volume_entry fresh_voice.volume (toSChar b + 128).toNat + 128).toNat)
            else (acc.1 + volume_entry fresh_voice.volume (toSChar b + 128).toNat, acc.2))) ∧
    (∀ acc, mix_voice build_volume_tables 1 (slow_sample_state.samples 0)
        { fresh_voice with voffset := ((176400 : Nat) : Int) } acc =
      some ({ fresh_voice with isample := IDLE, voffset := 0, vsize := 0 }, acc)) ∧
    (∀ n, 176400 < n →
      voice_frames build_volume_tables 1 (slow_sample_state.samples 0) n fresh_voice =
        some { fresh_voice with isample := IDLE, voffset := 0, vsize := 0 }) :=
  ⟨by decide, by decide, by decide, by decide,
    exact_play_length 1 (slow_sample_state.samples 0) fresh_voice [1, 2, 3, 4] 176400
      (by decide) (by decide) (by decide) (by decide) (by decide) (by decide) (by decide)
      (by decide) (by decide) (by decide) (by decide)⟩

theorem loud_voices_state_reachable : Reachable loud_voices_state :=
  Reachable.sample_play _ 3 0 8000 (Reachable.sample_play _ 2 0 8000
    (Reachable.sample_play _ 1 0 8000 (Reachable.sample_play _ 0 0 8000
      (Reachable.sample_add (sss_init boot 256).1 _ [127, 127, 127, 127] 4 0 0 8000 0 0
        (Reachable.init boot 256 Reachable.start) rfl))))

/-- The body of the channel loop of `mix` with the volume tables built: it
makes no idle channel busy, keeps the sums on an idle channel, and adds a
value in -128..127 to each sum otherwise. -/
theorem mix_channel_sum (s s2 : Engine) (acc a2 : Int × Int) (ch : Nat)
    (ht : s.volume_tables = build_volume_tables) (h : mix_channel s acc ch = some (s2, a2)) :
    s2.volume_tables = build_volume_tables ∧
    (∀ c, (s2.chan c).isample ≠ IDLE → (s.chan c).isample ≠ IDLE) ∧
    ((s.chan ch).isample = IDLE → a2 = acc) ∧
    (acc.1 - 128 ≤ a2.1 ∧ a2.1 ≤ acc.1 + 127) ∧ (acc.2 - 128 ≤ a2.2 ∧ a2.2 ≤ acc.2 + 127) := by
  unfold mix_channel at h
  by_cases hi : (s.chan ch).isample = IDLE
  · rw [if_pos hi] at h
    simp only [Option.some.injEq, Prod.mk.injEq] at h
    obtain ⟨rfl, rfl⟩ := h
    exact ⟨ht, fun c hc => hc, fun _ => rfl, ⟨by omega, by omega⟩, ⟨by omega, by omega⟩⟩
  · rw [if_neg hi] at h
    split at h
    · exact absurd h (by simp)
    · rename_i c1 a1 hv
      simp only [Option.some.injEq, Prod.mk.injEq] at h
      obtain ⟨rfl, rfl⟩ := h
      rw [ht] at hv
      obtain ⟨_, hcase⟩ := mix_voice_cases _ _ _ _ _ _ _ hv
      have hbusy : ∀ c, (upd s.chan ch c1 c).isample ≠ IDLE → (s.chan c).isample ≠ IDLE := by
        intro c hc
        by_cases e : c = ch
        · rw [e]; exact hi
        · rw [upd_other _ _ _ _ e] at hc
          exact hc
      refine ⟨ht, hbusy, fun hx => absurd hx hi, ?_⟩
      rcases hcase with ⟨_, _, _, rfl⟩ | ⟨_, _, _, rfl⟩ | ⟨_, _, d, b, ival, _, _, hiv, hsum⟩
      · exact ⟨⟨by omega, by omega⟩, ⟨by omega, by omega⟩⟩
      · exact ⟨⟨by omega, by omega⟩, ⟨by omega, by omega⟩⟩
      · obtain ⟨_, _, _, eiv⟩ := lutI_build_some _ _ _ hiv
        have hr := volume_entry_range (s.chan ch).volume (toSChar b + 128).toNat
        rw [← eiv] at hr
        rcases hsum with ⟨_, l, r, hl, hr1, rfl⟩ | ⟨_, rfl⟩
        · obtain ⟨_, _, _, el⟩ := lutI_build_some _ _ _ hl
          obtain ⟨_, _, _, er⟩ := lutI_build_some _ _ _ hr1
          have h1 := volume_entry_range (toUInt ((SSS_MAX_VOLUME : Int) - 1 - (s.chan ch).pan_pos))
            (ival + 128).toNat
          have h2 := volume_entry_range (s.chan ch).pan_pos (ival + 128).toNat
          rw [← el] at h1
          rw [← er] at h2
          exact ⟨⟨by simp only; omega, by simp only; omega⟩,
            ⟨by simp only; omega, by simp only; omega⟩⟩
        · exact ⟨⟨by simp only; omega, by simp only; omega⟩,
            ⟨by simp only; omega, by simp only; omega⟩⟩

/-- The channel loop of `mix` with the volume tables built: each sum moves by
at most 128 down and 127 up for every busy channel of the list. -/
theorem mix_channels_sum (l : List Nat) : ∀ (s s1 : Engine) (acc a1 : Int × Int),
    s.volume_tables = build_volume_tables → mix_channels s acc l = some (s1, a1) →
    (acc.1 - 128 * (busy_count s l : Int) ≤ a1.1 ∧ a1.1 ≤ acc.1 + 127 * (busy_count s l : Int)) ∧
    (acc.2 - 128 * (busy_count s l : Int) ≤ a1.2 ∧
      a1.2 ≤ acc.2 + 127 * (busy_count s l : Int)) := by
  induction l with
  | nil =>
    intro s s1 acc a1 _ h
    simp only [mix_channels, Option.some.injEq, Prod.mk.injEq] at h
    obtain ⟨_, rfl⟩ := h
    simp only [busy_count, List.countP_nil, Nat.cast_zero, mul_zero, sub_zero, add_zero,
      le_refl, and_self]
  | cons c cs ih =>
    intro s s1 acc a1 ht h
    simp only [mix_channels] at h
    split at h
    · exact absurd h (by simp)
    · rename_i s2 a2 h2
      obtain ⟨ht2, hmono, hidle, hb1, hb2⟩ := mix_channel_sum s s2 acc a2 c ht h2
      obtain ⟨k1, k2⟩ := ih s2 s1 a2 a1 ht2 h
      have hle : busy_count s2 cs ≤ busy_count s cs := by
        unfold busy_count
        apply List.countP_mono_left
        intro x _ hx
        simp only [decide_eq_true_eq] at hx ⊢
        exact hmono x hx
      by_cases hi : (s.chan c).isample = IDLE
      · have hcnt : busy_count s (c :: cs) = busy_count s cs := by
          unfold busy_count
          rw [List.countP_cons_of_neg]
          simp only [decide_eq_true_eq, not_not]
          exact hi
        rw [hcnt]
        rw [hidle hi] at k1 k2
        exact ⟨⟨by omega, by omega⟩, ⟨by omega, by omega⟩⟩
      · have hcnt : busy_count s (c :: cs) = busy_count s cs + 1 := by
          unfold busy_count
          rw [List.countP_cons_of_pos]
          simp only [decide_eq_true_eq]
          exact hi
        rw [hcnt]
        exact ⟨⟨by push_cast; omega, by push_cast; omega⟩, ⟨by push_cast; omega, by push_cast; omega⟩⟩
/-- The byte `mix` stores for a sum in -512..508: the mixed value
`(x >> 2) + 127` lies in -1..254; from -508 on the byte is the mixed value,
below it the mixed value is -1 and the byte is 255. -/
theorem mix_scale_range (x : Int) (h0 : -512 ≤ x) (h1 : x ≤ 508) :
    (-1 ≤ (x >>> (2 : Nat)) + 127 ∧ (x >>> (2 : Nat)) + 127 ≤ 254) ∧
    (-508 ≤ x → (mix_scale x : Int) = (x >>> (2 : Nat)) + 127) ∧
    (x < -508 → (x >>> (2 : Nat)) + 127 = -1 ∧ mix_scale x = 255) := by
  unfold mix_scale toUChar
  rw [Int.shiftRight_eq_div_pow]
  have e : ((2 ^ 2 : Nat) : Int) = 4 := by norm_num
  rw [e]
  refine ⟨⟨by omega, by omega⟩, fun h => ?_, fun h => ?_⟩
  · omega
  · have e1 : x / 4 + 127 = -1 := by omega
    rw [e1]
    exact ⟨rfl, by decide⟩

/-- C31 (headroom), amended: in every reachable initialised state with at most
four busy channels the channel loop of `mix` runs and leaves sums `l` and `r`
in -512..508, so each mixed value `(l >> 2) + 127` lies in -1..254; the byte
stored is the mixed value when the sum is at least -508, and a sum below -508
gives the mixed value -1 and the byte 255. -/
theorem headroom (s : Engine) (hr : Reachable s) (hi : s.initialized = true)
    (hb : busy_count s (List.range SSS_MAX_CHANNELS) ≤ 4) :
    ∃ s1 l r, mix_channels s (0, 0) (List.range SSS_MAX_CHANNELS) = some (s1, l, r) ∧
      (-1 ≤ (l >>> (2 : Nat)) + 127 ∧ (l >>> (2 : Nat)) + 127 ≤ 254) ∧
      (-1 ≤ (r >>> (2 : Nat)) + 127 ∧ (r >>> (2 : Nat)) + 127 ≤ 254) ∧
      (-508 ≤ l → (mix_scale l : Int) = (l >>> (2 : Nat)) + 127) ∧
      (-508 ≤ r → (mix_scale r : Int) = (r >>> (2 : Nat)) + 127) ∧
      (l < -508 → (l >>> (2 : Nat)) + 127 = -1 ∧ mix_scale l = 255) ∧
      (r < -508 → (r >>> (2 : Nat)) + 127 = -1 ∧ mix_scale r = 255) := by
  obtain ⟨s1, a1, h1⟩ := mix_channels_runs (List.range SSS_MAX_CHANNELS) s (0, 0) hr.engine_ok hi
    (fun ch hm => List.mem_range.mp hm)
  obtain ⟨⟨l0, l1⟩, ⟨r0, r1⟩⟩ := mix_channels_sum _ s s1 (0, 0) a1 (hr.engine_ok.2 hi).1 h1
  have hl := mix_scale_range a1.1 (by omega) (by omega)
  have hrr := mix_scale_range a1.2 (by omega) (by omega)
  exact ⟨s1, a1.1, a1.2, h1, hl.1, hrr.1, hl.2.1, hrr.2.1, hl.2.2, hrr.2.2⟩

set_option maxRecDepth 100000 in
/-- C31 (witness): the state with one voice on a sample of zero bytes. -/
theorem headroom_witness :
    zero_voice_state.initialized = true ∧
    busy_count zero_voice_state (List.range SSS_MAX_CHANNELS) ≤ 4 ∧
    ∃ s1 l r, mix_channels zero_voice_state (0, 0) (List.range SSS_MAX_CHANNELS) =
        some (s1, l, r) ∧
      (-1 ≤ (l >>> (2 : Nat)) + 127 ∧ (l >>> (2 : Nat)) + 127 ≤ 254) ∧
      (-1 ≤ (r >>> (2 : Nat)) + 127 ∧ (r >>> (2 : Nat)) + 127 ≤ 254) ∧
      (-508 ≤ l → (mix_scale l : Int) = (l >>> (2 : Nat)) + 127) ∧
      (-508 ≤ r → (mix_scale r : Int) = (r >>> (2 : Nat)) + 127) ∧
      (l < -508 → (l >>> (2 : Nat)) + 127 = -1 ∧ mix_scale l = 255) ∧
      (r < -508 → (r >>> (2 : Nat)) + 127 = -1 ∧ mix_scale r = 255) :=
  ⟨by decide, by decide, headroom zero_voice_state zero_voice_state_reachable (by decide)
    (by decide)⟩

set_option maxRecDepth 100000 in
/-- C31, counterexample: four voices on a sample of bytes 127 at the volume
`sss_init` sets, in mono, are the only busy channels; each adds -128 to the
sum, the mixed value is `(-512 >> 2) + 127 = -1`, outside 0..255, and the byte
stored is 255. -/
theorem headroom_wraps :
    Reachable loud_voices_state ∧ loud_voices_state.initialized = true ∧
    busy_count loud_voices_state (List.range SSS_MAX_CHANNELS) = 4 ∧
    (mix_channels loud_voices_state (0, 0) (List.range SSS_MAX_CHANNELS)).map (fun x => x.2) =
      some (-512, 0) ∧
    ((-512 : Int) >>> (2 : Nat)) + 127 = -1 ∧ mix_scale (-512) = 255 :=
  ⟨loud_voices_state_reachable, by decide, by decide, by decide, by decide, by decide⟩

/-- The data offset the mixer computes for a voice at virtual offset `k` of
virtual size `V`, while `k * size` is inside the range of a `long`. -/
theorem mix_offset_product (psample : SAMPLE_DESC) (c : CHANNEL_DESC) (V k : Nat)
    (hV : 1 ≤ V) (hvs : c.vsize = V) (hk : c.voffset = k)
    (hprod : k * psample.size < 2147483648) :
    mix_offset psample c = k * psample.size / V := by
  have hq : k * psample.size / V ≤ k * psample.size := Nat.div_le_self _ _
  unfold mix_offset
  rw [hk, hvs]
  by_cases h0 : k = 0
  · subst h0
    simp only [Nat.cast_zero, zero_mul, Nat.zero_div]
    have e : toLong 0 = 0 := by decide
    rw [e, Int.zero_tdiv]
    decide
  · have hs : psample.size ≤ k * psample.size := Nat.le_mul_of_pos_left _ (by omega)
    rw [toLong_small psample.size (by omega)]
    have e : (k : Int) * (psample.size : Int) = ((k * psample.size : Nat) : Int) := by
      push_cast
      rfl
    rw [e, toLong_small _ hprod, Int.tdiv_eq_ediv (by omega) (by omega)]
    have e2 : ((k * psample.size : Nat) : Int) / (V : Int) = ((k * psample.size / V : Nat) : Int) := by
      push_cast
      rfl
    rw [e2]
    exact toUInt_small _ (by omega)

/-- The body of the channel loop on a voice whose data offset is not at the
end of the sample or of its loop: the byte at that offset is merged and the
virtual offset moves on by 1. -/
theorem mix_voice_read (st : Nat) (psample : SAMPLE_DESC) (c : CHANNEL_DESC) (d : List Int)
    (k : Nat) (hd : psample.data = some d)
    (hlen : d.length = psample.size) (hne : c.vsize ≠ 0) (hk : c.voffset = k)
    (hk1 : k + 1 < 2147483648) (hvol : c.volume ≤ 15) (hpan : c.pan_pos ≤ 15)
    (hnot : ¬ mix_at_end psample (mix_offset psample c)) :
    ∃ b, d[mix_offset psample c]? = some b ∧
      ∀ acc, mix_voice build_volume_tables st psample c acc =
        some ({ c with voffset := (k : Int) + 1 },
          if st ≠ 0 then
            (acc.1 + volume_entry (15 - c.pan_pos)
                (volume_entry c.volume (toSChar b + 128).toNat + 128).toNat,
              acc.2 + volume_entry c.pan_pos
                (volume_entry c.volume (toSChar b + 128).toNat + 128).toNat)
          else (acc.1 + volume_entry c.volume (toSChar b + 128).toNat, acc.2)) := by
  have hin : mix_offset psample c < d.length := by
    unfold mix_at_end at hnot
    rw [hlen]
    by_contra hx
    exact hnot (Or.inl (by omega))
  have hget : d[mix_offset psample c]? = some (d.get ⟨mix_offset psample c, hin⟩) :=
    List.getElem?_eq_getElem hin
  refine ⟨_, hget, fun acc => ?_⟩
  have hb := toSChar_range (d.get ⟨mix_offset psample c, hin⟩)
  have hv := volume_entry_range c.volume
    (toSChar (d.get ⟨mix_offset psample c, hin⟩) + 128).toNat
  unfold mix_voice
  rw [if_neg hne, if_neg hnot, hd]
  simp only
  rw [hget]
  simp only
  rw [lutI_build c.volume _ (by omega) (by omega) (by omega)]
  simp only
  have hlong : toLong ((k : Int) + 1) = (k : Int) + 1 := by
    have := toLong_small (k + 1) (by omega)
    rw [Nat.cast_add, Nat.cast_one] at this
    exact this
  rw [hk, hlong]
  by_cases hst : st ≠ 0
  · rw [if_pos hst, if_pos hst, toUInt_pan c.pan_pos hpan,
      lutI_build (15 - c.pan_pos) _ (by omega) (by omega) (by omega),
      lutI_build c.pan_pos _ (by omega) (by omega) (by omega)]
  · rw [if_neg hst, if_neg hst]
/-- What the mixer does at a loop wrap, for every pitch: when it finds a voice
of virtual size `V ≥ 1` at the end of a looping sample (`loop_size > 2`,
`loop_start + loop_size ≤ size`, `loop_start * size < 2^31`), it sets the
virtual offset to `loop_start` and adds nothing; the data offset of the next
frame is `loop_start * size / V`.  If this offset is below the end of the loop
the byte there is merged in the next frame; otherwise the next frame wraps
again and adds nothing.  The offset is `loop_start` when `V = size`, and below
`loop_start`, so outside the loop region, when `V > size` and
`loop_start > 0`. -/
theorem loop_reentry (st : Nat) (psample : SAMPLE_DESC) (c : CHANNEL_DESC) (d : List Int)
    (V : Nat) (hd : psample.data = some d) (hlen : d.length = psample.size)
    (hl : psample.loop_size > 2) (hreg : psample.loop_start + psample.loop_size ≤ psample.size)
    (hsz : psample.size < W32) (hV : 1 ≤ V) (hvs : c.vsize = V)
    (hprod : psample.loop_start * psample.size < 2147483648)
    (hvol : c.volume ≤ 15) (hpan : c.pan_pos ≤ 15)
    (hend : mix_at_end psample (mix_offset psample c)) :
    (∀ acc, mix_voice build_volume_tables st psample c acc =
      some ({ c with voffset := (psample.loop_start : Int) }, acc)) ∧
    mix_offset psample { c with voffset := (psample.loop_start : Int) } =
      psample.loop_start * psample.size / V ∧
    (psample.loop_start * psample.size / V < psample.loop_start + psample.loop_size →
      ∃ b, d[psample.loop_start * psample.size / V]? = some b ∧
        ∀ acc, mix_voice build_volume_tables st psample
            { c with voffset := (psample.loop_start : Int) } acc =
          some ({ c with voffset := (psample.loop_start : Int) + 1 },
            if st ≠ 0 then
              (acc.1 + volume_entry (15 - c.pan_pos)
                  (volume_entry c.volume (toSChar b + 128).toNat + 128).toNat,
                acc.2 + volume_entry c.pan_pos
                  (volume_entry c.volume (toSChar b + 128).toNat + 128).toNat)
            else (acc.1 + volume_entry c.volume (toSChar b + 128).toNat, acc.2))) ∧
    (psample.loop_start + psample.loop_size ≤ psample.loop_start * psample.size / V →
      ∀ acc, mix_voice build_volume_tables st psample
          { c with voffset := (psample.loop_start : Int) } acc =
        some ({ c with voffset := (psample.loop_start : Int) }, acc)) ∧
    (V = psample.size → psample.loop_start * psample.size / V = psample.loop_start) ∧
    (psample.size < V → 0 < psample.loop_start →
      psample.loop_start * psample.size / V < psample.loop_start) := by
  have hmod : (psample.loop_start + psample.loop_size) % W32 =
      psample.loop_start + psample.loop_size :=
    Nat.mod_eq_of_lt (by simp only [W32] at hsz ⊢; omega)
  clear hsz
  have hne : ¬ c.vsize = 0 := by omega
  have hls : psample.loop_start + 1 < 2147483648 := by
    by_cases h0 : psample.loop_start = 0
    · omega
    · have : psample.size ≤ psample.loop_start * psample.size :=
        Nat.le_mul_of_pos_left _ (by omega)
      omega
  have hpos : psample.loop_size > 0 := lt_trans (by decide : 0 < 2) hl
  have hlong : toLong (psample.loop_start : Int) = psample.loop_start :=
    toLong_small _ (by omega)
  have hoff := mix_offset_product psample { c with voffset := (psample.loop_start : Int) } V
    psample.loop_start hV hvs rfl hprod
  refine ⟨fun acc => ?_, hoff, fun hlt => ?_, fun hge acc => ?_, fun e => ?_, fun hgt hp => ?_⟩
  · unfold mix_voice
    rw [if_neg hne, if_pos hend, if_pos hl, hlong]
  · have hnot : ¬ mix_at_end psample
        (mix_offset psample { c with voffset := (psample.loop_start : Int) }) := by
      unfold mix_at_end
      rw [hoff, hmod]
      exact fun hx => hx.elim
        (fun h => absurd h (Nat.not_le.mpr (lt_of_lt_of_le hlt hreg)))
        (fun h => absurd h.1 (Nat.not_le.mpr hlt))
    obtain ⟨b, hb, hrun⟩ := mix_voice_read st psample
      { c with voffset := (psample.loop_start : Int) } d psample.loop_start hd hlen hne rfl
      hls hvol hpan hnot
    rw [hoff] at hb
    exact ⟨b, hb, hrun⟩
  · have hat : mix_at_end psample
        (mix_offset psample { c with voffset := (psample.loop_start : Int) }) := by
      unfold mix_at_end
      rw [hoff, hmod]
      exact Or.inr ⟨hge, hpos⟩
    unfold mix_voice
    rw [if_neg hne, if_pos hat, if_pos hl, hlong]
  · rw [e]
    exact Nat.mul_div_cancel _ (lt_of_lt_of_le hpos (le_trans (Nat.le_add_left _ _) hreg))
  · apply Nat.div_lt_of_lt_mul
    rw [Nat.mul_comm V]
    exact Nat.mul_lt_mul_of_pos_left hgt hp

set_option maxRecDepth 100000 in
/-- The loop wrap of `looping_voice_state`: a voice of virtual size 22 on a
sample of four bytes, found at the virtual offset 22. -/
theorem loop_reentry_witness :
    (looping_voice_state.samples 0).data = some [10, 20, 30, 40] ∧
    (looping_voice_state.chan 0).vsize = ((22 : Nat) : Int) ∧
    mix_at_end (looping_voice_state.samples 0) (mix_offset (looping_voice_state.samples 0)
      { (looping_voice_state.chan 0) with voffset := 22 }) ∧
    mix_offset (looping_voice_state.samples 0)
      { (looping_voice_state.chan 0) with
        voffset := ((looping_voice_state.samples 0).loop_start : Int) } =
      (looping_voice_state.samples 0).loop_start * (looping_voice_state.samples 0).size / 22 :=
  ⟨by decide, by decide, by decide,
    (loop_reentry 1 (looping_voice_state.samples 0)
      { (looping_voice_state.chan 0) with voffset := 22 } [10, 20, 30, 40] 22
      (by decide) (by decide) (by decide) (by decide) (by decide) (by decide) (by decide)
      (by decide) (by decide) (by decide) (by decide)).2.1⟩

set_option maxRecDepth 100000 in
/-- C34 (loop re-entry point; the code at the failing input): a sample of four
bytes whose loop is the bytes 1..3, recorded at 8000 Hz, played at pitch 8000
on the 44.1 kHz engine (virtual size 22).  The 23rd frame wraps the voice: its virtual offset is then `loop_start`
= 1.  The next frame reads the data offset `1 * 4 / 22 = 0`, below the loop
region 1..3, and merges the byte 10 stored there as the first frame did; the
byte 20 at the loop start gives other sums. -/
theorem loop_reentry_before_region :
    Reachable looping_voice_state ∧
    (looping_voice_state.samples 0).data = some [10, 20, 30, 40] ∧
    (looping_voice_state.samples 0).loop_start = 1 ∧
    (looping_voice_state.samples 0).loop_size = 3 ∧
    (looping_voice_state.samples 0).size = 4 ∧
    (looping_voice_state.chan 0).vsize = 22 ∧ (looping_voice_state.chan 0).voffset = 0 ∧
    (voice_frames build_volume_tables 1 (looping_voice_state.samples 0) 23
      (looping_voice_state.chan 0)).map (fun c => (c.voffset, c.vsize, c.isample)) =
        some (1, 22, 0) ∧
    mix_offset (looping_voice_state.samples 0)
      { (looping_voice_state.chan 0) with voffset := 1 } = 0 ∧
    (mix_voice build_volume_tables 1 (looping_voice_state.samples 0)
      { (looping_voice_state.chan 0) with voffset := 1 } (0, 0)).map
        (fun x => (x.1.voffset, x.2)) = some (2, 5, 6) ∧
    (mix_voice build_volume_tables 1 (looping_voice_state.samples 0)
      (looping_voice_state.chan 0) (0, 0)).map (fun x => (x.1.voffset, x.2)) = some (1, 5, 6) ∧
    (mix_voice build_volume_tables 1 (looping_voice_state.samples 0)
      { (looping_voice_state.chan 0) with voffset := 6 } (0, 0)).map
        (fun x => (x.1.voffset, x.2)) = some (7, 10, 11) :=
  ⟨Reachable.sample_play _ 0 0 8000
      (Reachable.sample_add engine_44s _ [10, 20, 30, 40] 4 1 3 8000 0 0
        engine_44s_reachable rfl),
    by decide, by decide, by decide, by decide, by decide, by decide, by decide, by decide,
    by decide, by decide, by decide⟩

/-- The first frame of a buffer polls the music at the song counter: unless
no song plays or the song ends, the step deadline is at least the song counter
after it. -/
theorem mix_frame_first (fuel : Nat) (s s1 : Engine)
    (h : mix_frame fuel s 0 = Outcome.done s1) (hn : ¬ NoSong s)
    (hm : s1.song.playmode ≠ PLAYMODE_STOPPED) :
    s.song_counter % W32 ≤ s1.song.song_pos := by
  unfold mix_frame at h
  cases hp : mix_poll fuel s 0 with
  | fault => rw [hp] at h; exact absurd h (by simp)
  | timeout => rw [hp] at h; exact absurd h (by simp)
  | done sp =>
    rw [hp] at h
    simp only at h
    cases ho : mix_output sp 0 with
    | none => rw [ho] at h; exact absurd h (by simp)
    | some s2 =>
      rw [ho] at h
      simp only [Outcome.done.injEq] at h
      subst h
      obtain ⟨f, b, e⟩ := mix_output_shape sp s2 0 ho
      have hsong : s2.song = sp.song := by rw [e]
      rw [hsong] at hm ⊢
      unfold mix_poll at hp
      rw [if_pos rfl, Nat.zero_div, Nat.add_zero] at hp
      have e2 : music_poll fuel s (s.song_counter % W32) =
          music_poll_loop fuel (s.song_counter % W32) s := if_neg hn
      rw [e2] at hp
      have hx := music_poll_loop_exit _ _ _ _ hp
      by_contra hlt
      exact hx ⟨Nat.lt_of_not_le hlt, hm⟩

/-- The frame loop of `mix` on the looping song, with what it keeps: the
engine stays consistent and initialised, the song is still the looping song,
the mode and the song counter are kept, and the step deadline does not
decrease; after a frame loop that starts at frame 0 of a playing song it is at
least the song counter. -/
theorem loop_song_frames_inv (D fuel p0 c0 N : Nat) (hD : 1 ≤ D)
    (hT : ∀ j, j < N → p0 < (c0 + j) % W32 →
      (c0 + j) % W32 + D ≤ W32 ∧ (c0 + j) % W32 ≤ fuel) (n : Nat) :
    ∀ (k : Nat) (s : Engine), EngineOK s → s.initialized = true → LoopInv D s →
    s.song.playmode ≠ PLAYMODE_STOPPED → s.song_counter = c0 → p0 ≤ s.song.song_pos →
    k + n ≤ N → (k + n) * mix_stride s ≤ s.bfr_size →
    ∃ s1, mix_frames fuel n (k * mix_stride s) s = Outcome.done s1 ∧
      EngineOK s1 ∧ s1.initialized = true ∧ LoopInv D s1 ∧
      s1.song.playmode = s.song.playmode ∧ s1.song_counter = c0 ∧
      s.song.song_pos ≤ s1.song.song_pos ∧
      (k = 0 → 0 < n → ¬ NoSong s → c0 % W32 ≤ s1.song.song_pos) := by
  induction n with
  | zero =>
    intro k s hok hi hinv _ hc _ _ _
    exact ⟨s, rfl, hok, hi, hinv, rfl, hc, le_refl _, fun _ h0 => absurd h0 (lt_irrefl 0)⟩
  | succ n ih =>
    intro k s hok hi hinv hmode hc hp hN hu
    have hu1 : (k + 1) * mix_stride s ≤ s.bfr_size :=
      le_trans (Nat.mul_le_mul_right _ (by omega)) hu
    obtain ⟨s1, h1, ok1, i1, inv1, m1, c1, p1, st1, b1⟩ := loop_song_frame D fuel hD s k hok hi
      hinv hmode hu1 (fun hlt => by
        rw [hc] at hlt ⊢
        exact hT k (by omega) (lt_of_le_of_lt hp hlt))
    have hu2 : (k + 1 + n) * mix_stride s1 ≤ s1.bfr_size := by
      rw [st1, b1, Nat.add_right_comm k 1 n, Nat.add_assoc k n 1]
      exact hu
    obtain ⟨s2, h2, ok2, i2, inv2, m2, c2, p2, _⟩ := ih (k + 1) s1 ok1 i1 inv1
      (by rw [m1]; exact hmode) (c1.trans hc) (le_trans hp p1) (by omega) hu2
    refine ⟨s2, ?_, ok2, i2, inv2, m2.trans m1, c2, le_trans p1 p2, fun hk _ hn => ?_⟩
    swap
    · rw [hk, Nat.zero_mul] at h1
      have hf := mix_frame_first fuel s s1 h1 hn (by rw [m1]; exact hmode)
      rw [hc] at hf
      exact le_trans hf p2
    simp only [mix_frames, h1]
    have e : k * mix_stride s + mix_stride s1 = (k + 1) * mix_stride s1 := by
      rw [st1, Nat.add_mul, Nat.one_mul]
    rw [e]
    exact h2


/-- One buffer of `mix` on the looping song while it plays, rewinds or
fast-forwards: `mix` returns; its frame loop keeps the engine consistent, the
song, the mode and the song counter, and leaves the step deadline at or above
the song counter. -/
theorem loop_song_buffer (D fuel : Nat) (hD : 1 ≤ D) (s : Engine) (hok : EngineOK s)
    (hi : s.initialized = true) (hinv : LoopInv D s)
    (hmode : s.song.playmode ≠ PLAYMODE_STOPPED ∧ s.song.playmode ≠ PLAYMODE_PAUSED)
    (hcount : 0 < mix_frame_count s)
    (hT : ∀ j, j < mix_frame_count s → s.song.song_pos < (s.song_counter + j) % W32 →
      (s.song_counter + j) % W32 + D ≤ W32 ∧ (s.song_counter + j) % W32 ≤ fuel) :
    ∃ sf, mix_frames fuel (mix_frame_count s) 0 s = Outcome.done sf ∧
      mix fuel s = Outcome.done (mix_advance sf) ∧
      EngineOK sf ∧ sf.initialized = true ∧ LoopInv D sf ∧ Sequenced s sf ∧
      sf.song.playmode = s.song.playmode ∧ sf.song_counter = s.song_counter ∧
      s.song_counter % W32 ≤ sf.song.song_pos := by
  have hf : FormatOK s := (hok.2 hi).2.1
  have hmul := mix_frame_count_mul s hf.buffer.2
  have hno : ¬ NoSong s := by
    unfold NoSong
    rw [hinv.1]
    intro hx
    rcases hx with hx | hx | hx
    · exact absurd hx (by decide)
    · exact hmode.2 hx
    · exact hmode.1 hx
  obtain ⟨sf, h1, ok1, i1, inv1, m1, c1, _, p1⟩ := loop_song_frames_inv D fuel s.song.song_pos
    s.song_counter (mix_frame_count s) hD hT (mix_frame_count s) 0 s hok hi hinv hmode.1 rfl
    (le_refl _) (by omega) (by rw [Nat.zero_add, hmul])
  rw [Nat.zero_mul] at h1
  refine ⟨sf, h1, ?_, ok1, i1, inv1, mix_frames_seq _ _ _ _ _ h1, m1, c1, p1 rfl hcount hno⟩
  unfold mix
  rw [h1]
theorem Sequenced.seq_device {s s1 : Engine} (h : Sequenced s s1) :
    s1.whdr_done = s.whdr_done ∧ s1.bfr_toggle = s.bfr_toggle ∧ s1.bfr_size = s.bfr_size ∧
    s1.is_stereo = s.is_stereo ∧ s1.song.npatterns = s.song.npatterns := by
  obtain ⟨f, io, ip, i, sp, sd, pm, n, b, rfl, _⟩ := h
  exact ⟨rfl, rfl, rfl, rfl, rfl⟩

/-- The update that ends `mix` in PLAYING or FAST_FORWARDING mode changes the
song counter only. -/
theorem mix_advance_running (s : Engine) (a : Nat)
    (h : (s.song.playmode = PLAYMODE_PLAYING ∧ a = s.bfr_size / mix_stride s) ∨
      (s.song.playmode = PLAYMODE_FASTFORWARDING ∧ a = (s.bfr_size * 4) % W32 / mix_stride s)) :
    mix_advance s = { s with song_counter := (s.song_counter + a) % W32 } := by
  rcases h with ⟨h, rfl⟩ | ⟨h, rfl⟩
  · exact mix_advance_playing s h
  · exact mix_advance_forward s h

/-- A timer poll on the looping song at 44.1 kHz stereo in PLAYING or
FAST_FORWARDING mode, with the buffer of the toggle free: the poll returns,
the song counter has grown by the 22050 frames of the buffer (four times that
in FAST_FORWARDING), the step deadline is at least the old song counter, and
the buffer of the toggle is marked busy. -/
theorem loop_run_poll (s : Engine) (c t a : Nat) (h : LoopRun s c t)
    (hmode : (s.song.playmode = PLAYMODE_PLAYING ∧ a = 22050) ∨
      (s.song.playmode = PLAYMODE_FASTFORWARDING ∧ a = 88200))
    (hw : s.whdr_done t = true) (hc : c ≤ 1000000) :
    ∃ s1, sss_poll 2000000 s = Outcome.done s1 ∧ LoopRun s1 (c + a) ((t + 1) &&& 1) ∧
      s1.song.playmode = s.song.playmode ∧ c ≤ s1.song.song_pos ∧
      s1.whdr_done = upd s.whdr_done t false := by
  obtain ⟨hr, hi, hinv, hn, hb, hst, hcn, htg⟩ := h
  have hok : EngineOK { s with whdr_done := upd s.whdr_done s.bfr_toggle false } := hr.engine_ok
  have hinv1 : LoopInv 5265 { s with whdr_done := upd s.whdr_done s.bfr_toggle false } := hinv
  have hstr : mix_stride { s with whdr_done := upd s.whdr_done s.bfr_toggle false } = 2 := by
    unfold mix_stride
    rw [if_pos (by rw [show ({ s with whdr_done := upd s.whdr_done s.bfr_toggle false } :
      Engine).is_stereo = 1 from hst]; decide)]
  have hcnt : mix_frame_count { s with whdr_done := upd s.whdr_done s.bfr_toggle false } =
      22050 := by
    unfold mix_frame_count
    rw [hstr, show ({ s with whdr_done := upd s.whdr_done s.bfr_toggle false } :
      Engine).bfr_size = 44100 from hb]
  have hm : s.song.playmode ≠ PLAYMODE_STOPPED ∧ s.song.playmode ≠ PLAYMODE_PAUSED := by
    rcases hmode with ⟨e, _⟩ | ⟨e, _⟩ <;> rw [e] <;> exact ⟨by decide, by decide⟩
  obtain ⟨sf, _, h2, _, i1, inv1, seq, m1, c1, p1⟩ := loop_song_buffer 5265 2000000 (by decide)
    { s with whdr_done := upd s.whdr_done s.bfr_toggle false } hok hi hinv1 hm
    (by rw [hcnt]; decide) (fun j hj _ => by
      rw [hcnt] at hj
      have e : ({ s with whdr_done := upd s.whdr_done s.bfr_toggle false } :
        Engine).song_counter = c := hcn
      rw [e, Nat.mod_eq_of_lt (by simp only [W32]; omega)]
      simp only [W32]
      omega)
  obtain ⟨d1, d2, d3, d4, d5⟩ := seq.seq_device
  have hsf : mix_stride sf = 2 := by
    unfold mix_stride
    rw [if_pos (by rw [d4]; rw [show ({ s with whdr_done := upd s.whdr_done s.bfr_toggle false } :
      Engine).is_stereo = 1 from hst]; decide)]
  have hbf : sf.bfr_size = 44100 := d3.trans hb
  have hadv := mix_advance_running sf a (by
    rw [m1, hsf, hbf]
    rcases hmode with ⟨e, rfl⟩ | ⟨e, rfl⟩
    · exact Or.inl ⟨e, by decide⟩
    · exact Or.inr ⟨e, by decide⟩)
  have hpoll : sss_poll 2000000 s =
      Outcome.done { (mix_advance sf) with bfr_toggle := ((mix_advance sf).bfr_toggle + 1) &&& 1 }
      := by
    unfold sss_poll
    rw [if_neg (by rw [htg, hw]; decide), h2]
  refine ⟨_, hpoll, ⟨Reachable.poll s _ 2000000 hr hi hpoll, ?_, ?_, ?_, ?_, ?_, ?_, ?_⟩, ?_, ?_,
    ?_⟩
  · rw [hadv]
    exact i1
  · rw [hadv]
    exact inv1
  · rw [hadv]
    exact d5.trans hn
  · rw [hadv]
    exact hbf
  · rw [hadv]
    exact d4.trans hst
  · rw [hadv]
    show (sf.song_counter + a) % W32 = c + a
    have e : ({ s with whdr_done := upd s.whdr_done s.bfr_toggle false } :
      Engine).song_counter = c := hcn
    rw [c1, e]
    have ha : a ≤ 88200 := by
      rcases hmode with ⟨_, rfl⟩ | ⟨_, rfl⟩ <;> decide
    exact Nat.mod_eq_of_lt (by simp only [W32]; omega)
  · rw [hadv]
    show (sf.bfr_toggle + 1) &&& 1 = (t + 1) &&& 1
    rw [d2]
    show (s.bfr_toggle + 1) &&& 1 = (t + 1) &&& 1
    rw [htg]
  · rw [hadv]
    exact m1
  · rw [hadv]
    have e : ({ s with whdr_done := upd s.whdr_done s.bfr_toggle false } :
      Engine).song_counter = c := hcn
    rw [e, Nat.mod_eq_of_lt (by simp only [W32]; omega)] at p1
    exact p1
  · rw [hadv]
    show sf.whdr_done = upd s.whdr_done t false
    rw [d1, ← htg]
/-- The transport commands that only set the mode on a loaded song: REWIND,
FAST_FORWARD, and PLAY in FAST_FORWARDING mode. -/
theorem command_sets_mode (s : Engine) (cmd pm : Nat) (hi : s.initialized = true)
    (hn : 1 ≤ s.song.npatterns)
    (hcmd : (cmd = SSS_CMD_MUSIC_FASTFORWARD ∧ pm = PLAYMODE_FASTFORWARDING) ∨
      (cmd = SSS_CMD_MUSIC_REWIND ∧ pm = PLAYMODE_REWINDING) ∨
      (cmd = SSS_CMD_MUSIC_PLAY ∧ pm = PLAYMODE_PLAYING ∧
        s.song.playmode = PLAYMODE_FASTFORWARDING)) :
    sss_music_command s cmd = { s with song := { s.song with playmode := pm } } := by
  rcases hcmd with ⟨rfl, rfl⟩ | ⟨rfl, rfl⟩ | ⟨rfl, rfl, hm⟩
  · exact command_fastforward s hi hn
  · exact command_rewind s hi hn
  · rw [command_play s hi hn]
    exact music_play_resume s hn (Or.inr (Or.inr hm))

theorem LoopRun.run_command {s : Engine} {c t : Nat} (h : LoopRun s c t) (cmd pm : Nat)
    (hcmd : (cmd = SSS_CMD_MUSIC_FASTFORWARD ∧ pm = PLAYMODE_FASTFORWARDING) ∨
      (cmd = SSS_CMD_MUSIC_REWIND ∧ pm = PLAYMODE_REWINDING) ∨
      (cmd = SSS_CMD_MUSIC_PLAY ∧ pm = PLAYMODE_PLAYING ∧
        s.song.playmode = PLAYMODE_FASTFORWARDING)) :
    LoopRun (sss_music_command s cmd) c t ∧ (sss_music_command s cmd).song.playmode = pm ∧
    (sss_music_command s cmd).song.song_pos = s.song.song_pos ∧
    (sss_music_command s cmd).whdr_done = s.whdr_done := by
  obtain ⟨hr, hi, hinv, hn, hb, hst, hcn, htg⟩ := h
  have hreach : Reachable (sss_music_command s cmd) := Reachable.command s cmd hr
  have e := command_sets_mode s cmd pm hi (by omega) hcmd
  rw [e] at hreach ⊢
  exact ⟨⟨hreach, hi, hinv, hn, hb, hst, hcn, htg⟩, rfl, rfl, rfl⟩

theorem LoopRun.run_device {s : Engine} {c t : Nat} (h : LoopRun s c t) (u : Nat) :
    LoopRun (device_done s u) c t :=
  ⟨Reachable.device s u h.1, h.2.1, h.2.2.1, h.2.2.2.1, h.2.2.2.2.1, h.2.2.2.2.2.1,
    h.2.2.2.2.2.2.1, h.2.2.2.2.2.2.2⟩

theorem after_poll_done (s s1 : Engine) (h : sss_poll 2000000 s = Outcome.done s1) :
    after_poll s = s1 := by
  unfold after_poll
  rw [h]
  rfl

set_option maxRecDepth 100000 in
theorem playing_loop_run :
    LoopRun playing_loop 0 0 ∧ playing_loop.whdr_done 0 = true ∧
    playing_loop.whdr_done 1 = true :=
  ⟨⟨playing_loop_reachable, by decide, playing_loop_facts.1, by decide, by decide, by decide,
    by decide, by decide⟩, by decide, by decide⟩

/-- The state in which REWIND is issued after two buffers of FAST_FORWARD and
one of PLAY: the mode is REWINDING, the song counter is 198450, and the step
deadline is at least 176400, the song counter at the start of the last
buffer. -/
theorem rewind_start_facts :
    LoopRun rewind_start 198450 1 ∧ rewind_start.song.playmode = PLAYMODE_REWINDING ∧
    176400 ≤ rewind_start.song.song_pos := by
  obtain ⟨h0, w0, w1⟩ := playing_loop_run
  obtain ⟨ha, ma, _, wa⟩ := h0.run_command SSS_CMD_MUSIC_FASTFORWARD PLAYMODE_FASTFORWARDING
    (Or.inl ⟨rfl, rfl⟩)
  obtain ⟨s1, p1, h1, m1, _, wd1⟩ := loop_run_poll _ 0 0 88200 ha (Or.inr ⟨ma, rfl⟩)
    (by rw [wa]; exact w0) (by decide)
  have e1 := after_poll_done _ s1 p1
  have t1 : (0 + 1) &&& 1 = 1 := by decide
  rw [t1] at h1
  obtain ⟨s2, p2, h2, m2, _, wd2⟩ := loop_run_poll s1 (0 + 88200) 1 88200 h1
    (Or.inr ⟨m1.trans ma, rfl⟩) (by rw [wd1, upd_other _ _ _ _ (by decide), wa]; exact w1)
    (by decide)
  have e2 := after_poll_done _ s2 p2
  have t2 : (1 + 1) &&& 1 = 0 := by decide
  rw [t2] at h2
  obtain ⟨hd, md, _, wdd⟩ := (h2.run_device 0).run_command SSS_CMD_MUSIC_PLAY PLAYMODE_PLAYING
    (Or.inr (Or.inr ⟨rfl, rfl, m2.trans (m1.trans ma)⟩))
  obtain ⟨s3, p3, h3, m3, q3, _⟩ := loop_run_poll _ (0 + 88200 + 88200) 0 22050 hd
    (Or.inl ⟨md, rfl⟩) (by rw [wdd]; exact upd_same s2.whdr_done 0 true) (by decide)
  have e3 := after_poll_done _ s3 p3
  rw [t1] at h3
  obtain ⟨h4, m4, q4, _⟩ := h3.run_command SSS_CMD_MUSIC_REWIND PLAYMODE_REWINDING
    (Or.inr (Or.inl ⟨rfl, rfl⟩))
  have eq : rewind_start = sss_music_command s3 SSS_CMD_MUSIC_REWIND := by
    unfold rewind_start
    simp only
    rw [e1, e2, e3]
  rw [eq]
  exact ⟨h4, m4, by rw [q4]; exact q3⟩
/-- The update that ends `mix` in REWINDING mode when the song counter is
above four times the frames of the buffer: the song counter goes back by that
number and the step deadline is set from the new song counter. -/
theorem mix_advance_rewinding (s : Engine) (hm : s.song.playmode = PLAYMODE_REWINDING)
    (hgt : s.song_counter > (s.bfr_size * 4) % W32 / mix_stride s) :
    (mix_advance s).song.playmode = PLAYMODE_REWINDING ∧
    (mix_advance s).song_counter = s.song_counter - (s.bfr_size * 4) % W32 / mix_stride s ∧
    (mix_advance s).song.song_pos =
      (if s.song_counter - (s.bfr_size * 4) % W32 / mix_stride s > s.bfr_size then
        s.song_counter - (s.bfr_size * 4) % W32 / mix_stride s - s.bfr_size
      else 0) := by
  unfold mix_advance
  rw [if_neg (by rw [hm]; decide), if_neg (by rw [hm]; decide), if_pos hm, if_pos hgt]
  exact ⟨hm, rfl, rfl⟩

/-- What a buffer of `mix` that ends in REWINDING mode above the start of the
song leaves, in terms of the state before the buffer. -/
theorem rewinding_buffer_result (fuel : Nat) (s sf : Engine) (hf : FormatOK s)
    (hfr : mix_frames fuel (mix_frame_count s) 0 s = Outcome.done sf)
    (hmode : sf.song.playmode = PLAYMODE_REWINDING)
    (hgt : s.song_counter > 4 * (s.bfr_size / mix_stride s)) :
    s.song.playmode = PLAYMODE_REWINDING ∧
    mix fuel s = Outcome.done (mix_advance sf) ∧
    (mix_advance sf).song.playmode = PLAYMODE_REWINDING ∧
    (mix_advance sf).song_counter = s.song_counter - 4 * (s.bfr_size / mix_stride s) ∧
    (mix_advance sf).song.song_pos =
      (if s.song_counter - 4 * (s.bfr_size / mix_stride s) > s.bfr_size then
        s.song_counter - 4 * (s.bfr_size / mix_stride s) - s.bfr_size
      else 0) := by
  obtain ⟨k1, k2, k3, k4⟩ := (mix_frames_seq _ _ _ _ _ hfr).running (by rw [hmode]; decide)
  have hq : (sf.bfr_size * 4) % W32 / mix_stride sf = 4 * (s.bfr_size / mix_stride s) := by
    rw [k3, k4]
    exact hf.frames.2
  obtain ⟨a1, a2, a3⟩ := mix_advance_rewinding sf hmode (by rw [hq, k2]; exact hgt)
  rw [hq, k2] at a2
  rw [hq, k2, k3] at a3
  refine ⟨k1.symm.trans hmode, ?_, a1, a2, a3⟩
  unfold mix
  rw [hfr]

/-- C32 (rewind of the step deadline), amended: for every run of `mix` over one
buffer, at any of the six formats, whose frame loop ends in REWINDING mode with
the song counter above four times the frames `F` of the buffer (the start of
the song is not reached): `mix` returns in REWINDING mode, the song counter
has gone back by `4 * F`, and the step deadline is the new song counter minus
the buffer size in bytes, or 0 if the new song counter is not above the
buffer size.  It is the old step deadline minus `4 * F` when the old step
deadline was the old song counter minus the buffer size. -/
theorem rewind_deadline (fuel : Nat) (s sf : Engine) (hf : FormatOK s)
    (hfr : mix_frames fuel (mix_frame_count s) 0 s = Outcome.done sf)
    (hmode : sf.song.playmode = PLAYMODE_REWINDING)
    (hgt : s.song_counter > 4 * (s.bfr_size / mix_stride s)) :
    s.song.playmode = PLAYMODE_REWINDING ∧
    mix_frame_count s = s.bfr_size / mix_stride s ∧
    mix fuel s = Outcome.done (mix_advance sf) ∧
    (mix_advance sf).song.playmode = PLAYMODE_REWINDING ∧
    (mix_advance sf).song_counter = s.song_counter - 4 * (s.bfr_size / mix_stride s) ∧
    (mix_advance sf).song.song_pos =
      (if s.song_counter - 4 * (s.bfr_size / mix_stride s) > s.bfr_size then
        s.song_counter - 4 * (s.bfr_size / mix_stride s) - s.bfr_size
      else 0) ∧
    (s.song.song_pos + s.bfr_size = s.song_counter →
      s.song_counter - 4 * (s.bfr_size / mix_stride s) > s.bfr_size →
      (mix_advance sf).song.song_pos = s.song.song_pos - 4 * (s.bfr_size / mix_stride s)) := by
  obtain ⟨h1, h2, h3, h4, h5⟩ := rewinding_buffer_result fuel s sf hf hfr hmode hgt
  refine ⟨h1, hf.frames.1, h2, h3, h4, h5, fun e hb => ?_⟩
  rw [h5, if_pos hb]
  omega

theorem LoopRun.run_format {s : Engine} {c t : Nat} (h : LoopRun s c t) :
    FormatOK s ∧ mix_stride s = 2 ∧ mix_frame_count s = 22050 := by
  obtain ⟨hr, hi, _, _, hb, hst, _, _⟩ := h
  have hstr : mix_stride s = 2 := by
    unfold mix_stride
    rw [if_pos (by rw [hst]; decide)]
  refine ⟨(hr.engine_ok.2 hi).2.1, hstr, ?_⟩
  unfold mix_frame_count
  rw [hstr, hb]

/-- The frame loop of a buffer of the looping song at 44.1 kHz stereo, while
the song plays, rewinds or fast-forwards: it runs and keeps the mode. -/
theorem loop_run_frames (s : Engine) (c t : Nat) (h : LoopRun s c t)
    (hm : s.song.playmode ≠ PLAYMODE_STOPPED ∧ s.song.playmode ≠ PLAYMODE_PAUSED)
    (hc : c ≤ 1000000) :
    ∃ sf, mix_frames 2000000 (mix_frame_count s) 0 s = Outcome.done sf ∧
      sf.song.playmode = s.song.playmode := by
  obtain ⟨_, _, hcnt⟩ := h.run_format
  obtain ⟨hr, hi, hinv, _, _, _, hcn, _⟩ := h
  obtain ⟨sf, h1, _, _, _, _, _, m1, _, _⟩ := loop_song_buffer 5265 2000000 (by decide)
    s hr.engine_ok hi hinv hm (by rw [hcnt]; decide) (fun j hj _ => by
      rw [hcnt] at hj
      rw [hcn, Nat.mod_eq_of_lt (by simp only [W32]; omega)]
      simp only [W32]
      omega)
  exact ⟨sf, h1, m1⟩

/-- The buffer that follows REWIND in `rewind_start`: the frame loop runs and
ends in REWINDING mode. -/
theorem rewind_start_frames :
    FormatOK rewind_start ∧ rewind_start.song_counter = 198450 ∧
    rewind_start.bfr_size = 44100 ∧ mix_stride rewind_start = 2 ∧
    ∃ sf, mix_frames 2000000 (mix_frame_count rewind_start) 0 rewind_start = Outcome.done sf ∧
      sf.song.playmode = PLAYMODE_REWINDING :=
  have hfacts := rewind_start_facts
  have hfmt := hfacts.1.run_format
  have hm : rewind_start.song.playmode ≠ PLAYMODE_STOPPED ∧
      rewind_start.song.playmode ≠ PLAYMODE_PAUSED :=
    ⟨fun e => absurd (hfacts.2.1.symm.trans e) (by decide),
      fun e => absurd (hfacts.2.1.symm.trans e) (by decide)⟩
  have hrun := loop_run_frames rewind_start 198450 1 hfacts.1 hm (by decide)
  ⟨hfmt.1, hfacts.1.2.2.2.2.2.2.1, hfacts.1.2.2.2.2.1, hfmt.2.1,
    hrun.elim fun sf hsf => ⟨sf, hsf.1, hsf.2.trans hfacts.2.1⟩⟩

/-- C32 (witness): the buffer that follows REWIND in `rewind_start`, with the
song counter at 198450 and 22050 frames to the buffer. -/
theorem rewind_deadline_witness :
    ∃ sf, mix_frames 2000000 (mix_frame_count rewind_start) 0 rewind_start = Outcome.done sf ∧
      mix 2000000 rewind_start = Outcome.done (mix_advance sf) ∧
      (mix_advance sf).song.playmode = PLAYMODE_REWINDING ∧
      (mix_advance sf).song_counter =
        rewind_start.song_counter - 4 * (rewind_start.bfr_size / mix_stride rewind_start) := by
  obtain ⟨hf, hc, hb, hst, sf, h1, h2⟩ := rewind_start_frames
  have key := rewind_deadline 2000000 rewind_start sf hf h1 h2 (by rw [hc, hb, hst]; decide)
  exact ⟨sf, h1, key.2.2.1, key.2.2.2.1, key.2.2.2.2.1⟩

/-- C32, counterexample: the looping song at 44.1 kHz stereo (22050 frames and
44100 bytes to the buffer), REWIND issued after two buffers of FAST_FORWARD
and one of PLAY, with the song counter at 198450 and the step deadline at no
less than 176400.  The next buffer stays in REWINDING mode, the song counter
goes back to 110250, above the start of the song, and the step deadline
becomes 110250 - 44100 = 66150; the step deadline before the buffer minus
4 * 22050 is at least 88200. -/
theorem rewind_deadline_first_buffer :
    Reachable rewind_start ∧ rewind_start.song.playmode = PLAYMODE_REWINDING ∧
    rewind_start.song_counter = 198450 ∧ mix_frame_count rewind_start = 22050 ∧
    ∃ s1, mix 2000000 rewind_start = Outcome.done s1 ∧
      s1.song.playmode = PLAYMODE_REWINDING ∧ s1.song_counter = 110250 ∧
      s1.song.song_pos = 66150 ∧
      88200 ≤ rewind_start.song.song_pos - 4 * mix_frame_count rewind_start ∧
      s1.song.song_pos ≠ rewind_start.song.song_pos - 4 * mix_frame_count rewind_start := by
  obtain ⟨⟨hr, _⟩, hm, hp⟩ := rewind_start_facts
  obtain ⟨hf, hc, hb, hst, sf, h1, h2⟩ := rewind_start_frames
  obtain ⟨_, k2, k3, k4, k5⟩ := rewinding_buffer_result 2000000 rewind_start sf hf h1 h2
    (by rw [hc, hb, hst]; decide)
  have hcnt : mix_frame_count rewind_start = 22050 := by
    rw [hf.frames.1, hb, hst]
  rw [hc, hb, hst] at k4 k5
  have e4 : (mix_advance sf).song_counter = 110250 := k4
  have e5 : (mix_advance sf).song.song_pos = 66150 := k5
  refine ⟨hr, hm, hc, hcnt, _, k2, k3, e4, e5, ?_, ?_⟩
  · rw [hcnt]
    omega
  · rw [hcnt, e5]
    omega

set_option maxRecDepth 100000 in
/-- The sample store of `long_sample_state`: handle 0 holds 40000 bytes
recorded at 8000 Hz. -/
theorem long_sample_facts :
    Reachable long_sample_state ∧ long_sample_state.initialized = true ∧
    long_sample_state.mixrate = 44100 ∧
    (∃ d, (long_sample_state.samples 0).data = some d) ∧
    (long_sample_state.samples 0).size = 40000 ∧
    (long_sample_state.samples 0).smprate = 8000 := by
  have ef : find_free_sample engine_44s SSS_MAX_SAMPLES 0 = 0 := by decide
  have e := sss_sample_add_new engine_44s (List.replicate 40000 0) 40000 0 0 8000 0 (by decide)
    (by rw [List.length_replicate]) (by rw [ef]; decide)
  rw [ef] at e
  have hr : Reachable long_sample_state :=
    Reachable.sample_add engine_44s _ (List.replicate 40000 0) 40000 0 0 8000 0 0
      engine_44s_reachable (by unfold long_sample_state; rw [e]; rfl)
  have es : long_sample_state = { engine_44s with
      samples := upd engine_44s.samples 0
        ({ data := some (if 0 ≠ 0 then
              ((List.replicate 40000 0).take 40000).map (fun b => toSChar (b - 128))
            else (List.replicate 40000 0).take 40000),
           size := 40000, smprate := 8000, loop_start := 0, loop_size := 0 } : SAMPLE_DESC) } := by
    unfold long_sample_state
    rw [e]
    rfl
  refine ⟨hr, ?_, ?_, ?_, ?_, ?_⟩
  · rw [es]; decide
  · rw [es]; decide
  · rw [es]; exact ⟨_, rfl⟩
  · rw [es]; rfl
  · rw [es]; rfl
/-- The virtual size `sss_sample_play` stores for a sample recorded at 8000 Hz
while neither product leaves 32 bits. -/
theorem mod_vsize_exact (s : Engine) (ch h pitch : Nat) (d : List Int)
    (hf : FormatOK s) (hi : s.initialized = true)
    (hch : ch < SSS_MAX_CHANNELS) (hh : h < SSS_MAX_SAMPLES)
    (hd : (s.samples h).data = some d) (hrate : (s.samples h).smprate = 8000)
    (hp : pitch < 4294967296)
    (h1 : (s.samples h).size * s.mixrate < 2147483648)
    (h2 : (s.samples h).size * s.mixrate / 8000 * pitch < 4294967296) :
    ((sss_sample_play s ch h pitch).chan ch).vsize =
      (((s.samples h).size * s.mixrate / 8000 * pitch / 8000 : Nat) : Int) := by
  have h3 : (s.samples h).size * s.mixrate / 8000 * pitch / 8000 < 2147483648 := by omega
  rw [sss_sample_play_exact s ch h pitch d hf hi hch hh hd (by omega) (by omega) hp h1
    (by rw [hrate]; exact h2) (by rw [hrate]; exact h3)]
  show (upd s.chan ch _ ch).vsize = _
  rw [upd_same, hrate]

theorem play_chan_size (c : CHANNEL_DESC) (h : Nat) (v : Int) : (play_chan c h v).vsize = v := by
  unfold play_chan
  split_ifs <;> rfl

/-- The virtual size `sss_sample_play` stores on the channel for a live
sample. -/
theorem play_live_vsize (s : Engine) (ch hsmp pitch : Nat) (hi : s.initialized = true)
    (hch : ch < SSS_MAX_CHANNELS) (hh : hsmp < SSS_MAX_SAMPLES) (d : List Int)
    (hd : (s.samples hsmp).data = some d) (hr : (s.samples hsmp).smprate ≠ 0) :
    ((sss_sample_play s ch hsmp pitch).chan ch).vsize =
      play_vsize (s.samples hsmp) s.mixrate pitch := by
  rw [sss_sample_play_live s ch hsmp pitch hi hch hh d hd hr]
  show (upd s.chan ch _ ch).vsize = _
  rw [upd_same, play_chan_size]

/-- C33 (no overflow in play for MOD material), amended: in every reachable
initialised state, for a live sample recorded at 8000 Hz and a pitch `18 * p`
with `p ≤ 4095`, `sss_sample_play` stores the exact virtual size
`floor(floor(size * mix_rate / 8000) * pitch / 8000)` provided
`size * mix_rate < 2^31` and `floor(size * mix_rate / 8000) * pitch < 2^32`;
both hold at each of the three mix rates when `size ≤ 10000`. -/
theorem mod_play_exact (s : Engine) (ch h p : Nat) (d : List Int)
    (hr : Reachable s) (hi : s.initialized = true)
    (hch : ch < SSS_MAX_CHANNELS) (hh : h < SSS_MAX_SAMPLES)
    (hd : (s.samples h).data = some d) (hrate : (s.samples h).smprate = 8000)
    (hp : p ≤ 4095) :
    ((s.samples h).size * s.mixrate < 2147483648 →
      (s.samples h).size * s.mixrate / 8000 * (18 * p) < 4294967296 →
      ((sss_sample_play s ch h (18 * p)).chan ch).vsize =
        (((s.samples h).size * s.mixrate / 8000 * (18 * p) / 8000 : Nat) : Int)) ∧
    ((s.samples h).size ≤ 10000 →
      ((sss_sample_play s ch h (18 * p)).chan ch).vsize =
        (((s.samples h).size * s.mixrate / 8000 * (18 * p) / 8000 : Nat) : Int)) := by
  have hf : FormatOK s := (hr.engine_ok.2 hi).2.1
  refine ⟨fun h1 h2 => mod_vsize_exact s ch h (18 * p) d hf hi hch hh hd hrate (by omega) h1 h2,
    fun hs => ?_⟩
  have hm : s.mixrate ≤ 44100 := by
    rcases hf.1 with e | e | e <;> omega
  have hprod : (s.samples h).size * s.mixrate ≤ 10000 * 44100 := Nat.mul_le_mul hs hm
  have htmp : (s.samples h).size * s.mixrate / 8000 ≤ 55125 := by omega
  have h2 : (s.samples h).size * s.mixrate / 8000 * (18 * p) ≤ 55125 * (18 * 4095) :=
    Nat.mul_le_mul htmp (by omega)
  exact mod_vsize_exact s ch h (18 * p) d hf hi hch hh hd hrate (by omega) (by omega) (by omega)

set_option maxRecDepth 100000 in
/-- C33 (witness): the sample of 100 bytes of `zero_voice_state`, played on
channel 1 at pitch `18 * 428`. -/
theorem mod_play_exact_witness :
    zero_voice_state.initialized = true ∧
    (zero_voice_state.samples 0).data = some (List.replicate 100 0) ∧
    (zero_voice_state.samples 0).smprate = 8000 ∧
    ((zero_voice_state.samples 0).size ≤ 10000 →
      ((sss_sample_play zero_voice_state 1 0 (18 * 428)).chan 1).vsize =
        (((zero_voice_state.samples 0).size * zero_voice_state.mixrate / 8000 * (18 * 428) /
          8000 : Nat) : Int)) :=
  ⟨by decide, by decide, by decide,
    (mod_play_exact zero_voice_state 1 0 428 (List.replicate 100 0)
      zero_voice_state_reachable (by decide) (by decide) (by decide) (by decide) (by decide)
      (by decide)).2⟩

set_option maxRecDepth 100000 in
/-- C33, counterexample: a sample of 40000 bytes recorded at 8000 Hz on the
44.1 kHz engine, played at pitch `18 * 1712`.  The first product 1764000000 is
below 2^31 and gives 220500; the second, 220500 * 30816 = 6794928000, does not
fit 32 bits and is taken modulo 2^32 as 2499960704, so the virtual size stored
is 312495 and not the claimed 849366. -/
theorem mod_play_wraps :
    Reachable long_sample_state ∧ long_sample_state.initialized = true ∧
    long_sample_state.mixrate = 44100 ∧
    (∃ d, (long_sample_state.samples 0).data = some d) ∧
    (long_sample_state.samples 0).size = 40000 ∧
    (long_sample_state.samples 0).smprate = 8000 ∧
    (1712 : Nat) ≤ 4095 ∧ 40000 * 44100 / 8000 * (18 * 1712) = 6794928000 ∧
    40000 * 44100 / 8000 * (18 * 1712) / 8000 = 849366 ∧
    ((sss_sample_play long_sample_state 4 0 (18 * 1712)).chan 4).vsize = 312495 := by
  obtain ⟨hr, hi, hm, ⟨d, hd⟩, hs, hrate⟩ := long_sample_facts
  refine ⟨hr, hi, hm, ⟨d, hd⟩, hs, hrate, by decide, by decide, by decide, ?_⟩
  rw [play_live_vsize long_sample_state 4 0 (18 * 1712) hi (by decide) (by decide) d hd
    (by rw [hrate]; decide), hm]
  unfold play_vsize
  rw [hs, hrate]
  decide

theorem high_nibble_low : ∀ b < 32, b &&& 240 ≤ 16 := by decide

/-- The note a cell of the loader holds when its pitch is not 0: the
instrument was not 0 and the sample index is the instrument minus 1. -/
theorem decoded_cell_note (instrument pitch0 : Nat) (n : NOTE_DESC)
    (h : (decoded_cell instrument pitch0 n).1 ≠ 0) :
    0 < instrument ∧ (decoded_cell instrument pitch0 n).2.1 = instrument - 1 := by
  unfold decoded_cell at h ⊢
  by_cases hc : 0 < instrument ∧ 0 < (pitch0 * 18) % W32
  · simp only [if_pos hc]
    exact ⟨hc.1, trivial⟩
  · simp only [if_neg hc] at h
    exact absurd rfl h

/-- C36 (loader sample indices): for arbitrary pattern bytes, a note that the
channel loop of `load15` emits (pitch not 0) carries a sample index below 15.
A note that the channel loop of `load31` emits is on a track below 4 and
carries the sample index `(b1 & 0xF0) + ((b3 / 16) & 0x0F) - 1`; this is below
31 when `b1 < 0x20`, and 31 or more when the instrument number is 32 or
more. -/
theorem loader_sample_index :
    (∀ (notes : Nat → NOTE_DESC) (istep t : Nat),
      (load15_step notes istep).note_pitch t ≠ 0 →
      (load15_step notes istep).note_sample t < 15) ∧
    (∀ (notes : Nat → NOTE_DESC) (istep t : Nat),
      (load31_step notes istep).note_pitch t ≠ 0 →
      t < 4 ∧
      (load31_step notes istep).note_sample t =
        ((notes (t + istep * 4)).b1 &&& 240) + (((notes (t + istep * 4)).b3 / 16) &&& 15) - 1 ∧
      ((notes (t + istep * 4)).b1 < 32 → (load31_step notes istep).note_sample t < 31) ∧
      (32 ≤ ((notes (t + istep * 4)).b1 &&& 240) + (((notes (t + istep * 4)).b3 / 16) &&& 15) →
        31 ≤ (load31_step notes istep).note_sample t)) := by
  constructor
  · intro notes istep t hp
    obtain ⟨hin, hout⟩ := load15_step_cell notes istep t
    by_cases ht : t < 4
    · have hcell := hin ht
      have e1 : (load15_step notes istep).note_pitch t =
          (decoded_cell (((notes (t + istep * 4)).b3 / 16) &&& 15)
            ((notes (t + istep * 4)).b1 * 256 + (notes (t + istep * 4)).b2)
            (notes (t + istep * 4))).1 := congrArg Prod.fst hcell
      have e2 : (load15_step notes istep).note_sample t =
          (decoded_cell (((notes (t + istep * 4)).b3 / 16) &&& 15)
            ((notes (t + istep * 4)).b1 * 256 + (notes (t + istep * 4)).b2)
            (notes (t + istep * 4))).2.1 := congrArg (fun x => x.2.1) hcell
      rw [e1] at hp
      obtain ⟨h0, hs⟩ := decoded_cell_note _ _ _ hp
      rw [e2, hs]
      have hle : ((notes (t + istep * 4)).b3 / 16) &&& 15 ≤ 15 := Nat.and_le_right
      omega
    · have hcell := hout (by omega)
      have e1 : (load15_step notes istep).note_pitch t = 0 := congrArg Prod.fst hcell
      exact absurd e1 hp
  · intro notes istep t hp
    obtain ⟨hin, hout⟩ := load31_step_cell notes istep t
    by_cases ht : t < 4
    · have hcell := hin ht
      have e1 : (load31_step notes istep).note_pitch t =
          (decoded_cell (((notes (t + istep * 4)).b1 &&& 240) +
              (((notes (t + istep * 4)).b3 / 16) &&& 15))
            (((notes (t + istep * 4)).b1 &&& 15) * 256 + (notes (t + istep * 4)).b2)
            (notes (t + istep * 4))).1 := congrArg Prod.fst hcell
      have e2 : (load31_step notes istep).note_sample t =
          (decoded_cell (((notes (t + istep * 4)).b1 &&& 240) +
              (((notes (t + istep * 4)).b3 / 16) &&& 15))
            (((notes (t + istep * 4)).b1 &&& 15) * 256 + (notes (t + istep * 4)).b2)
            (notes (t + istep * 4))).2.1 := congrArg (fun x => x.2.1) hcell
      rw [e1] at hp
      obtain ⟨h0, hs⟩ := decoded_cell_note _ _ _ hp
      have hle : ((notes (t + istep * 4)).b3 / 16) &&& 15 ≤ 15 := Nat.and_le_right
      refine ⟨ht, e2.trans hs, fun hb => ?_, fun hbig => ?_⟩
      · have hn := high_nibble_low _ hb
        rw [e2, hs]
        omega
      · rw [e2, hs]
        omega
    · have hcell := hout (by omega)
      have e1 : (load31_step notes istep).note_pitch t = 0 := congrArg Prod.fst hcell
      exact absurd e1 hp

/-- A poll whose first step faults: the song plays, the step deadline is below
the clock, and the step reads outside an array. -/
theorem music_poll_step_faults (s : Engine) (T fuel : Nat)
    (hn : ¬ (s.song.patterns.isNone ∨ s.song.playmode = PLAYMODE_PAUSED ∨
      s.song.playmode = PLAYMODE_STOPPED))
    (hlt : s.song.song_pos < T) (hm : s.song.playmode ≠ PLAYMODE_STOPPED)
    (hstep : music_poll_step s = none) :
    music_poll (fuel + 1) s T = Outcome.fault := by
  have e : music_poll (fuel + 1) s T = music_poll_loop (fuel + 1) T s := if_neg hn
  rw [e]
  simp only [music_poll_loop, if_pos (And.intro hlt hm), hstep]

set_option maxRecDepth 100000 in
/-- C36 (the code at the failing input): the note bytes `b1 = 0x20`, `b2 = 1`,
`b3 = 0`, `b4 = 0` at the start of a pattern decode in `load31` to the pitch
18 and the sample index 31 on track 0.  In a song with 31 sample slots that
holds this step the lookup `song.samples[31]` of the first fired step is
outside the sample list: the step faults, and so does the first poll at a
clock above 0. -/
theorem loader_index_out_of_range :
    (load31_step (note_at [32, 1, 0, 0]) 0).note_pitch 0 = 18 ∧
    (load31_step (note_at [32, 1, 0, 0]) 0).note_sample 0 = 31 ∧
    Reachable stray_note_song ∧
    stray_note_song.song.playmode = PLAYMODE_PLAYING ∧
    stray_note_song.song.nsamples = 31 ∧ stray_note_song.song.samples.length = 31 ∧
    stray_note_song.song.samples[31]? = none ∧
    (stray_note_song.song.patterns.bind (fun pats => pats[0]?)).map
      (fun pat => pat.steps.map (fun st => (st.note_pitch 0, st.note_sample 0))) =
        some [(18, 31)] ∧
    music_poll_step stray_note_song = none ∧
    ∀ fuel, music_poll (fuel + 1) stray_note_song 1 = Outcome.fault :=
  ⟨by decide, by decide,
    Reachable.command _ _ (reach_define_step _ 0 0 _ (Reachable.define_order _ 0 0
      (reach_define_pattern _ 0 1 (reach_create _ 1 1 31 engine_44s_reachable)))),
    by decide, by decide, by decide, by decide, by decide,
    Option.isNone_iff_eq_none.mp (by decide),
    fun fuel => music_poll_step_faults stray_note_song 1 fuel (by decide) (by decide) (by decide)
      (Option.isNone_iff_eq_none.mp (by decide))⟩

/-- A poll whose second step faults. -/
theorem music_poll_second_faults (s s1 : Engine) (T fuel : Nat)
    (hn : ¬ (s.song.patterns.isNone ∨ s.song.playmode = PLAYMODE_PAUSED ∨
      s.song.playmode = PLAYMODE_STOPPED))
    (hlt : s.song.song_pos < T) (hm : s.song.playmode ≠ PLAYMODE_STOPPED)
    (h1 : music_poll_step s = some s1)
    (hlt1 : s1.song.song_pos < T) (hm1 : s1.song.playmode ≠ PLAYMODE_STOPPED)
    (h2 : music_poll_step s1 = none) :
    music_poll (fuel + 2) s T = Outcome.fault := by
  have e : music_poll (fuel + 2) s T = music_poll_loop (fuel + 2) T s := if_neg hn
  rw [e]
  simp only [music_poll_loop, if_pos (And.intro hlt hm), h1, if_pos (And.intro hlt1 hm1), h2]

set_option maxRecDepth 100000 in
/-- The first two steps of `jump_short_song`: the first fires and leaves the
position at order entry 1, step 1; the second reads outside pattern 1. -/
theorem jump_short_steps :
    ∃ s1, music_poll_step jump_short_song = some s1 ∧
      s1.song.iorder = 1 ∧ s1.song.istep = 1 ∧ s1.song.playmode = PLAYMODE_PLAYING ∧
      s1.song.song_pos = 5265 ∧ s1.song.order[s1.song.iorder]? = some 1 ∧
      (s1.song.patterns.bind (fun pats => pats[1]?)).map
        (fun pat => (pat.nsteps, pat.steps.length)) = some (1, 1) ∧
      music_poll_step s1 = none := by
  have hfst : (music_poll_step jump_short_song).map (fun s1 =>
      (s1.song.iorder, s1.song.istep, s1.song.playmode, s1.song.song_pos)) =
      some (1, 1, PLAYMODE_PLAYING, 5265) := by decide
  have hord : (music_poll_step jump_short_song).bind (fun s1 =>
      s1.song.order[s1.song.iorder]?) = some 1 := by decide
  have hpat : (music_poll_step jump_short_song).bind (fun s1 =>
      (s1.song.patterns.bind (fun pats => pats[1]?)).map
        (fun pat => (pat.nsteps, pat.steps.length))) = some (1, 1) := by decide
  have hsnd : ((music_poll_step jump_short_song).bind music_poll_step).isNone = true := by
    decide
  cases h1 : music_poll_step jump_short_song with
  | none =>
    rw [h1] at hfst
    exact absurd hfst (by simp)
  | some s1 =>
    rw [h1] at hfst hsnd hord hpat
    simp only [Option.map_some', Option.some.injEq, Prod.mk.injEq] at hfst
    simp only [Option.some_bind] at hsnd hord hpat
    exact ⟨s1, rfl, hfst.1, hfst.2.1, hfst.2.2.1, hfst.2.2.2, hord, hpat,
      Option.isNone_iff_eq_none.mp hsnd⟩

set_option maxRecDepth 100000 in
/-- C35 (the code at the failing input): a song built through the construction
interface, every pattern with at least one step and every order entry naming a
defined pattern: pattern 0 with two steps, JUMP to order entry 1 on step 0,
pattern 1 with one step, order list [0, 1].  After PLAY the first step fires;
the JUMP sets `istep = 0` and the position update adds 1, so the position is
order entry 1, step 1.  The next step the sequencer reads is `steps[1]` of
pattern 1, which has one step: the read is outside the pattern, and a poll at
a clock above the step delay faults. -/
theorem step_read_out_of_bounds :
    Reachable jump_short_song ∧ jump_short_song.song.playmode = PLAYMODE_PLAYING ∧
    jump_short_song.song.npatterns = 2 ∧ jump_short_song.song.order = [0, 1] ∧
    jump_short_song.song.patterns.map (fun pats => pats.map
      (fun pat => (pat.nsteps, pat.steps.length))) = some [(2, 2), (1, 1)] ∧
    (∃ s1, music_poll_step jump_short_song = some s1 ∧
      s1.song.iorder = 1 ∧ s1.song.istep = 1 ∧ s1.song.playmode = PLAYMODE_PLAYING ∧
      s1.song.order[s1.song.iorder]? = some 1 ∧
      (s1.song.patterns.bind (fun pats => pats[1]?)).map
        (fun pat => (pat.nsteps, pat.steps.length)) = some (1, 1) ∧
      music_poll_step s1 = none) ∧
    ∀ fuel, music_poll (fuel + 2) jump_short_song 5266 = Outcome.fault := by
  obtain ⟨s1, h1, h2, h3, h4, h5, h6, h7, h8⟩ := jump_short_steps
  refine ⟨?_, by decide, by decide, by decide, by decide,
    ⟨s1, h1, h2, h3, h4, h6, h7, h8⟩, fun fuel => ?_⟩
  · exact Reachable.command _ _ (reach_define_step _ 0 0 jump_step
      (Reachable.define_order _ 1 1 (Reachable.define_order _ 0 0
        (reach_define_pattern _ 1 1 (reach_define_pattern _ 0 2
          (reach_create _ 2 2 0 engine_44s_reachable))))))
  · exact music_poll_second_faults jump_short_song s1 5266 fuel (by decide) (by decide)
      (by decide) h1 (by rw [h5]; decide) (by rw [h4]; decide) h8

theorem sss_sample_delete_other (s : Engine) (x h : Nat) (hne : h ≠ x) :
    (sss_sample_delete s x).samples h = s.samples h := by
  unfold sss_sample_delete
  split_ifs
  · rfl
  · rfl
  · rfl
  · exact upd_other _ _ _ _ hne

theorem sss_sample_delete_dead (s : Engine) (x : Nat) (hi : s.initialized = true)
    (hx : x < SSS_MAX_SAMPLES) : ((sss_sample_delete s x).samples x).data = none := by
  unfold sss_sample_delete
  rw [if_neg (by rw [hi]; decide), if_neg (by omega)]
  by_cases hd : (s.samples x).data = none
  · rw [if_pos hd]
    exact hd
  · rw [if_neg hd]
    simp only [upd_same]

/-- The sample loop of `sss_music_flush` over the slots `l`: a handle that no
slot of `l` holds keeps its sample; a handle below `SSS_MAX_SAMPLES` that a
slot of `l` holds is free afterwards. -/
theorem flush_samples_frame (l : List Nat) : ∀ s s1 : Engine,
    flush_samples s l = some s1 →
    (∀ h, (∀ u ∈ l, s.song.samples[u]? ≠ some h) → s1.samples h = s.samples h) ∧
    (s.initialized = true → ∀ u ∈ l, ∀ h, s.song.samples[u]? = some h → h < SSS_MAX_SAMPLES →
      (s1.samples h).data = none) := by
  induction l with
  | nil =>
    intro s s1 h
    simp only [flush_samples, Option.some.injEq] at h
    subst h
    exact ⟨fun _ _ => rfl, fun _ u hu => absurd hu (List.not_mem_nil u)⟩
  | cons v vs ih =>
    intro s s1 h
    simp only [flush_samples] at h
    cases hv : s.song.samples[v]? with
    | none =>
      rw [hv] at h
      exact absurd h (by simp)
    | some x =>
      rw [hv] at h
      simp only at h
      obtain ⟨k1, k2⟩ := sss_sample_delete_song s x
      obtain ⟨f1, f2⟩ := ih _ _ h
      constructor
      · intro hh hall
        have hne : hh ≠ x := by
          intro e
          exact hall v (List.mem_cons_self _ _) (by rw [hv, e])
        rw [f1 hh (fun u hu => by rw [k1]; exact hall u (List.mem_cons_of_mem _ hu)),
          sss_sample_delete_other s x hh hne]
      · intro hi u hu hh hs hlt
        by_cases e : hh = x
        · subst e
          by_cases hlater : ∀ w ∈ vs, (sss_sample_delete s hh).song.samples[w]? ≠ some hh
          · rw [f1 hh hlater]
            exact sss_sample_delete_dead s hh hi hlt
          · push_neg at hlater
            obtain ⟨w, hw, hws⟩ := hlater
            exact f2 (k2.trans hi) w hw hh hws hlt
        · rcases List.mem_cons.mp hu with rfl | hin
          · rw [hv] at hs
            simp only [Option.some.injEq] at hs
            exact absurd hs.symm e
          · exact f2 (k2.trans hi) u hin hh (by rw [k1]; exact hs) hlt

/-- What `sss_music_flush` does to the sample store when a song is loaded (at
least one pattern) in the initialised engine: a handle that none of the first
`nsamples` slots of the song's sample list holds keeps its sample, and a
handle below `SSS_MAX_SAMPLES` that one of these slots holds is free
afterwards. -/
theorem sss_music_flush_frame (s s1 : Engine) (hi : s.initialized = true)
    (hn : s.song.npatterns ≠ 0) (h : sss_music_flush s = some s1) :
    (∀ hh, (∀ u, u < s.song.nsamples → s.song.samples[u]? ≠ some hh) →
      s1.samples hh = s.samples hh) ∧
    (∀ u hh, u < s.song.nsamples → s.song.samples[u]? = some hh → hh < SSS_MAX_SAMPLES →
      (s1.samples hh).data = none) := by
  unfold sss_music_flush at h
  rw [if_neg (by rw [hi]; decide), if_neg hn] at h
  simp only at h
  obtain ⟨g, eg⟩ := music_stop_eq s
  cases hf : flush_samples (music_stop s) (List.range (music_stop s).song.nsamples) with
  | none =>
    rw [hf] at h
    exact absurd h (by simp)
  | some s2 =>
    rw [hf] at h
    simp only [Option.some.injEq] at h
    subst h
    obtain ⟨f1, f2⟩ := flush_samples_frame _ _ _ hf
    have e1 : (music_stop s).song.nsamples = s.song.nsamples := by rw [eg]
    have e2 : (music_stop s).song.samples = s.song.samples := by rw [eg]
    have e3 : (music_stop s).samples = s.samples := by rw [eg]
    have e4 : (music_stop s).initialized = true := by rw [eg]; exact hi
    rw [e1, e2] at f1 f2
    constructor
    · intro hh hall
      show s2.samples hh = s.samples hh
      rw [f1 hh (fun u hu => hall u (List.mem_range.mp hu)), e3]
    · intro u hh hu hs hlt
      exact f2 e4 u (List.mem_range.mpr hu) hh hs hlt
/-- The flush of a reachable state: in every reachable state of the
initialised engine with a song loaded, `sss_music_flush` returns; every handle that none of the
`nsamples` slots of the song's sample list holds keeps its sample unchanged;
every handle below `SSS_MAX_SAMPLES` that a slot holds is free afterwards,
whether `sss_music_define_sample` stored it there or the slot still holds the
0 that `sss_music_create` wrote. -/
theorem flush_frame (s : Engine) (hr : Reachable s) (hi : s.initialized = true)
    (hn : s.song.npatterns ≠ 0) :
    ∃ s1, sss_music_flush s = some s1 ∧
      (∀ hh, (∀ u, u < s.song.nsamples → s.song.samples[u]? ≠ some hh) →
        s1.samples hh = s.samples hh) ∧
      (∀ u hh, u < s.song.nsamples → s.song.samples[u]? = some hh → hh < SSS_MAX_SAMPLES →
        (s1.samples hh).data = none) := by
  obtain ⟨s1, h1, _, _⟩ := sss_music_flush_runs s hr.sample_list
  obtain ⟨f1, f2⟩ := sss_music_flush_frame s s1 hi hn h1
  exact ⟨s1, h1, f1, f2⟩

set_option maxRecDepth 100000 in
/-- The flush of `effect_sample_state`: a song with one sample slot that was
never defined. -/
theorem flush_frame_witness :
    effect_sample_state.initialized = true ∧ effect_sample_state.song.npatterns ≠ 0 ∧
    ∃ s1, sss_music_flush effect_sample_state = some s1 ∧
      (∀ hh, (∀ u, u < effect_sample_state.song.nsamples →
          effect_sample_state.song.samples[u]? ≠ some hh) →
        s1.samples hh = effect_sample_state.samples hh) ∧
      (∀ u hh, u < effect_sample_state.song.nsamples →
        effect_sample_state.song.samples[u]? = some hh → hh < SSS_MAX_SAMPLES →
        (s1.samples hh).data = none) :=
  ⟨by decide, by decide,
    flush_frame effect_sample_state
      (reach_create _ 1 1 1 (reach_sample_add engine_44s [1, 2, 3, 4] 4 0 0 8000 0
        engine_44s_reachable)) (by decide) (by decide)⟩

set_option maxRecDepth 100000 in
/-- C37 (flush frame; the code at the failing input): the caller adds a sample
(handle 0) and then creates a song with one sample slot, which `sss_music_create` fills
with 0 and `sss_music_define_sample` never defines.  `sss_music_flush` deletes
`song.samples[0]`, that is handle 0: the caller's sample, live before the call
and never bound to the song, is free afterwards. -/
theorem flush_deletes_foreign_sample :
    Reachable effect_sample_state ∧ effect_sample_state.initialized = true ∧
    (effect_sample_state.samples 0).data = some [1, 2, 3, 4] ∧
    (effect_sample_state.samples 0).size = 4 ∧
    effect_sample_state.song.npatterns = 1 ∧ effect_sample_state.song.nsamples = 1 ∧
    effect_sample_state.song.samples = [0] ∧
    (sss_music_flush effect_sample_state).map
      (fun s1 => ((s1.samples 0).data, (s1.samples 0).size, (s1.samples 0).smprate)) =
        some (none, 0, 0) :=
  ⟨reach_create _ 1 1 1 (reach_sample_add engine_44s [1, 2, 3, 4] 4 0 0 8000 0
      engine_44s_reachable),
    by decide, by decide, by decide, by decide, by decide, by decide, by decide⟩

theorem TempoInv.inv_of_eq {D : Nat} {s s1 : Engine} (h : TempoInv D s)
    (h1 : s1.song.step_delay = s.song.step_delay) (h2 : s1.song.patterns = s.song.patterns)
    (h3 : s1.mixrate = s.mixrate) : TempoInv D s1 := by
  obtain ⟨⟨hd, ht⟩, hr⟩ := h
  refine ⟨⟨by rw [h1]; exact hd, fun pats hp pat hm step hs c hc he hpar => ?_⟩,
    by rw [h3]; exact hr⟩
  rw [h3]
  exact ht pats (by rw [← h2]; exact hp) pat hm step hs c hc he hpar

theorem TempoInv.inv_delay {D : Nat} {s s1 : Engine} (h : TempoInv D s)
    (h1 : 1 ≤ s1.song.step_delay ∧ s1.song.step_delay ≤ D)
    (h2 : s1.song.patterns = s.song.patterns) (h3 : s1.mixrate = s.mixrate) :
    TempoInv D s1 := by
  obtain ⟨⟨_, ht⟩, hr⟩ := h
  refine ⟨⟨h1, fun pats hp pat hm step hs c hc he hpar => ?_⟩, by rw [h3]; exact hr⟩
  rw [h3]
  exact ht pats (by rw [← h2]; exact hp) pat hm step hs c hc he hpar

theorem Sequenced.seq_song {s s1 : Engine} (h : Sequenced s s1) :
    s1.mixrate = s.mixrate ∧ s1.song.patterns = s.song.patterns := by
  obtain ⟨f, io, ip, i, sp, sd, pm, n, b, rfl, _⟩ := h
  exact ⟨rfl, rfl⟩

/-- Whatever the channel loop of a fired step returns, the step delay it
leaves lies in `1..D` when the step delay before and the delay of every
effective SET_TEMPO of the step do. -/
theorem music_poll_channels_bounds (step : SSS_STEP_DESC) (D : Nat) (l : List Nat) :
    ∀ s s1 : Engine, music_poll_channels step s l = some s1 →
    (∀ c ∈ l, step.note_effect c = SSS_EFFECT_SET_TEMPO → step.note_eparam c ≠ 0 →
      1 ≤ tempo_delay s.mixrate (step.note_eparam c) ∧
        tempo_delay s.mixrate (step.note_eparam c) ≤ D) →
    (1 ≤ s.song.step_delay ∧ s.song.step_delay ≤ D) →
    1 ≤ s1.song.step_delay ∧ s1.song.step_delay ≤ D := by
  induction l with
  | nil =>
    intro s s1 h _ hd
    simp only [music_poll_channels, Option.some.injEq] at h
    rw [← h]
    exact hd
  | cons c cs ih =>
    intro s s1 h ht hd
    rw [music_poll_channels] at h
    cases hc : music_poll_channel step s c with
    | none =>
      rw [hc] at h
      exact absurd h (by simp)
    | some r =>
      obtain ⟨s2, b⟩ := r
      rw [hc] at h
      have hrate : s2.mixrate = s.mixrate := (music_poll_channel_loop step s s2 c b hc).rate
      have hd2 : 1 ≤ s2.song.step_delay ∧ s2.song.step_delay ≤ D := by
        unfold music_poll_channel at hc
        cases hn : music_poll_note step s c with
        | none =>
          rw [hn] at hc
          exact absurd hc (by simp)
        | some sn =>
          rw [hn] at hc
          simp only [Option.some.injEq] at hc
          have e : s2 = (music_poll_effect step sn c).1 := by rw [hc]
          obtain ⟨f, e2⟩ := music_poll_note_only step s sn c hn
          have hsd : sn.song.step_delay = s.song.step_delay := by rw [e2]
          have hmr : sn.mixrate = s.mixrate := by rw [e2]
          rcases (music_poll_effect_loop step sn c).2 with k | ⟨k1, k2, k3⟩
          · rw [e, k, hsd]
            exact hd
          · rw [e, k3, hmr]
            exact ht c (List.mem_cons_self _ _) k1 k2
      cases b with
      | true =>
        simp only [Option.some.injEq] at h
        rw [← h]
        exact hd2
      | false =>
        simp only at h
        exact ih s2 s1 h (fun k hk => by
          rw [hrate]
          exact ht k (List.mem_cons_of_mem _ hk)) hd2

/-- A fired step keeps the tempo invariant. -/
theorem music_poll_step_tempo_inv (D : Nat) (s s1 : Engine) (h : music_poll_step s = some s1)
    (hinv : TempoInv D s) : TempoInv D s1 := by
  obtain ⟨ipat, pats, pat, step, sc, _, hp, hq, hs, hc, hadv⟩ := music_poll_step_parts s s1 h
  have hmem : pat ∈ pats := List.getElem?_mem hq
  have hsmem : step ∈ pat.steps := List.getElem?_mem hs
  have hd := music_poll_channels_bounds step D (List.range SSS_MUSIC_CHANNELS)
    { s with song := { s.song with ipattern := ipat } } sc hc
    (fun c hcm he hpar => hinv.1.2 pats hp pat hmem step hsmem c (List.mem_range.mp hcm) he hpar)
    hinv.1.1
  obtain ⟨_, hsd⟩ := music_poll_advance_seq sc s1 hadv
  obtain ⟨e1, e2⟩ := (music_poll_step_seq s s1 h).seq_song
  exact hinv.inv_delay (by rw [hsd]; exact hd) e2 e1

theorem music_poll_loop_tempo_inv (D T : Nat) : ∀ (fuel : Nat) (s s1 : Engine),
    music_poll_loop fuel T s = Outcome.done s1 → TempoInv D s → TempoInv D s1 := by
  intro fuel
  induction fuel with
  | zero =>
    intro s s1 h hinv
    simp only [music_poll_loop] at h
    split_ifs at h
    simp only [Outcome.done.injEq] at h
    rw [← h]
    exact hinv
  | succ n ih =>
    intro s s1 h hinv
    simp only [music_poll_loop] at h
    split_ifs at h
    · cases hst : music_poll_step s with
      | none =>
        rw [hst] at h
        exact absurd h (by simp)
      | some s2 =>
        rw [hst] at h
        exact ih s2 s1 h (music_poll_step_tempo_inv D s s2 hst hinv)
    · simp only [Outcome.done.injEq] at h
      rw [← h]
      exact hinv

theorem music_poll_tempo_inv (D T fuel : Nat) (s s1 : Engine)
    (h : music_poll fuel s T = Outcome.done s1) (hinv : TempoInv D s) : TempoInv D s1 := by
  unfold music_poll at h
  split_ifs at h
  · simp only [Outcome.done.injEq] at h
    rw [← h]
    exact hinv
  · exact music_poll_loop_tempo_inv D T fuel s s1 h hinv

theorem mix_poll_tempo_inv (D fuel : Nat) (s s1 : Engine) (u : Nat)
    (h : mix_poll fuel s u = Outcome.done s1) (hinv : TempoInv D s) : TempoInv D s1 := by
  unfold mix_poll at h
  split_ifs at h
  · exact music_poll_tempo_inv D _ fuel s s1 h hinv
  · exact music_poll_tempo_inv D _ fuel s s1 h hinv
  · simp only [Outcome.done.injEq] at h
    rw [← h]
    exact hinv

theorem mix_frame_tempo_inv (D fuel : Nat) (s s1 : Engine) (u : Nat)
    (h : mix_frame fuel s u = Outcome.done s1) (hinv : TempoInv D s) : TempoInv D s1 := by
  unfold mix_frame at h
  cases hp : mix_poll fuel s u with
  | fault => rw [hp] at h; exact absurd h (by simp)
  | timeout => rw [hp] at h; exact absurd h (by simp)
  | done sp =>
    rw [hp] at h
    simp only at h
    cases ho : mix_output sp u with
    | none => rw [ho] at h; exact absurd h (by simp)
    | some s2 =>
      rw [ho] at h
      simp only [Outcome.done.injEq] at h
      subst h
      obtain ⟨f, b, e⟩ := mix_output_shape sp s2 u ho
      exact (mix_poll_tempo_inv D fuel s sp u hp hinv).inv_of_eq (by rw [e]) (by rw [e])
        (by rw [e])

theorem mix_frames_tempo_inv (D fuel : Nat) (n : Nat) : ∀ (u : Nat) (s s1 : Engine),
    mix_frames fuel n u s = Outcome.done s1 → TempoInv D s → TempoInv D s1 := by
  induction n with
  | zero =>
    intro u s s1 h hinv
    simp only [mix_frames, Outcome.done.injEq] at h
    rw [← h]
    exact hinv
  | succ n ih =>
    intro u s s1 h hinv
    simp only [mix_frames] at h
    cases hf : mix_frame fuel s u with
    | fault => rw [hf] at h; exact absurd h (by simp)
    | timeout => rw [hf] at h; exact absurd h (by simp)
    | done s2 =>
      rw [hf] at h
      exact ih _ s2 s1 h (mix_frame_tempo_inv D fuel s s2 u hf hinv)
theorem music_stop_tempo_inv (D : Nat) (s : Engine) (hinv : TempoInv D s) :
    TempoInv D (music_stop s) := by
  obtain ⟨f, e⟩ := music_stop_eq s
  exact hinv.inv_of_eq (by rw [e]) (by rw [e]) (by rw [e])

theorem mix_advance_tempo_inv (D : Nat) (s : Engine) (hinv : TempoInv D s) :
    TempoInv D (mix_advance s) := by
  unfold mix_advance
  split_ifs
  · exact hinv.inv_of_eq rfl rfl rfl
  · exact hinv.inv_of_eq rfl rfl rfl
  · exact hinv.inv_of_eq rfl rfl rfl
  · exact music_stop_tempo_inv D s hinv
  · exact hinv

theorem mix_tempo_inv (D fuel : Nat) (s s1 : Engine) (h : mix fuel s = Outcome.done s1)
    (hinv : TempoInv D s) : TempoInv D s1 := by
  unfold mix at h
  cases hf : mix_frames fuel (mix_frame_count s) 0 s with
  | fault => rw [hf] at h; exact absurd h (by simp)
  | timeout => rw [hf] at h; exact absurd h (by simp)
  | done s2 =>
    rw [hf] at h
    simp only [Outcome.done.injEq] at h
    rw [← h]
    exact mix_advance_tempo_inv D s2 (mix_frames_tempo_inv D fuel _ 0 s s2 hf hinv)

theorem sss_poll_tempo_inv (D fuel : Nat) (s s1 : Engine)
    (h : sss_poll fuel s = Outcome.done s1) (hinv : TempoInv D s) : TempoInv D s1 := by
  unfold sss_poll at h
  split_ifs at h
  · simp only [Outcome.done.injEq] at h
    rw [← h]
    exact hinv
  · cases hm : mix fuel { s with whdr_done := upd s.whdr_done s.bfr_toggle false } with
    | fault => rw [hm] at h; exact absurd h (by simp)
    | timeout => rw [hm] at h; exact absurd h (by simp)
    | done s2 =>
      rw [hm] at h
      simp only [Outcome.done.injEq] at h
      rw [← h]
      exact (mix_tempo_inv D fuel _ s2 hm (hinv.inv_of_eq rfl rfl rfl)).inv_of_eq rfl rfl rfl

theorem TempoInv.inv_start {D : Nat} {s : Engine} (h : TempoInv D s) (f : Nat → CHANNEL_DESC)
    (d : Nat) (hd : 1 ≤ d ∧ d ≤ D) :
    TempoInv D { s with
      chan := f
      song := { s.song with
        song_pos := 0
        step_delay := d
        iorder := 0, ipattern := 0, istep := 0, playmode := PLAYMODE_PLAYING }
      song_counter := 0 } :=
  h.inv_delay hd rfl rfl

/-- PLAY on a loaded song in a mode other than PAUSED, REWINDING,
FAST_FORWARDING and PLAYING starts the song at its first step. -/
theorem music_play_fresh (s : Engine) (hn : s.song.npatterns ≠ 0)
    (h1 : ¬ (s.song.playmode = PLAYMODE_PAUSED ∨ s.song.playmode = PLAYMODE_REWINDING ∨
      s.song.playmode = PLAYMODE_FASTFORWARDING))
    (h2 : ¬ s.song.playmode = PLAYMODE_PLAYING) :
    music_play s = { s with
      chan := (music_play_pans (music_stop s) (List.range SSS_MUSIC_CHANNELS)).chan
      song := { s.song with
        song_pos := 0
        step_delay := toUInt (Int.tdiv (toLong (toLong s.mixrate * (1 + 7))) 67)
        iorder := 0, ipattern := 0, istep := 0, playmode := PLAYMODE_PLAYING }
      song_counter := 0 } := by
  unfold music_play
  rw [if_neg hn, if_neg h1, if_neg h2]
  obtain ⟨f, e⟩ := music_play_pans_only (List.range SSS_MUSIC_CHANNELS) (music_stop s)
  obtain ⟨g, eg⟩ := music_stop_eq s
  simp only
  rw [e, eg]

/-- PLAY keeps the tempo invariant: when it starts the song it sets the step
delay `mix_rate * 8 / 67`, which is 1316, 2632 or 5265. -/
theorem music_play_tempo_inv (D : Nat) (hD : 5265 ≤ D) (s : Engine) (hinv : TempoInv D s) :
    TempoInv D (music_play s) := by
  by_cases hn : s.song.npatterns = 0
  · have e : music_play s = s := by
      unfold music_play
      rw [if_pos hn]
    rw [e]
    exact hinv
  · by_cases h1 : s.song.playmode = PLAYMODE_PAUSED ∨ s.song.playmode = PLAYMODE_REWINDING ∨
        s.song.playmode = PLAYMODE_FASTFORWARDING
    · have e : music_play s = { s with song := { s.song with playmode := PLAYMODE_PLAYING } } := by
        unfold music_play
        rw [if_neg hn, if_pos h1]
      rw [e]
      exact hinv.inv_of_eq rfl rfl rfl
    · by_cases h2 : s.song.playmode = PLAYMODE_PLAYING
      · have e : music_play s = s := by
          unfold music_play
          rw [if_neg hn, if_neg h1, if_pos h2]
        rw [e]
        exact hinv
      · have hbound : 1 ≤ s.mixrate * 8 / 67 ∧ s.mixrate * 8 / 67 ≤ D := by
          rcases hinv.2 with e | e | e <;> rw [e] <;> omega
        rw [music_play_fresh s hn h1 h2,
          play_delay_exact s.mixrate (by rcases hinv.2 with e | e | e <;> omega)]
        exact hinv.inv_start _ _ hbound

theorem sss_music_command_tempo_inv (D : Nat) (hD : 5265 ≤ D) (s : Engine) (cmd : Nat)
    (hinv : TempoInv D s) : TempoInv D (sss_music_command s cmd) := by
  unfold sss_music_command
  split_ifs
  · exact hinv
  · exact hinv
  · exact music_play_tempo_inv D hD s hinv
  · exact hinv
  · exact music_stop_tempo_inv D s hinv
  · exact hinv
  · obtain ⟨f, e⟩ := music_stop_channels_only (List.range SSS_MUSIC_CHANNELS)
      { s with song := { s.song with playmode := PLAYMODE_PAUSED } }
    rw [e]
    exact hinv.inv_of_eq rfl rfl rfl
  · exact hinv
  · exact hinv.inv_of_eq rfl rfl rfl
  · exact hinv
  · exact hinv.inv_of_eq rfl rfl rfl
  · exact hinv

/-- C38 (positive tempo), amended: let `s0` be a state at one of the three mix
rates in which the step delay and the delay of every effective SET_TEMPO of
the song lie in `1..D`, with `D ≥ 5265` (for instance a song right after PLAY
from STOPPED whose SET_TEMPO parameters are at most 255).  Then in every state
reached from `s0` through transport commands, music polls, mix buffers, timer
polls and the audio device, the step delay is at least 1 and at most `D`,
whatever the mode. -/
theorem positive_tempo (D : Nat) (hD : 5265 ≤ D) (s0 s : Engine) (h0 : TempoOK s0 D)
    (hrate : s0.mixrate = 11025 ∨ s0.mixrate = 22050 ∨ s0.mixrate = 44100)
    (hp : Played s0 s) :
    1 ≤ s.song.step_delay ∧ s.song.step_delay ≤ D ∧ TempoOK s D := by
  have key : TempoInv D s := by
    induction hp with
    | start => exact ⟨h0, hrate⟩
    | command s cmd _ ih => exact sss_music_command_tempo_inv D hD s cmd ih
    | poll s s1 fuel T _ hpoll ih => exact music_poll_tempo_inv D T fuel s s1 hpoll ih
    | buffer s s1 fuel _ hmix ih => exact mix_tempo_inv D fuel s s1 hmix ih
    | timer s s1 fuel _ hpoll ih => exact sss_poll_tempo_inv D fuel s s1 hpoll ih
    | device s u _ ih => exact ih
  exact ⟨key.1.1.1, key.1.1.2, key.1⟩

theorem repeat_step_no_tempo (c : Nat) : repeat_step.note_effect c ≠ SSS_EFFECT_SET_TEMPO := by
  unfold repeat_step
  by_cases e : c = 0
  · rw [e]
    simp only [upd_same]
    decide
  · simp only [upd_other _ _ _ _ e]
    show (0 : Nat) ≠ SSS_EFFECT_SET_TEMPO
    decide

/-- The looping song right after PLAY holds the tempo invariant with the step
delay 5265: none of its steps carries SET_TEMPO. -/
theorem playing_loop_tempo : TempoOK playing_loop 5265 := by
  obtain ⟨⟨hp, _, _, _, _, hd⟩, _⟩ := playing_loop_facts
  refine ⟨by rw [hd]; exact ⟨by decide, le_refl _⟩, fun pats hpats pat hm step hs c _ he _ => ?_⟩
  rw [hp] at hpats
  simp only [Option.some.injEq] at hpats
  subst hpats
  rw [List.mem_singleton] at hm
  subst hm
  have e : step = repeat_step := by
    simp only [List.mem_cons, List.mem_singleton, List.not_mem_nil, or_false, or_self] at hs
    exact hs
  rw [e] at he
  exact absurd he (repeat_step_no_tempo c)

set_option maxRecDepth 100000 in
/-- C38 (witness): the looping song right after PLAY at 44.1 kHz (step delay
5265), then REWIND. -/
theorem positive_tempo_witness :
    playing_loop.mixrate = 44100 ∧
    1 ≤ (sss_music_command playing_loop SSS_CMD_MUSIC_REWIND).song.step_delay ∧
    (sss_music_command playing_loop SSS_CMD_MUSIC_REWIND).song.step_delay ≤ 5265 ∧
    TempoOK (sss_music_command playing_loop SSS_CMD_MUSIC_REWIND) 5265 :=
  ⟨by decide,
    positive_tempo 5265 (le_refl _) playing_loop _ playing_loop_tempo
      (Or.inr (Or.inr (by decide)))
      (Played.command playing_loop SSS_CMD_MUSIC_REWIND Played.start)⟩

set_option maxRecDepth 100000 in
/-- C38, counterexample: a song of one pattern built through the construction
interface at 44.1 kHz and never played has the step delay 0 that
`sss_music_create` left.  REWIND sets the mode REWINDING, and PLAY after it
sets the mode PLAYING without touching the step delay: both states are
reachable, in a mode of the claim, with `step_delay = 0`. -/
theorem rewind_without_tempo :
    Reachable (sss_music_command (tempo_song_built zero_step) SSS_CMD_MUSIC_REWIND) ∧
    (tempo_song_built zero_step).initialized = true ∧
    (tempo_song_built zero_step).mixrate = 44100 ∧
    (sss_music_command (tempo_song_built zero_step) SSS_CMD_MUSIC_REWIND).song.playmode =
      PLAYMODE_REWINDING ∧
    (sss_music_command (tempo_song_built zero_step) SSS_CMD_MUSIC_REWIND).song.step_delay = 0 ∧
    Reachable (sss_music_command
      (sss_music_command (tempo_song_built zero_step) SSS_CMD_MUSIC_REWIND)
      SSS_CMD_MUSIC_PLAY) ∧
    (sss_music_command
      (sss_music_command (tempo_song_built zero_step) SSS_CMD_MUSIC_REWIND)
      SSS_CMD_MUSIC_PLAY).song.playmode = PLAYMODE_PLAYING ∧
    (sss_music_command
      (sss_music_command (tempo_song_built zero_step) SSS_CMD_MUSIC_REWIND)
      SSS_CMD_MUSIC_PLAY).song.step_delay = 0 :=
  ⟨Reachable.command _ _ (tempo_song_built_reachable zero_step), by decide, by decide,
    by decide, by decide,
    Reachable.command _ _ (Reachable.command _ _ (tempo_song_built_reachable zero_step)),
    by decide, by decide⟩

/-- The body of the channel loop on a channel with JUMP sets the step index to
0 and the order index to the parameter, and sets `dobreak`. -/
theorem music_poll_channel_jump (step : SSS_STEP_DESC) (s s1 : Engine) (k : Nat) (b : Bool)
    (h : music_poll_channel step s k = some (s1, b))
    (h1 : step.note_effect k ≠ SSS_EFFECT_PATTERN_BREAK)
    (h2 : step.note_effect k = SSS_EFFECT_JUMP) :
    s1.song.istep = 0 ∧ s1.song.iorder = step.note_eparam k ∧ b = true := by
  have hb := (music_poll_channel_flag step s s1 k b h).mpr (Or.inr h2)
  unfold music_poll_channel at h
  cases hn : music_poll_note step s k with
  | none =>
    rw [hn] at h
    exact absurd h (by simp)
  | some s2 =>
    rw [hn] at h
    simp only [Option.some.injEq] at h
    have e : s1 = (music_poll_effect step s2 k).1 := by rw [h]
    rw [e]
    unfold music_poll_effect
    rw [if_neg h1, if_pos h2]
    exact ⟨rfl, rfl, hb⟩

/-- Where the channel loop of a fired step leaves the position: the order
index as before with the step index as before or 999 (PATTERN_BREAK), or the
step index 0 with the order index the parameter of the JUMP of the first
channel that carries JUMP or PATTERN_BREAK. -/
theorem music_poll_channels_where (step : SSS_STEP_DESC) (l : List Nat) :
    ∀ s sc : Engine, l.Pairwise (fun a b => a < b) →
    music_poll_channels step s l = some sc →
    (sc.song.iorder = s.song.iorder ∧
      (sc.song.istep = s.song.istep ∨ sc.song.istep = 999)) ∨
    (sc.song.istep = 0 ∧ ∃ c ∈ l, step.note_effect c = SSS_EFFECT_JUMP ∧
      (∀ k ∈ l, k < c → step.note_effect k ≠ SSS_EFFECT_PATTERN_BREAK ∧
        step.note_effect k ≠ SSS_EFFECT_JUMP) ∧
      sc.song.iorder = step.note_eparam c) := by
  induction l with
  | nil =>
    intro s sc _ h
    simp only [music_poll_channels, Option.some.injEq] at h
    subst h
    exact Or.inl ⟨rfl, Or.inl rfl⟩
  | cons k ks ih =>
    intro s sc hpw h
    rw [List.pairwise_cons] at hpw
    rw [music_poll_channels] at h
    cases hk : music_poll_channel step s k with
    | none =>
      rw [hk] at h
      exact absurd h (by simp)
    | some r =>
      obtain ⟨s2, b⟩ := r
      rw [hk] at h
      by_cases e1 : step.note_effect k = SSS_EFFECT_PATTERN_BREAK
      · obtain ⟨a1, a2, a3⟩ := music_poll_channel_break step s s2 k b hk e1
        subst a3
        simp only [Option.some.injEq] at h
        subst h
        exact Or.inl ⟨a2, Or.inr a1⟩
      · by_cases e2 : step.note_effect k = SSS_EFFECT_JUMP
        · obtain ⟨a1, a2, a3⟩ := music_poll_channel_jump step s s2 k b hk e1 e2
          subst a3
          simp only [Option.some.injEq] at h
          subst h
          refine Or.inr ⟨a1, k, List.mem_cons_self _ _, e2, fun j hj hjk => ?_, a2⟩
          rcases List.mem_cons.mp hj with hx | hx
          · exact absurd hjk (by rw [hx]; exact Nat.lt_irrefl k)
          · exact absurd hjk (Nat.lt_asymm (hpw.1 j hx))
        · have hb : b = false := by
            cases b with
            | false => rfl
            | true =>
              rcases (music_poll_channel_flag step s s2 k true hk).mp rfl with hx | hx
              · exact absurd hx e1
              · exact absurd hx e2
          subst hb
          simp only at h
          obtain ⟨p1, p2⟩ := music_poll_channel_pos step s s2 k false hk e1 e2
          rcases ih s2 sc hpw.2 h with ⟨q1, q2⟩ | ⟨q1, c, hc, q2, q3, q4⟩
          · refine Or.inl ⟨q1.trans p2, ?_⟩
            rcases q2 with q | q
            · exact Or.inl (q.trans p1)
            · exact Or.inr q
          · refine Or.inr ⟨q1, c, List.mem_cons_of_mem _ hc, q2, fun j hj hjc => ?_, q4⟩
            rcases List.mem_cons.mp hj with hx | hx
            · rw [hx]
              exact ⟨e1, e2⟩
            · exact q3 j hx hjc

theorem PollFrame.frame_fit {s s1 : Engine} (h : PollFrame s s1) (hw : SongFit s.song) :
    SongFit s1.song := by
  obtain ⟨f, io, ip, i, sp, sd, pm, n, rfl⟩ := h
  exact hw

/-- A song whose patterns have one common length is well formed in the sense
of `SongFit`. -/
theorem SongWF.song_fit {sg : MUSICSONG_DESC} {N : Nat} (h : SongWF sg N) : SongFit sg := by
  obtain ⟨pats, hp, hno, hN1, hN2, hord, hlen, hsmp⟩ := h
  refine ⟨pats, hp, hno, hord, fun pat hm => ?_, hsmp, ?_⟩
  · obtain ⟨a, b⟩ := hlen pat hm
    exact ⟨by omega, by omega, by omega⟩
  · intro pat hm h2 step _ c _ _ _ _ ip q _ hq
    have hq2 := (hlen q (List.getElem?_mem hq)).1
    have hq3 := (hlen pat hm).1
    omega

theorem PollInv.poll_fit {N D : Nat} {s : Engine} (h : PollInv N D s) : PollFit D s := by
  obtain ⟨hw, ht, hp⟩ := h
  refine ⟨hw.song_fit, ht, fun hm => ⟨(hp hm).1, fun pats ip q hpats _ hq => ?_⟩⟩
  obtain ⟨pats2, hp2, _, _, _, _, hlen, _⟩ := hw
  rw [hpats] at hp2
  simp only [Option.some.injEq] at hp2
  subst hp2
  have := (hlen q (List.getElem?_mem hq)).1
  have := (hp hm).2
  omega

/-- One fired step of a well-formed song that is not stopped, whatever the
lengths of its patterns: the body of the `while` loop runs without fault,
keeps the invariant, and either stops the song or moves `song_pos` on by at
least 1. -/
theorem music_poll_step_fit (D T : Nat) (s : Engine) (hinv : PollFit D s)
    (hm : s.song.playmode ≠ PLAYMODE_STOPPED) (hpos : s.song.song_pos < T)
    (hT : T + D ≤ W32) :
    ∃ s1, music_poll_step s = some s1 ∧ PollFrame s s1 ∧ PollFit D s1 ∧
      (s1.song.playmode = PLAYMODE_STOPPED ∨
        (s1.song.playmode = s.song.playmode ∧ s.song.song_pos < s1.song.song_pos)) := by
  obtain ⟨hw, ht, hp⟩ := hinv
  obtain ⟨hio, his0⟩ := hp hm
  have hwf : SongFit s.song := hw
  obtain ⟨pats, hpats, hno, hord, hlen, hsmp, hjmp⟩ := hw
  obtain ⟨ip, hip, hiplt⟩ := hord _ hio
  have hq : pats[ip]? = some pats[ip] := List.getElem?_eq_getElem hiplt
  have hmem : pats[ip] ∈ pats := List.getElem_mem _
  obtain ⟨hn1, hn2, hl⟩ := hlen _ hmem
  have his : s.song.istep < pats[ip].nsteps := his0 pats ip _ hpats hip hq
  have hislt : s.song.istep < pats[ip].steps.length := by omega
  have hs : pats[ip].steps[s.song.istep]? = some pats[ip].steps[s.song.istep] :=
    List.getElem?_eq_getElem hislt
  have hsmem : pats[ip].steps[s.song.istep] ∈ pats[ip].steps := List.getElem_mem _
  rw [music_poll_step_some s ip pats pats[ip] _ hip hpats hq hs]
  obtain ⟨s1, h1, l1, d1⟩ := music_poll_channels_runs pats[ip].steps[s.song.istep] D
    (List.range SSS_MUSIC_CHANNELS) { s with song := { s.song with ipattern := ip } }
    (fun c hc => hsmp _ hmem _ hsmem c (List.mem_range.mp hc))
    (fun c hc => ht.2 pats hpats _ hmem _ hsmem c (List.mem_range.mp hc))
    ht.1
  have hwhere := music_poll_channels_where _ _ _ _ (List.pairwise_lt_range _) h1
  rw [h1]
  simp only [Option.some_bind]
  have hf0 : PollFrame s { s with song := { s.song with ipattern := ip } } :=
    ⟨_, _, _, _, _, _, _, _, rfl⟩
  obtain ⟨f, io, i, sd, e1⟩ := l1
  have hp1 : s1.song.patterns = some pats := by rw [e1]; exact hpats
  have hq1 : pats[s1.song.ipattern]? = some pats[ip] := by rw [e1]; exact hq
  have hpos1 : s1.song.song_pos = s.song.song_pos := by rw [e1]
  have hmode1 : s1.song.playmode = s.song.playmode := by rw [e1]
  have hord1 : s1.song.order = s.song.order := by rw [e1]
  have hno1 : s1.song.norder = s.song.norder := by rw [e1]
  obtain ⟨s2, h2, l2, sd2, c2⟩ := music_poll_advance_runs s1 pats pats[ip] hp1 hq1 hn1
  obtain ⟨hp2, ho2, hn2x, spec⟩ := music_poll_advance_spec s1 s2 pats pats[ip] hp1 hq1 h2
  have hframe : PollFrame s s2 :=
    (hf0.frame_trans (ChanLoop.toFrame ⟨f, io, i, sd, e1⟩)).frame_trans l2
  have hd2 : 1 ≤ s2.song.step_delay ∧ s2.song.step_delay ≤ D := by rw [sd2]; exact d1
  have hzero : ∀ (ip2 : Nat) (q : MUSICPATTERN_DESC), pats[ip2]? = some q → 0 < q.nsteps :=
    fun ip2 q hq2 =>
    (hlen q (List.getElem?_mem hq2)).1
  refine ⟨s2, h2, hframe, ⟨hframe.frame_fit hwf, hframe.tempo D ht hd2, ?_⟩, ?_⟩
  · intro hne
    rcases spec with ⟨_, c, _⟩ | ⟨hlt, _, _, cio, cis⟩
    · exact absurd c hne
    · have hiolt : s2.song.iorder < s2.song.norder := by
        rw [cio, hn2x]
        omega
      refine ⟨hiolt, fun pats2 ip2 q hpq hoq hqq => ?_⟩
      rw [hp2, hp1] at hpq
      simp only [Option.some.injEq] at hpq
      subst hpq
      rw [ho2, hord1] at hoq
      rw [hn2x, hno1] at hiolt
      by_cases hge : (s1.song.istep + 1) % W32 ≥ pats[ip].nsteps
      · rw [if_pos hge] at cis
        rw [cis]
        exact hzero ip2 q hqq
      · rw [if_neg hge] at cis cio
        rw [cis]
        rw [cio] at hoq hiolt
        rcases hwhere with ⟨w1, w2⟩ | ⟨w1, c, hc, w2, wfirst, w3⟩
        · have w1x : s1.song.iorder = s.song.iorder := w1
          rw [w1x, hip] at hoq
          simp only [Option.some.injEq] at hoq
          subst hoq
          rw [hq] at hqq
          simp only [Option.some.injEq] at hqq
          subst hqq
          omega
        · rw [w3] at hoq hiolt
          rw [w1] at hge ⊢
          have h2le : 2 ≤ pats[ip].nsteps := by
            simp only [W32] at hge
            omega
          have := hjmp _ hmem h2le _ hsmem c (List.mem_range.mp hc) w2
            (fun k hk => wfirst k (List.mem_range.mpr (lt_trans hk (List.mem_range.mp hc))) hk)
            hiolt ip2 q hoq hqq
          simp only [W32]
          omega
  · rcases c2 with c | ⟨c1, c2, _, _⟩
    · exact Or.inl c
    · refine Or.inr ⟨c1.trans hmode1, ?_⟩
      rw [c2, hpos1]
      have := d1.1
      have := d1.2
      simp only [W32] at hT ⊢
      omega

/-- The `while` loop of `music_poll` on a well-formed song ends, whatever the
lengths of the patterns: with fuel for `T - song_pos` steps it returns a state
that is stopped or has `song_pos ≥ T`. -/
theorem music_poll_loop_fit (D T : Nat) (hT : T + D ≤ W32) (k : Nat) : ∀ s : Engine,
    PollFit D s → T - s.song.song_pos ≤ k →
    ∃ s1, (∀ fuel, k ≤ fuel → music_poll_loop fuel T s = Outcome.done s1) ∧
      PollFrame s s1 ∧ PollFit D s1 ∧
      (T ≤ s1.song.song_pos ∨ s1.song.playmode = PLAYMODE_STOPPED) := by
  induction k with
  | zero =>
    intro s hinv hk
    have hc : ¬ (s.song.song_pos < T ∧ s.song.playmode ≠ PLAYMODE_STOPPED) := by omega
    exact ⟨s, fun fuel _ => music_poll_loop_settled T s hc fuel, PollFrame.frame_refl s, hinv,
      Or.inl (by omega)⟩
  | succ k ih =>
    intro s hinv hk
    by_cases hc : s.song.song_pos < T ∧ s.song.playmode ≠ PLAYMODE_STOPPED
    · obtain ⟨s1, h1, f1, inv1, c1⟩ := music_poll_step_fit D T s hinv hc.2 hc.1 hT
      have hstep : ∀ n, music_poll_loop (n + 1) T s = music_poll_loop n T s1 := by
        intro n
        simp only [music_poll_loop, if_pos hc, h1]
      rcases c1 with hstop | ⟨_, hlt⟩
      · have hc1 : ¬ (s1.song.song_pos < T ∧ s1.song.playmode ≠ PLAYMODE_STOPPED) :=
          fun h => h.2 hstop
        refine ⟨s1, fun fuel hf => ?_, f1, inv1, Or.inr hstop⟩
        obtain ⟨n, rfl⟩ : ∃ n, fuel = n + 1 := ⟨fuel - 1, by omega⟩
        rw [hstep n]
        exact music_poll_loop_settled T s1 hc1 n
      · obtain ⟨s2, h2, f2, inv2, c2⟩ := ih s1 inv1 (by omega)
        refine ⟨s2, fun fuel hf => ?_, f1.frame_trans f2, inv2, c2⟩
        obtain ⟨n, rfl⟩ : ∃ n, fuel = n + 1 := ⟨fuel - 1, by omega⟩
        rw [hstep n]
        exact h2 n (by omega)
    · refine ⟨s, fun fuel _ => music_poll_loop_settled T s hc fuel, PollFrame.frame_refl s,
        hinv, ?_⟩
      by_cases hp : s.song.song_pos < T
      · exact Or.inr (by
          by_contra hne
          exact hc ⟨hp, hne⟩)
      · exact Or.inl (by omega)

theorem jump_step_effect (c : Nat) :
    (jump_step.note_effect c = SSS_EFFECT_JUMP → c = 0) ∧
    jump_step.note_effect c ≠ SSS_EFFECT_SET_TEMPO ∧ jump_step.note_pitch c = 0 ∧
    jump_step.note_eparam 0 = 1 := by
  refine ⟨fun h => ?_, ?_, rfl, ?_⟩
  · by_contra e
    have hz : jump_step.note_effect c = 0 := upd_other _ _ _ _ e
    rw [hz] at h
    exact absurd h (by decide)
  · by_cases e : c = 0
    · subst e
      have hz : jump_step.note_effect 0 = SSS_EFFECT_JUMP :=
        upd_same zero_step.note_effect 0 SSS_EFFECT_JUMP
      rw [hz]
      decide
    · have hz : jump_step.note_effect c = 0 := upd_other _ _ _ _ e
      rw [hz]
      decide
  · exact upd_same zero_step.note_eparam 0 1

/-- A state that holds the song of `mixed_song` at its first step, with a step
delay in 1..D, satisfies the invariant of the sequencer. -/
theorem mixed_song_fit (s : Engine) (D : Nat)
    (hp : s.song.patterns = some [{ nsteps := 1, steps := [zero_step] },
      { nsteps := 2, steps := [zero_step, jump_step] }])
    (ho : s.song.order = [0, 1]) (hn : s.song.norder = 2)
    (hio : s.song.iorder = 0) (his : s.song.istep = 0)
    (hd : 1 ≤ s.song.step_delay ∧ s.song.step_delay ≤ D) : PollFit D s := by
  have hsteps : ∀ pat ∈ [({ nsteps := 1, steps := [zero_step] } : MUSICPATTERN_DESC),
      { nsteps := 2, steps := [zero_step, jump_step] }], ∀ step ∈ pat.steps,
      step = zero_step ∨ step = jump_step := by
    intro pat hm step hs
    simp only [List.mem_cons, List.mem_singleton, List.not_mem_nil, or_false] at hm
    rcases hm with e | e
    · subst e
      simp only [List.mem_singleton] at hs
      exact Or.inl hs
    · subst e
      simp only [List.mem_cons, List.mem_singleton, List.not_mem_nil, or_false] at hs
      exact hs
  refine ⟨⟨_, hp, ?_, ?_, ?_, ?_, ?_⟩, ⟨hd, ?_⟩, fun _ => ⟨?_, ?_⟩⟩
  · rw [hn]; decide
  · intro i hi
    rw [hn] at hi
    rw [ho]
    rcases (by omega : i = 0 ∨ i = 1) with e | e
    · subst e; exact ⟨0, rfl, by decide⟩
    · subst e; exact ⟨1, rfl, by decide⟩
  · intro pat hm
    simp only [List.mem_cons, List.mem_singleton, List.not_mem_nil, or_false] at hm
    rcases hm with e | e
    · subst e; exact ⟨by decide, by decide, rfl⟩
    · subst e; exact ⟨by decide, by decide, rfl⟩
  · intro pat hm step hs c _ hne
    rcases hsteps pat hm step hs with e | e
    · subst e; exact absurd rfl hne
    · subst e; exact absurd (jump_step_effect c).2.2.1 hne
  · intro pat hm _ step hs c _ he _ _ ip q hoq hqq
    rcases hsteps pat hm step hs with e | e
    · subst e
      exact absurd he (by show (0 : Nat) ≠ SSS_EFFECT_JUMP; decide)
    · subst e
      have hc := (jump_step_effect c).1 he
      subst hc
      rw [(jump_step_effect 0).2.2.2, ho] at hoq
      simp only [List.getElem?_cons_succ, List.getElem?_cons_zero, Option.some.injEq] at hoq
      subst hoq
      simp only [List.getElem?_cons_succ, List.getElem?_cons_zero, Option.some.injEq] at hqq
      subst hqq
      exact le_refl 2
  · intro pats hq pat hm step hs c _ he _
    rw [hp] at hq
    simp only [Option.some.injEq] at hq
    subst hq
    rcases hsteps pat hm step hs with e | e
    · subst e
      exact absurd he (by show (0 : Nat) ≠ SSS_EFFECT_SET_TEMPO; decide)
    · subst e
      exact absurd he (jump_step_effect c).2.1
  · rw [hio, hn]; decide
  · intro pats ip q hq hoq hqq
    rw [hp] at hq
    simp only [Option.some.injEq] at hq
    subst hq
    rw [hio, ho] at hoq
    simp only [List.getElem?_cons_zero, Option.some.injEq] at hoq
    subst hoq
    simp only [List.getElem?_cons_zero, Option.some.injEq] at hqq
    subst hqq
    rw [his]
    decide

theorem mixed_song_reachable : Reachable mixed_song := by
  unfold mixed_song
  exact Reachable.command _ _
    (reach_define_step _ 1 1 jump_step
      (Reachable.define_order _ 1 1
        (Reachable.define_order _ 0 0
          (reach_define_pattern _ 1 2
            (reach_define_pattern _ 0 1
              (reach_create _ 2 2 0 engine_44s_reachable))))))

/-- C39 (poll terminates), amended.  For an engine state that holds a
well-formed song (`PollFit D`: the patterns are allocated, each pattern holds
its `nsteps ≥ 1` steps, whatever the lengths of the patterns, every order
entry names a pattern, every note names a sample slot of the song, a JUMP that
takes effect in a pattern of two or more steps and names an entry of the order
list leads to a pattern of two or more steps, and unless the song is stopped the position is
inside the order list and inside its pattern), songs whose JUMP effects form a
cycle included, whose step delay and every delay a SET_TEMPO of the song can
store lie in `1..D`, and a clock `T` with `T + D ≤ 2^32`: `music_poll(T)`
returns after at most `T - song_pos` fired steps (every fuel of at least that
many loop rounds gives the same final state), the final state is again such a
state and in it `song_pos ≥ T` or the mode is STOPPED or PAUSED; and while the
song is not stopped and `song_pos < T`, one fired step runs without fault and
either stops the song or raises `song_pos` by at least 1. -/
theorem poll_terminates (D T : Nat) (s : Engine) (hinv : PollFit D s)
    (hT : T + D ≤ W32) :
    (∃ s1, (∀ fuel, T - s.song.song_pos ≤ fuel → music_poll fuel s T = Outcome.done s1) ∧
      PollFit D s1 ∧
      (T ≤ s1.song.song_pos ∨ s1.song.playmode = PLAYMODE_STOPPED ∨
        s1.song.playmode = PLAYMODE_PAUSED)) ∧
    (s.song.playmode ≠ PLAYMODE_STOPPED → s.song.song_pos < T →
      ∃ s2, music_poll_step s = some s2 ∧ PollFit D s2 ∧
        (s2.song.playmode = PLAYMODE_STOPPED ∨ s.song.song_pos + 1 ≤ s2.song.song_pos)) := by
  constructor
  · by_cases hg : NoSong s
    · refine ⟨s, fun fuel _ => music_poll_nosong fuel s T hg, hinv, ?_⟩
      rcases hg with h | h | h
      · obtain ⟨⟨pats, hp, _⟩, _⟩ := hinv
        rw [hp] at h
        exact absurd h (by simp)
      · exact Or.inr (Or.inr h)
      · exact Or.inr (Or.inl h)
    · obtain ⟨s1, h1, _, i1, c1⟩ := music_poll_loop_fit D T hT (T - s.song.song_pos) s hinv
        (le_refl _)
      refine ⟨s1, fun fuel hf => ?_, i1, ?_⟩
      · have e : music_poll fuel s T = music_poll_loop fuel T s := if_neg hg
        rw [e]
        exact h1 fuel hf
      · rcases c1 with c | c
        · exact Or.inl c
        · exact Or.inr (Or.inl c)
  · intro hm hpos
    obtain ⟨s2, h2, _, i2, c2⟩ := music_poll_step_fit D T s hinv hm hpos hT
    refine ⟨s2, h2, i2, ?_⟩
    rcases c2 with c | ⟨_, c⟩
    · exact Or.inl c
    · exact Or.inr c

/-- C39 (witness): the song of `mixed_song`, with a pattern of one step and a
pattern of two steps whose JUMP leads back to the order entry it stands in,
right after PLAY at 44.1 kHz (step delay 5265), polled at clock 30000. -/
theorem poll_terminates_witness :
    Reachable mixed_song ∧ PollFit 5265 mixed_song ∧ 30000 + 5265 ≤ W32 ∧
    ((∃ s1, (∀ fuel, 30000 - mixed_song.song.song_pos ≤ fuel →
        music_poll fuel mixed_song 30000 = Outcome.done s1) ∧
      PollFit 5265 s1 ∧
      (30000 ≤ s1.song.song_pos ∨ s1.song.playmode = PLAYMODE_STOPPED ∨
        s1.song.playmode = PLAYMODE_PAUSED)) ∧
    (mixed_song.song.playmode ≠ PLAYMODE_STOPPED → mixed_song.song.song_pos < 30000 →
      ∃ s2, music_poll_step mixed_song = some s2 ∧ PollFit 5265 s2 ∧
        (s2.song.playmode = PLAYMODE_STOPPED ∨
          mixed_song.song.song_pos + 1 ≤ s2.song.song_pos))) :=
  ⟨mixed_song_reachable,
    mixed_song_fit mixed_song 5265 rfl rfl rfl rfl rfl (by decide), by decide,
    poll_terminates 5265 30000 mixed_song
      (mixed_song_fit mixed_song 5265 rfl rfl rfl rfl rfl (by decide)) (by decide)⟩

/-- C2 (amended).  Sequencer idempotence.  For every engine state and every
clock `T`: whenever `music_poll(T)` returns, with the final state `s1`, a
second `music_poll(T)` on `s1` returns `s1` itself, the whole state unchanged
(voices, position, tempo, mode and song counter), and when the state holds a
song (the patterns are allocated) either `song_pos ≥ T` in `s1`, or the mode
is STOPPED, or the mode is PAUSED.  And `music_poll(T)` does return, with one
final state for every fuel of at least `T - song_pos` loop rounds, on every
well-formed song (`PollFit D`, patterns of any lengths) whose step delay and
SET_TEMPO delays lie in `1..D`, when `T + D ≤ 2^32`. -/
theorem music_poll_idempotent (T : Nat) (s : Engine) :
    (∀ fuel s1, music_poll fuel s T = Outcome.done s1 →
      (∀ m, music_poll m s1 T = Outcome.done s1) ∧
      (s.song.patterns ≠ none →
        T ≤ s1.song.song_pos ∨ s1.song.playmode = PLAYMODE_STOPPED ∨
          s1.song.playmode = PLAYMODE_PAUSED)) ∧
    (∀ D, PollFit D s → T + D ≤ W32 →
      ∃ s1, ∀ fuel, T - s.song.song_pos ≤ fuel → music_poll fuel s T = Outcome.done s1) := by
  constructor
  · intro fuel s1 h
    refine ⟨fun m => music_poll_again fuel T s s1 h m, fun hsong => ?_⟩
    by_cases hg : NoSong s
    · rw [music_poll_nosong fuel s T hg] at h
      simp only [Outcome.done.injEq] at h
      subst h
      rcases hg with k | k | k
      · exact absurd (Option.isNone_iff_eq_none.mp k) hsong
      · exact Or.inr (Or.inr k)
      · exact Or.inr (Or.inl k)
    · have e : music_poll fuel s T = music_poll_loop fuel T s := if_neg hg
      rw [e] at h
      have hx := music_poll_loop_exit T fuel s s1 h
      by_cases hp : s1.song.song_pos < T
      · exact Or.inr (Or.inl (by
          by_contra hne
          exact hx ⟨hp, hne⟩))
      · exact Or.inl (by omega)
  · intro D hinv hT
    by_cases hg : NoSong s
    · exact ⟨s, fun fuel _ => music_poll_nosong fuel s T hg⟩
    · obtain ⟨s1, h1, _⟩ := music_poll_loop_fit D T hT (T - s.song.song_pos) s hinv (le_refl _)
      refine ⟨s1, fun fuel hf => ?_⟩
      have e : music_poll fuel s T = music_poll_loop fuel T s := if_neg hg
      rw [e]
      exact h1 fuel hf

set_option maxRecDepth 100000 in
/-- C2 (witness): scenario S1 at 44.1 kHz stereo, playing, polled at clock 1;
its step delay is 5265.  The poll returns for every fuel of at least one loop
round, and the second poll leaves the state it returned. -/
theorem music_poll_idempotent_witness :
    PollFit 5265 (scenario_S1 512) ∧ 1 + 5265 ≤ W32 ∧
    (scenario_S1 512).song.patterns ≠ none ∧
    ∃ s1, (∀ fuel, 1 ≤ fuel → music_poll fuel (scenario_S1 512) 1 = Outcome.done s1) ∧
      (∀ m, music_poll m s1 1 = Outcome.done s1) ∧
      (1 ≤ s1.song.song_pos ∨ s1.song.playmode = PLAYMODE_STOPPED ∨
        s1.song.playmode = PLAYMODE_PAUSED) := by
  have hfit : PollFit 5265 (scenario_S1 512) :=
    (note_song_inv (scenario_S1 512) 5265 rfl rfl rfl rfl rfl rfl (by decide)).poll_fit
  have hsong : (scenario_S1 512).song.patterns ≠ none := by
    have hp : (scenario_S1 512).song.patterns = some [{ nsteps := 1, steps := [note_step] }] :=
      rfl
    rw [hp]
    exact fun h => Option.noConfusion h
  obtain ⟨s1, hs1⟩ := (music_poll_idempotent 1 (scenario_S1 512)).2 5265 hfit (by decide)
  have hrun : ∀ fuel, 1 ≤ fuel → music_poll fuel (scenario_S1 512) 1 = Outcome.done s1 :=
    fun fuel hf => hs1 fuel (le_trans (Nat.sub_le 1 _) hf)
  obtain ⟨k1, k2⟩ := (music_poll_idempotent 1 (scenario_S1 512)).1 1 s1 (hrun 1 (le_refl 1))
  exact ⟨hfit, by decide, hsong, s1, hrun, k1, k2 hsong⟩

/-- A fired step of a stalled song: the JUMP of step 1 leads back to step 1,
and the step deadline stays 0. -/
theorem stalled_step (s : Engine) (h : Stalled s) :
    ∃ s1, music_poll_step s = some s1 ∧ Stalled s1 := by
  obtain ⟨hp, ho, hn, hio, his, hd, hpos, hm⟩ := h
  have hc : music_poll_channel repeat_step { s with song := { s.song with ipattern := 0 } } 0
      = some ({ s with song := { s.song with ipattern := 0, istep := 0, iorder := 0 } }, true) := by
    unfold music_poll_channel music_poll_note
    rw [if_neg (by decide)]
    simp only
    unfold music_poll_effect
    rw [if_neg (by decide), if_pos (by decide)]
    rfl
  have hr8 : List.range SSS_MUSIC_CHANNELS = 0 :: [1, 2, 3, 4, 5, 6, 7] := by decide
  have hstep : music_poll_step s =
      some { s with
        song := { s.song with
          ipattern := 0
          song_pos := (s.song.song_pos + s.song.step_delay) % W32
          istep := (0 + 1) % W32, iorder := 0 } } := by
    rw [music_poll_step_some s 0 _ { nsteps := 2, steps := [tempo_step 0 4294967295, repeat_step] }
      repeat_step (by rw [ho, hio]; rfl) hp rfl (by rw [his]; rfl), hr8, music_poll_channels, hc]
    simp only [Option.some_bind]
    exact music_poll_advance_next
      { s with song := { s.song with ipattern := 0, istep := 0, iorder := 0 } }
      [{ nsteps := 2, steps := [tempo_step 0 4294967295, repeat_step] }]
      { nsteps := 2, steps := [tempo_step 0 4294967295, repeat_step] } hp rfl
      (by show ¬ (0 + 1) % W32 ≥ 2; decide)
      (by show ¬ (0 : Nat) ≥ s.song.norder; rw [hn]; decide)
  refine ⟨_, hstep, hp, ho, hn, rfl, ?_, hd, ?_, hm⟩
  · show ((0 + 1) % W32 : Nat) = 1
    decide
  · show (s.song.song_pos + s.song.step_delay) % W32 = 0
    rw [hpos, hd]
    decide

/-- The `while` loop of `music_poll` on a stalled song at a clock above 0 uses
up every fuel. -/
theorem stalled_loop (T : Nat) (hT : 0 < T) : ∀ (fuel : Nat) (s : Engine), Stalled s →
    music_poll_loop fuel T s = Outcome.timeout := by
  intro fuel
  induction fuel with
  | zero =>
    intro s h
    have hc : s.song.song_pos < T ∧ s.song.playmode ≠ PLAYMODE_STOPPED :=
      ⟨by rw [h.2.2.2.2.2.2.1]; exact hT, by rw [h.2.2.2.2.2.2.2]; decide⟩
    simp only [music_poll_loop, if_pos hc]
  | succ n ih =>
    intro s h
    have hc : s.song.song_pos < T ∧ s.song.playmode ≠ PLAYMODE_STOPPED :=
      ⟨by rw [h.2.2.2.2.2.2.1]; exact hT, by rw [h.2.2.2.2.2.2.2]; decide⟩
    obtain ⟨s1, h1, hs1⟩ := stalled_step s h
    simp only [music_poll_loop, if_pos hc, h1]
    exact ih s1 hs1

set_option maxRecDepth 100000 in
/-- The first step of `stall_song` sets the step delay 0 and leaves the song
stalled. -/
theorem stall_song_first :
    ∃ s1, music_poll_step stall_song = some s1 ∧ Stalled s1 := by
  have hord : (music_poll_step stall_song).map (fun s1 => s1.song.order) = some [0] := by
    decide
  have hnum : (music_poll_step stall_song).map (fun s1 =>
      (s1.song.norder, s1.song.iorder, s1.song.istep, s1.song.step_delay, s1.song.song_pos)) =
      some (1, 0, 1, 0, 0) := by decide
  have hmode : (music_poll_step stall_song).map (fun s1 => s1.song.playmode) =
      some PLAYMODE_PLAYING := by decide
  have hpat : stall_song.song.patterns =
      some [{ nsteps := 2, steps := [tempo_step 0 4294967295, repeat_step] }] := rfl
  cases h1 : music_poll_step stall_song with
  | none =>
    rw [h1] at hord
    exact absurd hord (by simp)
  | some s1 =>
    rw [h1] at hord hnum hmode
    simp only [Option.map_some', Option.some.injEq, Prod.mk.injEq] at hord hnum hmode
    obtain ⟨_, k2⟩ := (music_poll_step_seq stall_song s1 h1).seq_song
    exact ⟨s1, rfl, k2.trans hpat, hord, hnum.1, hnum.2.1, hnum.2.2.1, hnum.2.2.2.1,
      hnum.2.2.2.2, hmode⟩

/-- The poll of `stall_song` at clock 1 never returns. -/
theorem stall_song_poll (fuel : Nat) : music_poll fuel stall_song 1 = Outcome.timeout := by
  obtain ⟨s1, h1, hs1⟩ := stall_song_first
  have hn : ¬ (stall_song.song.patterns.isNone ∨ stall_song.song.playmode = PLAYMODE_PAUSED ∨
      stall_song.song.playmode = PLAYMODE_STOPPED) := by decide
  have e : music_poll fuel stall_song 1 = music_poll_loop fuel 1 stall_song := if_neg hn
  rw [e]
  have hc : stall_song.song.song_pos < 1 ∧ stall_song.song.playmode ≠ PLAYMODE_STOPPED := by
    decide
  cases fuel with
  | zero => simp only [music_poll_loop, if_pos hc]
  | succ n =>
    simp only [music_poll_loop, if_pos hc, h1]
    exact stalled_loop 1 (by decide) n s1 hs1

theorem stall_song_reachable : Reachable stall_song := by
  unfold stall_song
  exact Reachable.command _ _
    (reach_define_step _ 0 1 repeat_step
      (reach_define_step _ 0 0 (tempo_step 0 4294967295)
        (Reachable.define_order _ 0 0
          (reach_define_pattern _ 0 2
            (reach_create _ 1 1 0 engine_44s_reachable)))))

/-- The looping song at a step delay `D ≥ 1` is a well-formed song of
two-step patterns whose tempo stays `D`. -/
theorem LoopInv.loop_poll (D : Nat) (s : Engine) (h : LoopInv D s) (hD : 1 ≤ D) :
    PollInv 2 D s := by
  obtain ⟨hp, ho, hn, hio, his, hd⟩ := h
  have hstep : ∀ pat ∈ [({ nsteps := 2, steps := [repeat_step, repeat_step] } :
      MUSICPATTERN_DESC)], ∀ step ∈ pat.steps, step = repeat_step := by
    intro pat hm step hs
    rw [List.mem_singleton] at hm
    subst hm
    simp only [List.mem_cons, List.mem_singleton, List.not_mem_nil, or_false, or_self] at hs
    exact hs
  refine ⟨⟨_, hp, by rw [hn]; decide, by decide, by decide, ?_, ?_, ?_⟩, ⟨?_, ?_⟩, ?_⟩
  · intro i hi
    have e : i = 0 := by omega
    exact ⟨0, by rw [ho, e]; rfl, by decide⟩
  · intro pat hm
    rw [List.mem_singleton] at hm
    subst hm
    exact ⟨rfl, rfl⟩
  · intro pat hm step hs c _ hne
    rw [hstep pat hm step hs] at hne
    exact absurd rfl hne
  · rw [hd]
    exact ⟨hD, le_refl _⟩
  · intro pats hpats pat hm step hs c _ he _
    rw [hp] at hpats
    simp only [Option.some.injEq] at hpats
    subst hpats
    rw [hstep pat hm step hs] at he
    exact absurd he (repeat_step_no_tempo c)
  · intro _
    exact ⟨by rw [hio, hn]; decide, his⟩

set_option maxRecDepth 100000 in
/-- C39 (counterexample).  A reachable song at 44.1 kHz stereo: one pattern of
two steps, order list [0], SET_TEMPO with parameter 0xFFFFFFFF on step 0 and
JUMP to order entry 0 on step 1, right after PLAY.  The song is well formed,
the step delay on entry is 5265 and 1 + 5265 < 2^32, yet `music_poll(1)` does
not return for any number of loop rounds: the first step stores the step delay
`44100 * (1 + (long)0xFFFFFFFF) / 65 = 0`, and from then on the JUMP leads
back to step 1 with `song_pos` standing at 0. -/
theorem poll_never_returns :
    Reachable stall_song ∧ stall_song.mixrate = 44100 ∧
    stall_song.song.playmode = PLAYMODE_PLAYING ∧
    stall_song.song.step_delay = 5265 ∧ stall_song.song.song_pos = 0 ∧
    1 + stall_song.song.step_delay < 4294967296 ∧
    SongWF stall_song.song 2 ∧ SongFit stall_song.song ∧
    (music_poll_step stall_song).map (fun s1 => (s1.song.step_delay, s1.song.song_pos))
      = some (0, 0) ∧
    ∀ fuel, music_poll fuel stall_song 1 = Outcome.timeout := by
  have hwf : SongWF stall_song.song 2 := ?_
  · exact ⟨stall_song_reachable, by decide, by decide, by decide, by decide, by decide, hwf,
      hwf.song_fit, by decide, stall_song_poll⟩
  refine ⟨[{ nsteps := 2, steps := [tempo_step 0 4294967295, repeat_step] }], rfl, by decide,
    by decide, by decide, ?_, ?_, ?_⟩
  · intro i hi
    have e : i = 0 := by
      have h1 : stall_song.song.norder = 1 := by decide
      omega
    exact ⟨0, by rw [e]; decide, by decide⟩
  · intro pat hm
    rw [List.mem_singleton] at hm
    subst hm
    exact ⟨rfl, rfl⟩
  · intro pat hm step hs c _ hne
    rw [List.mem_singleton] at hm
    subst hm
    simp only [List.mem_cons, List.mem_singleton, List.not_mem_nil, or_false] at hs
    rcases hs with e | e
    · rw [e] at hne
      exact absurd rfl hne
    · rw [e] at hne
      exact absurd rfl hne

theorem Rolling.stride {s0 s : Engine} {k : Nat} (h : Rolling s0 s k) :
    mix_stride s = mix_stride s0 := by
  obtain ⟨b, rfl, _⟩ := h
  rfl

/-- One frame of a buffer in which a single voice plays before the end of its
sample: the voice moves on by one virtual position. -/
theorem rolling_frame (fuel : Nat) (s0 s : Engine) (d : List Int) (V k u : Nat)
    (h0 : SoloVoice s0 d V) (hr : Rolling s0 s k) (hk : k < V)
    (hu : u + mix_stride s0 ≤ (s0.buffers s0.bfr_toggle).length) :
    ∃ s1, mix_frame fuel s u = Outcome.done s1 ∧ Rolling s0 s1 (k + 1) := by
  obtain ⟨hmode, hp, ht, hidle, hbusy, hd, hlen, hsz, hloop, hV, hvs, hprod, hvol, hpan⟩ := h0
  obtain ⟨b, rfl, hb⟩ := hr
  have hlt : k * (s0.samples (s0.chan 0).isample).size
      < V * (s0.samples (s0.chan 0).isample).size :=
    Nat.mul_lt_mul_of_pos_right hk (by omega)
  have hVle : V ≤ V * (s0.samples (s0.chan 0).isample).size :=
    Nat.le_mul_of_pos_right V (by omega)
  have hoff : mix_offset (s0.samples (s0.chan 0).isample)
      { (s0.chan 0) with voffset := (k : Int) } =
      k * (s0.samples (s0.chan 0).isample).size / V :=
    mix_offset_product _ _ V k hV hvs rfl (by omega)
  have hin : k * (s0.samples (s0.chan 0).isample).size / V
      < (s0.samples (s0.chan 0).isample).size :=
    Nat.div_lt_of_lt_mul hlt
  have hnot : ¬ mix_at_end (s0.samples (s0.chan 0).isample)
      (mix_offset (s0.samples (s0.chan 0).isample)
        { (s0.chan 0) with voffset := (k : Int) }) := by
    rw [hoff]
    unfold mix_at_end
    intro hx
    rcases hx with hx | ⟨hx, _⟩
    · exact absurd hin (Nat.not_lt.mpr hx)
    · exact absurd (lt_of_lt_of_le hin hloop) (Nat.not_lt.mpr hx)
  have hne : ({ (s0.chan 0) with voffset := (k : Int) } : CHANNEL_DESC).vsize ≠ 0 := by
    show (s0.chan 0).vsize ≠ 0
    rw [hvs]
    omega
  obtain ⟨bt, _, hmv⟩ := mix_voice_read s0.is_stereo (s0.samples (s0.chan 0).isample)
    { (s0.chan 0) with voffset := (k : Int) } d k hd hlen hne rfl (by omega) hvol hpan hnot
  have hch := solo_channels 0 _ _ (List.range SSS_MAX_CHANNELS)
    { s0 with chan := upd s0.chan 0 { (s0.chan 0) with voffset := (k : Int) },
              buffers := upd s0.buffers s0.bfr_toggle b }
    (0, 0) build_volume_tables (s0.samples (s0.chan 0).isample)
    (List.nodup_range _) (List.mem_range.mpr (by decide))
    (fun ch hm hne0 => by
      show (upd s0.chan 0 _ ch).isample = IDLE
      rw [upd_other _ _ _ _ hne0]
      exact hidle ch (List.mem_range.mp hm) hne0)
    (by
      show (upd s0.chan 0 _ 0).isample ≠ IDLE
      rw [upd_same]
      exact hbusy)
    ht
    rfl
    (by
      show mix_voice build_volume_tables s0.is_stereo _ (upd s0.chan 0 _ 0) (0, 0) = _
      rw [upd_same]
      exact hmv (0, 0))
  obtain ⟨b2, ho, hb2⟩ := mix_output_store _ _ _ u hch (by
    show u + mix_stride s0 ≤ (upd s0.buffers s0.bfr_toggle b s0.bfr_toggle).length
    rw [upd_same, hb]
    exact hu)
  have hpoll := quiet_poll fuel
    { s0 with chan := upd s0.chan 0 { (s0.chan 0) with voffset := (k : Int) },
              buffers := upd s0.buffers s0.bfr_toggle b } u (Or.inr (Or.inr hmode)) hp
  refine ⟨{ s0 with
      chan := upd s0.chan 0 { (s0.chan 0) with voffset := ((k + 1 : Nat) : Int) }
      buffers := upd s0.buffers s0.bfr_toggle b2 }, ?_, b2, rfl, ?_⟩
  · unfold mix_frame
    rw [hpoll]
    simp only
    rw [ho]
    show Outcome.done ({ s0 with
        chan := upd (upd s0.chan 0 { (s0.chan 0) with voffset := (k : Int) }) 0
          { (s0.chan 0) with voffset := (k : Int) + 1 }
        buffers := upd (upd s0.buffers s0.bfr_toggle b) s0.bfr_toggle b2 } : Engine) = _
    rw [upd_upd, upd_upd, Nat.cast_add, Nat.cast_one]
  · rw [hb2]
    show (upd s0.buffers s0.bfr_toggle b s0.bfr_toggle).length = _
    rw [upd_same, hb]

/-- The frames of a buffer in which a single voice plays before the end of its
sample: after `n` frames the voice has moved on by `n` virtual positions. -/
theorem rolling_frames (fuel : Nat) (s0 : Engine) (d : List Int) (V : Nat)
    (h0 : SoloVoice s0 d V) (n : Nat) : ∀ (u k : Nat) (s : Engine),
    Rolling s0 s k → k + n ≤ V →
    u + n * mix_stride s0 ≤ (s0.buffers s0.bfr_toggle).length →
    ∃ s1, mix_frames fuel n u s = Outcome.done s1 ∧ Rolling s0 s1 (k + n) := by
  induction n with
  | zero =>
    intro u k s hr _ _
    exact ⟨s, rfl, hr⟩
  | succ n ih =>
    intro u k s hr hk hu
    have hmul : (n + 1) * mix_stride s0 = n * mix_stride s0 + mix_stride s0 := by ring
    obtain ⟨s1, h1, r1⟩ := rolling_frame fuel s0 s d V k u h0 hr (by omega) (by omega)
    obtain ⟨s2, h2, r2⟩ := ih (u + mix_stride s0) (k + 1) s1 r1 (by omega) (by omega)
    refine ⟨s2, ?_, ?_⟩
    · simp only [mix_frames, h1]
      rw [r1.stride]
      exact h2
    · have e : k + (n + 1) = k + 1 + n := by omega
      rw [e]
      exact r2

/-- A timer poll that mixes a whole buffer while a single voice plays before
the end of its sample: the poll returns and leaves the voice moved on by the
number of frames of the buffer. -/
theorem rolling_poll (fuel : Nat) (s0 : Engine) (d : List Int) (V : Nat)
    (h0 : SoloVoice s0 d V) (hw : s0.whdr_done s0.bfr_toggle = true)
    (hvo : (s0.chan 0).voffset = 0) (hV : mix_frame_count s0 ≤ V)
    (hlen : (s0.buffers s0.bfr_toggle).length = s0.bfr_size)
    (heven : s0.bfr_size % mix_stride s0 = 0) :
    ∃ s1, sss_poll fuel s0 = Outcome.done s1 ∧
      s1.chan 0 = { (s0.chan 0) with voffset := (mix_frame_count s0 : Int) } ∧
      s1.samples = s0.samples ∧ s1.initialized = s0.initialized := by
  have hcount := mix_frame_count_mul s0 heven
  have hstart : Rolling { s0 with whdr_done := upd s0.whdr_done s0.bfr_toggle false }
      { s0 with whdr_done := upd s0.whdr_done s0.bfr_toggle false } 0 := by
    refine ⟨s0.buffers s0.bfr_toggle, ?_, rfl⟩
    show _ = ({ s0 with
      whdr_done := upd s0.whdr_done s0.bfr_toggle false
      chan := upd s0.chan 0 { (s0.chan 0) with voffset := ((0 : Nat) : Int) }
      buffers := upd s0.buffers s0.bfr_toggle (s0.buffers s0.bfr_toggle) } : Engine)
    rw [upd_self s0.buffers, Nat.cast_zero, ← hvo, upd_self s0.chan]
  obtain ⟨sf, hf, ⟨b, rfl, _⟩⟩ := rolling_frames fuel
    { s0 with whdr_done := upd s0.whdr_done s0.bfr_toggle false } d V h0
    (mix_frame_count s0) 0 0 _ hstart (by omega)
    (by
      show 0 + mix_frame_count s0 * mix_stride s0 ≤ (s0.buffers s0.bfr_toggle).length
      omega)
  have hadv : ∀ x : Engine, x.song.playmode = PLAYMODE_STOPPED → mix_advance x = x := by
    intro x hx
    unfold mix_advance
    rw [hx, if_neg (by decide), if_neg (by decide), if_neg (by decide)]
  have hmix : mix fuel { s0 with whdr_done := upd s0.whdr_done s0.bfr_toggle false } =
      Outcome.done
        { s0 with
          whdr_done := upd s0.whdr_done s0.bfr_toggle false
          chan := upd s0.chan 0
            { (s0.chan 0) with voffset := ((0 + mix_frame_count s0 : Nat) : Int) }
          buffers := upd s0.buffers s0.bfr_toggle b } := by
    unfold mix
    have hf2 : mix_frames fuel
        (mix_frame_count { s0 with whdr_done := upd s0.whdr_done s0.bfr_toggle false }) 0
        { s0 with whdr_done := upd s0.whdr_done s0.bfr_toggle false } = _ := hf
    rw [hf2]
    simp only
    rw [hadv]
    exact h0.1
  refine ⟨{ s0 with
      whdr_done := upd s0.whdr_done s0.bfr_toggle false
      chan := upd s0.chan 0
        { (s0.chan 0) with voffset := ((0 + mix_frame_count s0 : Nat) : Int) }
      buffers := upd s0.buffers s0.bfr_toggle b
      bfr_toggle := (s0.bfr_toggle + 1) &&& 1 }, ?_, ?_, rfl, rfl⟩
  · unfold sss_poll
    rw [hw]
    simp only [Bool.not_true, Bool.false_eq_true, if_false]
    rw [hmix]
  · show upd s0.chan 0 { (s0.chan 0) with voffset := ((0 + mix_frame_count s0 : Nat) : Int) } 0 = _
    rw [upd_same, Nat.zero_add]

theorem buffer_loop_state_reachable : Reachable buffer_loop_state :=
  Reachable.sample_play _ 0 0 8018182
    (Reachable.sample_add engine_44s _ [10, 20, 30, 40] 4 0 4 8000 0 0 engine_44s_reachable rfl)

set_option maxRecDepth 100000 in
/-- The voice of `buffer_loop_state`: the only busy channel, at the virtual
size 22050 on the live four-byte sample whose loop is the whole sample. -/
theorem buffer_loop_state_solo :
    SoloVoice buffer_loop_state [10, 20, 30, 40] 22050 ∧
    buffer_loop_state.initialized = true ∧
    buffer_loop_state.whdr_done buffer_loop_state.bfr_toggle = true ∧
    (buffer_loop_state.chan 0).isample = 0 ∧ (buffer_loop_state.chan 0).voffset = 0 ∧
    mix_frame_count buffer_loop_state = 22050 ∧
    (buffer_loop_state.samples 0).loop_start = 0 ∧
    (buffer_loop_state.samples 0).loop_size = 4 ∧
    (buffer_loop_state.samples 0).size = 4 ∧
    (buffer_loop_state.samples 0).data = some [10, 20, 30, 40] := by
  refine ⟨⟨?_, ?_, ?_, ?_, ?_, ?_, ?_, ?_, ?_, ?_, ?_, ?_, ?_, ?_⟩, ?_, ?_, ?_, ?_, ?_, ?_, ?_, ?_, ?_⟩
  all_goals first | rfl | decide

set_option maxRecDepth 100000 in
/-- C3 (witness).  The voice of `buffer_loop_state` plays a live four-byte
sample whose loop is the whole sample, at the virtual size 22050.  Before the
first frame it has not met the end-of-sample test and reads the byte at offset
0, inside the payload.  The timer poll that mixes the first buffer of 22050
frames leaves a reachable state in which the voice stands at the virtual
offset 22050, the data offset 4 = size: it meets the end-of-sample test, the
mixer sets its virtual offset to `loop_start` = 0, and the voice stays busy on
its sample. -/
theorem loop_closure_witness :
    ((buffer_loop_state.chan 0).isample ≠ IDLE ∧
      ¬ mix_at_end (buffer_loop_state.samples (buffer_loop_state.chan 0).isample)
        (mix_offset (buffer_loop_state.samples (buffer_loop_state.chan 0).isample)
          (buffer_loop_state.chan 0)) ∧
      mix_offset (buffer_loop_state.samples (buffer_loop_state.chan 0).isample)
          (buffer_loop_state.chan 0)
        < (buffer_loop_state.samples (buffer_loop_state.chan 0).isample).size ∧
      ∃ d b, (buffer_loop_state.samples (buffer_loop_state.chan 0).isample).data = some d ∧
        d.length = (buffer_loop_state.samples (buffer_loop_state.chan 0).isample).size ∧
        d[mix_offset (buffer_loop_state.samples (buffer_loop_state.chan 0).isample)
          (buffer_loop_state.chan 0)]? = some b) ∧
    ∃ s, sss_poll 0 buffer_loop_state = Outcome.done s ∧ Reachable s ∧
      s.initialized = true ∧
      (s.chan 0).isample = 0 ∧ (s.chan 0).voffset = 22050 ∧ (s.chan 0).vsize = 22050 ∧
      (s.samples 0).data = some [10, 20, 30, 40] ∧ (s.samples 0).size = 4 ∧
      (s.samples 0).loop_start = 0 ∧ (s.samples 0).loop_size = 4 ∧
      mix_offset (s.samples (s.chan 0).isample) (s.chan 0) = 4 ∧
      mix_at_end (s.samples (s.chan 0).isample) (mix_offset (s.samples (s.chan 0).isample)
        (s.chan 0)) ∧
      ∃ s1, mix_channel s (0, 0) 0 = some (s1, (0, 0)) ∧
        (s1.chan 0).voffset = 0 ∧ (s1.chan 0).isample = 0 ∧ (s1.chan 0).isample ≠ IDLE := by
  have hfacts := buffer_loop_state_solo
  have hfmt : FormatOK buffer_loop_state :=
    (buffer_loop_state_reachable.engine_ok.2 hfacts.2.1).2.1
  have hbusy : (buffer_loop_state.chan 0).isample ≠ IDLE := hfacts.1.2.2.2.2.1
  have hnot : ¬ mix_at_end (buffer_loop_state.samples (buffer_loop_state.chan 0).isample)
      (mix_offset (buffer_loop_state.samples (buffer_loop_state.chan 0).isample)
        (buffer_loop_state.chan 0)) := by decide
  have hread := (loop_closure buffer_loop_state buffer_loop_state_reachable hfacts.2.1 0
    (by decide) (0, 0)).2.2.1 hbusy hnot
  obtain ⟨s, hpoll, hchan, hsmp, hinit⟩ := rolling_poll 0 buffer_loop_state [10, 20, 30, 40]
    22050 hfacts.1 hfacts.2.2.1 hfacts.2.2.2.2.1 (le_of_eq hfacts.2.2.2.2.2.1)
    hfmt.buffer.1 hfmt.buffer.2
  have hreach : Reachable s := Reachable.poll _ s 0 buffer_loop_state_reachable hfacts.2.1 hpoll
  have hi : s.initialized = true := hinit.trans hfacts.2.1
  rw [hfacts.2.2.2.2.2.1] at hchan
  have hc0 : (s.chan 0).isample = 0 := by rw [hchan]; exact hfacts.2.2.2.1
  have hoff : mix_offset (s.samples (s.chan 0).isample) (s.chan 0) = 4 := by
    rw [hchan, hsmp]
    decide
  have hend : mix_at_end (s.samples (s.chan 0).isample)
      (mix_offset (s.samples (s.chan 0).isample) (s.chan 0)) := by
    rw [hoff, hchan, hsmp]
    decide
  have hb2 : (s.chan 0).isample ≠ IDLE := by rw [hc0]; decide
  have hls : (s.samples (s.chan 0).isample).loop_size > 2 := by
    rw [hc0, hsmp]
    decide
  obtain ⟨s1, h1, _, h3, h4, h5⟩ :=
    (loop_closure s hreach hi 0 (by decide) (0, 0)).2.2.2 hb2 hend hls
  have hstart : (s.samples (s.chan 0).isample).loop_start = 0 := by
    rw [hc0, hsmp]
    exact hfacts.2.2.2.2.2.2.1
  refine ⟨⟨hbusy, hnot, hread⟩, s, hpoll, hreach, hi, hc0, by rw [hchan]; rfl, ?_, ?_, ?_, ?_, ?_,
    hoff, hend, s1, h1, ?_, h4.trans hc0, h5⟩
  · rw [hchan]; decide
  · rw [hsmp]; exact hfacts.2.2.2.2.2.2.2.2.2
  · rw [hsmp]; exact hfacts.2.2.2.2.2.2.2.2.1
  · rw [hsmp]; exact hfacts.2.2.2.2.2.2.1
  · rw [hsmp]; exact hfacts.2.2.2.2.2.2.2.1
  · have h := h3 (by rw [hstart]; decide)
    rw [h, hstart]
    rfl

end SSS
